import Mathlib

/-!
Red-black tree of `Ex3/RBTree.c` and its validator `Ex3/RButilities.c`: a heap-level embedding.

The C nodes live in a heap of cells addressed by natural numbers; a node pointer is an
`Option Nat` (`none` is `NULL`).  Every dereference of `NULL` or of a freed cell, and every
call through a `NULL` function pointer, makes the embedded function return `none`.  Recursive
C functions and loops carry a fuel argument; the public operations supply a fuel that exceeds
every path of a well-formed tree.  `malloc` is taken to succeed and to return a cell that is
not in use.

The proofs relate the heap to an abstract shape (`Tree`) through the representation
predicate `Rep`, mirror the repair loops on zippers (`Ctx`), show that the heap code refines
the zipper functions, and establish the red-black invariants on the zipper side.

The second part of the embedding (namespace `VLV`) is the container `VLVector` of
`ExamCPP - VLVector/VLVector.hpp`: the members of the class as a structure, arrays as lists of
cells (a cell holds `none` while it has no determinate value), and every access outside an
array makes the embedded function return `none`.
-/

/-! ## Part 1: the embedding of the code, the shapes it works on, and sample handles -/

section
namespace RB

/-- Colour tag of a node (`Color` in `RBTree.h`). -/
inductive Color where
  | RED
  | BLACK
deriving DecidableEq, Repr

/-- A node pointer; `none` is `NULL`. -/
abbrev Ptr := Option Nat

/-- The `Node` struct: payload, colour, and the three links. -/
structure Node (α : Type) where
  data : α
  color : Color
  left : Ptr
  right : Ptr
  parent : Ptr
deriving DecidableEq, Repr

/-- The node heap: cell `a` is `some n` while allocated, `none` once freed. -/
abbrev Heap (α : Type) := List (Option (Node α))

/-- Return codes of the public operations. -/
def SUCCESS : Int := 1

/-- Return code for failure. -/
def FAILURE : Int := 0

/-- Read the cell at an address (`none` when the address is not allocated). -/
def Heap.read {α : Type} (h : Heap α) (a : Nat) : Option (Node α) :=
  match h.get? a with
  | some (some n) => some n
  | _ => none

/-- Overwrite the cell at an address. -/
def Heap.write {α : Type} (h : Heap α) (a : Nat) (n : Node α) : Heap α :=
  h.set a (some n)

/-- Release the cell at an address (`free`). -/
def Heap.release {α : Type} (h : Heap α) (a : Nat) : Heap α :=
  h.set a none

/-- Allocate a new cell (`malloc` followed by field initialisation); the new address is returned. -/
def Heap.alloc {α : Type} (h : Heap α) (n : Node α) : Heap α × Nat :=
  (h ++ [some n], h.length)

/-- Dereference a pointer: `NULL` and freed cells give `none`. -/
def deref {α : Type} (h : Heap α) (p : Ptr) : Option (Node α) :=
  match p with
  | none => none
  | some a => h.read a

/-- The assignment `p->color = c`. -/
def setColor {α : Type} (h : Heap α) (p : Ptr) (c : Color) : Option (Heap α) :=
  match p with
  | none => none
  | some a =>
    match h.read a with
    | none => none
    | some n => some (h.write a { n with color := c })

/-- The assignment `p->left = q`. -/
def setLeft {α : Type} (h : Heap α) (p : Ptr) (q : Ptr) : Option (Heap α) :=
  match p with
  | none => none
  | some a =>
    match h.read a with
    | none => none
    | some n => some (h.write a { n with left := q })

/-- The assignment `p->right = q`. -/
def setRight {α : Type} (h : Heap α) (p : Ptr) (q : Ptr) : Option (Heap α) :=
  match p with
  | none => none
  | some a =>
    match h.read a with
    | none => none
    | some n => some (h.write a { n with right := q })

/-- The assignment `p->parent = q`. -/
def setParent {α : Type} (h : Heap α) (p : Ptr) (q : Ptr) : Option (Heap α) :=
  match p with
  | none => none
  | some a =>
    match h.read a with
    | none => none
    | some n => some (h.write a { n with parent := q })

/-- The assignment `p->data = d`. -/
def setData {α : Type} (h : Heap α) (p : Ptr) (d : α) : Option (Heap α) :=
  match p with
  | none => none
  | some a =>
    match h.read a with
    | none => none
    | some n => some (h.write a { n with data := d })

/-- The `RBTree` struct together with the memory it points into.  `freed` records, oldest
first, every payload the disposer `freeFunc` has been invoked on; `freeFunc` is `true` when the
disposer pointer is not `NULL`. -/
structure State (α : Type) where
  heap : Heap α
  root : Ptr
  compFunc : Option (α → α → Int)
  freeFunc : Bool
  size : Nat
  freed : List α

/-- Fuel given by the public operations to the recursive helpers: more than the length of any
cycle-free path through the heap. -/
def fuelOf {α : Type} (h : Heap α) : Nat := h.length + 4

/-- `switchValues`: swap the payloads of two nodes. -/
def switchValues {α : Type} (h : Heap α) (a b : Ptr) : Option (Heap α) := do
  let na ← deref h a
  let temp := na.data
  let nb ← deref h b
  let h ← setData h a nb.data
  setData h b temp

/-- A place that holds a node pointer: the handle's `root` field or a child field of a node
(the `Node **` values of the C code). -/
inductive Loc where
  | root
  | left (a : Nat)
  | right (a : Nat)
deriving DecidableEq, Repr

/-- `findPtrToChild`: the field through which the parent of `n` points to `n`
(`none` is the `NULL` result). -/
def findPtrToChild {α : Type} (h : Heap α) (n : Ptr) : Option (Option Loc) :=
  match n with
  | none => some none
  | some a => do
    let nn ← h.read a
    match nn.parent with
    | none => pure none
    | some p =>
      let pn ← h.read p
      if pn.left = some a then pure (some (Loc.left p)) else pure (some (Loc.right p))

/-- `findSibling`. -/
def findSibling {α : Type} (h : Heap α) (n : Ptr) : Option Ptr :=
  match n with
  | none => some none
  | some a => do
    let nn ← h.read a
    match nn.parent with
    | none => pure none
    | some p =>
      let pn ← h.read p
      if pn.left ≠ some a then pure pn.left else pure pn.right

/-- `findChild`: the left child if present, else the right child. -/
def findChild {α : Type} (h : Heap α) (n : Ptr) : Option Ptr :=
  match n with
  | none => some none
  | some a => do
    let nn ← h.read a
    if nn.left ≠ none then pure nn.left else pure nn.right

/-- The loop of `successor`: follow `left` links from `s` while they are present. -/
def successorLoop {α : Type} : Nat → Heap α → Ptr → Option Ptr
  | 0, _, _ => none
  | fuel + 1, h, s => do
    let sn ← deref h s
    if sn.left ≠ none then successorLoop fuel h sn.left else pure s

/-- `successor`: leftmost node of the right subtree. -/
def successor {α : Type} (fuel : Nat) (h : Heap α) (x : Ptr) : Option Ptr :=
  match x with
  | none => some none
  | some a => do
    let xn ← h.read a
    successorLoop fuel h xn.right

/-- `search`: descend from `root` by the comparator. -/
def search {α : Type} : Nat → Heap α → Ptr → α → Option (α → α → Int) → Option Ptr
  | 0, _, _, _, _ => none
  | _ + 1, _, none, _, _ => some none
  | fuel + 1, h, some a, data, compFunc => do
    let n ← h.read a
    let f ← compFunc
    let diff := f data n.data
    if diff = 0 then pure (some a)
    else if diff > 0 then search fuel h n.right data compFunc
    else search fuel h n.left data compFunc

/-- `inOrder`: in-order traversal calling the visitor `func`, whose argument `args` is threaded
as a state of type `σ`; a zero result of the visitor stops the walk.  When the left child is
absent the C variable `success` is not read before the visitor's result is assigned to it. -/
def inOrder {α σ : Type} : Nat → Heap α → Ptr → (α → σ → Int × σ) → σ → Option (Int × σ)
  | 0, _, _, _, _ => none
  | _ + 1, _, none, _, args => some (SUCCESS, args)
  | fuel + 1, h, some a, func, args => do
    let n ← h.read a
    let r ← (if n.left ≠ none then inOrder fuel h n.left func args else pure (SUCCESS, args))
    if r.1 = 0 then pure (FAILURE, r.2)
    else
      let r := func n.data r.2
      if r.1 = 0 then pure (FAILURE, r.2)
      else if n.right ≠ none then inOrder fuel h n.right func r.2
      else pure r

/-- `freeNode`: invoke the disposer on the payload, then free the node.  A `NULL` node is a
no-op. -/
def freeNode {α : Type} (st : State α) (x : Ptr) : Option (State α) :=
  match x with
  | none => some st
  | some a => do
    let n ← st.heap.read a
    if st.freeFunc then
      pure { st with freed := st.freed ++ [n.data], heap := st.heap.release a }
    else none

/-- `freeAllNodes`: post-order release of a whole subtree. -/
def freeAllNodes {α : Type} : Nat → State α → Ptr → Option (State α)
  | 0, _, _ => none
  | _ + 1, st, none => some st
  | fuel + 1, st, some a => do
    let n ← st.heap.read a
    let st ← freeAllNodes fuel st n.left
    let n ← st.heap.read a
    let st ← freeAllNodes fuel st n.right
    let n ← st.heap.read a
    if st.freeFunc then
      pure { st with freed := st.freed ++ [n.data], heap := st.heap.release a }
    else none

/-- `leftRotation`. -/
def leftRotation {α : Type} (h : Heap α) (n : Ptr) : Option (Heap α) := do
  let nn ← deref h n
  let parent := nn.parent
  let rightChild := nn.right
  let rc ← deref h rightChild
  let grandson := rc.left
  let h ← setRight h n grandson
  let h ← (if grandson ≠ none then setParent h grandson n else pure h)
  let h ← setParent h n rightChild
  let h ← setLeft h rightChild n
  let h ← setParent h rightChild parent
  if parent ≠ none then do
    let pn ← deref h parent
    if pn.left = n then setLeft h parent rightChild else setRight h parent rightChild
  else pure h

/-- `rightRotation`. -/
def rightRotation {α : Type} (h : Heap α) (n : Ptr) : Option (Heap α) := do
  let nn ← deref h n
  let parent := nn.parent
  let leftChild := nn.left
  let lc ← deref h leftChild
  let grandson := lc.right
  let h ← setLeft h n grandson
  let h ← (if grandson ≠ none then setParent h grandson n else pure h)
  let h ← setParent h n leftChild
  let h ← setRight h leftChild n
  let h ← setParent h leftChild parent
  if parent ≠ none then do
    let pn ← deref h parent
    if pn.left = n then setLeft h parent leftChild else setRight h parent leftChild
  else pure h

/-- The test `q != NULL && q->right == n`, evaluated left to right. -/
def rightIs {α : Type} (h : Heap α) (q n : Ptr) : Option Bool :=
  if q ≠ none then do
    let qn ← deref h q
    pure (decide (qn.right = n))
  else pure false

/-- The test `q != NULL && q->left == n`, evaluated left to right. -/
def leftIs {α : Type} (h : Heap α) (q n : Ptr) : Option Bool :=
  if q ≠ none then do
    let qn ← deref h q
    pure (decide (qn.left = n))
  else pure false

/-- `chain`: rotate the parent of `n` when `n` is an inner grandchild; the result is 1 when a
rotation was made. -/
def chain {α : Type} (h : Heap α) (n : Ptr) : Option (Int × Heap α) := do
  let nn ← deref h n
  let p := nn.parent
  if p = none then pure (0, h)
  else do
    let pn ← deref h p
    if pn.parent = none then pure (0, h)
    else do
      let g := pn.parent
      let gn ← deref h g
      let c1 ← rightIs h gn.left n
      if c1 then do
        let h ← leftRotation h p
        pure (1, h)
      else do
        let c2 ← leftIs h gn.right n
        if c2 then do
          let h ← rightRotation h p
          pure (1, h)
        else pure (0, h)

/-- The test `u != NULL && u->color == RED`, evaluated left to right. -/
def isRed {α : Type} (h : Heap α) (u : Ptr) : Option Bool :=
  if u ≠ none then do
    let un ← deref h u
    pure (decide (un.color = Color.RED))
  else pure false

/-- The test `q == NULL || q->color == BLACK`, evaluated left to right. -/
def isNullOrBlack {α : Type} (h : Heap α) (q : Ptr) : Option Bool :=
  if q = none then pure true
  else do
    let qn ← deref h q
    pure (decide (qn.color = Color.BLACK))

/-- `repairRBTree`: restore the colour invariants after the insertion of `n`. -/
def repairRBTree {α : Type} : Nat → Heap α → Ptr → Option (Heap α)
  | 0, _, _ => none
  | fuel + 1, h, n => do
    let nn ← deref h n
    if nn.parent = none then setColor h n Color.BLACK
    else do
      let p := nn.parent
      let pn ← deref h p
      if pn.color = Color.BLACK then pure h
      else do
        let g := pn.parent
        let gn ← deref h g
        let u := if gn.right = p then gn.left else gn.right
        let uRed ← isRed h u
        if uRed then do
          let h ← setColor h p Color.BLACK
          let h ← setColor h u Color.BLACK
          let h ← setColor h g Color.RED
          repairRBTree fuel h g
        else do
          let (swap, h) ← chain h n
          let n' := if swap ≠ 0 then p else n
          let p' := if swap ≠ 0 then n else p
          let gn ← deref h g
          let c1 ← leftIs h gn.left n'
          let h ← (if c1 then rightRotation h g else pure h)
          let gn ← deref h g
          let c2 ← rightIs h gn.right n'
          let h ← (if c2 then leftRotation h g else pure h)
          let h ← setColor h p' Color.BLACK
          setColor h g Color.RED

/-- Read the pointer stored at a place. -/
def readLoc {α : Type} (st : State α) : Loc → Option Ptr
  | Loc.root => some st.root
  | Loc.left a => (st.heap.read a).map (fun n => n.left)
  | Loc.right a => (st.heap.read a).map (fun n => n.right)

/-- Store a pointer at a place. -/
def writeLoc {α : Type} (st : State α) (loc : Loc) (q : Ptr) : Option (State α) :=
  match loc with
  | Loc.root => some { st with root := q }
  | Loc.left a => (setLeft st.heap (some a) q).map (fun h => { st with heap := h })
  | Loc.right a => (setRight st.heap (some a) q).map (fun h => { st with heap := h })

/-- `insertValue`: descend from the place `rootLoc` (the C parameter `root`) by the
comparator and hang a new RED leaf at the absent child reached; the result pointer is `NULL`
when an equal payload is met.  `malloc` is taken to succeed. -/
def insertValue {α : Type} : Nat → State α → Loc → α → Option (α → α → Int) →
    Option (State α × Ptr)
  | 0, _, _, _, _ => none
  | fuel + 1, st, rootLoc, data, compFunc => do
    let r ← readLoc st rootLoc
    match r with
    | none =>
      let newNode := (st.heap.alloc ⟨data, Color.RED, none, none, none⟩).2
      let st ← writeLoc { st with heap := (st.heap.alloc ⟨data, Color.RED, none, none, none⟩).1 }
        rootLoc (some newNode)
      pure (st, some newNode)
    | some ra => do
      let rn ← st.heap.read ra
      let f ← compFunc
      let diff := f data rn.data
      if diff = 0 then pure (st, none)
      else do
        let res ← (if diff > 0 then insertValue fuel st (Loc.right ra) data compFunc
          else insertValue fuel st (Loc.left ra) data compFunc)
        let st := res.1
        let newNode := res.2
        if newNode ≠ none then do
          let nn ← deref st.heap newNode
          if nn.parent = none then do
            let r ← readLoc st rootLoc
            let h ← setParent st.heap newNode r
            pure ({ st with heap := h }, newNode)
          else pure (st, newNode)
        else pure (st, newNode)

/-- The loop `while (tree->root != NULL && tree->root->parent != NULL)` that re-derives the
root after a mutation. -/
def updateRoot {α : Type} : Nat → Heap α → Ptr → Option Ptr
  | 0, _, _ => none
  | _ + 1, _, none => some none
  | fuel + 1, h, some a => do
    let n ← h.read a
    if n.parent ≠ none then updateRoot fuel h n.parent else pure (some a)

/-- `insertToRBTree`; an absent payload is `none`.  The stored size is an unbounded natural
number: it never exceeds the number of allocated nodes. -/
def insertToRBTree {α : Type} (st : State α) (data : Option α) : Option (Int × State α) :=
  match data with
  | none => some (FAILURE, st)
  | some d => do
    let res ← insertValue (fuelOf st.heap) st Loc.root d st.compFunc
    let st' := res.1
    let newNode := res.2
    if newNode = none then pure (FAILURE, st')
    else do
      let st' := { st' with size := st'.size + 1 }
      let h ← repairRBTree (fuelOf st.heap) st'.heap newNode
      let root ← updateRoot (fuelOf st.heap) h st'.root
      pure (SUCCESS, { st' with heap := h, root := root })

/-- `fixTreeStructure`: repair the black-height deficiency below `p` on the side opposite to
the sibling `s`. -/
def fixTreeStructure {α : Type} : Nat → Heap α → Ptr → Ptr → Option (Heap α)
  | 0, _, _, _ => none
  | fuel + 1, h, p, s =>
    if p = none ∨ s = none then pure h
    else do
      let sn ← deref h s
      let c3b ← (if sn.color = Color.BLACK then do
          let b1 ← isNullOrBlack h sn.left
          if b1 then isNullOrBlack h sn.right else pure false
        else pure false)
      if c3b then do
        let pn ← deref h p
        if pn.color = Color.RED then do
          let h ← setColor h s Color.RED
          setColor h p Color.BLACK
        else do
          let h ← setColor h s Color.RED
          let pn ← deref h p
          let sib ← findSibling h p
          fixTreeStructure fuel h pn.parent sib
      else if sn.color = Color.RED then do
        let h ← setColor h s Color.BLACK
        let h ← setColor h p Color.RED
        let pn ← deref h p
        if pn.left ≠ s then do
          let h ← leftRotation h p
          let pn ← deref h p
          fixTreeStructure fuel h p pn.right
        else do
          let h ← rightRotation h p
          let pn ← deref h p
          fixTreeStructure fuel h p pn.left
      else do
        let pn ← deref h p
        let sc := if pn.left = s then sn.right else sn.left
        let sf := if pn.left = s then sn.left else sn.right
        let scRed ← isRed h sc
        let c3d ← (if scRed then isNullOrBlack h sf else pure false)
        if c3d then do
          let h ← setColor h sc Color.BLACK
          let h ← setColor h s Color.RED
          let pn ← deref h p
          let h ← (if pn.left ≠ s then rightRotation h s else leftRotation h s)
          fixTreeStructure fuel h p sc
        else do
          let sfn ← deref h sf
          if sfn.color = Color.RED then do
            let tempColor := sn.color
            let pn ← deref h p
            let h ← setColor h s pn.color
            let h ← setColor h p tempColor
            let pn ← deref h p
            let h ← (if pn.left ≠ s then leftRotation h p else rightRotation h p)
            setColor h sf Color.BLACK
          else pure h

/-- The assignment `*ptr = NULL` through a `Node **` that may itself be `NULL`. -/
def clearLoc {α : Type} (st : State α) (ptr : Option Loc) : Option (State α) :=
  match ptr with
  | none => none
  | some loc => writeLoc st loc none

/-- `deleteNode`: unlink and free the node `m` (which has at most one child `c`), then repair
the tree. -/
def deleteNode {α : Type} (fuel : Nat) (st : State α) (m p s c : Ptr) : Option (State α) := do
  let ptrToM ← findPtrToChild st.heap m
  let ptrToC ← findPtrToChild st.heap c
  let mn ← deref st.heap m
  if mn.color = Color.RED then do
    let st ← clearLoc st ptrToM
    freeNode st m
  else do
    let cRed ← isRed st.heap c
    if cRed then do
      let st ← clearLoc st ptrToC
      let h ← switchValues st.heap m c
      freeNode { st with heap := h } c
    else if st.root = m then freeNode { st with root := none } m
    else do
      let st ← clearLoc st ptrToM
      let st ← freeNode st m
      let h ← fixTreeStructure fuel st.heap p s
      pure { st with heap := h }

/-- `deleteFromRBTree`. -/
def deleteFromRBTree {α : Type} (st : State α) (data : α) : Option (Int × State α) := do
  let m ← search (fuelOf st.heap) st.heap st.root data st.compFunc
  if m = none then pure (FAILURE, st)
  else do
    let mn ← deref st.heap m
    let res ← (if mn.left ≠ none ∧ mn.right ≠ none then do
        let s ← successor (fuelOf st.heap) st.heap m
        let h ← switchValues st.heap m s
        pure (h, s)
      else pure (st.heap, m))
    let st' := { st with heap := res.1 }
    let m := res.2
    let mn ← deref st'.heap m
    let p := mn.parent
    let s ← findSibling st'.heap m
    let c ← findChild st'.heap m
    let st' ← deleteNode (fuelOf st.heap) st' m p s c
    let st' := { st' with size := st'.size - 1 }
    let root ← updateRoot (fuelOf st.heap) st'.heap st'.root
    pure (SUCCESS, { st' with root := root })

/-- `RBTreeContains`: non-zero iff `search` finds a node. -/
def RBTreeContains {α : Type} (st : State α) (data : α) : Option Int := do
  let r ← search (fuelOf st.heap) st.heap st.root data st.compFunc
  if r ≠ none then pure SUCCESS else pure FAILURE

/-- `forEachRBTree`: in-order walk from the root. -/
def forEachRBTree {α σ : Type} (st : State α) (func : α → σ → Int × σ) (args : σ) :
    Option (Int × σ) :=
  inOrder (fuelOf st.heap) st.heap st.root func args

/-- A visitor whose behaviour on its `i`-th call (counted from 0) is `f i`, instrumented with
the number of calls made so far and the list of payloads it was called on. -/
def countingVisitor {α σ : Type} (f : Nat → α → σ → Int × σ) :
    α → σ × Nat × List α → Int × (σ × Nat × List α) :=
  fun x s => ((f s.2.1 x s.1).1, ((f s.2.1 x s.1).2, s.2.1 + 1, s.2.2 ++ [x]))

/-- The shape a pointer structure unfolds to: every node carries its address, colour and
payload. -/
inductive Tree (α : Type) where
  | nil
  | node (l : Tree α) (a : Nat) (c : Color) (d : α) (r : Tree α)
deriving DecidableEq, Repr

end RB
end

section
variable {α : Type}
namespace RB
namespace Tree

/-- Pointer to the root node of a shape. -/
def ptr : Tree α → Ptr
  | nil => none
  | node _ a _ _ _ => some a

/-- Colour of the root; an absent tree counts as BLACK. -/
def rootColor : Tree α → Color
  | nil => Color.BLACK
  | node _ _ c _ _ => c

/-- Addresses of all nodes, in in-order. -/
def addrs : Tree α → List Nat
  | nil => []
  | node l a _ _ r => addrs l ++ a :: addrs r

/-- Payloads in in-order. -/
def inorder : Tree α → List α
  | nil => []
  | node l _ _ d r => inorder l ++ d :: inorder r

/-- Number of nodes. -/
def size : Tree α → Nat
  | nil => 0
  | node l _ _ _ r => size l + size r + 1

/-- Largest number of nodes on a path from the root to an absent child. -/
def height : Tree α → Nat
  | nil => 0
  | node l _ _ _ r => max (height l) (height r) + 1

/-- Number of BLACK nodes on the leftmost path. -/
def bh : Tree α → Nat
  | nil => 0
  | node l _ c _ _ => bh l + (if c = Color.BLACK then 1 else 0)

/-- Invariant 4: every path from a node to an absent child has the same number of BLACK
nodes. -/
def Balanced : Tree α → Prop
  | nil => True
  | node l _ _ _ r => bh l = bh r ∧ Balanced l ∧ Balanced r

/-- Invariant 3: no RED node has a RED child. -/
def NoRedRed : Tree α → Prop
  | nil => True
  | node l _ c _ r =>
    (c = Color.RED → l.rootColor = Color.BLACK ∧ r.rootColor = Color.BLACK) ∧
      NoRedRed l ∧ NoRedRed r

/-- Invariant 5: the in-order payload sequence is strictly increasing under the comparator. -/
def Sorted (cmp : α → α → Int) (t : Tree α) : Prop :=
  t.inorder.Pairwise (fun x y => cmp x y < 0)

/-- The node found by descending with the comparator, as `search` does. -/
def find (cmp : α → α → Int) (k : α) : Tree α → Ptr
  | nil => none
  | node l a _ d r =>
    if cmp k d = 0 then some a else if cmp k d > 0 then find cmp k r else find cmp k l

end Tree
end RB
end

section
namespace RB

/-- The heap holds the shape `t` below a node whose parent link is `par`: every node's cell
has the payload, colour and child links of the shape and its parent link is its structural
parent (invariant 6). -/
def Rep {α : Type} (h : Heap α) : Tree α → Ptr → Prop
  | Tree.nil, _ => True
  | Tree.node l a c d r, par =>
    h.read a = some ⟨d, c, l.ptr, r.ptr, par⟩ ∧ Rep h l (some a) ∧ Rep h r (some a)

/-- The heap holds the shape `t` as a whole tree: the root has no parent and no node occurs
twice. -/
def RepT {α : Type} (h : Heap α) (t : Tree α) : Prop :=
  Rep h t none ∧ t.addrs.Nodup

/-- The handle `st` points to the tree of shape `t`. -/
def Represents {α : Type} (st : State α) (t : Tree α) : Prop :=
  RepT st.heap t ∧ st.root = t.ptr

/-- A comparator that is a strict total order up to the equivalence "compares equal". -/
structure TotalCmp {α : Type} (cmp : α → α → Int) : Prop where
  swap : ∀ a b, 0 < cmp a b ↔ cmp b a < 0
  trans : ∀ a b c, cmp a b < 0 → cmp b c < 0 → cmp a c < 0
  congr : ∀ a b c, cmp a b = 0 → cmp a c < 0 → cmp b c < 0

/-- Invariants 2 to 5 on a shape. -/
structure RBInv {α : Type} (cmp : α → α → Int) (t : Tree α) : Prop where
  rootBlack : t.rootColor = Color.BLACK
  noRedRed : t.NoRedRed
  balanced : t.Balanced
  sorted : t.Sorted cmp

/-- The handle satisfies invariants 1 to 7: it points to a well-formed tree in the heap
(colours RED or BLACK by typing, parent links equal to the structural parents, the root, which
is no node's child, having none) whose shape satisfies invariants 2 to 5 and whose node count
is the stored size. -/
def Valid {α : Type} (cmp : α → α → Int) (st : State α) : Prop :=
  ∃ t : Tree α, Represents st t ∧ RBInv cmp t ∧ st.size = t.size

end RB
end

section
variable {α σ : Type}
namespace RB

/-- The walk of a visitor over a list of payloads: once the status is zero nothing more is
visited. -/
def walk (func : α → σ → Int × σ) : List α → Int × σ → Int × σ
  | [], r => r
  | x :: xs, r => if r.1 = 0 then r else walk func xs (func x r.2)

end RB
end

section
namespace RB

/-- A path from the root to a hole: each frame is the node above the hole together with
the sibling subtree. -/
inductive Ctx (α : Type) where
  | top
  | left (up : Ctx α) (a : Nat) (c : Color) (d : α) (r : Tree α)
  | right (l : Tree α) (a : Nat) (c : Color) (d : α) (up : Ctx α)

end RB
end

section
variable {α : Type}
namespace RB
namespace Ctx

/-- Fill the hole. -/
def plug : Ctx α → Tree α → Tree α
  | top, t => t
  | left up a c d r, t => plug up (Tree.node t a c d r)
  | right l a c d up, t => plug up (Tree.node l a c d t)

/-- Address of the node right above the hole. -/
def addr : Ctx α → Ptr
  | top => none
  | left _ a _ _ _ => some a
  | right _ a _ _ _ => some a

/-- Colour of the node right above the hole (BLACK when the hole is the root). -/
def color : Ctx α → Color
  | top => Color.BLACK
  | left _ _ c _ _ => c
  | right _ _ c _ _ => c

/-- Addresses of all nodes outside the hole. -/
def addrs : Ctx α → List Nat
  | top => []
  | left up a _ _ r => a :: (r.addrs ++ addrs up)
  | right l a _ _ up => a :: (l.addrs ++ addrs up)

/-- Payloads that precede the hole in in-order. -/
def before : Ctx α → List α
  | top => []
  | left up _ _ _ _ => before up
  | right l _ _ d up => before up ++ (l.inorder ++ [d])

/-- Payloads that follow the hole in in-order. -/
def after : Ctx α → List α
  | top => []
  | left up _ _ d r => d :: r.inorder ++ after up
  | right _ _ _ _ up => after up

/-- Number of frames. -/
def depth : Ctx α → Nat
  | top => 0
  | left up _ _ _ _ => depth up + 1
  | right _ _ _ _ up => depth up + 1

/-- Number of nodes outside the hole. -/
def size : Ctx α → Nat
  | top => 0
  | left up _ _ _ r => size up + r.size + 1
  | right l _ _ _ up => size up + l.size + 1

end Ctx
end RB
end

section
namespace RB

/-- The frames of a context are laid out in the heap, the hole holding the pointer `child`. -/
def RepCtx {α : Type} (h : Heap α) : Ctx α → Ptr → Prop
  | Ctx.top, _ => True
  | Ctx.left up a c d r, child =>
    h.read a = some ⟨d, c, child, r.ptr, up.addr⟩ ∧ Rep h r (some a) ∧ RepCtx h up (some a)
  | Ctx.right l a c d up, child =>
    h.read a = some ⟨d, c, l.ptr, child, up.addr⟩ ∧ Rep h l (some a) ∧ RepCtx h up (some a)

/-- The heap holds the tree `ctx.plug t`, seen from the subtree `t`. -/
def RepZ {α : Type} (h : Heap α) (ctx : Ctx α) (t : Tree α) : Prop :=
  RepCtx h ctx t.ptr ∧ Rep h t ctx.addr ∧ (ctx.addrs ++ t.addrs).Nodup

end RB
end

section
variable {α : Type}
namespace RB

/-- Recolour the root of a shape. -/
def Tree.setColor (k : Color) : Tree α → Tree α
  | Tree.nil => Tree.nil
  | Tree.node l a _ d r => Tree.node l a k d r

/-- The effect of `repairRBTree` on shapes: `t` is the subtree rooted at the node `n` the
repair is called on and `ctx` is the path above it.  `none` stands for a dereference of
`NULL` or for exhausted fuel. -/
def repairT : Nat → Ctx α → Tree α → Option (Tree α)
  | 0, _, _ => none
  | _ + 1, _, Tree.nil => none
  | _ + 1, Ctx.top, Tree.node l n _ d r => some (Tree.node l n Color.BLACK d r)
  | _ + 1, Ctx.left up p Color.BLACK pd pr, Tree.node l n c d r =>
    some ((Ctx.left up p Color.BLACK pd pr).plug (Tree.node l n c d r))
  | _ + 1, Ctx.right pl p Color.BLACK pd up, Tree.node l n c d r =>
    some ((Ctx.right pl p Color.BLACK pd up).plug (Tree.node l n c d r))
  | _ + 1, Ctx.left Ctx.top _ Color.RED _ _, Tree.node _ _ _ _ _ => none
  | _ + 1, Ctx.right _ _ Color.RED _ Ctx.top, Tree.node _ _ _ _ _ => none
  | fuel + 1, Ctx.left (Ctx.left up g _ gd u) p Color.RED pd pr, Tree.node l n c d r =>
    if u.rootColor = Color.RED then
      repairT fuel up (Tree.node (Tree.node (Tree.node l n c d r) p Color.BLACK pd pr) g
        Color.RED gd (u.setColor Color.BLACK))
    else
      some (up.plug (Tree.node (Tree.node l n c d r) p Color.BLACK pd
        (Tree.node pr g Color.RED gd u)))
  | fuel + 1, Ctx.right pl p Color.RED pd (Ctx.left up g _ gd u), Tree.node l n c d r =>
    if u.rootColor = Color.RED then
      repairT fuel up (Tree.node (Tree.node pl p Color.BLACK pd (Tree.node l n c d r)) g
        Color.RED gd (u.setColor Color.BLACK))
    else
      some (up.plug (Tree.node (Tree.node pl p Color.RED pd l) n Color.BLACK d
        (Tree.node r g Color.RED gd u)))
  | fuel + 1, Ctx.left (Ctx.right u g _ gd up) p Color.RED pd pr, Tree.node l n c d r =>
    if u.rootColor = Color.RED then
      repairT fuel up (Tree.node (u.setColor Color.BLACK) g Color.RED gd
        (Tree.node (Tree.node l n c d r) p Color.BLACK pd pr))
    else
      some (up.plug (Tree.node (Tree.node u g Color.RED gd l) n Color.BLACK d
        (Tree.node r p Color.RED pd pr)))
  | fuel + 1, Ctx.right pl p Color.RED pd (Ctx.right u g _ gd up), Tree.node l n c d r =>
    if u.rootColor = Color.RED then
      repairT fuel up (Tree.node (u.setColor Color.BLACK) g Color.RED gd
        (Tree.node pl p Color.BLACK pd (Tree.node l n c d r)))
    else
      some (up.plug (Tree.node (Tree.node u g Color.RED gd pl) p Color.BLACK pd
        (Tree.node l n c d r)))

/-- The place that holds the pointer to the hole of a context. -/
def Ctx.loc : Ctx α → Loc
  | Ctx.top => Loc.root
  | Ctx.left _ a _ _ _ => Loc.left a
  | Ctx.right _ a _ _ _ => Loc.right a

/-- The descent of `insertValue` on shapes: the context of the absent child reached, or
`none` when a payload comparing equal is met. -/
def Tree.insCtx (cmp : α → α → Int) (x : α) : Tree α → Ctx α → Option (Ctx α)
  | Tree.nil, ctx => some ctx
  | Tree.node l a c d r, ctx =>
    if cmp x d = 0 then none
    else if cmp x d > 0 then r.insCtx cmp x (Ctx.right l a c d ctx)
    else l.insCtx cmp x (Ctx.left ctx a c d r)

/-- A new RED leaf. -/
def Tree.leaf (a : Nat) (x : α) : Tree α := Tree.node Tree.nil a Color.RED x Tree.nil

/-- Black-height bookkeeping along a path: a subtree of black height `k` fits the hole so that
the whole tree is balanced. -/
def Ctx.Bal : Ctx α → Nat → Prop
  | Ctx.top, _ => True
  | Ctx.left up _ c _ r, k =>
    r.bh = k ∧ r.Balanced ∧ Ctx.Bal up (k + if c = Color.BLACK then 1 else 0)
  | Ctx.right l _ c _ up, k =>
    l.bh = k ∧ l.Balanced ∧ Ctx.Bal up (k + if c = Color.BLACK then 1 else 0)

/-- No RED node outside the hole has a RED child outside the hole. -/
def Ctx.NRR : Ctx α → Prop
  | Ctx.top => True
  | Ctx.left up _ c _ r =>
    r.NoRedRed ∧ (c = Color.RED → r.rootColor = Color.BLACK ∧ up.color = Color.BLACK) ∧
      Ctx.NRR up
  | Ctx.right l _ c _ up =>
    l.NoRedRed ∧ (c = Color.RED → l.rootColor = Color.BLACK ∧ up.color = Color.BLACK) ∧
      Ctx.NRR up

/-- Colour of the root of the plugged tree, given the colour of the root of the hole. -/
def Ctx.rootColor : Ctx α → Color → Color
  | Ctx.top, k => k
  | Ctx.left up _ c _ _, _ => Ctx.rootColor up c
  | Ctx.right _ _ c _ up, _ => Ctx.rootColor up c

/-- What `repairRBTree` needs and keeps: the subtree in the hole is RED-rooted and valid, and
the path above it is valid up to the colour of the node right above the hole. -/
structure InsHole (ctx : Ctx α) (t : Tree α) : Prop where
  tred : t.rootColor = Color.RED
  tnrr : t.NoRedRed
  tbal : t.Balanced
  cbal : ctx.Bal t.bh
  cnrr : ctx.NRR
  croot : ctx.rootColor Color.BLACK = Color.BLACK

/-- Pointer to the sibling of the hole. -/
def Ctx.sibPtr : Ctx α → Ptr
  | Ctx.top => none
  | Ctx.left _ _ _ _ s => s.ptr
  | Ctx.right s _ _ _ _ => s.ptr

/-- The effect of `fixTreeStructure (p, s)` on shapes: `ctx` is the path to the subtree `t`
whose black height is one too small, `p` is the node right above it and `s` its sibling.
`none` stands for a dereference of `NULL` or for exhausted fuel. -/
def fixT : Nat → Ctx α → Tree α → Option (Tree α)
  | 0, _, _ => none
  | _ + 1, Ctx.top, t => some t
  | _ + 1, Ctx.left up p pc pd Tree.nil, t => some ((Ctx.left up p pc pd Tree.nil).plug t)
  | _ + 1, Ctx.right Tree.nil p pc pd up, t => some ((Ctx.right Tree.nil p pc pd up).plug t)
  | fuel + 1, Ctx.left up p pc pd (Tree.node sl s sc sd sr), t =>
    if sc = Color.BLACK ∧ sl.rootColor = Color.BLACK ∧ sr.rootColor = Color.BLACK then
      if pc = Color.RED then
        some (up.plug (Tree.node t p Color.BLACK pd (Tree.node sl s Color.RED sd sr)))
      else fixT fuel up (Tree.node t p pc pd (Tree.node sl s Color.RED sd sr))
    else if sc = Color.RED then
      fixT fuel (Ctx.left (Ctx.left up s Color.BLACK sd sr) p Color.RED pd sl) t
    else if sl.rootColor = Color.RED ∧ sr.rootColor = Color.BLACK then
      match sl with
      | Tree.nil => none
      | Tree.node sll n _ nd slr =>
        fixT fuel (Ctx.left up p pc pd
          (Tree.node sll n Color.BLACK nd (Tree.node slr s Color.RED sd sr))) t
    else
      match sr with
      | Tree.nil => none
      | Tree.node srl f fc fd srr =>
        if fc = Color.RED then
          some (up.plug (Tree.node (Tree.node t p sc pd sl) s pc sd
            (Tree.node srl f Color.BLACK fd srr)))
        else some ((Ctx.left up p pc pd (Tree.node sl s sc sd (Tree.node srl f fc fd srr))).plug t)
  | fuel + 1, Ctx.right (Tree.node sl s sc sd sr) p pc pd up, t =>
    if sc = Color.BLACK ∧ sl.rootColor = Color.BLACK ∧ sr.rootColor = Color.BLACK then
      if pc = Color.RED then
        some (up.plug (Tree.node (Tree.node sl s Color.RED sd sr) p Color.BLACK pd t))
      else fixT fuel up (Tree.node (Tree.node sl s Color.RED sd sr) p pc pd t)
    else if sc = Color.RED then
      fixT fuel (Ctx.right sr p Color.RED pd (Ctx.right sl s Color.BLACK sd up)) t
    else if sr.rootColor = Color.RED ∧ sl.rootColor = Color.BLACK then
      match sr with
      | Tree.nil => none
      | Tree.node srl n _ nd srr =>
        fixT fuel (Ctx.right
          (Tree.node (Tree.node sl s Color.RED sd srl) n Color.BLACK nd srr) p pc pd up) t
    else
      match sl with
      | Tree.nil => none
      | Tree.node sll f fc fd slr =>
        if fc = Color.RED then
          some (up.plug (Tree.node (Tree.node sll f Color.BLACK fd slr) s pc sd
            (Tree.node sr p sc pd t)))
        else some ((Ctx.right (Tree.node (Tree.node sll f fc fd slr) s sc sd sr) p pc pd up).plug t)

/-- The `Node **` through which the parent of the hole points to it; `none` above the root. -/
def Ctx.ptrTo : Ctx α → Option Loc
  | Ctx.top => none
  | Ctx.left _ a _ _ _ => some (Loc.left a)
  | Ctx.right _ a _ _ _ => some (Loc.right a)

/-- The effect of `deleteNode` on shapes, with the address of the node it frees. -/
def delNodeT (fuel : Nat) (ctx : Ctx α) : Tree α → Option (Tree α × Nat)
  | Tree.nil => none
  | Tree.node l m c _ r =>
    if c = Color.RED then
      if ctx.addr = none then none else some (ctx.plug Tree.nil, m)
    else
      match l, r with
      | Tree.node _ la lc ld _, _ =>
        if lc = Color.RED then some (ctx.plug (Tree.node Tree.nil m c ld r), la)
        else if ctx.addr = none then some (Tree.nil, m)
        else (fixT fuel ctx Tree.nil).map (fun t => (t, m))
      | Tree.nil, Tree.node _ ra rc rd _ =>
        if rc = Color.RED then some (ctx.plug (Tree.node Tree.nil m c rd Tree.nil), ra)
        else if ctx.addr = none then some (Tree.nil, m)
        else (fixT fuel ctx Tree.nil).map (fun t => (t, m))
      | Tree.nil, Tree.nil =>
        if ctx.addr = none then some (Tree.nil, m)
        else (fixT fuel ctx Tree.nil).map (fun t => (t, m))

/-- What `fixTreeStructure` needs: the subtree in the hole is BLACK-rooted and valid, its
black height is one less than the path above it expects, and the path is valid. -/
structure DelHole (ctx : Ctx α) (t : Tree α) : Prop where
  tblack : t.rootColor = Color.BLACK
  tnrr : t.NoRedRed
  tbal : t.Balanced
  cbal : ctx.Bal (t.bh + 1)
  cnrr : ctx.NRR
  croot : ctx.rootColor Color.BLACK = Color.BLACK

/-- The shape `T'` is a valid red-black shape with the payloads and addresses of `T0`. -/
def Good (T' T0 : Tree α) : Prop :=
  T'.rootColor = Color.BLACK ∧ T'.NoRedRed ∧ T'.Balanced ∧ T'.inorder = T0.inorder ∧
    ∀ x, T'.addrs.count x = T0.addrs.count x

/-- The descent of `successor`'s loop from the node `node l a c d r`: the path to its
leftmost node and that node. -/
def minCtx : Tree α → Nat → Color → α → Tree α → Ctx α → Ctx α × Tree α
  | Tree.nil, a, c, d, r, ctx => (ctx, Tree.node Tree.nil a c d r)
  | Tree.node ll la lc ld lr, a, c, d, r, ctx => minCtx ll la lc ld lr (Ctx.left ctx a c d r)

/-- The shape `node l a c d r` with its leftmost node replaced by `X`. -/
def replaceMin (X : Tree α) : Tree α → Nat → Color → α → Tree α → Tree α
  | Tree.nil, _, _, _, _ => X
  | Tree.node ll la lc ld lr, a, c, d, r => Tree.node (replaceMin X ll la lc ld lr) a c d r

/-- The payloads of `node l a c d r` that follow the subtree of its leftmost node. -/
def minTail : Tree α → α → Tree α → List α
  | Tree.nil, _, _ => []
  | Tree.node ll _ _ ld lr, d, r => minTail ll ld lr ++ d :: r.inorder

end RB
end

section
namespace RB

/-- `newRBTree`: an empty handle.  The allocation of the handle is taken to succeed. -/
def newRBTree {α : Type} (compFunc : Option (α → α → Int)) (freeFunc : Bool) : State α :=
  { heap := [], root := none, compFunc := compFunc, freeFunc := freeFunc, size := 0,
    freed := [] }

/-- `getPathBlacksNum`: number of BLACK nodes on the leftmost path, plus `blacks + 1`. -/
def getPathBlacksNum {α : Type} : Nat → Heap α → Ptr → Int → Option Int
  | 0, _, _, _ => none
  | _ + 1, _, none, blacks => some (blacks + 1)
  | fuel + 1, h, some a, blacks => do
    let n ← h.read a
    if n.color = Color.BLACK then getPathBlacksNum fuel h n.left (blacks + 1)
    else getPathBlacksNum fuel h n.left blacks

/-- `validatePaths`: every path below `node` reaches `shouldBe`. -/
def validatePaths {α : Type} : Nat → Heap α → Ptr → Int → Int → Option Int
  | 0, _, _, _, _ => none
  | _ + 1, _, none, blacks, shouldBe => some (if blacks + 1 = shouldBe then 1 else 0)
  | fuel + 1, h, some a, blacks, shouldBe => do
    let n ← h.read a
    let blacks := blacks + (if n.color = Color.BLACK then 1 else 0)
    let l ← validatePaths fuel h n.left blacks shouldBe
    if l = 0 then pure 0
    else do
      let r ← validatePaths fuel h n.right blacks shouldBe
      pure (if r ≠ 0 then 1 else 0)

/-- `validateColors`: no RED node below `node` has a RED parent. -/
def validateColors {α : Type} : Nat → Heap α → Ptr → Option Int
  | 0, _, _ => none
  | _ + 1, _, none => some 1
  | fuel + 1, h, some a => do
    let n ← h.read a
    let bad ← (if n.color = Color.RED ∧ n.parent ≠ none then do
        let p ← deref h n.parent
        pure (decide (p.color = Color.RED))
      else pure false)
    if bad then pure 0
    else do
      let l ← validateColors fuel h n.left
      if l = 0 then pure 0
      else do
        let r ← validateColors fuel h n.right
        pure (if r ≠ 0 then 1 else 0)

/-- `validateBST`: every node is ordered with respect to its two children. -/
def validateBST {α : Type} : Nat → Heap α → Option (α → α → Int) → Ptr → Option Int
  | 0, _, _, _ => none
  | _ + 1, _, _, none => some 1
  | fuel + 1, h, compFunc, some a => do
    let n ← h.read a
    let badL ← (match n.left with
      | none => pure false
      | some l => do
        let ln ← h.read l
        let f ← compFunc
        pure (decide (0 < f ln.data n.data)))
    if badL then pure 0
    else do
      let badR ← (match n.right with
        | none => pure false
        | some r => do
          let rn ← h.read r
          let f ← compFunc
          pure (decide (0 < f n.data rn.data)))
      if badR then pure 0
      else do
        let l ← validateBST fuel h compFunc n.left
        if l = 0 then pure 0
        else do
          let r ← validateBST fuel h compFunc n.right
          pure (if r ≠ 0 then 1 else 0)

/-- `validatePointers`: both children of every node point back to it. -/
def validatePointers {α : Type} : Nat → Heap α → Ptr → Option Int
  | 0, _, _ => none
  | _ + 1, _, none => some 1
  | fuel + 1, h, some a => do
    let n ← h.read a
    let badL ← (match n.left with
      | none => pure false
      | some l => do
        let ln ← h.read l
        pure (decide (ln.parent ≠ some a)))
    if badL then pure 0
    else do
      let badR ← (match n.right with
        | none => pure false
        | some r => do
          let rn ← h.read r
          pure (decide (rn.parent ≠ some a)))
      if badR then pure 0
      else do
        let l ← validatePointers fuel h n.left
        if l = 0 then pure 0
        else do
          let r ← validatePointers fuel h n.right
          pure (if r ≠ 0 then 1 else 0)

/-- `treeSize`. -/
def treeSize {α : Type} : Nat → Heap α → Ptr → Int → Option Int
  | 0, _, _, _ => none
  | _ + 1, _, none, sum => some sum
  | fuel + 1, h, some a, sum => do
    let n ← h.read a
    let l ← treeSize fuel h n.left sum
    let r ← treeSize fuel h n.right sum
    pure (l + r + 1)

/-- `isValidRBTree`: the six checks, made only when the root is present.  The counters are
bounded by the number of nodes, so the `int` arithmetic of the C code is exact.  The last check
compares the counted nodes with the stored size as it is; the source compares with
`(int)tree->size`, which is the stored size itself whenever that is below `2 ^ 31`. -/
def isValidRBTree {α : Type} (st : State α) : Option Int :=
  match st.root with
  | none => some 1
  | some a => do
    let rn ← st.heap.read a
    if rn.color ≠ Color.BLACK then pure 0
    else do
      let pathBlacks ← getPathBlacksNum (fuelOf st.heap) st.heap st.root 0
      let vp ← validatePaths (fuelOf st.heap) st.heap st.root 0 pathBlacks
      if vp = 0 then pure 0
      else do
        let vc ← validateColors (fuelOf st.heap) st.heap st.root
        if vc = 0 then pure 0
        else do
          let vb ← validateBST (fuelOf st.heap) st.heap st.compFunc st.root
          if vb = 0 then pure 0
          else do
            let vq ← validatePointers (fuelOf st.heap) st.heap st.root
            if vq = 0 then pure 0
            else do
              let ts ← treeSize (fuelOf st.heap) st.heap st.root 0
              if ts ≠ (st.size : Int) then pure 0 else pure 1

/-- The handles a client sees when it inserts the payloads of a list one at a time: the
handle after each call of `insertToRBTree`, oldest first. -/
def insertRun {α : Type} : State α → List α → Option (List (State α))
  | _, [] => some []
  | st, x :: xs => do
    let r ← insertToRBTree st (some x)
    let rest ← insertRun r.2 xs
    pure (r.2 :: rest)

/-- `compInt` of the test driver: three-way comparison of integers. -/
def compInt (a b : Int) : Int :=
  if a = b then 0 else if a > b then 1 else -1

/-- A one-node tree holding 5. -/
def sampleTree : Tree Int := Tree.node Tree.nil 0 Color.BLACK 5 Tree.nil

/-- The handle of `sampleTree`, with a disposer. -/
def sampleState : State Int :=
  { heap := [some ⟨5, Color.BLACK, none, none, none⟩], root := some 0,
    compFunc := some compInt, freeFunc := true, size := 1, freed := [] }

/-- The handle of `sampleTree`, created with a `NULL` disposer. -/
def sampleNoDisposer : State Int :=
  { heap := [some ⟨5, Color.BLACK, none, none, none⟩], root := some 0,
    compFunc := some compInt, freeFunc := false, size := 1, freed := [] }

/-- A BLACK root 5 with a RED left child 3. -/
def sampleTree2 : Tree Int :=
  Tree.node (Tree.node Tree.nil 1 Color.RED 3 Tree.nil) 0 Color.BLACK 5 Tree.nil

/-- The handle of `sampleTree2`, created with a `NULL` disposer. -/
def sampleNoDisposer2 : State Int :=
  { heap := [some ⟨5, Color.BLACK, some 1, none, none⟩,
             some ⟨3, Color.RED, none, none, some 0⟩],
    root := some 0, compFunc := some compInt, freeFunc := false, size := 2, freed := [] }

/-- The links of the heap unfold, from the pointer `t.ptr` on, to the finite shape `t`: every
node's cell holds its payload, its colour and the pointers to its two subtrees.  The parent
links are not constrained and a cell may occur more than once. -/
def Unfolds {α : Type} (h : Heap α) : Tree α → Prop
  | Tree.nil => True
  | Tree.node l a c d r =>
    (∃ par, h.read a = some ⟨d, c, l.ptr, r.ptr, par⟩) ∧ Unfolds h l ∧ Unfolds h r

/-- Payloads in post-order: both subtrees of a node before the node itself. -/
def Tree.postorder {α : Type} : Tree α → List α
  | Tree.nil => []
  | Tree.node l _ _ d r => Tree.postorder l ++ Tree.postorder r ++ [d]

/-- The caller's variable of type `RBTree *` with the memory it lives in: `tree` is `false`
when the variable is `NULL`; `mem` holds the node heap, the log of disposer calls and, while
`tree` is `true`, the fields of the handle. -/
structure TreeVar (α : Type) where
  mem : State α
  tree : Bool

/-- `freeRBTree`, given the address of the caller's variable (a `NULL` address behaves as a
`NULL` variable: nothing happens).  After `free(*tree)` the variable is `NULL` and the fields
of the handle are out of reach. -/
def freeRBTree {α : Type} (v : TreeVar α) : Option (TreeVar α) :=
  if v.tree = false then some v
  else do
    let st ← freeAllNodes (fuelOf v.mem.heap) v.mem v.mem.root
    pure { mem := st, tree := false }

/-- The handles a client sees when it deletes the keys of a list one at a time: the handle
after each call of `deleteFromRBTree`, oldest first.  (The test driver also calls the
disposer itself on a key that was not found; that call is not a tree operation.) -/
def deleteRun {α : Type} : State α → List α → Option (List (State α))
  | _, [] => some []
  | st, k :: ks => do
    let r ← deleteFromRBTree st k
    let rest ← deleteRun r.2 ks
    pure (r.2 :: rest)

/-- The handle after the insertion of 10, 20, 30 into a new tree. -/
def tree102030 : State Int :=
  { heap := [some ⟨10, Color.RED, none, none, some 1⟩,
             some ⟨20, Color.BLACK, some 0, some 2, none⟩,
             some ⟨30, Color.RED, none, none, some 1⟩],
    root := some 1, compFunc := some compInt, freeFunc := true, size := 3, freed := [] }

/-- The shape of `tree102030`. -/
def shape102030 : Tree Int :=
  Tree.node (Tree.node Tree.nil 0 Color.RED 10 Tree.nil) 1 Color.BLACK 20
    (Tree.node Tree.nil 2 Color.RED 30 Tree.nil)

/-- The handle `tree102030` after the deletion of 20: the payload 30 of the successor has
moved into the root node and the successor's node is freed. -/
def tree1030 : State Int :=
  { heap := [some ⟨10, Color.RED, none, none, some 1⟩,
             some ⟨30, Color.BLACK, some 0, none, none⟩,
             none],
    root := some 1, compFunc := some compInt, freeFunc := true, size := 2, freed := [20] }

/-- A handle that is not a search tree: 7 hangs in the left subtree of 5. -/
def unsortedTree : State Int :=
  { heap := [some ⟨5, Color.BLACK, some 1, some 2, none⟩,
             some ⟨3, Color.BLACK, none, some 3, some 0⟩,
             some ⟨8, Color.BLACK, none, none, some 0⟩,
             some ⟨7, Color.RED, none, none, some 1⟩],
    root := some 0, compFunc := some compInt, freeFunc := true, size := 4, freed := [] }

/-- The shape of `unsortedTree`. -/
def unsortedShape : Tree Int :=
  Tree.node
    (Tree.node Tree.nil 1 Color.BLACK 3 (Tree.node Tree.nil 3 Color.RED 7 Tree.nil))
    0 Color.BLACK 5 (Tree.node Tree.nil 2 Color.BLACK 8 Tree.nil)

/-- A handle with two equal keys: 5 hangs below 5. -/
def equalKeysTree : State Int :=
  { heap := [some ⟨5, Color.BLACK, some 1, none, none⟩,
             some ⟨5, Color.RED, none, none, some 0⟩],
    root := some 0, compFunc := some compInt, freeFunc := true, size := 2, freed := [] }

/-- The shape of `equalKeysTree`. -/
def equalKeysShape : Tree Int :=
  Tree.node (Tree.node Tree.nil 1 Color.RED 5 Tree.nil) 0 Color.BLACK 5 Tree.nil

/-- Address and payload of the leftmost node of a shape. -/
def Tree.leftmost {α : Type} : Tree α → Option (Nat × α)
  | Tree.nil => none
  | Tree.node l a _ d _ =>
    match Tree.leftmost l with
    | none => some (a, d)
    | some x => some x

/-- The nodes of a shape in in-order: address, colour and payload of each. -/
def Tree.nodes {α : Type} : Tree α → List (Nat × Color × α)
  | Tree.nil => []
  | Tree.node l a c d r => Tree.nodes l ++ (a, c, d) :: Tree.nodes r

/-- The handle after the insertion of 5 into a new tree that has no comparator. -/
def nullCmpOne : State Int :=
  { heap := [some ⟨5, Color.BLACK, none, none, none⟩], root := some 0, compFunc := none,
    freeFunc := true, size := 1, freed := [] }

/-- The node at address `b` is reachable from the pointer `p` through child links. -/
inductive Reach {α : Type} (h : Heap α) : Ptr → Nat → Prop where
  | here {a : Nat} {n : Node α} : h.read a = some n → Reach h (some a) a
  | left {a b : Nat} {n : Node α} : h.read a = some n → Reach h n.left b → Reach h (some a) b
  | right {a b : Nat} {n : Node α} : h.read a = some n → Reach h n.right b → Reach h (some a) b

/-- The shape with every address erased: what remains is the colour and the payload at every
position. -/
def Tree.skeleton {α : Type} : Tree α → Tree α
  | Tree.nil => Tree.nil
  | Tree.node l _ c d r => Tree.node (Tree.skeleton l) 0 c d (Tree.skeleton r)

/-- Case 2 of the deletion as specified: the single child takes the slot of the removed node
and is recoloured BLACK. -/
def spliceChild {α : Type} (ctx : Ctx α) (child : Tree α) : Tree α :=
  ctx.plug (child.setColor Color.BLACK)

/-- The handle after the insertion of 7 into `sampleState`. -/
def sampleState57 : State Int :=
  { heap := [some ⟨5, Color.BLACK, none, some 1, none⟩, some ⟨7, Color.RED, none, none, some 0⟩],
    root := some 0, compFunc := some compInt, freeFunc := true, size := 2, freed := [] }

/-- The handle after the deletion of 5 from `sampleState`. -/
def sampleStateEmptied : State Int :=
  { heap := [none], root := none, compFunc := some compInt, freeFunc := true, size := 0,
    freed := [5] }

/-- A BLACK root 5 with a RED left child 3, in a handle with a disposer. -/
def sampleState53 : State Int :=
  { heap := [some ⟨5, Color.BLACK, some 1, none, none⟩,
             some ⟨3, Color.RED, none, none, some 0⟩],
    root := some 0, compFunc := some compInt, freeFunc := true, size := 2, freed := [] }

/-- The heap right after `insertValue` has hung 30 below 20 below the root 10, before the
repair: the RED node 30 has the RED parent 20 and no uncle. -/
def chainHeap : Heap Int :=
  [some ⟨10, Color.BLACK, none, some 1, none⟩, some ⟨20, Color.RED, none, some 2, some 0⟩,
   some ⟨30, Color.RED, none, none, some 1⟩]

/-- The arguments of the recursive call that `fixTreeStructure` makes in the state where
`ctx` is the path to the subtree `t` whose black height is one too small, if it makes one:
case 3b-ii moves the deficiency one level up, cases 3c and 3d restructure the sibling side
and keep the same subtree. -/
def fixNext {α : Type} : Ctx α → Tree α → Option (Ctx α × Tree α)
  | Ctx.top, _ => none
  | Ctx.left _ _ _ _ Tree.nil, _ => none
  | Ctx.right Tree.nil _ _ _ _, _ => none
  | Ctx.left up p pc pd (Tree.node sl s sc sd sr), t =>
    if sc = Color.BLACK ∧ sl.rootColor = Color.BLACK ∧ sr.rootColor = Color.BLACK then
      if pc = Color.RED then none
      else some (up, Tree.node t p pc pd (Tree.node sl s Color.RED sd sr))
    else if sc = Color.RED then
      some (Ctx.left (Ctx.left up s Color.BLACK sd sr) p Color.RED pd sl, t)
    else if sl.rootColor = Color.RED ∧ sr.rootColor = Color.BLACK then
      match sl with
      | Tree.nil => none
      | Tree.node sll n _ nd slr =>
        some (Ctx.left up p pc pd
          (Tree.node sll n Color.BLACK nd (Tree.node slr s Color.RED sd sr)), t)
    else none
  | Ctx.right (Tree.node sl s sc sd sr) p pc pd up, t =>
    if sc = Color.BLACK ∧ sl.rootColor = Color.BLACK ∧ sr.rootColor = Color.BLACK then
      if pc = Color.RED then none
      else some (up, Tree.node (Tree.node sl s Color.RED sd sr) p pc pd t)
    else if sc = Color.RED then
      some (Ctx.right sr p Color.RED pd (Ctx.right sl s Color.BLACK sd up), t)
    else if sr.rootColor = Color.RED ∧ sl.rootColor = Color.BLACK then
      match sr with
      | Tree.nil => none
      | Tree.node srl n _ nd srr =>
        some (Ctx.right
          (Tree.node (Tree.node sl s Color.RED sd srl) n Color.BLACK nd srr) p pc pd up, t)
    else none

/-- A heap in the middle of a deletion: the BLACK leaf 10 has been unlinked from the root 20
and freed, its sibling 30 is a BLACK leaf. -/
def blackSiblingHeap : Heap Int :=
  [none, some ⟨20, Color.BLACK, none, some 2, none⟩, some ⟨30, Color.BLACK, none, none, some 1⟩]

/-- A heap in the middle of a deletion: the BLACK leaf 10 has been unlinked from the root 20
and freed, its sibling 40 is RED with the BLACK children 30 and 50. -/
def redSiblingHeap : Heap Int :=
  [none, some ⟨20, Color.BLACK, none, some 2, none⟩, some ⟨40, Color.RED, some 3, some 4, some 1⟩,
   some ⟨30, Color.BLACK, none, none, some 2⟩, some ⟨50, Color.BLACK, none, none, some 2⟩]

/-- A heap in the middle of a deletion: the left child of the root 20 has been unlinked and
freed, the sibling 40 is BLACK, its near child 30 is RED and its far child is absent. -/
def nearRedHeap : Heap Int :=
  [none, some ⟨20, Color.BLACK, none, some 2, none⟩, some ⟨40, Color.BLACK, some 3, none, some 1⟩,
   some ⟨30, Color.RED, none, none, some 2⟩]

/-- A heap in the middle of a deletion: the left child of the root 20 has been unlinked and
freed, the sibling 40 is BLACK and its far child 50 is RED. -/
def farRedHeap : Heap Int :=
  [none, some ⟨20, Color.BLACK, none, some 2, none⟩, some ⟨40, Color.BLACK, none, some 3, some 1⟩,
   some ⟨50, Color.RED, none, none, some 2⟩]

/-- A client that applies a list of operations to a handle, one at a time: `(true, x)` is
`insertToRBTree(tree, x)` and `(false, x)` is `deleteFromRBTree(tree, x)`; the result codes
are ignored and the last handle is returned. -/
def opRun {α : Type} : State α → List (Bool × α) → Option (State α)
  | st, [] => some st
  | st, (true, x) :: ops => do
    let r ← insertToRBTree st (some x)
    opRun r.2 ops
  | st, (false, x) :: ops => do
    let r ← deleteFromRBTree st x
    opRun r.2 ops

end RB
end

section
namespace VLV

/-- Value of the `double` nearest to a natural number (round to nearest, ties to even, with
a significand of 53 bits): the conversion `std::floor` applies to its integer argument. -/
def toDouble (n : Nat) : Nat :=
  if n < 2 ^ 53 then n
  else
    let e := Nat.log2 n - 52
    let q := n / 2 ^ e
    let r := n % 2 ^ e
    if 2 * r < 2 ^ e ∨ (2 * r = 2 ^ e ∧ q % 2 = 0) then q * 2 ^ e else (q + 1) * 2 ^ e

/-- `_newCapacity`: `std::floor(3 * (_size + 1) / 2)`.  The quotient is computed in `size_t`
(64 bits), converted to `double` for `std::floor` and converted back on return. -/
def _newCapacity (_size : Nat) : Nat :=
  toDouble ((3 * ((_size + 1) % 2 ^ 64)) % 2 ^ 64 / 2) % 2 ^ 64

/-- The members of `VLVector<T, StaticCapacity>`.  A cell of an array holds `none` while it
has no determinate value; `_heapArr` is `none` when it is `nullptr`; `elemsOnHeap` tells
whether `_elems` points to `_heapArr` (otherwise it points to `_stackArr`). -/
structure VLVector (α : Type) (StaticCapacity : Nat) where
  _stackArr : List (Option α)
  _heapArr : Option (List (Option α))
  elemsOnHeap : Bool
  _capacity : Nat
  _size : Nat
deriving DecidableEq, Repr

end VLV
end

section
variable {α : Type} {StaticCapacity : Nat}
namespace VLV
namespace VLVector

/-- The default constructor `VLVector()`. -/
def default : VLVector α StaticCapacity :=
  { _stackArr := List.replicate StaticCapacity none, _heapArr := none, elemsOnHeap := false,
    _capacity := StaticCapacity, _size := 0 }

/-- The array `_elems` points to (`none` when that is `nullptr`). -/
def elems (v : VLVector α StaticCapacity) : Option (List (Option α)) :=
  if v.elemsOnHeap then v._heapArr else some v._stackArr

/-- Store an array where `_elems` points to. -/
def setElems (v : VLVector α StaticCapacity) (a : List (Option α)) : VLVector α StaticCapacity :=
  if v.elemsOnHeap then { v with _heapArr := some a } else { v with _stackArr := a }

/-- Reading `v[i]` (`operator[]`, no bounds checking): no value results outside the array
`_elems` points to or from a cell without determinate value. -/
def get (v : VLVector α StaticCapacity) (i : Nat) : Option α :=
  match v.elems with
  | none => none
  | some a => (a.get? i).join

/-- The assignment `v[i] = x` through `operator[]`: a write outside the array `_elems` points
to gives no result. -/
def set (v : VLVector α StaticCapacity) (i : Nat) (x : α) : Option (VLVector α StaticCapacity) :=
  match v.elems with
  | none => none
  | some a => if i < a.length then some (v.setElems (a.set i (some x))) else none

/-- `std::memcpy(dst, src, n * sizeof(T))`: the first `n` cells of `src` replace those of
`dst`; no result when either array is shorter than `n`. -/
def memcpy (dst src : List (Option α)) (n : Nat) : Option (List (Option α)) :=
  if n ≤ dst.length ∧ n ≤ src.length then some (src.take n ++ dst.drop n) else none

/-- `push_back`.  The allocation `new T[_capacity]` is taken to succeed and gives cells
without determinate value. -/
def push_back (v : VLVector α StaticCapacity) (val : α) : Option (VLVector α StaticCapacity) := do
  let v ← (if v._size = v._capacity then do
      let cap := _newCapacity v._size
      let src ← v.elems
      let newArr ← memcpy (List.replicate cap none) src v._size
      pure { v with _capacity := cap, _heapArr := some newArr, elemsOnHeap := true }
    else pure v)
  let a ← v.elems
  if v._size < a.length then
    pure { v.setElems (a.set v._size (some val)) with _size := (v._size + 1) % 2 ^ 64 }
  else none

/-- `pop_back`: `_size--` in `size_t`; when the new size equals `StaticCapacity` the code
copies `_size` cells with `_heapArr` as destination and `_stackArr` as source, frees
`_heapArr` and lets `_elems` point to `_stackArr`. -/
def pop_back (v : VLVector α StaticCapacity) : Option (VLVector α StaticCapacity) :=
  if (v._size + 2 ^ 64 - 1) % 2 ^ 64 = StaticCapacity then do
    let heap ← v._heapArr
    let _ ← memcpy heap v._stackArr ((v._size + 2 ^ 64 - 1) % 2 ^ 64)
    pure { v with _size := (v._size + 2 ^ 64 - 1) % 2 ^ 64, _capacity := StaticCapacity,
                  _heapArr := none, elemsOnHeap := false }
  else pure { v with _size := (v._size + 2 ^ 64 - 1) % 2 ^ 64 }

/-- `operator=` from another object (`this != &rhs`). -/
def assign (v rhs : VLVector α StaticCapacity) : Option (VLVector α StaticCapacity) := do
  let v1 : VLVector α StaticCapacity :=
    if v._capacity ≠ rhs._capacity then
      if rhs._size > StaticCapacity then
        { v with _heapArr := some (List.replicate rhs._size none), elemsOnHeap := true,
                 _capacity := rhs._capacity }
      else { v with _heapArr := none, elemsOnHeap := false, _capacity := rhs._capacity }
    else v
  let src ← rhs.elems
  let dst ← v1.elems
  let a ← memcpy dst src rhs._size
  pure { v1.setElems a with _size := rhs._size }

/-- The copy constructor: `VLVector()` followed by `*this = rhs`. -/
def copy (rhs : VLVector α StaticCapacity) : Option (VLVector α StaticCapacity) :=
  assign default rhs

/-- `clear`: `*this = VLVector()`. -/
def clear (v : VLVector α StaticCapacity) : Option (VLVector α StaticCapacity) :=
  assign v default

/-- A run of `push_back` calls, one for each value of a list. -/
def pushAll : VLVector α StaticCapacity → List α → Option (VLVector α StaticCapacity)
  | v, [] => some v
  | v, x :: xs => do
    let v ← push_back v x
    pushAll v xs

/-- The loop `for (; i < bound; ++i) temp.push_back(_elems[i])`, with the number of
iterations left as third argument. -/
def pushRange (v : VLVector α StaticCapacity) :
    Nat → Nat → VLVector α StaticCapacity → Option (VLVector α StaticCapacity)
  | _, 0, temp => some temp
  | i, n + 1, temp => do
    let x ← v.get i
    let temp ← push_back temp x
    pushRange v (i + 1) n temp

/-- `insert(pos, first, last)`: `pos` is the index `pos - begin()` and `xs` the values of the
range; the changes are made in a temporary object that is then assigned.  The iterator the
C++ function returns is not part of the result. -/
def insert (v : VLVector α StaticCapacity) (pos : Nat) (xs : List α) :
    Option (VLVector α StaticCapacity) := do
  let temp ← pushRange v 0 pos default
  let temp ← pushAll temp xs
  let temp ← pushRange v pos (v._size - pos) temp
  assign v temp

/-- The loop of `erase`, with the index of `curr`, the number of iterations left and the
flag `toAdd`. -/
def eraseLoop (v : VLVector α StaticCapacity) (first last : Nat) :
    Nat → Nat → Bool → VLVector α StaticCapacity → Option (VLVector α StaticCapacity)
  | _, 0, _, temp => some temp
  | i, n + 1, toAdd, temp => do
    let toAdd := if i = first then false else toAdd
    let toAdd := if i = last then true else toAdd
    let temp ← (if toAdd then do
        let x ← v.get i
        push_back temp x
      else pure temp)
    eraseLoop v first last (i + 1) n toAdd temp

/-- `erase(first, last)`, the iterators given as indices. -/
def erase (v : VLVector α StaticCapacity) (first last : Nat) :
    Option (VLVector α StaticCapacity) := do
  let temp ← eraseLoop v first last 0 v._size true default
  assign v temp

end VLVector
end VLV
end

section
namespace VLV

/-- A sequence of calls on one vector. -/
inductive Op (α : Type) where
  | push_back (val : α)
  | pop_back
  | insert (pos : Nat) (xs : List α)
  | erase (first last : Nat)
  | write (i : Nat) (x : α)
  | clear
deriving Repr

/-- The vector after a sequence of calls on a default-constructed vector. -/
def runOps {α : Type} {StaticCapacity : Nat} :
    VLVector α StaticCapacity → List (Op α) → Option (VLVector α StaticCapacity)
  | v, [] => some v
  | v, Op.push_back x :: ops => do let v ← v.push_back x; runOps v ops
  | v, Op.pop_back :: ops => do let v ← v.pop_back; runOps v ops
  | v, Op.insert pos xs :: ops => do let v ← v.insert pos xs; runOps v ops
  | v, Op.erase f l :: ops => do let v ← v.erase f l; runOps v ops
  | v, Op.write i x :: ops => do let v ← v.set i x; runOps v ops
  | v, Op.clear :: ops => do let v ← v.clear; runOps v ops

/-- The vector of the failing run of `pop_back`: static capacity 2, after `push_back` of 1,
2, 3 and the write `v[0] = 9`. -/
def written923 : VLVector Int 2 :=
  { _stackArr := [some 1, some 2], _heapArr := some [some 9, some 2, some 3, none],
    elemsOnHeap := true, _capacity := 4, _size := 3 }

/-- The vector with static capacity 2 after `push_back` of 1, 2, 3. -/
def pushed123 : VLVector Int 2 :=
  { _stackArr := [some 1, some 2], _heapArr := some [some 1, some 2, some 3, none],
    elemsOnHeap := true, _capacity := 4, _size := 3 }

/-- The copy of `pushed123` made by the copy constructor: capacity 4 with an array of 3
cells. -/
def copied123 : VLVector Int 2 :=
  { _stackArr := [none, none], _heapArr := some [some 1, some 2, some 3],
    elemsOnHeap := true, _capacity := 4, _size := 3 }

/-- Storage invariant of a vector: the size is at most the capacity and the array `_elems`
points to has exactly `_capacity` cells. -/
def Wf {α : Type} {StaticCapacity : Nat} (v : VLVector α StaticCapacity) : Prop :=
  v._size ≤ v._capacity ∧ ∃ a, v.elems = some a ∧ a.length = v._capacity

/-- The vector holds exactly the values of a list. -/
def Holds {α : Type} {StaticCapacity : Nat} (v : VLVector α StaticCapacity) (ys : List α) :
    Prop :=
  v._size = ys.length ∧ ∀ i, i < ys.length → v.get i = ys.get? i

end VLV
end

section
namespace RB

end RB
end

/-! ## Part 2: theorems -/

section
namespace RB

@[simp] theorem Tree.ptr_nil {α : Type} : (Tree.nil : Tree α).ptr = none := rfl

@[simp] theorem Tree.ptr_node {α : Type} (l : Tree α) (a : Nat) (c : Color) (d : α)
    (r : Tree α) : (Tree.node l a c d r).ptr = some a := rfl

@[simp] theorem Tree.rootColor_nil {α : Type} : (Tree.nil : Tree α).rootColor = Color.BLACK :=
  rfl

@[simp] theorem Tree.rootColor_node {α : Type} (l : Tree α) (a : Nat) (c : Color) (d : α)
    (r : Tree α) : (Tree.node l a c d r).rootColor = c := rfl

end RB
end

section
variable {α : Type}
namespace RB

theorem read_lt {h : Heap α} {a : Nat} {n : Node α} (e : h.read a = some n) : a < h.length := by
  unfold Heap.read at e
  by_contra hlt
  rw [List.get?_eq_none.2 (by omega)] at e
  simp at e

theorem read_write (h : Heap α) (a b : Nat) (n : Node α) (hlt : a < h.length) :
    (h.write a n).read b = if b = a then some n else h.read b := by
  unfold Heap.read Heap.write
  by_cases hb : b = a
  · subst hb; simp [List.getElem?_set, hlt]
  · have : a ≠ b := fun e => hb e.symm
    simp [List.getElem?_set, hb, this]

theorem read_release (h : Heap α) (a b : Nat) (hlt : a < h.length) :
    (h.release a).read b = if b = a then none else h.read b := by
  unfold Heap.read Heap.release
  by_cases hb : b = a
  · subst hb; simp [List.getElem?_set, hlt]
  · have : a ≠ b := fun e => hb e.symm
    simp [List.getElem?_set, hb, this]

theorem read_alloc (h : Heap α) (n : Node α) (b : Nat) :
    (h.alloc n).1.read b = if b = h.length then some n else h.read b := by
  unfold Heap.read Heap.alloc
  by_cases hb : b = h.length
  · subst hb; simp
  · rcases Nat.lt_or_gt_of_ne hb with h1 | h1
    · simp [List.getElem?_append_left, h1, hb]
    · have e1 : (h ++ [some n])[b]? = none := List.getElem?_eq_none (by simp; omega)
      have e2 : h[b]? = none := List.getElem?_eq_none (by omega)
      simp [e1, e2, hb]

@[simp] theorem length_write (h : Heap α) (a : Nat) (n : Node α) :
    (h.write a n).length = h.length := by simp [Heap.write]

@[simp] theorem length_release (h : Heap α) (a : Nat) :
    (h.release a).length = h.length := by simp [Heap.release]

theorem Tree.length_addrs (t : Tree α) : t.addrs.length = t.size := by
  induction t with
  | nil => rfl
  | node l a c d r ihl ihr => simp [Tree.addrs, Tree.size, ihl, ihr]; omega

theorem Tree.length_inorder (t : Tree α) : t.inorder.length = t.size := by
  induction t with
  | nil => rfl
  | node l a c d r ihl ihr => simp [Tree.inorder, Tree.size, ihl, ihr]; omega

theorem Tree.height_le_size (t : Tree α) : t.height ≤ t.size := by
  induction t with
  | nil => simp [Tree.height, Tree.size]
  | node l a c d r ihl ihr => simp [Tree.height, Tree.size]; omega

theorem Rep.addr_lt {h : Heap α} : ∀ {t : Tree α} {par : Ptr}, Rep h t par →
    ∀ a ∈ t.addrs, a < h.length
  | Tree.nil, _, _, a, ha => by simp [Tree.addrs] at ha
  | Tree.node l x c d r, par, hr, a, ha => by
    simp only [Tree.addrs, List.mem_append, List.mem_cons] at ha
    obtain ⟨h1, h2, h3⟩ := hr
    rcases ha with ha | ha | ha
    · exact Rep.addr_lt h2 a ha
    · subst ha; exact read_lt h1
    · exact Rep.addr_lt h3 a ha

theorem RepT.size_le {h : Heap α} {t : Tree α} (hr : RepT h t) : t.size ≤ h.length := by
  have hsub : t.addrs ⊆ List.range h.length := fun a ha =>
    List.mem_range.2 (Rep.addr_lt hr.1 a ha)
  have := (List.subperm_of_subset hr.2 hsub).length_le
  simpa [Tree.length_addrs] using this

theorem RepT.height_lt_fuel {h : Heap α} {t : Tree α} (hr : RepT h t) :
    t.height < fuelOf h := by
  have := hr.size_le
  have := t.height_le_size
  unfold fuelOf; omega

theorem TotalCmp.eq_symm {cmp : α → α → Int} (hc : TotalCmp cmp) {a b : α}
    (e : cmp a b = 0) : cmp b a = 0 := by
  have h1 := hc.swap a b
  have h2 := hc.swap b a
  omega

theorem TotalCmp.lt_irrefl {cmp : α → α → Int} (hc : TotalCmp cmp) (a : α) : cmp a a = 0 := by
  have h1 := hc.swap a a
  omega

theorem search_eq_find (h : Heap α) (cmp : α → α → Int) (k : α) :
    ∀ (t : Tree α) (par : Ptr) (fuel : Nat), Rep h t par → t.height < fuel →
      search fuel h t.ptr k (some cmp) = some (t.find cmp k)
  | Tree.nil, _, fuel, _, hf => by
    cases fuel with
    | zero => simp [Tree.height] at hf
    | succ f => simp [search, Tree.find]
  | Tree.node l a c d r, par, fuel, hr, hf => by
    cases fuel with
    | zero => simp at hf
    | succ f =>
      obtain ⟨h1, h2, h3⟩ := hr
      simp only [Tree.height] at hf
      have hl := search_eq_find h cmp k l (some a) f h2 (by omega)
      have hrr := search_eq_find h cmp k r (some a) f h3 (by omega)
      simp only [search, Tree.ptr_node, h1, Tree.find, Option.bind_eq_bind, Option.some_bind,
        Option.pure_def, hl, hrr]
      split_ifs <;> rfl

theorem Tree.sorted_node {cmp : α → α → Int} {l r : Tree α} {a : Nat} {c : Color} {d : α} :
    (Tree.node l a c d r).Sorted cmp ↔
      l.Sorted cmp ∧ r.Sorted cmp ∧ (∀ x ∈ l.inorder, cmp x d < 0) ∧
        (∀ y ∈ r.inorder, cmp d y < 0) ∧ ∀ x ∈ l.inorder, ∀ y ∈ r.inorder, cmp x y < 0 := by
  simp only [Tree.Sorted, Tree.inorder, List.pairwise_append, List.pairwise_cons,
    List.mem_cons]
  constructor
  · rintro ⟨h1, ⟨h2, h3⟩, h4⟩
    exact ⟨h1, h3, fun x hx => h4 x hx d (Or.inl rfl), h2,
      fun x hx y hy => h4 x hx y (Or.inr hy)⟩
  · rintro ⟨h1, h2, h3, h4, h5⟩
    refine ⟨h1, ⟨h4, h2⟩, ?_⟩
    rintro x hx y (rfl | hy)
    · exact h3 x hx
    · exact h5 x hx y hy

theorem Tree.find_mem {h : Heap α} (cmp : α → α → Int) (k : α) :
    ∀ (t : Tree α) (par : Ptr) (a : Nat), Rep h t par → t.find cmp k = some a →
      a ∈ t.addrs ∧ ∃ n, h.read a = some n ∧ n.data ∈ t.inorder ∧ cmp k n.data = 0
  | Tree.nil, _, a, _, e => by simp [Tree.find] at e
  | Tree.node l x c d r, par, a, hr, e => by
    obtain ⟨h1, h2, h3⟩ := hr
    simp only [Tree.find] at e
    split_ifs at e with e1 e2
    · cases e
      exact ⟨by simp [Tree.addrs], _, h1, by simp [Tree.inorder], e1⟩
    · obtain ⟨m, n, hn, hd, hk⟩ := Tree.find_mem cmp k r (some x) a h3 e
      exact ⟨by simp [Tree.addrs, m], n, hn, by simp [Tree.inorder, hd], hk⟩
    · obtain ⟨m, n, hn, hd, hk⟩ := Tree.find_mem cmp k l (some x) a h2 e
      exact ⟨by simp [Tree.addrs, m], n, hn, by simp [Tree.inorder, hd], hk⟩

theorem Tree.find_none {cmp : α → α → Int} (hc : TotalCmp cmp) (k : α) :
    ∀ (t : Tree α), t.Sorted cmp → t.find cmp k = none → ∀ d ∈ t.inorder, cmp k d ≠ 0
  | Tree.nil, _, _, d, hd => by simp [Tree.inorder] at hd
  | Tree.node l x c d r, hs, e, y, hy => by
    obtain ⟨sl, sr, hl, hr, _⟩ := Tree.sorted_node.1 hs
    simp only [Tree.find] at e
    simp only [Tree.inorder, List.mem_append, List.mem_cons] at hy
    split_ifs at e with e1 e2
    · have hdk : cmp d k < 0 := (hc.swap k d).1 e2
      rcases hy with hy | rfl | hy
      · have := hc.trans y d k (hl y hy) hdk
        have := hc.swap k y
        omega
      · exact e1
      · exact Tree.find_none hc k r sr e y hy
    · have hkd : cmp k d < 0 := by omega
      rcases hy with hy | rfl | hy
      · exact Tree.find_none hc k l sl e y hy
      · exact e1
      · have := hc.trans k d y hkd (hr y hy)
        omega

/-- On a tree whose in-order sequence is strictly increasing under a total-order
comparator, `search` returns a node exactly when some stored payload compares equal to the
key, the node returned holds such a payload, and `RBTreeContains` is non-zero iff the key
compares equal to a member of the in-order sequence. -/
theorem search_spec (cmp : α → α → Int) (hc : TotalCmp cmp) (st : State α) (t : Tree α)
    (hrep : Represents st t) (hs : t.Sorted cmp) (hcmp : st.compFunc = some cmp) (k : α) :
    ∃ r, search (fuelOf st.heap) st.heap st.root k st.compFunc = some r ∧
      (∀ a, r = some a →
        a ∈ t.addrs ∧ ∃ n, st.heap.read a = some n ∧ n.data ∈ t.inorder ∧ cmp k n.data = 0) ∧
      (r ≠ none ↔ ∃ d ∈ t.inorder, cmp k d = 0) ∧
      ∃ v, RBTreeContains st k = some v ∧ (v ≠ 0 ↔ ∃ d ∈ t.inorder, cmp k d = 0) := by
  obtain ⟨hr, hroot⟩ := hrep
  have hsearch := search_eq_find st.heap cmp k t none _ hr.1 hr.height_lt_fuel
  rw [← hroot, ← hcmp] at hsearch
  have hiff : t.find cmp k ≠ none ↔ ∃ d ∈ t.inorder, cmp k d = 0 := by
    constructor
    · intro hne
      obtain ⟨a, ha⟩ := Option.ne_none_iff_exists'.1 hne
      obtain ⟨_, n, _, hd, hk⟩ := Tree.find_mem cmp k t none a hr.1 ha
      exact ⟨n.data, hd, hk⟩
    · rintro ⟨d, hd, hk⟩ hnone
      exact Tree.find_none hc k t hs hnone d hd hk
  refine ⟨t.find cmp k, hsearch, fun a ha => Tree.find_mem cmp k t none a hr.1 ha, hiff, ?_⟩
  simp only [RBTreeContains, hsearch, Option.bind_eq_bind, Option.some_bind]
  by_cases hn : t.find cmp k = none
  · refine ⟨FAILURE, by simp [hn], ?_⟩
    simp only [FAILURE, ne_eq, not_true_eq_false, false_iff]
    rw [← hiff]; simp [hn]
  · refine ⟨SUCCESS, by simp [hn], ?_⟩
    simp only [SUCCESS, ne_eq, one_ne_zero, not_false_eq_true, true_iff]
    exact hiff.1 hn

end RB
end

section
variable {α σ : Type}
namespace RB

theorem walk_stopped (func : α → σ → Int × σ) (xs : List α) (r : Int × σ) (hr : r.1 = 0) :
    walk func xs r = r := by
  cases xs with
  | nil => rfl
  | cons x xs => simp [walk, hr]

theorem walk_append (func : α → σ → Int × σ) (xs ys : List α) (r : Int × σ) :
    walk func (xs ++ ys) r = walk func ys (walk func xs r) := by
  induction xs generalizing r with
  | nil => rfl
  | cons x xs ih =>
    by_cases hr : r.1 = 0
    · simp [walk, hr, walk_stopped]
    · simp [walk, hr, ih]

theorem walk_status (func : α → σ → Int × σ) (xs : List α) (v w : Int) (s : σ)
    (hv : v ≠ 0) (hw : w ≠ 0) (hne : xs ≠ []) :
    walk func xs (v, s) = walk func xs (w, s) := by
  cases xs with
  | nil => exact absurd rfl hne
  | cons x xs => simp [walk, hv, hw]

theorem Tree.ptr_eq_none {t : Tree α} : t.ptr = none ↔ t = Tree.nil := by
  cases t <;> simp

theorem Tree.inorder_eq_nil {t : Tree α} : t.inorder = [] ↔ t = Tree.nil := by
  cases t <;> simp [Tree.inorder]

theorem inOrder_eq_walk (h : Heap α) (func : α → σ → Int × σ) :
    ∀ (t : Tree α) (par : Ptr) (fuel : Nat) (args : σ), Rep h t par → t.height < fuel →
      inOrder fuel h t.ptr func args = some (walk func t.inorder (SUCCESS, args))
  | Tree.nil, _, fuel, args, _, hf => by
    cases fuel with
    | zero => simp [Tree.height] at hf
    | succ f => simp [inOrder, Tree.inorder, walk]
  | Tree.node l a c d r, par, fuel, args, hr, hf => by
    cases fuel with
    | zero => simp at hf
    | succ f =>
      obtain ⟨h1, h2, h3⟩ := hr
      simp only [Tree.height] at hf
      have hl := fun s => inOrder_eq_walk h func l (some a) f s h2 (by omega)
      have hrr := fun s => inOrder_eq_walk h func r (some a) f s h3 (by omega)
      have hleft : (if l.ptr ≠ none then inOrder f h l.ptr func args
          else pure (SUCCESS, args)) = some (walk func l.inorder (SUCCESS, args)) := by
        by_cases hn : l.ptr = none
        · have := Tree.ptr_eq_none.1 hn
          subst this
          simp [Tree.inorder, walk]
        · simp [hn, hl]
      simp only [inOrder, Tree.ptr_node, h1, Option.bind_eq_bind, Option.some_bind, hleft,
        Tree.inorder, walk_append, walk]
      generalize walk func l.inorder (SUCCESS, args) = rl
      by_cases e1 : rl.1 = 0
      · simp only [e1, if_true, walk_stopped func _ rl e1, Option.pure_def, FAILURE]
        rw [← e1]
      · simp only [e1, if_false]
        by_cases e2 : (func d rl.2).1 = 0
        · simp only [e2, if_true, walk_stopped func _ _ e2, Option.pure_def, FAILURE]
          rw [← e2]
        · simp only [e2, if_false]
          by_cases hn : r.ptr = none
          · have := Tree.ptr_eq_none.1 hn
            subst this
            simp [Tree.inorder, walk]
          · have hne : r.inorder ≠ [] := fun e => hn (by rw [Tree.inorder_eq_nil.1 e]; rfl)
            simp only [ne_eq, hn, not_false_eq_true, if_true, hrr]
            rw [walk_status func r.inorder SUCCESS (func d rl.2).1 _ (by decide) e2 hne]

theorem walk_counting_continue (f : Nat → α → σ → Int × σ) (k : Nat)
    (hcont : ∀ i, i + 1 < k → ∀ x s, (f i x s).1 ≠ 0) :
    ∀ (xs : List α) (v : Int) (s : σ) (n : Nat) (log : List α), v ≠ 0 → n + xs.length < k →
      ∃ v' s', walk (countingVisitor f) xs (v, (s, n, log)) =
        (v', (s', n + xs.length, log ++ xs)) ∧ v' ≠ 0 ∧ (xs = [] → v' = v)
  | [], v, s, n, log, hv, _ => ⟨v, s, by simp [walk], hv, fun _ => rfl⟩
  | x :: xs, v, s, n, log, hv, hlen => by
    simp only [List.length_cons] at hlen
    obtain ⟨v', s', e, hv', _⟩ := walk_counting_continue f k hcont xs (f n x s).1 (f n x s).2
      (n + 1) (log ++ [x]) (hcont n (by omega) x s) (by omega)
    refine ⟨v', s', ?_, hv', fun e => by simp at e⟩
    simp only [walk, hv, if_false, countingVisitor, e, List.length_cons, List.append_assoc,
      List.singleton_append]
    congr 3
    omega

theorem walk_counting_stop (f : Nat → α → σ → Int × σ) (k : Nat)
    (hcont : ∀ i, i + 1 < k → ∀ x s, (f i x s).1 ≠ 0) (hstop : ∀ x s, (f (k - 1) x s).1 = 0) :
    ∀ (xs : List α) (v : Int) (s : σ) (n : Nat) (log : List α), v ≠ 0 → n < k →
      k ≤ n + xs.length →
      ∃ s', walk (countingVisitor f) xs (v, (s, n, log)) =
        (FAILURE, (s', k, log ++ xs.take (k - n)))
  | [], v, s, n, log, _, h1, h2 => by simp at h2; omega
  | x :: xs, v, s, n, log, hv, h1, h2 => by
    simp only [List.length_cons] at h2
    by_cases hk : n + 1 = k
    · have hn : n = k - 1 := by omega
      have hz := hstop x s
      rw [← hn] at hz
      refine ⟨(f n x s).2, ?_⟩
      have hkn : k - n = 1 := by omega
      simp only [walk, hv, if_false, countingVisitor]
      rw [walk_stopped _ _ _ (by simpa using hz)]
      simp [hz, FAILURE, hk, hkn]
    · obtain ⟨s', e⟩ := walk_counting_stop f k hcont hstop xs (f n x s).1 (f n x s).2 (n + 1)
        (log ++ [x]) (hcont n (by omega) x s) (by omega) (by omega)
      refine ⟨s', ?_⟩
      have hkn : k - n = (k - (n + 1)) + 1 := by omega
      simp only [walk, hv, if_false, countingVisitor, e, hkn, List.take_succ_cons,
        List.append_assoc, List.singleton_append]

/-- On a tree satisfying the BST-ordering invariant, with a visitor that always returns
continue, `forEachRBTree` invokes the visitor once per node, on the stored payloads in
in-order, and returns a non-zero result; on an empty tree it makes no call and returns
`SUCCESS`. -/
theorem forEach_continue_spec (cmp : α → α → Int) (st : State α) (t : Tree α)
    (hrep : Represents st t) (hs : t.Sorted cmp)
    (f : Nat → α → σ → Int × σ) (hf : ∀ i x s, (f i x s).1 ≠ 0) (args : σ) :
    ∃ v s', forEachRBTree st (countingVisitor f) (args, 0, []) =
        some (v, (s', t.size, t.inorder)) ∧ v ≠ FAILURE ∧
      t.inorder.length = t.size ∧ t.inorder.Pairwise (fun x y => cmp x y < 0) ∧
      (st.root = none → v = SUCCESS ∧ s' = args ∧ t.size = 0 ∧ t.inorder = []) := by
  obtain ⟨hr, hroot⟩ := hrep
  have hw := inOrder_eq_walk st.heap (countingVisitor f) t none _ (args, 0, []) hr.1
    hr.height_lt_fuel
  obtain ⟨v, s', e, hv, hnil⟩ := walk_counting_continue f (t.inorder.length + 1)
    (fun i _ x s => hf i x s) t.inorder SUCCESS args 0 [] (by decide) (by omega)
  rw [← hroot] at hw
  refine ⟨v, s', ?_, hv, Tree.length_inorder t, hs, ?_⟩
  · simp only [forEachRBTree, hw, e, Nat.zero_add, List.nil_append, Tree.length_inorder]
  · intro h0
    have ht : t = Tree.nil := Tree.ptr_eq_none.1 (hroot ▸ h0)
    subst ht
    simp only [Tree.inorder, walk, Prod.mk.injEq] at e
    exact ⟨e.1.symm, e.2.1.symm, rfl, rfl⟩

/-- On a tree satisfying the BST-ordering invariant, with `1 ≤ k ≤ size` and a visitor
that returns continue on its first `k - 1` calls and stop on its `k`-th call,
`forEachRBTree` invokes the visitor exactly `k` times, on the first `k` payloads of the
in-order sequence (each smaller than every payload not visited), and returns `FAILURE`. -/
theorem forEach_stop_spec (cmp : α → α → Int) (st : State α) (t : Tree α)
    (hrep : Represents st t) (hs : t.Sorted cmp) (k : Nat)
    (hk1 : 1 ≤ k) (hk2 : k ≤ t.size) (f : Nat → α → σ → Int × σ)
    (hcont : ∀ i, i + 1 < k → ∀ x s, (f i x s).1 ≠ 0)
    (hstop : ∀ x s, (f (k - 1) x s).1 = 0) (args : σ) :
    ∃ s', forEachRBTree st (countingVisitor f) (args, 0, []) =
        some (FAILURE, (s', k, t.inorder.take k)) ∧
      (t.inorder.take k).length = k ∧
      (t.inorder.take k).Pairwise (fun x y => cmp x y < 0) ∧
      ∀ x ∈ t.inorder.take k, ∀ y ∈ t.inorder.drop k, cmp x y < 0 := by
  obtain ⟨hr, hroot⟩ := hrep
  have hw := inOrder_eq_walk st.heap (countingVisitor f) t none _ (args, 0, []) hr.1
    hr.height_lt_fuel
  have hlen : t.inorder.length = t.size := Tree.length_inorder t
  obtain ⟨s', e⟩ := walk_counting_stop f k hcont hstop t.inorder SUCCESS args 0 []
    (by decide) (by omega) (by omega)
  rw [← hroot] at hw
  have hsplit : (t.inorder.take k ++ t.inorder.drop k).Pairwise (fun x y => cmp x y < 0) := by
    rw [List.take_append_drop]; exact hs
  rw [List.pairwise_append] at hsplit
  refine ⟨s', ?_, ?_, hsplit.1, hsplit.2.2⟩
  · simpa [forEachRBTree, hw] using e
  · simp [List.length_take, hlen, hk2]

end RB
end

section
variable {α : Type}
namespace RB

@[simp] theorem Ctx.plug_top (t : Tree α) : Ctx.top.plug t = t := rfl

@[simp] theorem Ctx.plug_left (up : Ctx α) (a : Nat) (c : Color) (d : α) (r t : Tree α) :
    (Ctx.left up a c d r).plug t = up.plug (Tree.node t a c d r) := rfl

@[simp] theorem Ctx.plug_right (up : Ctx α) (a : Nat) (c : Color) (d : α) (l t : Tree α) :
    (Ctx.right l a c d up).plug t = up.plug (Tree.node l a c d t) := rfl

theorem rep_plug (h : Heap α) : ∀ (ctx : Ctx α) (t : Tree α),
    Rep h (ctx.plug t) none ↔ RepCtx h ctx t.ptr ∧ Rep h t ctx.addr
  | Ctx.top, t => by simp [RepCtx, Ctx.addr]
  | Ctx.left up a c d r, t => by
    rw [Ctx.plug_left, rep_plug h up]
    simp only [Tree.ptr_node, Rep, RepCtx, Ctx.addr]
    tauto
  | Ctx.right l a c d up, t => by
    rw [Ctx.plug_right, rep_plug h up]
    simp only [Tree.ptr_node, Rep, RepCtx, Ctx.addr]
    tauto

theorem addrs_plug : ∀ (ctx : Ctx α) (t : Tree α),
    (ctx.plug t).addrs.Perm (ctx.addrs ++ t.addrs)
  | Ctx.top, t => by simp [Ctx.addrs]
  | Ctx.left up a c d r, t => by
    rw [Ctx.plug_left]
    refine (addrs_plug up _).trans ?_
    simp only [Tree.addrs, Ctx.addrs]
    refine List.perm_iff_count.2 fun x => ?_
    simp only [List.count_append, List.count_cons]
    omega
  | Ctx.right l a c d up, t => by
    rw [Ctx.plug_right]
    refine (addrs_plug up _).trans ?_
    simp only [Tree.addrs, Ctx.addrs]
    refine List.perm_iff_count.2 fun x => ?_
    simp only [List.count_append, List.count_cons]
    omega

theorem inorder_plug : ∀ (ctx : Ctx α) (t : Tree α),
    (ctx.plug t).inorder = ctx.before ++ t.inorder ++ ctx.after
  | Ctx.top, t => by simp [Ctx.before, Ctx.after]
  | Ctx.left up a c d r, t => by
    rw [Ctx.plug_left, inorder_plug up]
    simp [Tree.inorder, Ctx.before, Ctx.after]
  | Ctx.right l a c d up, t => by
    rw [Ctx.plug_right, inorder_plug up]
    simp [Tree.inorder, Ctx.before, Ctx.after]

theorem size_plug : ∀ (ctx : Ctx α) (t : Tree α), (ctx.plug t).size = ctx.size + t.size
  | Ctx.top, t => by simp [Ctx.size]
  | Ctx.left up a c d r, t => by
    rw [Ctx.plug_left, size_plug up]; simp [Tree.size, Ctx.size]; omega
  | Ctx.right l a c d up, t => by
    rw [Ctx.plug_right, size_plug up]; simp [Tree.size, Ctx.size]; omega

theorem repT_plug {h : Heap α} {ctx : Ctx α} {t : Tree α} :
    RepT h (ctx.plug t) ↔ RepZ h ctx t := by
  unfold RepT RepZ
  rw [rep_plug, (addrs_plug ctx t).nodup_iff]
  tauto

theorem read_write_ne (h : Heap α) {a b : Nat} (n : Node α) (hne : b ≠ a) :
    (h.write a n).read b = h.read b := by
  unfold Heap.read Heap.write
  have : a ≠ b := fun e => hne e.symm
  simp [List.getElem?_set, this]

theorem read_write_self (h : Heap α) {a : Nat} (n : Node α) (hlt : a < h.length) :
    (h.write a n).read a = some n := by
  rw [read_write h a a n hlt]; simp

theorem Rep.frame {h h' : Heap α} : ∀ {t : Tree α} {par : Ptr},
    (∀ a ∈ t.addrs, h'.read a = h.read a) → Rep h t par → Rep h' t par
  | Tree.nil, _, _, _ => trivial
  | Tree.node l a c d r, par, hf, ⟨h1, h2, h3⟩ => by
    refine ⟨?_, Rep.frame (fun x hx => hf x ?_) h2, Rep.frame (fun x hx => hf x ?_) h3⟩
    · rw [hf a (by simp [Tree.addrs])]; exact h1
    · simp [Tree.addrs, hx]
    · simp [Tree.addrs, hx]

theorem RepCtx.path_frame {h h' : Heap α} : ∀ {ctx : Ctx α} {child : Ptr},
    (∀ a ∈ ctx.addrs, h'.read a = h.read a) → RepCtx h ctx child → RepCtx h' ctx child
  | Ctx.top, _, _, _ => trivial
  | Ctx.left up a c d r, child, hf, ⟨h1, h2, h3⟩ => by
    refine ⟨?_, Rep.frame (fun x hx => hf x ?_) h2, RepCtx.path_frame (fun x hx => hf x ?_) h3⟩
    · rw [hf a (by simp [Ctx.addrs])]; exact h1
    · simp [Ctx.addrs, hx]
    · simp [Ctx.addrs, hx]
  | Ctx.right l a c d up, child, hf, ⟨h1, h2, h3⟩ => by
    refine ⟨?_, Rep.frame (fun x hx => hf x ?_) h2, RepCtx.path_frame (fun x hx => hf x ?_) h3⟩
    · rw [hf a (by simp [Ctx.addrs])]; exact h1
    · simp [Ctx.addrs, hx]
    · simp [Ctx.addrs, hx]

theorem Tree.ptr_mem {t : Tree α} {a : Nat} (e : t.ptr = some a) : a ∈ t.addrs := by
  cases t with
  | nil => simp at e
  | node l x c d r => simp at e; subst e; simp [Tree.addrs]

theorem Ctx.addr_mem {ctx : Ctx α} {a : Nat} (e : ctx.addr = some a) : a ∈ ctx.addrs := by
  cases ctx with
  | top => simp [Ctx.addr] at e
  | left up x c d r => simp [Ctx.addr] at e; subst e; simp [Ctx.addrs]
  | right l x c d up => simp [Ctx.addr] at e; subst e; simp [Ctx.addrs]

theorem Tree.ptr_ne {t : Tree α} {a : Nat} (hn : a ∉ t.addrs) : t.ptr ≠ some a :=
  fun e => hn (Tree.ptr_mem e)

theorem Ctx.addr_ne {ctx : Ctx α} {a : Nat} (hn : a ∉ ctx.addrs) : ctx.addr ≠ some a :=
  fun e => hn (Ctx.addr_mem e)

/-- Reading the node in focus. -/
theorem RepT.read_focus {h : Heap α} {K : Ctx α} {l r : Tree α} {a : Nat} {c : Color}
    {d : α} (hr : RepT h (K.plug (Tree.node l a c d r))) :
    h.read a = some ⟨d, c, l.ptr, r.ptr, K.addr⟩ :=
  (repT_plug.1 hr).2.1.1

theorem nd_count {L : List Nat} (hnd : L.Nodup) (x : Nat) : L.count x ≤ 1 :=
  List.nodup_iff_count_le_one.1 hnd x

theorem mem_count {l : List Nat} {x : Nat} (h : x ∈ l) : 1 ≤ l.count x :=
  List.count_pos_iff.2 h

theorem Tree.ptr_count {t : Tree α} {a : Nat} (e : t.ptr = some a) : 1 ≤ t.addrs.count a :=
  mem_count (Tree.ptr_mem e)

theorem Ctx.addr_count {ctx : Ctx α} {a : Nat} (e : ctx.addr = some a) :
    1 ≤ ctx.addrs.count a :=
  mem_count (Ctx.addr_mem e)

/-- Replacing the cell of the node in focus, keeping its links. -/
theorem RepT.write_focus {h : Heap α} {ctx : Ctx α} {l r : Tree α} {a : Nat} {c : Color}
    {d : α} (hr : RepT h (ctx.plug (Tree.node l a c d r))) (c' : Color) (d' : α) :
    RepT (h.write a ⟨d', c', l.ptr, r.ptr, ctx.addr⟩) (ctx.plug (Tree.node l a c' d' r)) := by
  obtain ⟨h1, ⟨h2, h3, h4⟩, hnd⟩ := repT_plug.1 hr
  have hlt := read_lt h2
  have hc := nd_count hnd a
  simp only [Tree.addrs, List.count_append, List.count_cons, beq_self_eq_true, if_true] at hc
  refine repT_plug.2 ⟨?_, ⟨read_write_self _ _ hlt, ?_, ?_⟩, ?_⟩
  · refine RepCtx.path_frame (fun x hx => read_write_ne _ _ ?_) h1
    rintro rfl
    have := mem_count hx
    omega
  · refine Rep.frame (fun x hx => read_write_ne _ _ ?_) h3
    rintro rfl
    have := mem_count hx
    omega
  · refine Rep.frame (fun x hx => read_write_ne _ _ ?_) h4
    rintro rfl
    have := mem_count hx
    omega
  · simpa [Tree.addrs] using hnd

theorem RepT.setColor_focus {h : Heap α} {K : Ctx α} {l r : Tree α} {a : Nat} {c : Color}
    {d : α} (hr : RepT h (K.plug (Tree.node l a c d r))) (c' : Color) :
    ∃ h', setColor h (some a) c' = some h' ∧ RepT h' (K.plug (Tree.node l a c' d r)) :=
  ⟨_, by simp [setColor, hr.read_focus], hr.write_focus c' d⟩

theorem RepT.setData_focus {h : Heap α} {ctx : Ctx α} {l r : Tree α} {a : Nat} {c : Color}
    {d : α} (hr : RepT h (ctx.plug (Tree.node l a c d r))) (d' : α) :
    ∃ h', setData h (some a) d' = some h' ∧ RepT h' (ctx.plug (Tree.node l a c d' r)) :=
  ⟨_, by simp [setData, hr.read_focus], hr.write_focus c d'⟩

theorem Rep.write_frame {h : Heap α} {t : Tree α} {par : Ptr} {a : Nat} (n : Node α)
    (ha : t.addrs.count a = 0) : Rep (h.write a n) t par ↔ Rep h t par := by
  have hn : a ∉ t.addrs := List.count_eq_zero.1 ha
  constructor
  · exact Rep.frame (fun x hx => (read_write_ne h n (fun e => hn (by rw [← e]; exact hx))).symm)
  · exact Rep.frame (fun x hx => read_write_ne h n (fun e => hn (by rw [← e]; exact hx)))

theorem RepCtx.path_write_frame {h : Heap α} {ctx : Ctx α} {p : Ptr} {a : Nat} (n : Node α)
    (ha : ctx.addrs.count a = 0) : RepCtx (h.write a n) ctx p ↔ RepCtx h ctx p := by
  have hn : a ∉ ctx.addrs := List.count_eq_zero.1 ha
  constructor
  · exact RepCtx.path_frame (fun x hx => (read_write_ne h n (fun e => hn (by rw [← e]; exact hx))).symm)
  · exact RepCtx.path_frame (fun x hx => read_write_ne h n (fun e => hn (by rw [← e]; exact hx)))

theorem Tree.ptr_ne_count {t : Tree α} {a : Nat} (ha : t.addrs.count a = 0) :
    (t.ptr = some a) = False := by
  have hn : a ∉ t.addrs := List.count_eq_zero.1 ha
  simp only [eq_iff_iff, iff_false]
  exact Tree.ptr_ne hn

theorem Tree.ptr_ne_count' {t : Tree α} {a : Nat} (ha : t.addrs.count a = 0) :
    (some a = t.ptr) = False := by
  have := Tree.ptr_ne_count ha
  simp only [eq_iff_iff, iff_false] at this ⊢
  exact fun e => this e.symm

theorem some_ne_of_ne {a b : Nat} (hne : a ≠ b) : ((some a : Ptr) = some b) = False := by
  simp [hne]

theorem read_write_self' (h : Heap α) {a : Nat} (n : Node α) (hlt : a < h.length) :
    (h.write a n).read a = some n := read_write_self h n hlt

theorem read_write_ne' (h : Heap α) {a b : Nat} (n : Node α) (hne : b ≠ a) :
    (h.write a n).read b = h.read b := read_write_ne h n hne

theorem RepT.leftRotation_focus {h : Heap α} {K : Ctx α} {l rl rr : Tree α} {n r : Nat}
    {c rc : Color} {d rd : α}
    (hr : RepT h (K.plug (Tree.node l n c d (Tree.node rl r rc rd rr)))) :
    ∃ h', leftRotation h (some n) = some h' ∧
      RepT h' (K.plug (Tree.node (Tree.node l n c d rl) r rc rd rr)) := by
  obtain ⟨hctx, ⟨hn, hl, ⟨hrn, hrl, hrr⟩⟩, hnd⟩ := repT_plug.1 hr
  have hnlt := read_lt hn
  have hrlt := read_lt hrn
  have hperm : (K.addrs ++ (Tree.node (Tree.node l n c d rl) r rc rd rr).addrs).Perm
      (K.addrs ++ (Tree.node l n c d (Tree.node rl r rc rd rr)).addrs) := by
    simp [Tree.addrs]
  cases rl with
  | nil =>
    cases K with
    | top =>
      have cn := nd_count hnd n
      have cr := nd_count hnd r
      simp only [Tree.addrs, Ctx.addrs, List.count_append, List.count_cons, beq_iff_eq,
        if_true, List.count_nil] at cn cr
      have h_n_r : n ≠ r := by rintro rfl; simp at cn; omega
      refine ⟨_, by
        simp only [leftRotation, deref, setRight, setParent, setLeft, hn, hrn, read_write, Ctx.addr, hnlt, hrlt, h_n_r, h_n_r.symm, Option.bind_eq_bind, Option.some_bind, Option.pure_def, Tree.ptr_node, Tree.ptr_nil, if_false, if_true, reduceCtorEq, decide_False, decide_True, ne_eq, not_true_eq_false, not_false_eq_true, Bool.false_eq_true, one_ne_zero, Option.some.injEq, length_write, Node.mk.injEq, Option.map_some']
        rfl, ?_⟩
      refine repT_plug.2 ⟨?_, ?_, hperm.nodup_iff.2 hnd⟩
      · trivial
      · simp only [Rep, RepCtx]
        simp (disch := omega) only [Rep.write_frame, RepCtx.path_write_frame]
        simp only [read_write, Ctx.addr, hnlt, hrlt, h_n_r, h_n_r.symm, hl, hrr, Option.bind_eq_bind, Option.some_bind, Option.pure_def, Tree.ptr_node, Tree.ptr_nil, if_false, if_true, reduceCtorEq, decide_False, decide_True, ne_eq, not_true_eq_false, not_false_eq_true, Bool.false_eq_true, one_ne_zero, Option.some.injEq, length_write, Node.mk.injEq, Option.map_some', and_self, and_true, true_and]
    | left up pa pc pd pr =>
      obtain ⟨hpa, hps, hup⟩ := hctx
      have hplt := read_lt hpa
      have cn := nd_count hnd n
      have cr := nd_count hnd r
      have cpa := nd_count hnd pa
      simp only [Tree.addrs, Ctx.addrs, List.count_append, List.count_cons, beq_iff_eq,
        if_true, List.count_nil] at cn cr cpa
      have h_n_r : n ≠ r := by rintro rfl; simp at cn; omega
      have h_n_pa : n ≠ pa := by rintro rfl; simp at cn; omega
      have h_r_pa : r ≠ pa := by rintro rfl; simp at cr; omega
      refine ⟨_, by
        simp only [leftRotation, deref, setRight, setParent, setLeft, hn, hrn, hpa, read_write, Ctx.addr, hnlt, hrlt, hplt, h_n_r, h_n_r.symm, h_n_pa, h_n_pa.symm, h_r_pa, h_r_pa.symm, Option.bind_eq_bind, Option.some_bind, Option.pure_def, Tree.ptr_node, Tree.ptr_nil, if_false, if_true, reduceCtorEq, decide_False, decide_True, ne_eq, not_true_eq_false, not_false_eq_true, Bool.false_eq_true, one_ne_zero, Option.some.injEq, length_write, Node.mk.injEq, Option.map_some']
        rfl, ?_⟩
      refine repT_plug.2 ⟨?_, ?_, hperm.nodup_iff.2 hnd⟩
      · simp only [Rep, RepCtx]
        simp (disch := omega) only [Rep.write_frame, RepCtx.path_write_frame]
        simp only [read_write, Ctx.addr, hnlt, hrlt, hplt, h_n_r, h_n_r.symm, h_n_pa, h_n_pa.symm, h_r_pa, h_r_pa.symm, hl, hrr, hps, hup, Option.bind_eq_bind, Option.some_bind, Option.pure_def, Tree.ptr_node, Tree.ptr_nil, if_false, if_true, reduceCtorEq, decide_False, decide_True, ne_eq, not_true_eq_false, not_false_eq_true, Bool.false_eq_true, one_ne_zero, Option.some.injEq, length_write, Node.mk.injEq, Option.map_some', and_self, and_true, true_and]
      · simp only [Rep, RepCtx]
        simp (disch := omega) only [Rep.write_frame, RepCtx.path_write_frame]
        simp only [read_write, Ctx.addr, hnlt, hrlt, hplt, h_n_r, h_n_r.symm, h_n_pa, h_n_pa.symm, h_r_pa, h_r_pa.symm, hl, hrr, hps, hup, Option.bind_eq_bind, Option.some_bind, Option.pure_def, Tree.ptr_node, Tree.ptr_nil, if_false, if_true, reduceCtorEq, decide_False, decide_True, ne_eq, not_true_eq_false, not_false_eq_true, Bool.false_eq_true, one_ne_zero, Option.some.injEq, length_write, Node.mk.injEq, Option.map_some', and_self, and_true, true_and]
    | right pl pa pc pd up =>
      obtain ⟨hpa, hps, hup⟩ := hctx
      have hplt := read_lt hpa
      have cn := nd_count hnd n
      have cr := nd_count hnd r
      have cpa := nd_count hnd pa
      simp only [Tree.addrs, Ctx.addrs, List.count_append, List.count_cons, beq_iff_eq,
        if_true, List.count_nil] at cn cr cpa
      have h_n_r : n ≠ r := by rintro rfl; simp at cn; omega
      have h_n_pa : n ≠ pa := by rintro rfl; simp at cn; omega
      have h_r_pa : r ≠ pa := by rintro rfl; simp at cr; omega
      refine ⟨_, by
        simp only [leftRotation, deref, setRight, setParent, setLeft, hn, hrn, hpa, read_write, Ctx.addr, hnlt, hrlt, hplt, h_n_r, h_n_r.symm, h_n_pa, h_n_pa.symm, h_r_pa, h_r_pa.symm, Option.bind_eq_bind, Option.some_bind, Option.pure_def, Tree.ptr_node, Tree.ptr_nil, if_false, if_true, reduceCtorEq, decide_False, decide_True, ne_eq, not_true_eq_false, not_false_eq_true, Bool.false_eq_true, one_ne_zero, Option.some.injEq, length_write, Node.mk.injEq, Option.map_some']
        simp (disch := omega) only [Tree.ptr_ne_count, if_false]
        rfl, ?_⟩
      refine repT_plug.2 ⟨?_, ?_, hperm.nodup_iff.2 hnd⟩
      · simp only [Rep, RepCtx]
        simp (disch := omega) only [Rep.write_frame, RepCtx.path_write_frame]
        simp only [read_write, Ctx.addr, hnlt, hrlt, hplt, h_n_r, h_n_r.symm, h_n_pa, h_n_pa.symm, h_r_pa, h_r_pa.symm, hl, hrr, hps, hup, Option.bind_eq_bind, Option.some_bind, Option.pure_def, Tree.ptr_node, Tree.ptr_nil, if_false, if_true, reduceCtorEq, decide_False, decide_True, ne_eq, not_true_eq_false, not_false_eq_true, Bool.false_eq_true, one_ne_zero, Option.some.injEq, length_write, Node.mk.injEq, Option.map_some', and_self, and_true, true_and]
      · simp only [Rep, RepCtx]
        simp (disch := omega) only [Rep.write_frame, RepCtx.path_write_frame]
        simp only [read_write, Ctx.addr, hnlt, hrlt, hplt, h_n_r, h_n_r.symm, h_n_pa, h_n_pa.symm, h_r_pa, h_r_pa.symm, hl, hrr, hps, hup, Option.bind_eq_bind, Option.some_bind, Option.pure_def, Tree.ptr_node, Tree.ptr_nil, if_false, if_true, reduceCtorEq, decide_False, decide_True, ne_eq, not_true_eq_false, not_false_eq_true, Bool.false_eq_true, one_ne_zero, Option.some.injEq, length_write, Node.mk.injEq, Option.map_some', and_self, and_true, true_and]
  | node gl g gc gd gr =>
    obtain ⟨hg, hgl, hgr⟩ := hrl
    have hglt := read_lt hg
    cases K with
    | top =>
      have cn := nd_count hnd n
      have cr := nd_count hnd r
      have cg := nd_count hnd g
      simp only [Tree.addrs, Ctx.addrs, List.count_append, List.count_cons, beq_iff_eq,
        if_true, List.count_nil] at cn cr cg
      have h_n_r : n ≠ r := by rintro rfl; simp at cn; omega
      have h_n_g : n ≠ g := by rintro rfl; simp at cn; omega
      have h_r_g : r ≠ g := by rintro rfl; simp at cr; omega
      refine ⟨_, by
        simp only [leftRotation, deref, setRight, setParent, setLeft, hn, hrn, hg, read_write, Ctx.addr, hnlt, hrlt, hglt, h_n_r, h_n_r.symm, h_n_g, h_n_g.symm, h_r_g, h_r_g.symm, Option.bind_eq_bind, Option.some_bind, Option.pure_def, Tree.ptr_node, Tree.ptr_nil, if_false, if_true, reduceCtorEq, decide_False, decide_True, ne_eq, not_true_eq_false, not_false_eq_true, Bool.false_eq_true, one_ne_zero, Option.some.injEq, length_write, Node.mk.injEq, Option.map_some']
        rfl, ?_⟩
      refine repT_plug.2 ⟨?_, ?_, hperm.nodup_iff.2 hnd⟩
      · trivial
      · simp only [Rep, RepCtx]
        simp (disch := omega) only [Rep.write_frame, RepCtx.path_write_frame]
        simp only [read_write, Ctx.addr, hnlt, hrlt, hglt, h_n_r, h_n_r.symm, h_n_g, h_n_g.symm, h_r_g, h_r_g.symm, hl, hrr, hgl, hgr, Option.bind_eq_bind, Option.some_bind, Option.pure_def, Tree.ptr_node, Tree.ptr_nil, if_false, if_true, reduceCtorEq, decide_False, decide_True, ne_eq, not_true_eq_false, not_false_eq_true, Bool.false_eq_true, one_ne_zero, Option.some.injEq, length_write, Node.mk.injEq, Option.map_some', and_self, and_true, true_and]
    | left up pa pc pd pr =>
      obtain ⟨hpa, hps, hup⟩ := hctx
      have hplt := read_lt hpa
      have cn := nd_count hnd n
      have cr := nd_count hnd r
      have cg := nd_count hnd g
      have cpa := nd_count hnd pa
      simp only [Tree.addrs, Ctx.addrs, List.count_append, List.count_cons, beq_iff_eq,
        if_true, List.count_nil] at cn cr cg cpa
      have h_n_r : n ≠ r := by rintro rfl; simp at cn; omega
      have h_n_g : n ≠ g := by rintro rfl; simp at cn; omega
      have h_n_pa : n ≠ pa := by rintro rfl; simp at cn; omega
      have h_r_g : r ≠ g := by rintro rfl; simp at cr; omega
      have h_r_pa : r ≠ pa := by rintro rfl; simp at cr; omega
      have h_g_pa : g ≠ pa := by rintro rfl; simp at cg; omega
      refine ⟨_, by
        simp only [leftRotation, deref, setRight, setParent, setLeft, hn, hrn, hg, hpa, read_write, Ctx.addr, hnlt, hrlt, hglt, hplt, h_n_r, h_n_r.symm, h_n_g, h_n_g.symm, h_n_pa, h_n_pa.symm, h_r_g, h_r_g.symm, h_r_pa, h_r_pa.symm, h_g_pa, h_g_pa.symm, Option.bind_eq_bind, Option.some_bind, Option.pure_def, Tree.ptr_node, Tree.ptr_nil, if_false, if_true, reduceCtorEq, decide_False, decide_True, ne_eq, not_true_eq_false, not_false_eq_true, Bool.false_eq_true, one_ne_zero, Option.some.injEq, length_write, Node.mk.injEq, Option.map_some']
        rfl, ?_⟩
      refine repT_plug.2 ⟨?_, ?_, hperm.nodup_iff.2 hnd⟩
      · simp only [Rep, RepCtx]
        simp (disch := omega) only [Rep.write_frame, RepCtx.path_write_frame]
        simp only [read_write, Ctx.addr, hnlt, hrlt, hglt, hplt, h_n_r, h_n_r.symm, h_n_g, h_n_g.symm, h_n_pa, h_n_pa.symm, h_r_g, h_r_g.symm, h_r_pa, h_r_pa.symm, h_g_pa, h_g_pa.symm, hl, hrr, hgl, hgr, hps, hup, Option.bind_eq_bind, Option.some_bind, Option.pure_def, Tree.ptr_node, Tree.ptr_nil, if_false, if_true, reduceCtorEq, decide_False, decide_True, ne_eq, not_true_eq_false, not_false_eq_true, Bool.false_eq_true, one_ne_zero, Option.some.injEq, length_write, Node.mk.injEq, Option.map_some', and_self, and_true, true_and]
      · simp only [Rep, RepCtx]
        simp (disch := omega) only [Rep.write_frame, RepCtx.path_write_frame]
        simp only [read_write, Ctx.addr, hnlt, hrlt, hglt, hplt, h_n_r, h_n_r.symm, h_n_g, h_n_g.symm, h_n_pa, h_n_pa.symm, h_r_g, h_r_g.symm, h_r_pa, h_r_pa.symm, h_g_pa, h_g_pa.symm, hl, hrr, hgl, hgr, hps, hup, Option.bind_eq_bind, Option.some_bind, Option.pure_def, Tree.ptr_node, Tree.ptr_nil, if_false, if_true, reduceCtorEq, decide_False, decide_True, ne_eq, not_true_eq_false, not_false_eq_true, Bool.false_eq_true, one_ne_zero, Option.some.injEq, length_write, Node.mk.injEq, Option.map_some', and_self, and_true, true_and]
    | right pl pa pc pd up =>
      obtain ⟨hpa, hps, hup⟩ := hctx
      have hplt := read_lt hpa
      have cn := nd_count hnd n
      have cr := nd_count hnd r
      have cg := nd_count hnd g
      have cpa := nd_count hnd pa
      simp only [Tree.addrs, Ctx.addrs, List.count_append, List.count_cons, beq_iff_eq,
        if_true, List.count_nil] at cn cr cg cpa
      have h_n_r : n ≠ r := by rintro rfl; simp at cn; omega
      have h_n_g : n ≠ g := by rintro rfl; simp at cn; omega
      have h_n_pa : n ≠ pa := by rintro rfl; simp at cn; omega
      have h_r_g : r ≠ g := by rintro rfl; simp at cr; omega
      have h_r_pa : r ≠ pa := by rintro rfl; simp at cr; omega
      have h_g_pa : g ≠ pa := by rintro rfl; simp at cg; omega
      refine ⟨_, by
        simp only [leftRotation, deref, setRight, setParent, setLeft, hn, hrn, hg, hpa, read_write, Ctx.addr, hnlt, hrlt, hglt, hplt, h_n_r, h_n_r.symm, h_n_g, h_n_g.symm, h_n_pa, h_n_pa.symm, h_r_g, h_r_g.symm, h_r_pa, h_r_pa.symm, h_g_pa, h_g_pa.symm, Option.bind_eq_bind, Option.some_bind, Option.pure_def, Tree.ptr_node, Tree.ptr_nil, if_false, if_true, reduceCtorEq, decide_False, decide_True, ne_eq, not_true_eq_false, not_false_eq_true, Bool.false_eq_true, one_ne_zero, Option.some.injEq, length_write, Node.mk.injEq, Option.map_some']
        simp (disch := omega) only [Tree.ptr_ne_count, if_false]
        rfl, ?_⟩
      refine repT_plug.2 ⟨?_, ?_, hperm.nodup_iff.2 hnd⟩
      · simp only [Rep, RepCtx]
        simp (disch := omega) only [Rep.write_frame, RepCtx.path_write_frame]
        simp only [read_write, Ctx.addr, hnlt, hrlt, hglt, hplt, h_n_r, h_n_r.symm, h_n_g, h_n_g.symm, h_n_pa, h_n_pa.symm, h_r_g, h_r_g.symm, h_r_pa, h_r_pa.symm, h_g_pa, h_g_pa.symm, hl, hrr, hgl, hgr, hps, hup, Option.bind_eq_bind, Option.some_bind, Option.pure_def, Tree.ptr_node, Tree.ptr_nil, if_false, if_true, reduceCtorEq, decide_False, decide_True, ne_eq, not_true_eq_false, not_false_eq_true, Bool.false_eq_true, one_ne_zero, Option.some.injEq, length_write, Node.mk.injEq, Option.map_some', and_self, and_true, true_and]
      · simp only [Rep, RepCtx]
        simp (disch := omega) only [Rep.write_frame, RepCtx.path_write_frame]
        simp only [read_write, Ctx.addr, hnlt, hrlt, hglt, hplt, h_n_r, h_n_r.symm, h_n_g, h_n_g.symm, h_n_pa, h_n_pa.symm, h_r_g, h_r_g.symm, h_r_pa, h_r_pa.symm, h_g_pa, h_g_pa.symm, hl, hrr, hgl, hgr, hps, hup, Option.bind_eq_bind, Option.some_bind, Option.pure_def, Tree.ptr_node, Tree.ptr_nil, if_false, if_true, reduceCtorEq, decide_False, decide_True, ne_eq, not_true_eq_false, not_false_eq_true, Bool.false_eq_true, one_ne_zero, Option.some.injEq, length_write, Node.mk.injEq, Option.map_some', and_self, and_true, true_and]

theorem RepT.rightRotation_focus {h : Heap α} {K : Ctx α} {l rl ll : Tree α} {n r : Nat}
    {c rc : Color} {d rd : α}
    (hr : RepT h (K.plug (Tree.node (Tree.node ll r rc rd rl) n c d l))) :
    ∃ h', rightRotation h (some n) = some h' ∧
      RepT h' (K.plug (Tree.node ll r rc rd (Tree.node rl n c d l))) := by
  obtain ⟨hctx, ⟨hn, ⟨hrn, hrr, hrl⟩, hl⟩, hnd⟩ := repT_plug.1 hr
  have hnlt := read_lt hn
  have hrlt := read_lt hrn
  have hperm : (K.addrs ++ (Tree.node ll r rc rd (Tree.node rl n c d l)).addrs).Perm
      (K.addrs ++ (Tree.node (Tree.node ll r rc rd rl) n c d l).addrs) := by
    simp [Tree.addrs]
  cases rl with
  | nil =>
    cases K with
    | top =>
      have cn := nd_count hnd n
      have cr := nd_count hnd r
      simp only [Tree.addrs, Ctx.addrs, List.count_append, List.count_cons, beq_iff_eq,
        if_true, List.count_nil] at cn cr
      have h_n_r : n ≠ r := by rintro rfl; simp at cn; omega
      refine ⟨_, by
        simp only [rightRotation, deref, setRight, setParent, setLeft, hn, hrn, read_write, Ctx.addr, hnlt, hrlt, h_n_r, h_n_r.symm, Option.bind_eq_bind, Option.some_bind, Option.pure_def, Tree.ptr_node, Tree.ptr_nil, if_false, if_true, reduceCtorEq, decide_False, decide_True, ne_eq, not_true_eq_false, not_false_eq_true, Bool.false_eq_true, one_ne_zero, Option.some.injEq, length_write, Node.mk.injEq, Option.map_some']
        rfl, ?_⟩
      refine repT_plug.2 ⟨?_, ?_, hperm.nodup_iff.2 hnd⟩
      · trivial
      · simp only [Rep, RepCtx]
        simp (disch := omega) only [Rep.write_frame, RepCtx.path_write_frame]
        simp only [read_write, Ctx.addr, hnlt, hrlt, h_n_r, h_n_r.symm, hl, hrr, Option.bind_eq_bind, Option.some_bind, Option.pure_def, Tree.ptr_node, Tree.ptr_nil, if_false, if_true, reduceCtorEq, decide_False, decide_True, ne_eq, not_true_eq_false, not_false_eq_true, Bool.false_eq_true, one_ne_zero, Option.some.injEq, length_write, Node.mk.injEq, Option.map_some', and_self, and_true, true_and]
    | left up pa pc pd pr =>
      obtain ⟨hpa, hps, hup⟩ := hctx
      have hplt := read_lt hpa
      have cn := nd_count hnd n
      have cr := nd_count hnd r
      have cpa := nd_count hnd pa
      simp only [Tree.addrs, Ctx.addrs, List.count_append, List.count_cons, beq_iff_eq,
        if_true, List.count_nil] at cn cr cpa
      have h_n_r : n ≠ r := by rintro rfl; simp at cn; omega
      have h_n_pa : n ≠ pa := by rintro rfl; simp at cn; omega
      have h_r_pa : r ≠ pa := by rintro rfl; simp at cr; omega
      refine ⟨_, by
        simp only [rightRotation, deref, setRight, setParent, setLeft, hn, hrn, hpa, read_write, Ctx.addr, hnlt, hrlt, hplt, h_n_r, h_n_r.symm, h_n_pa, h_n_pa.symm, h_r_pa, h_r_pa.symm, Option.bind_eq_bind, Option.some_bind, Option.pure_def, Tree.ptr_node, Tree.ptr_nil, if_false, if_true, reduceCtorEq, decide_False, decide_True, ne_eq, not_true_eq_false, not_false_eq_true, Bool.false_eq_true, one_ne_zero, Option.some.injEq, length_write, Node.mk.injEq, Option.map_some']
        rfl, ?_⟩
      refine repT_plug.2 ⟨?_, ?_, hperm.nodup_iff.2 hnd⟩
      · simp only [Rep, RepCtx]
        simp (disch := omega) only [Rep.write_frame, RepCtx.path_write_frame]
        simp only [read_write, Ctx.addr, hnlt, hrlt, hplt, h_n_r, h_n_r.symm, h_n_pa, h_n_pa.symm, h_r_pa, h_r_pa.symm, hl, hrr, hps, hup, Option.bind_eq_bind, Option.some_bind, Option.pure_def, Tree.ptr_node, Tree.ptr_nil, if_false, if_true, reduceCtorEq, decide_False, decide_True, ne_eq, not_true_eq_false, not_false_eq_true, Bool.false_eq_true, one_ne_zero, Option.some.injEq, length_write, Node.mk.injEq, Option.map_some', and_self, and_true, true_and]
      · simp only [Rep, RepCtx]
        simp (disch := omega) only [Rep.write_frame, RepCtx.path_write_frame]
        simp only [read_write, Ctx.addr, hnlt, hrlt, hplt, h_n_r, h_n_r.symm, h_n_pa, h_n_pa.symm, h_r_pa, h_r_pa.symm, hl, hrr, hps, hup, Option.bind_eq_bind, Option.some_bind, Option.pure_def, Tree.ptr_node, Tree.ptr_nil, if_false, if_true, reduceCtorEq, decide_False, decide_True, ne_eq, not_true_eq_false, not_false_eq_true, Bool.false_eq_true, one_ne_zero, Option.some.injEq, length_write, Node.mk.injEq, Option.map_some', and_self, and_true, true_and]
    | right pl pa pc pd up =>
      obtain ⟨hpa, hps, hup⟩ := hctx
      have hplt := read_lt hpa
      have cn := nd_count hnd n
      have cr := nd_count hnd r
      have cpa := nd_count hnd pa
      simp only [Tree.addrs, Ctx.addrs, List.count_append, List.count_cons, beq_iff_eq,
        if_true, List.count_nil] at cn cr cpa
      have h_n_r : n ≠ r := by rintro rfl; simp at cn; omega
      have h_n_pa : n ≠ pa := by rintro rfl; simp at cn; omega
      have h_r_pa : r ≠ pa := by rintro rfl; simp at cr; omega
      refine ⟨_, by
        simp only [rightRotation, deref, setRight, setParent, setLeft, hn, hrn, hpa, read_write, Ctx.addr, hnlt, hrlt, hplt, h_n_r, h_n_r.symm, h_n_pa, h_n_pa.symm, h_r_pa, h_r_pa.symm, Option.bind_eq_bind, Option.some_bind, Option.pure_def, Tree.ptr_node, Tree.ptr_nil, if_false, if_true, reduceCtorEq, decide_False, decide_True, ne_eq, not_true_eq_false, not_false_eq_true, Bool.false_eq_true, one_ne_zero, Option.some.injEq, length_write, Node.mk.injEq, Option.map_some']
        simp (disch := omega) only [Tree.ptr_ne_count, if_false]
        rfl, ?_⟩
      refine repT_plug.2 ⟨?_, ?_, hperm.nodup_iff.2 hnd⟩
      · simp only [Rep, RepCtx]
        simp (disch := omega) only [Rep.write_frame, RepCtx.path_write_frame]
        simp only [read_write, Ctx.addr, hnlt, hrlt, hplt, h_n_r, h_n_r.symm, h_n_pa, h_n_pa.symm, h_r_pa, h_r_pa.symm, hl, hrr, hps, hup, Option.bind_eq_bind, Option.some_bind, Option.pure_def, Tree.ptr_node, Tree.ptr_nil, if_false, if_true, reduceCtorEq, decide_False, decide_True, ne_eq, not_true_eq_false, not_false_eq_true, Bool.false_eq_true, one_ne_zero, Option.some.injEq, length_write, Node.mk.injEq, Option.map_some', and_self, and_true, true_and]
      · simp only [Rep, RepCtx]
        simp (disch := omega) only [Rep.write_frame, RepCtx.path_write_frame]
        simp only [read_write, Ctx.addr, hnlt, hrlt, hplt, h_n_r, h_n_r.symm, h_n_pa, h_n_pa.symm, h_r_pa, h_r_pa.symm, hl, hrr, hps, hup, Option.bind_eq_bind, Option.some_bind, Option.pure_def, Tree.ptr_node, Tree.ptr_nil, if_false, if_true, reduceCtorEq, decide_False, decide_True, ne_eq, not_true_eq_false, not_false_eq_true, Bool.false_eq_true, one_ne_zero, Option.some.injEq, length_write, Node.mk.injEq, Option.map_some', and_self, and_true, true_and]
  | node gl g gc gd gr =>
    obtain ⟨hg, hgl, hgr⟩ := hrl
    have hglt := read_lt hg
    cases K with
    | top =>
      have cn := nd_count hnd n
      have cr := nd_count hnd r
      have cg := nd_count hnd g
      simp only [Tree.addrs, Ctx.addrs, List.count_append, List.count_cons, beq_iff_eq,
        if_true, List.count_nil] at cn cr cg
      have h_n_r : n ≠ r := by rintro rfl; simp at cn; omega
      have h_n_g : n ≠ g := by rintro rfl; simp at cn; omega
      have h_r_g : r ≠ g := by rintro rfl; simp at cr; omega
      refine ⟨_, by
        simp only [rightRotation, deref, setRight, setParent, setLeft, hn, hrn, hg, read_write, Ctx.addr, hnlt, hrlt, hglt, h_n_r, h_n_r.symm, h_n_g, h_n_g.symm, h_r_g, h_r_g.symm, Option.bind_eq_bind, Option.some_bind, Option.pure_def, Tree.ptr_node, Tree.ptr_nil, if_false, if_true, reduceCtorEq, decide_False, decide_True, ne_eq, not_true_eq_false, not_false_eq_true, Bool.false_eq_true, one_ne_zero, Option.some.injEq, length_write, Node.mk.injEq, Option.map_some']
        rfl, ?_⟩
      refine repT_plug.2 ⟨?_, ?_, hperm.nodup_iff.2 hnd⟩
      · trivial
      · simp only [Rep, RepCtx]
        simp (disch := omega) only [Rep.write_frame, RepCtx.path_write_frame]
        simp only [read_write, Ctx.addr, hnlt, hrlt, hglt, h_n_r, h_n_r.symm, h_n_g, h_n_g.symm, h_r_g, h_r_g.symm, hl, hrr, hgl, hgr, Option.bind_eq_bind, Option.some_bind, Option.pure_def, Tree.ptr_node, Tree.ptr_nil, if_false, if_true, reduceCtorEq, decide_False, decide_True, ne_eq, not_true_eq_false, not_false_eq_true, Bool.false_eq_true, one_ne_zero, Option.some.injEq, length_write, Node.mk.injEq, Option.map_some', and_self, and_true, true_and]
    | left up pa pc pd pr =>
      obtain ⟨hpa, hps, hup⟩ := hctx
      have hplt := read_lt hpa
      have cn := nd_count hnd n
      have cr := nd_count hnd r
      have cg := nd_count hnd g
      have cpa := nd_count hnd pa
      simp only [Tree.addrs, Ctx.addrs, List.count_append, List.count_cons, beq_iff_eq,
        if_true, List.count_nil] at cn cr cg cpa
      have h_n_r : n ≠ r := by rintro rfl; simp at cn; omega
      have h_n_g : n ≠ g := by rintro rfl; simp at cn; omega
      have h_n_pa : n ≠ pa := by rintro rfl; simp at cn; omega
      have h_r_g : r ≠ g := by rintro rfl; simp at cr; omega
      have h_r_pa : r ≠ pa := by rintro rfl; simp at cr; omega
      have h_g_pa : g ≠ pa := by rintro rfl; simp at cg; omega
      refine ⟨_, by
        simp only [rightRotation, deref, setRight, setParent, setLeft, hn, hrn, hg, hpa, read_write, Ctx.addr, hnlt, hrlt, hglt, hplt, h_n_r, h_n_r.symm, h_n_g, h_n_g.symm, h_n_pa, h_n_pa.symm, h_r_g, h_r_g.symm, h_r_pa, h_r_pa.symm, h_g_pa, h_g_pa.symm, Option.bind_eq_bind, Option.some_bind, Option.pure_def, Tree.ptr_node, Tree.ptr_nil, if_false, if_true, reduceCtorEq, decide_False, decide_True, ne_eq, not_true_eq_false, not_false_eq_true, Bool.false_eq_true, one_ne_zero, Option.some.injEq, length_write, Node.mk.injEq, Option.map_some']
        rfl, ?_⟩
      refine repT_plug.2 ⟨?_, ?_, hperm.nodup_iff.2 hnd⟩
      · simp only [Rep, RepCtx]
        simp (disch := omega) only [Rep.write_frame, RepCtx.path_write_frame]
        simp only [read_write, Ctx.addr, hnlt, hrlt, hglt, hplt, h_n_r, h_n_r.symm, h_n_g, h_n_g.symm, h_n_pa, h_n_pa.symm, h_r_g, h_r_g.symm, h_r_pa, h_r_pa.symm, h_g_pa, h_g_pa.symm, hl, hrr, hgl, hgr, hps, hup, Option.bind_eq_bind, Option.some_bind, Option.pure_def, Tree.ptr_node, Tree.ptr_nil, if_false, if_true, reduceCtorEq, decide_False, decide_True, ne_eq, not_true_eq_false, not_false_eq_true, Bool.false_eq_true, one_ne_zero, Option.some.injEq, length_write, Node.mk.injEq, Option.map_some', and_self, and_true, true_and]
      · simp only [Rep, RepCtx]
        simp (disch := omega) only [Rep.write_frame, RepCtx.path_write_frame]
        simp only [read_write, Ctx.addr, hnlt, hrlt, hglt, hplt, h_n_r, h_n_r.symm, h_n_g, h_n_g.symm, h_n_pa, h_n_pa.symm, h_r_g, h_r_g.symm, h_r_pa, h_r_pa.symm, h_g_pa, h_g_pa.symm, hl, hrr, hgl, hgr, hps, hup, Option.bind_eq_bind, Option.some_bind, Option.pure_def, Tree.ptr_node, Tree.ptr_nil, if_false, if_true, reduceCtorEq, decide_False, decide_True, ne_eq, not_true_eq_false, not_false_eq_true, Bool.false_eq_true, one_ne_zero, Option.some.injEq, length_write, Node.mk.injEq, Option.map_some', and_self, and_true, true_and]
    | right pl pa pc pd up =>
      obtain ⟨hpa, hps, hup⟩ := hctx
      have hplt := read_lt hpa
      have cn := nd_count hnd n
      have cr := nd_count hnd r
      have cg := nd_count hnd g
      have cpa := nd_count hnd pa
      simp only [Tree.addrs, Ctx.addrs, List.count_append, List.count_cons, beq_iff_eq,
        if_true, List.count_nil] at cn cr cg cpa
      have h_n_r : n ≠ r := by rintro rfl; simp at cn; omega
      have h_n_g : n ≠ g := by rintro rfl; simp at cn; omega
      have h_n_pa : n ≠ pa := by rintro rfl; simp at cn; omega
      have h_r_g : r ≠ g := by rintro rfl; simp at cr; omega
      have h_r_pa : r ≠ pa := by rintro rfl; simp at cr; omega
      have h_g_pa : g ≠ pa := by rintro rfl; simp at cg; omega
      refine ⟨_, by
        simp only [rightRotation, deref, setRight, setParent, setLeft, hn, hrn, hg, hpa, read_write, Ctx.addr, hnlt, hrlt, hglt, hplt, h_n_r, h_n_r.symm, h_n_g, h_n_g.symm, h_n_pa, h_n_pa.symm, h_r_g, h_r_g.symm, h_r_pa, h_r_pa.symm, h_g_pa, h_g_pa.symm, Option.bind_eq_bind, Option.some_bind, Option.pure_def, Tree.ptr_node, Tree.ptr_nil, if_false, if_true, reduceCtorEq, decide_False, decide_True, ne_eq, not_true_eq_false, not_false_eq_true, Bool.false_eq_true, one_ne_zero, Option.some.injEq, length_write, Node.mk.injEq, Option.map_some']
        simp (disch := omega) only [Tree.ptr_ne_count, if_false]
        rfl, ?_⟩
      refine repT_plug.2 ⟨?_, ?_, hperm.nodup_iff.2 hnd⟩
      · simp only [Rep, RepCtx]
        simp (disch := omega) only [Rep.write_frame, RepCtx.path_write_frame]
        simp only [read_write, Ctx.addr, hnlt, hrlt, hglt, hplt, h_n_r, h_n_r.symm, h_n_g, h_n_g.symm, h_n_pa, h_n_pa.symm, h_r_g, h_r_g.symm, h_r_pa, h_r_pa.symm, h_g_pa, h_g_pa.symm, hl, hrr, hgl, hgr, hps, hup, Option.bind_eq_bind, Option.some_bind, Option.pure_def, Tree.ptr_node, Tree.ptr_nil, if_false, if_true, reduceCtorEq, decide_False, decide_True, ne_eq, not_true_eq_false, not_false_eq_true, Bool.false_eq_true, one_ne_zero, Option.some.injEq, length_write, Node.mk.injEq, Option.map_some', and_self, and_true, true_and]
      · simp only [Rep, RepCtx]
        simp (disch := omega) only [Rep.write_frame, RepCtx.path_write_frame]
        simp only [read_write, Ctx.addr, hnlt, hrlt, hglt, hplt, h_n_r, h_n_r.symm, h_n_g, h_n_g.symm, h_n_pa, h_n_pa.symm, h_r_g, h_r_g.symm, h_r_pa, h_r_pa.symm, h_g_pa, h_g_pa.symm, hl, hrr, hgl, hgr, hps, hup, Option.bind_eq_bind, Option.some_bind, Option.pure_def, Tree.ptr_node, Tree.ptr_nil, if_false, if_true, reduceCtorEq, decide_False, decide_True, ne_eq, not_true_eq_false, not_false_eq_true, Bool.false_eq_true, one_ne_zero, Option.some.injEq, length_write, Node.mk.injEq, Option.map_some', and_self, and_true, true_and]

theorem RepT.rep_focus {h : Heap α} {K : Ctx α} {t : Tree α} (hr : RepT h (K.plug t)) :
    Rep h t K.addr :=
  (repT_plug.1 hr).2.1

theorem RepT.nodup_focus {h : Heap α} {K : Ctx α} {t : Tree α} (hr : RepT h (K.plug t)) :
    (K.addrs ++ t.addrs).Nodup :=
  (repT_plug.1 hr).2.2

theorem RepT.isRed_focus {h : Heap α} {K : Ctx α} {t : Tree α} (hr : RepT h (K.plug t)) :
    isRed h t.ptr = some (decide (t.rootColor = Color.RED)) := by
  cases t with
  | nil => simp [isRed]
  | node l a c d r => simp [isRed, deref, hr.read_focus]

theorem RepT.isNullOrBlack_focus {h : Heap α} {K : Ctx α} {t : Tree α}
    (hr : RepT h (K.plug t)) :
    isNullOrBlack h t.ptr = some (decide (t.rootColor = Color.BLACK)) := by
  cases t with
  | nil => simp [isNullOrBlack]
  | node l a c d r => simp [isNullOrBlack, deref, hr.read_focus]

theorem leftIs_false {h : Heap α} {u : Tree α} {par : Ptr} (hr : Rep h u par) {n : Nat}
    (hc : u.addrs.count n = 0) : leftIs h u.ptr (some n) = some false := by
  cases u with
  | nil => simp [leftIs]
  | node l a c d r =>
    simp only [Tree.addrs, List.count_append, List.count_cons] at hc
    have : l.addrs.count n = 0 := by omega
    simp [leftIs, deref, hr.1, Tree.ptr_ne_count this]

theorem rightIs_false {h : Heap α} {u : Tree α} {par : Ptr} (hr : Rep h u par) {n : Nat}
    (hc : u.addrs.count n = 0) : rightIs h u.ptr (some n) = some false := by
  cases u with
  | nil => simp [rightIs]
  | node l a c d r =>
    simp only [Tree.addrs, List.count_append, List.count_cons] at hc
    have : r.addrs.count n = 0 := by omega
    simp [rightIs, deref, hr.1, Tree.ptr_ne_count this]

theorem RepT.setColor_tree {h : Heap α} {K : Ctx α} {t : Tree α} (hr : RepT h (K.plug t))
    (hne : t.ptr ≠ none) (k : Color) :
    ∃ h', setColor h t.ptr k = some h' ∧ RepT h' (K.plug (t.setColor k)) := by
  cases t with
  | nil => simp at hne
  | node l a c d r => exact hr.setColor_focus k

set_option maxHeartbeats 4000000 in
theorem repairRBTree_refines : ∀ (fuel : Nat) (h : Heap α) (ctx : Ctx α) (t T' : Tree α),
    RepT h (ctx.plug t) → repairT fuel ctx t = some T' →
      ∃ h', repairRBTree fuel h t.ptr = some h' ∧ RepT h' T'
  | 0, _, _, _, _, _, e => by simp [repairT] at e
  | fuel + 1, h, ctx, Tree.nil, T', _, e => by simp [repairT] at e
  | fuel + 1, h, Ctx.top, Tree.node l n c d r, T', hr, e => by
    simp only [repairT, Option.some.injEq] at e
    subst e
    have hn := hr.read_focus
    obtain ⟨h', e1, r1⟩ := hr.setColor_focus Color.BLACK
    exact ⟨h', by simpa [repairRBTree, deref, hn, Ctx.addr] using e1, r1⟩
  | fuel + 1, h, Ctx.left up p Color.BLACK pd pr, Tree.node l n c d r, T', hr, e => by
    simp only [repairT, Option.some.injEq] at e
    subst e
    have hn := hr.read_focus
    have hp := RepT.read_focus (K := up) hr
    exact ⟨h, by simp [repairRBTree, deref, hn, hp, Ctx.addr], hr⟩
  | fuel + 1, h, Ctx.right pl p Color.BLACK pd up, Tree.node l n c d r, T', hr, e => by
    simp only [repairT, Option.some.injEq] at e
    subst e
    have hn := hr.read_focus
    have hp := RepT.read_focus (K := up) hr
    exact ⟨h, by simp [repairRBTree, deref, hn, hp, Ctx.addr], hr⟩
  | fuel + 1, h, Ctx.left Ctx.top _ Color.RED _ _, Tree.node _ _ _ _ _, T', _, e => by
    simp [repairT] at e
  | fuel + 1, h, Ctx.right _ _ Color.RED _ Ctx.top, Tree.node _ _ _ _ _, T', _, e => by
    simp [repairT] at e
  | fuel + 1, h, Ctx.left (Ctx.left up g gc gd u) p Color.RED pd pr, Tree.node l n c d r, T',
      hr, e => by
    have hn := hr.read_focus
    have hp := RepT.read_focus (K := Ctx.left up g gc gd u) hr
    have hg := RepT.read_focus (K := up) hr
    have hu := RepT.isRed_focus (K := Ctx.right _ g gc gd up) (t := u) hr
    have hnd := (repT_plug.1 hr).2.2
    have cn := nd_count hnd n
    have cp := nd_count hnd p
    have cg := nd_count hnd g
    simp only [Tree.addrs, Ctx.addrs, List.count_append, List.count_cons, beq_iff_eq,
      if_true, List.count_nil] at cn cp cg
    have hup : u.ptr ≠ some p := by
      have : u.addrs.count p = 0 := by omega
      simpa using Tree.ptr_ne_count this
    simp only [repairT] at e
    by_cases hur : u.rootColor = Color.RED
    · simp only [hur, if_true] at e
      have hune : u.ptr ≠ none := by
        cases u with
        | nil => simp at hur
        | node _ _ _ _ _ => simp
      obtain ⟨h1, e1, r1⟩ := RepT.setColor_focus (K := Ctx.left up g gc gd u) hr Color.BLACK
      obtain ⟨h2, e2, r2⟩ := RepT.setColor_tree (K := Ctx.right _ g gc gd up) (t := u) r1
        hune Color.BLACK
      obtain ⟨h3, e3, r3⟩ := RepT.setColor_focus (K := up) r2 Color.RED
      obtain ⟨h', e4, r4⟩ := repairRBTree_refines fuel h3 up _ T' r3 e
      refine ⟨h', ?_, r4⟩
      simp only [repairRBTree, deref, hn, hp, hg, hu, hur, hup, hup.symm, e1, e2, e3,
        Option.bind_eq_bind, Option.some_bind, Option.pure_def, Tree.ptr_node, Tree.ptr_nil,
        if_false, if_true, reduceCtorEq, decide_False, decide_True, ne_eq, not_true_eq_false,
        not_false_eq_true, Bool.false_eq_true, one_ne_zero, Option.some.injEq, Ctx.addr]
      exact e4
    · simp only [hur, if_false, Option.some.injEq] at e
      subst e
      have hpr : pr.addrs.count n = 0 := by omega
      have hun : u.addrs.count n = 0 := by omega
      have hu0 := RepT.rep_focus (K := Ctx.right _ g gc gd up) (t := u) hr
      obtain ⟨h1, e1, r1⟩ := RepT.rightRotation_focus (K := up) hr
      have hg1 := RepT.read_focus (K := Ctx.right _ p Color.RED pd up) r1
      have hu1 := RepT.rep_focus (K := Ctx.right _ g gc gd (Ctx.right _ p Color.RED pd up))
        (t := u) r1
      obtain ⟨h2, e2, r2⟩ := RepT.setColor_focus (K := up) r1 Color.BLACK
      obtain ⟨h3, e3, r3⟩ := RepT.setColor_focus (K := Ctx.right _ p Color.BLACK pd up) r2
        Color.RED
      have t1 : rightIs h (some p) (some n) = some false := by
        simp [rightIs, deref, hp, Tree.ptr_ne_count hpr]
      have t2 : leftIs h (some p) (some n) = some true := by simp [leftIs, deref, hp]
      refine ⟨h3, ?_, r3⟩
      simp only [repairRBTree, chain, deref, hn, hp, hg, hu, hur, hup, hup.symm,
        t1, t2, leftIs_false hu0 hun, e1, hg1, rightIs_false hu1 hun, e2, e3,
        Option.bind_eq_bind, Option.some_bind, Option.pure_def, Tree.ptr_node, Tree.ptr_nil,
        if_false, if_true, reduceCtorEq, decide_False, decide_True, ne_eq, not_true_eq_false,
        not_false_eq_true, Bool.false_eq_true, one_ne_zero, Option.some.injEq, Ctx.addr]
  | fuel + 1, h, Ctx.right pl p Color.RED pd (Ctx.left up g gc gd u), Tree.node l n c d r, T',
      hr, e => by
    have hp := RepT.read_focus (K := Ctx.left up g gc gd u) hr
    have hu := RepT.isRed_focus (K := Ctx.right _ g gc gd up) (t := u) hr
    have hn := hr.read_focus
    have hg := RepT.read_focus (K := up) hr
    have hnd := hr.nodup_focus
    have cn := nd_count hnd n
    have cp := nd_count hnd p
    have cg := nd_count hnd g
    simp only [Tree.addrs, Ctx.addrs, List.count_append, List.count_cons, beq_iff_eq,
      if_true, List.count_nil] at cn cp cg
    have hup : u.ptr ≠ some p := by
      have : u.addrs.count p = 0 := by omega
      simpa using Tree.ptr_ne_count this
    have hun : u.addrs.count n = 0 := by omega
    have hupc : u.addrs.count p = 0 := by omega
    simp only [repairT] at e
    by_cases hur : u.rootColor = Color.RED
    · simp only [hur, if_true] at e
      have hune : u.ptr ≠ none := by
        cases u with
        | nil => simp at hur
        | node _ _ _ _ _ => simp
      obtain ⟨h1, e1, r1⟩ := RepT.setColor_focus (K := Ctx.left up g gc gd u) hr Color.BLACK
      obtain ⟨h2, e2, r2⟩ := RepT.setColor_tree (K := Ctx.right _ g gc gd up) (t := u) r1
        hune Color.BLACK
      obtain ⟨h3, e3, r3⟩ := RepT.setColor_focus (K := up) r2 Color.RED
      obtain ⟨h', e4, r4⟩ := repairRBTree_refines fuel h3 up _ T' r3 e
      refine ⟨h', ?_, r4⟩
      simp only [repairRBTree, deref, hn, hp, hg, hu, hur, hup, hup.symm, e1, e2, e3,
        Option.bind_eq_bind, Option.some_bind, Option.pure_def, Tree.ptr_node, Tree.ptr_nil,
        if_false, if_true, reduceCtorEq, decide_False, decide_True, ne_eq, not_true_eq_false,
        not_false_eq_true, Bool.false_eq_true, one_ne_zero, Option.some.injEq, Ctx.addr]
      exact e4
    · simp only [hur, if_false, Option.some.injEq] at e
      subst e
      have t1 : rightIs h (some p) (some n) = some true := by simp [rightIs, deref, hp]
      obtain ⟨h1, e1, r1⟩ := RepT.leftRotation_focus (K := Ctx.left up g gc gd u) hr
      have hg1 := RepT.read_focus (K := up) r1
      have hn1 := RepT.read_focus (K := Ctx.left up g gc gd u) r1
      have t2 : leftIs h1 (some n) (some p) = some true := by simp [leftIs, deref, hn1]
      obtain ⟨h2, e2, r2⟩ := RepT.rightRotation_focus (K := up) r1
      have hg2 := RepT.read_focus (K := Ctx.right _ n c d up) r2
      have hu2 := RepT.rep_focus (K := Ctx.right _ g gc gd (Ctx.right _ n c d up))
        (t := u) r2
      obtain ⟨h3, e3, r3⟩ := RepT.setColor_focus (K := up) r2 Color.BLACK
      obtain ⟨h4, e4, r4⟩ := RepT.setColor_focus (K := Ctx.right _ n Color.BLACK d up) r3
        Color.RED
      refine ⟨h4, ?_, r4⟩
      simp only [repairRBTree, chain, deref, hn, hp, hg, hu, hur, hup, hup.symm,
        t1, e1, hg1, t2, e2, hg2, rightIs_false hu2 hupc, e3, e4,
        Option.bind_eq_bind, Option.some_bind, Option.pure_def, Tree.ptr_node, Tree.ptr_nil,
        if_false, if_true, reduceCtorEq, decide_False, decide_True, ne_eq, not_true_eq_false,
        not_false_eq_true, Bool.false_eq_true, one_ne_zero, Option.some.injEq, Ctx.addr]
  | fuel + 1, h, Ctx.left (Ctx.right u g gc gd up) p Color.RED pd pr, Tree.node l n c d r, T',
      hr, e => by
    have hp := RepT.read_focus (K := Ctx.right u g gc gd up) hr
    have hu := RepT.isRed_focus (K := Ctx.left up g gc gd _) (t := u) hr
    have hn := hr.read_focus
    have hg := RepT.read_focus (K := up) hr
    have hnd := hr.nodup_focus
    have cn := nd_count hnd n
    have cp := nd_count hnd p
    have cg := nd_count hnd g
    simp only [Tree.addrs, Ctx.addrs, List.count_append, List.count_cons, beq_iff_eq,
      if_true, List.count_nil] at cn cp cg
    have hup : u.ptr ≠ some p := by
      have : u.addrs.count p = 0 := by omega
      simpa using Tree.ptr_ne_count this
    have hun : u.addrs.count n = 0 := by omega
    have hupc : u.addrs.count p = 0 := by omega
    simp only [repairT] at e
    by_cases hur : u.rootColor = Color.RED
    · simp only [hur, if_true] at e
      have hune : u.ptr ≠ none := by
        cases u with
        | nil => simp at hur
        | node _ _ _ _ _ => simp
      obtain ⟨h1, e1, r1⟩ := RepT.setColor_focus (K := Ctx.right u g gc gd up) hr Color.BLACK
      obtain ⟨h2, e2, r2⟩ := RepT.setColor_tree (K := Ctx.left up g gc gd _) (t := u) r1
        hune Color.BLACK
      obtain ⟨h3, e3, r3⟩ := RepT.setColor_focus (K := up) r2 Color.RED
      obtain ⟨h', e4, r4⟩ := repairRBTree_refines fuel h3 up _ T' r3 e
      refine ⟨h', ?_, r4⟩
      simp only [repairRBTree, deref, hn, hp, hg, hu, hur, hup, hup.symm, e1, e2, e3,
        Option.bind_eq_bind, Option.some_bind, Option.pure_def, Tree.ptr_node, Tree.ptr_nil,
        if_false, if_true, reduceCtorEq, decide_False, decide_True, ne_eq, not_true_eq_false,
        not_false_eq_true, Bool.false_eq_true, one_ne_zero, Option.some.injEq, Ctx.addr]
      exact e4
    · simp only [hur, if_false, Option.some.injEq] at e
      subst e
      have hu0 := RepT.rep_focus (K := Ctx.left up g gc gd _) (t := u) hr
      have t1 : leftIs h (some p) (some n) = some true := by simp [leftIs, deref, hp]
      obtain ⟨h1, e1, r1⟩ := RepT.rightRotation_focus (K := Ctx.right u g gc gd up) hr
      have hg1 := RepT.read_focus (K := up) r1
      have hn1 := RepT.read_focus (K := Ctx.right u g gc gd up) r1
      have hu1 := RepT.rep_focus (K := Ctx.left up g gc gd _) (t := u) r1
      have t2 : rightIs h1 (some n) (some p) = some true := by simp [rightIs, deref, hn1]
      obtain ⟨h2, e2, r2⟩ := RepT.leftRotation_focus (K := up) r1
      obtain ⟨h3, e3, r3⟩ := RepT.setColor_focus (K := up) r2 Color.BLACK
      obtain ⟨h4, e4, r4⟩ := RepT.setColor_focus (K := Ctx.left up n Color.BLACK d _) r3
        Color.RED
      refine ⟨h4, ?_, r4⟩
      simp only [repairRBTree, chain, deref, hn, hp, hg, hu, hur, hup, hup.symm,
        rightIs_false hu0 hun, t1, e1, hg1, leftIs_false hu1 hupc, t2, e2, e3, e4,
        Option.bind_eq_bind, Option.some_bind, Option.pure_def, Tree.ptr_node, Tree.ptr_nil,
        if_false, if_true, reduceCtorEq, decide_False, decide_True, ne_eq, not_true_eq_false,
        not_false_eq_true, Bool.false_eq_true, one_ne_zero, Option.some.injEq, Ctx.addr]
  | fuel + 1, h, Ctx.right pl p Color.RED pd (Ctx.right u g gc gd up), Tree.node l n c d r, T',
      hr, e => by
    have hp := RepT.read_focus (K := Ctx.right u g gc gd up) hr
    have hu := RepT.isRed_focus (K := Ctx.left up g gc gd _) (t := u) hr
    have hn := hr.read_focus
    have hg := RepT.read_focus (K := up) hr
    have hnd := hr.nodup_focus
    have cn := nd_count hnd n
    have cp := nd_count hnd p
    have cg := nd_count hnd g
    simp only [Tree.addrs, Ctx.addrs, List.count_append, List.count_cons, beq_iff_eq,
      if_true, List.count_nil] at cn cp cg
    have hup : u.ptr ≠ some p := by
      have : u.addrs.count p = 0 := by omega
      simpa using Tree.ptr_ne_count this
    have hun : u.addrs.count n = 0 := by omega
    have hupc : u.addrs.count p = 0 := by omega
    simp only [repairT] at e
    by_cases hur : u.rootColor = Color.RED
    · simp only [hur, if_true] at e
      have hune : u.ptr ≠ none := by
        cases u with
        | nil => simp at hur
        | node _ _ _ _ _ => simp
      obtain ⟨h1, e1, r1⟩ := RepT.setColor_focus (K := Ctx.right u g gc gd up) hr Color.BLACK
      obtain ⟨h2, e2, r2⟩ := RepT.setColor_tree (K := Ctx.left up g gc gd _) (t := u) r1
        hune Color.BLACK
      obtain ⟨h3, e3, r3⟩ := RepT.setColor_focus (K := up) r2 Color.RED
      obtain ⟨h', e4, r4⟩ := repairRBTree_refines fuel h3 up _ T' r3 e
      refine ⟨h', ?_, r4⟩
      simp only [repairRBTree, deref, hn, hp, hg, hu, hur, hup, hup.symm, e1, e2, e3,
        Option.bind_eq_bind, Option.some_bind, Option.pure_def, Tree.ptr_node, Tree.ptr_nil,
        if_false, if_true, reduceCtorEq, decide_False, decide_True, ne_eq, not_true_eq_false,
        not_false_eq_true, Bool.false_eq_true, one_ne_zero, Option.some.injEq, Ctx.addr]
      exact e4
    · simp only [hur, if_false, Option.some.injEq] at e
      subst e
      have hu0 := RepT.rep_focus (K := Ctx.left up g gc gd _) (t := u) hr
      have hpl : pl.addrs.count n = 0 := by omega
      have t1 : leftIs h (some p) (some n) = some false := by
        simp [leftIs, deref, hp, Tree.ptr_ne_count hpl]
      have t2 : rightIs h (some p) (some n) = some true := by simp [rightIs, deref, hp]
      obtain ⟨h1, e1, r1⟩ := RepT.leftRotation_focus (K := up) hr
      obtain ⟨h2, e2, r2⟩ := RepT.setColor_focus (K := up) r1 Color.BLACK
      obtain ⟨h3, e3, r3⟩ := RepT.setColor_focus (K := Ctx.left up p Color.BLACK pd _) r2
        Color.RED
      refine ⟨h3, ?_, r3⟩
      simp only [repairRBTree, chain, deref, hn, hp, hg, hu, hur, hup, hup.symm,
        rightIs_false hu0 hun, leftIs_false hu0 hun, t1, t2, e1, e2, e3,
        Option.bind_eq_bind, Option.some_bind, Option.pure_def, Tree.ptr_node, Tree.ptr_nil,
        if_false, if_true, reduceCtorEq, decide_False, decide_True, ne_eq, not_true_eq_false,
        not_false_eq_true, Bool.false_eq_true, one_ne_zero, Option.some.injEq, Ctx.addr]

theorem RepCtx.path_addr_lt {h : Heap α} : ∀ {ctx : Ctx α} {p : Ptr}, RepCtx h ctx p →
    ∀ a ∈ ctx.addrs, a < h.length
  | Ctx.top, _, _, a, ha => by simp [Ctx.addrs] at ha
  | Ctx.left up x c d r, p, hr, a, ha => by
    simp only [Ctx.addrs, List.mem_append, List.mem_cons] at ha
    obtain ⟨h1, h2, h3⟩ := hr
    rcases ha with ha | ha | ha
    · subst ha; exact read_lt h1
    · exact Rep.addr_lt h2 a ha
    · exact RepCtx.path_addr_lt h3 a ha
  | Ctx.right l x c d up, p, hr, a, ha => by
    simp only [Ctx.addrs, List.mem_append, List.mem_cons] at ha
    obtain ⟨h1, h2, h3⟩ := hr
    rcases ha with ha | ha | ha
    · subst ha; exact read_lt h1
    · exact Rep.addr_lt h2 a ha
    · exact RepCtx.path_addr_lt h3 a ha

theorem readLoc_ctx {S : State α} {ctx : Ctx α} {p : Ptr} (hc : RepCtx S.heap ctx p)
    (hroot : ctx.addr = none → S.root = p) : readLoc S ctx.loc = some p := by
  cases ctx with
  | top => simp [readLoc, Ctx.loc, hroot rfl]
  | left up a c d r => simp [readLoc, Ctx.loc, hc.1]
  | right l a c d up => simp [readLoc, Ctx.loc, hc.1]

theorem Ctx.plug_ptr_of_addr (ctx : Ctx α) (t t' : Tree α) (hne : ctx.addr ≠ none) :
    (ctx.plug t).ptr = (ctx.plug t').ptr := by
  induction ctx generalizing t t' with
  | top => simp [Ctx.addr] at hne
  | left up a c d r ih =>
    cases up with
    | top => rfl
    | left _ _ _ _ _ => exact ih _ _ (by simp [Ctx.addr])
    | right _ _ _ _ _ => exact ih _ _ (by simp [Ctx.addr])
  | right l a c d up ih =>
    cases up with
    | top => rfl
    | left _ _ _ _ _ => exact ih _ _ (by simp [Ctx.addr])
    | right _ _ _ _ _ => exact ih _ _ (by simp [Ctx.addr])

/-- Hanging the new leaf at an absent child: afterwards the path holds the new pointer and
the new cell has no parent link yet. -/
theorem insertValue_leaf (st : State α) (ctx : Ctx α) (x : α) (cf : Option (α → α → Int))
    (fuel : Nat) (hr : RepT st.heap (ctx.plug Tree.nil))
    (hroot : st.root = (ctx.plug Tree.nil).ptr) :
    ∃ h', insertValue (fuel + 1) st ctx.loc x cf =
        some ({ st with heap := h', root := (ctx.plug (Tree.leaf st.heap.length x)).ptr },
          some st.heap.length) ∧
      RepCtx h' ctx (some st.heap.length) ∧
      h'.read st.heap.length = some ⟨x, Color.RED, none, none, none⟩ ∧
      h'.length = st.heap.length + 1 ∧ (ctx.addrs ++ [st.heap.length]).Nodup := by
  obtain ⟨hc, -, hnd⟩ := repT_plug.1 hr
  have hlt := RepCtx.path_addr_lt hc
  have hnd' : (ctx.addrs ++ [st.heap.length]).Nodup := by
    simp only [Tree.addrs, List.append_nil] at hnd
    refine List.nodup_append.2 ⟨hnd, by simp, ?_⟩
    intro a ha hb
    simp only [List.mem_singleton] at hb
    have := hlt a ha
    omega
  have hrl : readLoc st ctx.loc = some none := by
    refine readLoc_ctx hc (fun e => ?_)
    cases ctx with
    | top => simpa using hroot
    | left _ _ _ _ _ => simp [Ctx.addr] at e
    | right _ _ _ _ _ => simp [Ctx.addr] at e
  have hfr : ∀ b, b < st.heap.length →
      (st.heap.alloc ⟨x, Color.RED, none, none, none⟩).1.read b = st.heap.read b := by
    intro b hb
    rw [read_alloc]; simp [Nat.ne_of_lt hb]
  have hnew : (st.heap.alloc ⟨x, Color.RED, none, none, none⟩).1.read st.heap.length =
      some ⟨x, Color.RED, none, none, none⟩ := by
    rw [read_alloc]; simp
  have hlen : (st.heap.alloc ⟨x, Color.RED, none, none, none⟩).1.length =
      st.heap.length + 1 := by simp [Heap.alloc]
  cases ctx with
  | top =>
    refine ⟨_, ?_, trivial, hnew, hlen, hnd'⟩
    simp only [Ctx.loc] at hrl
    simp [insertValue, hrl, writeLoc, Ctx.loc, Tree.leaf, Heap.alloc]
  | left up a c d r =>
    obtain ⟨h1, h2, h3⟩ := hc
    have ha := read_lt h1
    have ca := nd_count hnd a
    simp only [Tree.addrs, Ctx.addrs, List.count_append, List.count_cons, beq_iff_eq,
      if_true, List.count_nil] at ca
    have hra := hfr a ha
    refine ⟨(st.heap.alloc ⟨x, Color.RED, none, none, none⟩).1.write a
      ⟨d, c, some st.heap.length, r.ptr, up.addr⟩, ?_, ⟨?_, ?_, ?_⟩, ?_, ?_, hnd'⟩
    · simp only [Ctx.loc] at hrl
      simp only [insertValue, hrl, writeLoc, Ctx.loc, setLeft, hra, h1, Option.bind_eq_bind,
        Option.some_bind, Option.map_some', Option.pure_def, Option.some.injEq, Prod.mk.injEq,
        and_true]
      rw [Ctx.plug_ptr_of_addr _ _ Tree.nil (by simp [Ctx.addr]), ← hroot]
      exact ⟨rfl, rfl⟩
    · rw [read_write_self _ _ (by omega)]
    · refine (Rep.write_frame _ (by omega)).2 (Rep.frame (fun b hb => hfr b ?_) h2)
      exact Rep.addr_lt h2 b hb
    · refine (RepCtx.path_write_frame _ (by omega)).2 (RepCtx.path_frame (fun b hb => hfr b ?_) h3)
      exact RepCtx.path_addr_lt h3 b hb
    · rw [read_write_ne _ _ (by omega)]; exact hnew
    · simp [hlen]
  | right l a c d up =>
    obtain ⟨h1, h2, h3⟩ := hc
    have ha := read_lt h1
    have ca := nd_count hnd a
    simp only [Tree.addrs, Ctx.addrs, List.count_append, List.count_cons, beq_iff_eq,
      if_true, List.count_nil] at ca
    have hra := hfr a ha
    refine ⟨(st.heap.alloc ⟨x, Color.RED, none, none, none⟩).1.write a
      ⟨d, c, l.ptr, some st.heap.length, up.addr⟩, ?_, ⟨?_, ?_, ?_⟩, ?_, ?_, hnd'⟩
    · simp only [Ctx.loc] at hrl
      simp only [insertValue, hrl, writeLoc, Ctx.loc, setRight, hra, h1, Option.bind_eq_bind,
        Option.some_bind, Option.map_some', Option.pure_def, Option.some.injEq, Prod.mk.injEq,
        and_true]
      rw [Ctx.plug_ptr_of_addr _ _ Tree.nil (by simp [Ctx.addr]), ← hroot]
      exact ⟨rfl, rfl⟩
    · rw [read_write_self _ _ (by omega)]
    · refine (Rep.write_frame _ (by omega)).2 (Rep.frame (fun b hb => hfr b ?_) h2)
      exact Rep.addr_lt h2 b hb
    · refine (RepCtx.path_write_frame _ (by omega)).2 (RepCtx.path_frame (fun b hb => hfr b ?_) h3)
      exact RepCtx.path_addr_lt h3 b hb
    · rw [read_write_ne _ _ (by omega)]; exact hnew
    · simp [hlen]

theorem Tree.insCtx_plug (cmp : α → α → Int) (x : α) : ∀ (t : Tree α) (ctx ctx' : Ctx α),
    t.insCtx cmp x ctx = some ctx' → ctx'.plug Tree.nil = ctx.plug t
  | Tree.nil, ctx, ctx', e => by simp only [Tree.insCtx, Option.some.injEq] at e; rw [e]
  | Tree.node l a c d r, ctx, ctx', e => by
    simp only [Tree.insCtx] at e
    split_ifs at e with h1 h2
    · exact Tree.insCtx_plug cmp x r _ ctx' e
    · exact Tree.insCtx_plug cmp x l _ ctx' e

theorem Tree.insCtx_addr (cmp : α → α → Int) (x : α) : ∀ (t : Tree α) (ctx ctx' : Ctx α),
    t.insCtx cmp x ctx = some ctx' → ctx.addr ≠ none → ctx'.addr ≠ none
  | Tree.nil, ctx, ctx', e, hne => by simp only [Tree.insCtx, Option.some.injEq] at e; rw [← e]; exact hne
  | Tree.node l a c d r, ctx, ctx', e, _ => by
    simp only [Tree.insCtx] at e
    split_ifs at e with h1 h2
    · exact Tree.insCtx_addr cmp x r _ ctx' e (by simp [Ctx.addr])
    · exact Tree.insCtx_addr cmp x l _ ctx' e (by simp [Ctx.addr])

set_option maxHeartbeats 1000000 in
/-- The recursive descent of `insertValue` below a place that is not the handle's root
field, or on a present node. -/
theorem insertValue_spec (cmp : α → α → Int) (x : α) : ∀ (t : Tree α) (ctx : Ctx α)
    (fuel : Nat) (st : State α), (t.ptr = none → ctx.addr ≠ none) →
    RepT st.heap (ctx.plug t) → st.root = (ctx.plug t).ptr → t.height < fuel →
    (t.insCtx cmp x ctx = none →
      insertValue fuel st ctx.loc x (some cmp) = some (st, none)) ∧
    ∀ ctx', t.insCtx cmp x ctx = some ctx' →
      ∃ h', insertValue fuel st ctx.loc x (some cmp) =
          some ({ st with heap := h' }, some st.heap.length) ∧
        RepCtx h' ctx' (some st.heap.length) ∧
        h'.read st.heap.length =
          some ⟨x, Color.RED, none, none, if t.ptr = none then none else ctx'.addr⟩ ∧
        h'.length = st.heap.length + 1 ∧ (ctx'.addrs ++ [st.heap.length]).Nodup ∧
        ctx'.addr ≠ none
  | Tree.nil, ctx, fuel, st, hne, hr, hroot, hf => by
    cases fuel with
    | zero => simp [Tree.height] at hf
    | succ f =>
      refine ⟨fun e => by simp [Tree.insCtx] at e, fun ctx' e => ?_⟩
      simp only [Tree.insCtx, Option.some.injEq] at e
      subst e
      obtain ⟨h', e1, e2, e3, e4, e5⟩ := insertValue_leaf st ctx x (some cmp) f hr hroot
      refine ⟨h', ?_, e2, by simpa using e3, e4, e5, hne rfl⟩
      rw [e1, Ctx.plug_ptr_of_addr _ _ Tree.nil (hne rfl), ← hroot]
  | Tree.node l a c d r, ctx, fuel, st, _, hr, hroot, hf => by
    cases fuel with
    | zero => simp at hf
    | succ f =>
      simp only [Tree.height] at hf
      have hn := hr.read_focus
      have hrl : readLoc st ctx.loc = some (some a) :=
        readLoc_ctx (repT_plug.1 hr).1 (fun e => by
          cases ctx with
          | top => simpa using hroot
          | left _ _ _ _ _ => simp [Ctx.addr] at e
          | right _ _ _ _ _ => simp [Ctx.addr] at e)
      by_cases h0 : cmp x d = 0
      · refine ⟨fun _ => ?_, fun ctx' e => ?_⟩
        · simp only [insertValue, hrl, hn, h0, Option.bind_eq_bind, Option.some_bind, Option.pure_def, Tree.ptr_node, Tree.ptr_nil, if_false, if_true, reduceCtorEq, ne_eq, not_true_eq_false, not_false_eq_true, Option.some.injEq, gt_iff_lt]
        · simp [Tree.insCtx, h0] at e
      · by_cases hpos : 0 < cmp x d
        · simp only [Tree.insCtx, h0, if_false, gt_iff_lt, hpos, if_true]
          have ih := insertValue_spec cmp x r (Ctx.right l a c d ctx) f st
            (fun _ => by simp [Ctx.addr]) hr hroot (by omega)
          refine ⟨fun e => ?_, fun ctx' e => ?_⟩
          · have e1 := ih.1 e
            simp only [Ctx.loc] at e1
            simp only [insertValue, hrl, hn, h0, hpos, e1, Option.bind_eq_bind, Option.some_bind, Option.pure_def, Tree.ptr_node, Tree.ptr_nil, if_false, if_true, reduceCtorEq, ne_eq, not_true_eq_false, not_false_eq_true, Option.some.injEq, gt_iff_lt]
          · obtain ⟨h1, e1, c1, rd1, len1, nd1, ne1⟩ := ih.2 ctx' e
            simp only [Ctx.loc] at e1
            by_cases hrn : r.ptr = none
            · have hnil := Tree.ptr_eq_none.1 hrn
              subst hnil
              simp only [Tree.insCtx, Option.some.injEq] at e
              subst e
              have hrl' : readLoc { st with heap := h1 } ctx.loc = some (some a) :=
                readLoc_ctx (S := { st with heap := h1 }) c1.2.2 (fun e => by
                  have := readLoc_ctx (repT_plug.1 hr).1 (S := st) (fun e' => by
                    cases ctx with
                    | top => simpa using hroot
                    | left _ _ _ _ _ => simp [Ctx.addr] at e
                    | right _ _ _ _ _ => simp [Ctx.addr] at e)
                  cases ctx with
                  | top => simpa using hroot
                  | left _ _ _ _ _ => simp [Ctx.addr] at e
                  | right _ _ _ _ _ => simp [Ctx.addr] at e)
              have cnew := nd_count nd1 st.heap.length
              simp only [Ctx.addrs, List.count_append, List.count_cons, beq_iff_eq, if_true,
                List.count_nil] at cnew
              simp only [Tree.ptr_nil, if_true] at rd1
              refine ⟨h1.write st.heap.length ⟨x, Color.RED, none, none, some a⟩, ?_, ?_, ?_,
                by simpa using len1, nd1, ne1⟩
              · simp only [insertValue, hrl, hn, h0, hpos, e1, deref, rd1, hrl', setParent,
                  Option.bind_eq_bind, Option.some_bind, Option.pure_def, Tree.ptr_node, Tree.ptr_nil, if_false, if_true, reduceCtorEq, ne_eq, not_true_eq_false, not_false_eq_true, Option.some.injEq, gt_iff_lt]
              · refine (RepCtx.path_write_frame _ ?_).2 c1
                exact List.count_eq_zero.2 (fun hmem =>
                  (List.nodup_append.1 nd1).2.2 hmem (by simp))
              · have hlt1 : st.heap.length < h1.length := by omega
                rw [read_write_self _ _ hlt1]; rfl
            · simp only [hrn, if_false] at rd1
              refine ⟨h1, ?_, c1, rd1, len1, nd1, ne1⟩
              simp only [insertValue, hrl, hn, h0, hpos, e1, deref, rd1, ne1, Option.bind_eq_bind, Option.some_bind, Option.pure_def, Tree.ptr_node, Tree.ptr_nil, if_false, if_true, reduceCtorEq, ne_eq, not_true_eq_false, not_false_eq_true, Option.some.injEq, gt_iff_lt]

        · simp only [Tree.insCtx, h0, if_false, gt_iff_lt, hpos]
          have ih := insertValue_spec cmp x l (Ctx.left ctx a c d r) f st
            (fun _ => by simp [Ctx.addr]) hr hroot (by omega)
          refine ⟨fun e => ?_, fun ctx' e => ?_⟩
          · have e1 := ih.1 e
            simp only [Ctx.loc] at e1
            simp only [insertValue, hrl, hn, h0, hpos, e1, Option.bind_eq_bind, Option.some_bind, Option.pure_def, Tree.ptr_node, Tree.ptr_nil, if_false, if_true, reduceCtorEq, ne_eq, not_true_eq_false, not_false_eq_true, Option.some.injEq, gt_iff_lt]
          · obtain ⟨h1, e1, c1, rd1, len1, nd1, ne1⟩ := ih.2 ctx' e
            simp only [Ctx.loc] at e1
            by_cases hrn : l.ptr = none
            · have hnil := Tree.ptr_eq_none.1 hrn
              subst hnil
              simp only [Tree.insCtx, Option.some.injEq] at e
              subst e
              have hrl' : readLoc { st with heap := h1 } ctx.loc = some (some a) :=
                readLoc_ctx (S := { st with heap := h1 }) c1.2.2 (fun e => by
                  have := readLoc_ctx (repT_plug.1 hr).1 (S := st) (fun e' => by
                    cases ctx with
                    | top => simpa using hroot
                    | left _ _ _ _ _ => simp [Ctx.addr] at e
                    | right _ _ _ _ _ => simp [Ctx.addr] at e)
                  cases ctx with
                  | top => simpa using hroot
                  | left _ _ _ _ _ => simp [Ctx.addr] at e
                  | right _ _ _ _ _ => simp [Ctx.addr] at e)
              have cnew := nd_count nd1 st.heap.length
              simp only [Ctx.addrs, List.count_append, List.count_cons, beq_iff_eq, if_true,
                List.count_nil] at cnew
              simp only [Tree.ptr_nil, if_true] at rd1
              refine ⟨h1.write st.heap.length ⟨x, Color.RED, none, none, some a⟩, ?_, ?_, ?_,
                by simpa using len1, nd1, ne1⟩
              · simp only [insertValue, hrl, hn, h0, hpos, e1, deref, rd1, hrl', setParent,
                  Option.bind_eq_bind, Option.some_bind, Option.pure_def, Tree.ptr_node, Tree.ptr_nil, if_false, if_true, reduceCtorEq, ne_eq, not_true_eq_false, not_false_eq_true, Option.some.injEq, gt_iff_lt]
              · refine (RepCtx.path_write_frame _ ?_).2 c1
                exact List.count_eq_zero.2 (fun hmem =>
                  (List.nodup_append.1 nd1).2.2 hmem (by simp))
              · have hlt1 : st.heap.length < h1.length := by omega
                rw [read_write_self _ _ hlt1]; rfl
            · simp only [hrn, if_false] at rd1
              refine ⟨h1, ?_, c1, rd1, len1, nd1, ne1⟩
              simp only [insertValue, hrl, hn, h0, hpos, e1, deref, rd1, ne1, Option.bind_eq_bind, Option.some_bind, Option.pure_def, Tree.ptr_node, Tree.ptr_nil, if_false, if_true, reduceCtorEq, ne_eq, not_true_eq_false, not_false_eq_true, Option.some.injEq, gt_iff_lt]

@[simp] theorem Ctx.color_top : (Ctx.top : Ctx α).color = Color.BLACK := rfl

@[simp] theorem Ctx.color_left (up : Ctx α) (a : Nat) (c : Color) (d : α) (r : Tree α) :
    (Ctx.left up a c d r).color = c := rfl

@[simp] theorem Ctx.color_right (up : Ctx α) (a : Nat) (c : Color) (d : α) (l : Tree α) :
    (Ctx.right l a c d up).color = c := rfl

theorem Color.ne_red {c : Color} : c ≠ Color.RED ↔ c = Color.BLACK := by
  cases c <;> simp

theorem Color.ne_black {c : Color} : c ≠ Color.BLACK ↔ c = Color.RED := by
  cases c <;> simp

theorem balanced_plug : ∀ (ctx : Ctx α) (t : Tree α),
    (ctx.plug t).Balanced ↔ t.Balanced ∧ ctx.Bal t.bh
  | Ctx.top, t => by simp [Ctx.Bal]
  | Ctx.left up a c d r, t => by
    rw [Ctx.plug_left, balanced_plug up]
    simp only [Tree.Balanced, Tree.bh, Ctx.Bal]
    constructor
    · rintro ⟨⟨h1, h2, h3⟩, h4⟩; exact ⟨h2, h1.symm, h3, h4⟩
    · rintro ⟨h2, h1, h3, h4⟩; exact ⟨⟨h1.symm, h2, h3⟩, h4⟩
  | Ctx.right l a c d up, t => by
    rw [Ctx.plug_right, balanced_plug up]
    simp only [Tree.Balanced, Tree.bh, Ctx.Bal]
    constructor
    · rintro ⟨⟨h1, h2, h3⟩, h4⟩; exact ⟨h3, h1, h2, h1 ▸ h4⟩
    · rintro ⟨h3, h1, h2, h4⟩; exact ⟨⟨h1, h2, h3⟩, h1 ▸ h4⟩

theorem noRedRed_plug : ∀ (ctx : Ctx α) (t : Tree α),
    (ctx.plug t).NoRedRed ↔
      t.NoRedRed ∧ ctx.NRR ∧ (ctx.color = Color.RED → t.rootColor = Color.BLACK)
  | Ctx.top, t => by simp [Ctx.NRR]
  | Ctx.left up a c d r, t => by
    rw [Ctx.plug_left, noRedRed_plug up]
    simp only [Tree.NoRedRed, Ctx.NRR, Ctx.color_left, Ctx.color_right, Tree.rootColor_node]
    cases c <;> cases h : up.color <;> simp <;> tauto
  | Ctx.right l a c d up, t => by
    rw [Ctx.plug_right, noRedRed_plug up]
    simp only [Tree.NoRedRed, Ctx.NRR, Ctx.color_left, Ctx.color_right, Tree.rootColor_node]
    cases c <;> cases h : up.color <;> simp <;> tauto

theorem rootColor_plug : ∀ (ctx : Ctx α) (t : Tree α),
    (ctx.plug t).rootColor = ctx.rootColor t.rootColor
  | Ctx.top, t => rfl
  | Ctx.left up a c d r, t => by rw [Ctx.plug_left, rootColor_plug up]; rfl
  | Ctx.right l a c d up, t => by rw [Ctx.plug_right, rootColor_plug up]; rfl

theorem count_addrs_plug (ctx : Ctx α) (t : Tree α) (x : Nat) :
    (ctx.plug t).addrs.count x = ctx.addrs.count x + t.addrs.count x := by
  rw [(addrs_plug ctx t).count_eq, List.count_append]

theorem Ctx.rootColor_of_addr (ctx : Ctx α) (k k' : Color) (hne : ctx.addr ≠ none) :
    ctx.rootColor k = ctx.rootColor k' := by
  cases ctx with
  | top => simp [Ctx.addr] at hne
  | left _ _ _ _ _ => rfl
  | right _ _ _ _ _ => rfl

@[simp] theorem Tree.inorder_setColor (k : Color) (t : Tree α) :
    (t.setColor k).inorder = t.inorder := by cases t <;> rfl

@[simp] theorem Tree.addrs_setColor (k : Color) (t : Tree α) :
    (t.setColor k).addrs = t.addrs := by cases t <;> rfl

theorem Tree.noRedRed_setBlack {t : Tree α} (h : t.NoRedRed) :
    (t.setColor Color.BLACK).NoRedRed := by
  cases t with
  | nil => trivial
  | node l a c d r => exact ⟨by simp, h.2.1, h.2.2⟩

theorem Tree.balanced_setColor {t : Tree α} (k : Color) (h : t.Balanced) :
    (t.setColor k).Balanced := by
  cases t with
  | nil => trivial
  | node l a c d r => exact h

theorem Tree.rootColor_setBlack (t : Tree α) : (t.setColor Color.BLACK).rootColor = Color.BLACK := by
  cases t <;> rfl

theorem Tree.bh_setBlack {t : Tree α} (h : t.rootColor = Color.RED) :
    (t.setColor Color.BLACK).bh = t.bh + 1 := by
  cases t with
  | nil => simp at h
  | node l a c d r => simp at h; subst h; simp [Tree.setColor, Tree.bh]

set_option maxHeartbeats 2000000 in
theorem repairT_valid : ∀ (fuel : Nat) (ctx : Ctx α) (t : Tree α), ctx.depth < 2 * fuel →
    InsHole ctx t →
    ∃ T', repairT fuel ctx t = some T' ∧ T'.rootColor = Color.BLACK ∧ T'.NoRedRed ∧
      T'.Balanced ∧ T'.inorder = (ctx.plug t).inorder ∧
      ∀ x, T'.addrs.count x = (ctx.plug t).addrs.count x
  | 0, _, _, hf, _ => by omega
  | _ + 1, _, Tree.nil, _, hh => by have := hh.tred; simp at this
  | _ + 1, Ctx.top, Tree.node l n c d r, _, hh => by
    obtain ⟨h1, h2, h3, h4, h5, h6⟩ := hh
    exact ⟨_, rfl, rfl, ⟨by simp, h2.2.1, h2.2.2⟩, h3, rfl, fun _ => rfl⟩
  | _ + 1, Ctx.left up p Color.BLACK pd pr, Tree.node l n c d r, _, hh => by
    obtain ⟨h1, h2, h3, h4, h5, h6⟩ := hh
    refine ⟨_, by simp only [repairT], ?_, ?_, ?_, rfl, fun _ => rfl⟩
    · rw [rootColor_plug]; exact h6
    · rw [noRedRed_plug]; exact ⟨h2, h5, by simp⟩
    · rw [balanced_plug]; exact ⟨h3, h4⟩
  | _ + 1, Ctx.right pl p Color.BLACK pd up, Tree.node l n c d r, _, hh => by
    obtain ⟨h1, h2, h3, h4, h5, h6⟩ := hh
    refine ⟨_, by simp only [repairT], ?_, ?_, ?_, rfl, fun _ => rfl⟩
    · rw [rootColor_plug]; exact h6
    · rw [noRedRed_plug]; exact ⟨h2, h5, by simp⟩
    · rw [balanced_plug]; exact ⟨h3, h4⟩
  | _ + 1, Ctx.left Ctx.top _ Color.RED _ _, Tree.node _ _ _ _ _, _, hh => by
    have := hh.croot; simp [Ctx.rootColor] at this
  | _ + 1, Ctx.right _ _ Color.RED _ Ctx.top, Tree.node _ _ _ _ _, _, hh => by
    have := hh.croot; simp [Ctx.rootColor] at this
  | fuel + 1, Ctx.left (Ctx.left up g gc gd u) p Color.RED pd pr, Tree.node l n c d r, hf,
      hh => by
    obtain ⟨h1, h2, h3, h4, h5, h6⟩ := hh
    simp only [Ctx.Bal, Ctx.NRR, Ctx.rootColor, Ctx.color_left, Ctx.color_right, true_implies,
      Tree.rootColor_node, reduceCtorEq, if_false, Nat.add_zero] at h1 h4 h5 h6
    obtain ⟨b1, b2, b3, b4, b5⟩ := h4
    obtain ⟨n1, ⟨n2, n3⟩, n4, -, n6⟩ := h5
    subst h1 n3
    simp only [if_true] at b5
    simp only [Tree.NoRedRed, Tree.Balanced, Tree.bh, true_implies, reduceCtorEq, if_false,
      Nat.add_zero] at h2 h3 b1 b3 b5
    obtain ⟨⟨m1, m2⟩, m3, m4⟩ := h2
    obtain ⟨a1, a2, a3⟩ := h3
    simp only [Ctx.depth] at hf
    simp only [repairT]
    by_cases hur : u.rootColor = Color.RED
    · simp only [hur, if_true]
      have hbu := Tree.bh_setBlack hur
      have hnu := Tree.noRedRed_setBlack n4
      have hcu := Tree.rootColor_setBlack u
      have hbalu := Tree.balanced_setColor Color.BLACK b4
      obtain ⟨T', e1, e2, e3, e4, e5, e6⟩ := repairT_valid fuel up
        (Tree.node (Tree.node (Tree.node l n Color.RED d r) p Color.BLACK pd pr) g Color.RED gd (u.setColor Color.BLACK)) (by omega)
        ⟨rfl, by simp [Tree.NoRedRed, *], by simp [Tree.Balanced, Tree.bh, *],
          by simpa [Tree.bh, hbu, b1, b3] using b5, n6, h6⟩
      refine ⟨T', e1, e2, e3, e4, ?_, ?_⟩
      · rw [e5]; simp [inorder_plug, Tree.inorder]
      · intro x; rw [e6]; simp [count_addrs_plug, Tree.addrs, Ctx.addrs]; try omega
    · simp only [hur, if_false]
      have hub := Color.ne_red.1 hur
      refine ⟨_, rfl, ?_, ?_, ?_, ?_, ?_⟩
      · rw [rootColor_plug]; exact h6
      · rw [noRedRed_plug]
        exact ⟨by simp [Tree.NoRedRed, *], n6, by simp⟩
      · rw [balanced_plug]
        exact ⟨by simp [Tree.Balanced, Tree.bh, *], by simpa [Tree.bh, b1, b3] using b5⟩
      · simp [inorder_plug, Tree.inorder]
      · intro x; simp [count_addrs_plug, Tree.addrs, Ctx.addrs]; try omega
  | fuel + 1, Ctx.right pl p Color.RED pd (Ctx.left up g gc gd u), Tree.node l n c d r, hf,
      hh => by
    obtain ⟨h1, h2, h3, h4, h5, h6⟩ := hh
    simp only [Ctx.Bal, Ctx.NRR, Ctx.rootColor, Ctx.color_left, Ctx.color_right, true_implies,
      Tree.rootColor_node, reduceCtorEq, if_false, Nat.add_zero] at h1 h4 h5 h6
    obtain ⟨b1, b2, b3, b4, b5⟩ := h4
    obtain ⟨n1, ⟨n2, n3⟩, n4, -, n6⟩ := h5
    subst h1 n3
    simp only [if_true] at b5
    simp only [Tree.NoRedRed, Tree.Balanced, Tree.bh, true_implies, reduceCtorEq, if_false,
      Nat.add_zero] at h2 h3 b1 b3 b5
    obtain ⟨⟨m1, m2⟩, m3, m4⟩ := h2
    obtain ⟨a1, a2, a3⟩ := h3
    simp only [Ctx.depth] at hf
    simp only [repairT]
    by_cases hur : u.rootColor = Color.RED
    · simp only [hur, if_true]
      have hbu := Tree.bh_setBlack hur
      have hnu := Tree.noRedRed_setBlack n4
      have hcu := Tree.rootColor_setBlack u
      have hbalu := Tree.balanced_setColor Color.BLACK b4
      obtain ⟨T', e1, e2, e3, e4, e5, e6⟩ := repairT_valid fuel up
        (Tree.node (Tree.node pl p Color.BLACK pd (Tree.node l n Color.RED d r)) g Color.RED gd (u.setColor Color.BLACK)) (by omega)
        ⟨rfl, by simp [Tree.NoRedRed, *], by simp [Tree.Balanced, Tree.bh, *],
          by simpa [Tree.bh, hbu, b1, b3] using b5, n6, h6⟩
      refine ⟨T', e1, e2, e3, e4, ?_, ?_⟩
      · rw [e5]; simp [inorder_plug, Tree.inorder]
      · intro x; rw [e6]; simp [count_addrs_plug, Tree.addrs, Ctx.addrs]; try omega
    · simp only [hur, if_false]
      have hub := Color.ne_red.1 hur
      refine ⟨_, rfl, ?_, ?_, ?_, ?_, ?_⟩
      · rw [rootColor_plug]; exact h6
      · rw [noRedRed_plug]
        exact ⟨by simp [Tree.NoRedRed, *], n6, by simp⟩
      · rw [balanced_plug]
        exact ⟨by simp [Tree.Balanced, Tree.bh, *], by simpa [Tree.bh, b1, b3] using b5⟩
      · simp [inorder_plug, Tree.inorder]
      · intro x; simp [count_addrs_plug, Tree.addrs, Ctx.addrs]; try omega
  | fuel + 1, Ctx.left (Ctx.right u g gc gd up) p Color.RED pd pr, Tree.node l n c d r, hf,
      hh => by
    obtain ⟨h1, h2, h3, h4, h5, h6⟩ := hh
    simp only [Ctx.Bal, Ctx.NRR, Ctx.rootColor, Ctx.color_left, Ctx.color_right, true_implies,
      Tree.rootColor_node, reduceCtorEq, if_false, Nat.add_zero] at h1 h4 h5 h6
    obtain ⟨b1, b2, b3, b4, b5⟩ := h4
    obtain ⟨n1, ⟨n2, n3⟩, n4, -, n6⟩ := h5
    subst h1 n3
    simp only [if_true] at b5
    simp only [Tree.NoRedRed, Tree.Balanced, Tree.bh, true_implies, reduceCtorEq, if_false,
      Nat.add_zero] at h2 h3 b1 b3 b5
    obtain ⟨⟨m1, m2⟩, m3, m4⟩ := h2
    obtain ⟨a1, a2, a3⟩ := h3
    simp only [Ctx.depth] at hf
    simp only [repairT]
    by_cases hur : u.rootColor = Color.RED
    · simp only [hur, if_true]
      have hbu := Tree.bh_setBlack hur
      have hnu := Tree.noRedRed_setBlack n4
      have hcu := Tree.rootColor_setBlack u
      have hbalu := Tree.balanced_setColor Color.BLACK b4
      obtain ⟨T', e1, e2, e3, e4, e5, e6⟩ := repairT_valid fuel up
        (Tree.node (u.setColor Color.BLACK) g Color.RED gd (Tree.node (Tree.node l n Color.RED d r) p Color.BLACK pd pr)) (by omega)
        ⟨rfl, by simp [Tree.NoRedRed, *], by simp [Tree.Balanced, Tree.bh, *],
          by simpa [Tree.bh, hbu, b1, b3] using b5, n6, h6⟩
      refine ⟨T', e1, e2, e3, e4, ?_, ?_⟩
      · rw [e5]; simp [inorder_plug, Tree.inorder]
      · intro x; rw [e6]; simp [count_addrs_plug, Tree.addrs, Ctx.addrs]; try omega
    · simp only [hur, if_false]
      have hub := Color.ne_red.1 hur
      refine ⟨_, rfl, ?_, ?_, ?_, ?_, ?_⟩
      · rw [rootColor_plug]; exact h6
      · rw [noRedRed_plug]
        exact ⟨by simp [Tree.NoRedRed, *], n6, by simp⟩
      · rw [balanced_plug]
        exact ⟨by simp [Tree.Balanced, Tree.bh, *], by simpa [Tree.bh, b1, b3] using b5⟩
      · simp [inorder_plug, Tree.inorder]
      · intro x; simp [count_addrs_plug, Tree.addrs, Ctx.addrs]; try omega
  | fuel + 1, Ctx.right pl p Color.RED pd (Ctx.right u g gc gd up), Tree.node l n c d r, hf,
      hh => by
    obtain ⟨h1, h2, h3, h4, h5, h6⟩ := hh
    simp only [Ctx.Bal, Ctx.NRR, Ctx.rootColor, Ctx.color_left, Ctx.color_right, true_implies,
      Tree.rootColor_node, reduceCtorEq, if_false, Nat.add_zero] at h1 h4 h5 h6
    obtain ⟨b1, b2, b3, b4, b5⟩ := h4
    obtain ⟨n1, ⟨n2, n3⟩, n4, -, n6⟩ := h5
    subst h1 n3
    simp only [if_true] at b5
    simp only [Tree.NoRedRed, Tree.Balanced, Tree.bh, true_implies, reduceCtorEq, if_false,
      Nat.add_zero] at h2 h3 b1 b3 b5
    obtain ⟨⟨m1, m2⟩, m3, m4⟩ := h2
    obtain ⟨a1, a2, a3⟩ := h3
    simp only [Ctx.depth] at hf
    simp only [repairT]
    by_cases hur : u.rootColor = Color.RED
    · simp only [hur, if_true]
      have hbu := Tree.bh_setBlack hur
      have hnu := Tree.noRedRed_setBlack n4
      have hcu := Tree.rootColor_setBlack u
      have hbalu := Tree.balanced_setColor Color.BLACK b4
      obtain ⟨T', e1, e2, e3, e4, e5, e6⟩ := repairT_valid fuel up
        (Tree.node (u.setColor Color.BLACK) g Color.RED gd (Tree.node pl p Color.BLACK pd (Tree.node l n Color.RED d r))) (by omega)
        ⟨rfl, by simp [Tree.NoRedRed, *], by simp [Tree.Balanced, Tree.bh, *],
          by simpa [Tree.bh, hbu, b1, b3] using b5, n6, h6⟩
      refine ⟨T', e1, e2, e3, e4, ?_, ?_⟩
      · rw [e5]; simp [inorder_plug, Tree.inorder]
      · intro x; rw [e6]; simp [count_addrs_plug, Tree.addrs, Ctx.addrs]; try omega
    · simp only [hur, if_false]
      have hub := Color.ne_red.1 hur
      refine ⟨_, rfl, ?_, ?_, ?_, ?_, ?_⟩
      · rw [rootColor_plug]; exact h6
      · rw [noRedRed_plug]
        exact ⟨by simp [Tree.NoRedRed, *], n6, by simp⟩
      · rw [balanced_plug]
        exact ⟨by simp [Tree.Balanced, Tree.bh, *], by simpa [Tree.bh, b1, b3] using b5⟩
      · simp [inorder_plug, Tree.inorder]
      · intro x; simp [count_addrs_plug, Tree.addrs, Ctx.addrs]; try omega

theorem Ctx.depth_le_size : ∀ (ctx : Ctx α), ctx.depth ≤ ctx.size
  | Ctx.top => Nat.le_refl _
  | Ctx.left up _ _ _ _ => by
    have := Ctx.depth_le_size up
    simp only [Ctx.depth, Ctx.size]; omega
  | Ctx.right _ _ _ _ up => by
    have := Ctx.depth_le_size up
    simp only [Ctx.depth, Ctx.size]; omega

theorem updateRoot_focus {h : Heap α} : ∀ (ctx : Ctx α) (l : Tree α) (a : Nat) (c : Color)
    (d : α) (r : Tree α) (fuel : Nat), RepT h (ctx.plug (Tree.node l a c d r)) →
    ctx.depth < fuel → updateRoot fuel h (some a) = some (ctx.plug (Tree.node l a c d r)).ptr
  | _, _, _, _, _, _, 0, _, hf => by omega
  | Ctx.top, l, a, c, d, r, fuel + 1, hr, _ => by
    simp [updateRoot, hr.read_focus, Ctx.addr]
  | Ctx.left up p pc pd pr, l, a, c, d, r, fuel + 1, hr, hf => by
    simp only [Ctx.depth] at hf
    have := updateRoot_focus up _ p pc pd pr fuel hr (by omega)
    simpa [updateRoot, hr.read_focus, Ctx.addr] using this
  | Ctx.right pl p pc pd up, l, a, c, d, r, fuel + 1, hr, hf => by
    simp only [Ctx.depth] at hf
    have := updateRoot_focus up pl p pc pd _ fuel hr (by omega)
    simpa [updateRoot, hr.read_focus, Ctx.addr] using this

theorem Tree.exists_focus {a : Nat} : ∀ (t : Tree α) (ctx0 : Ctx α), a ∈ t.addrs →
    ∃ (ctx : Ctx α) (l : Tree α) (c : Color) (d : α) (r : Tree α),
      ctx0.plug t = ctx.plug (Tree.node l a c d r)
  | Tree.nil, _, ha => by simp [Tree.addrs] at ha
  | Tree.node l x c d r, ctx0, ha => by
    simp only [Tree.addrs, List.mem_append, List.mem_cons] at ha
    by_cases hx : a = x
    · subst hx; exact ⟨ctx0, l, c, d, r, rfl⟩
    · rcases ha with ha | ha | ha
      · exact Tree.exists_focus l (Ctx.left ctx0 x c d r) ha
      · exact absurd ha hx
      · exact Tree.exists_focus r (Ctx.right l x c d ctx0) ha

theorem updateRoot_mem {h : Heap α} {t : Tree α} (hr : RepT h t) {a : Nat} (ha : a ∈ t.addrs)
    {fuel : Nat} (hf : t.size < fuel) : updateRoot fuel h (some a) = some t.ptr := by
  obtain ⟨ctx, l, c, d, r, e⟩ := Tree.exists_focus t Ctx.top ha
  simp only [Ctx.plug_top] at e
  have hs := size_plug ctx (Tree.node l a c d r)
  have hd := ctx.depth_le_size
  rw [e] at hr ⊢
  rw [← e] at hs
  exact updateRoot_focus ctx l a c d r fuel hr (by omega)

theorem updateRoot_ptr {h : Heap α} {t : Tree α} (hr : RepT h t) {p : Ptr}
    (hp : ∀ a, p = some a → a ∈ t.addrs) (hnil : p = none → t.ptr = none)
    {fuel : Nat} (hf : t.size < fuel) : updateRoot fuel h p = some t.ptr := by
  cases p with
  | none =>
    rw [hnil rfl]
    cases fuel with
    | zero => omega
    | succ f => rfl
  | some a => exact updateRoot_mem hr (hp a rfl) hf

theorem Tree.insCtx_none_iff (cmp : α → α → Int) (x : α) : ∀ (t : Tree α) (ctx : Ctx α),
    t.insCtx cmp x ctx = none ↔ t.find cmp x ≠ none
  | Tree.nil, ctx => by simp [Tree.insCtx, Tree.find]
  | Tree.node l a c d r, ctx => by
    simp only [Tree.insCtx, Tree.find]
    split_ifs with h1 h2
    · simp
    · exact Tree.insCtx_none_iff cmp x r _
    · exact Tree.insCtx_none_iff cmp x l _

theorem Tree.find_ne_none_iff {cmp : α → α → Int} (hc : TotalCmp cmp) {t : Tree α}
    (hs : t.Sorted cmp) (k : α) : t.find cmp k ≠ none ↔ ∃ d ∈ t.inorder, cmp k d = 0 := by
  constructor
  · intro hne
    induction t with
    | nil => simp [Tree.find] at hne
    | node l a c d r ihl ihr =>
      obtain ⟨sl, sr, -, -, -⟩ := Tree.sorted_node.1 hs
      simp only [Tree.find] at hne
      simp only [Tree.inorder, List.mem_append, List.mem_cons]
      split_ifs at hne with h1 h2
      · exact ⟨d, Or.inr (Or.inl rfl), h1⟩
      · obtain ⟨y, hy, e⟩ := ihr sr hne
        exact ⟨y, Or.inr (Or.inr hy), e⟩
      · obtain ⟨y, hy, e⟩ := ihl sl hne
        exact ⟨y, Or.inl hy, e⟩
  · rintro ⟨d, hd, hk⟩ hnone
    exact Tree.find_none hc k t hs hnone d hd hk

theorem Tree.insCtx_bounds {cmp : α → α → Int} (hc : TotalCmp cmp) (x : α) :
    ∀ (t : Tree α) (ctx ctx' : Ctx α), t.Sorted cmp →
      (∀ y ∈ ctx.before, cmp y x < 0) → (∀ y ∈ ctx.after, cmp x y < 0) →
      t.insCtx cmp x ctx = some ctx' →
      (∀ y ∈ ctx'.before, cmp y x < 0) ∧ (∀ y ∈ ctx'.after, cmp x y < 0)
  | Tree.nil, ctx, ctx', _, hb, ha, e => by
    simp only [Tree.insCtx, Option.some.injEq] at e
    subst e
    exact ⟨hb, ha⟩
  | Tree.node l a c d r, ctx, ctx', hs, hb, ha, e => by
    obtain ⟨sl, sr, hl, hr, -⟩ := Tree.sorted_node.1 hs
    simp only [Tree.insCtx] at e
    split_ifs at e with h1 h2
    · refine Tree.insCtx_bounds hc x r (Ctx.right l a c d ctx) ctx' sr ?_ ha e
      · intro y hy
        simp only [Ctx.before, List.mem_append, List.mem_singleton] at hy
        have hdx : cmp d x < 0 := (hc.swap x d).1 h2
        rcases hy with hy | hy | hy
        · exact hb y hy
        · exact hc.trans y d x (hl y hy) hdx
        · subst hy; exact hdx
    · refine Tree.insCtx_bounds hc x l (Ctx.left ctx a c d r) ctx' sl hb ?_ e
      intro y hy
      simp only [Ctx.after, List.cons_append, List.mem_cons, List.mem_append] at hy
      have hxd : cmp x d < 0 := by omega
      rcases hy with hy | hy | hy
      · subst hy; exact hxd
      · exact hc.trans x d y hxd (hr y hy)
      · exact ha y hy

theorem insertValue_root (cmp : α → α → Int) (x : α) (st : State α) (T : Tree α)
    (hr : RepT st.heap T) (hroot : st.root = T.ptr) :
    (T.insCtx cmp x Ctx.top = none →
      insertValue (fuelOf st.heap) st Loc.root x (some cmp) = some (st, none)) ∧
    ∀ ctx', T.insCtx cmp x Ctx.top = some ctx' →
      ∃ h', insertValue (fuelOf st.heap) st Loc.root x (some cmp) =
          some ({ st with heap := h', root := (ctx'.plug (Tree.leaf st.heap.length x)).ptr },
            some st.heap.length) ∧
        RepT h' (ctx'.plug (Tree.leaf st.heap.length x)) := by
  by_cases hn : T.ptr = none
  · have hnil := Tree.ptr_eq_none.1 hn
    subst hnil
    refine ⟨fun e => by simp [Tree.insCtx] at e, fun ctx' e => ?_⟩
    simp only [Tree.insCtx, Option.some.injEq] at e
    subst e
    obtain ⟨h', e1, e2, e3, e4, e5⟩ :=
      insertValue_leaf st Ctx.top x (some cmp) (st.heap.length + 3) hr hroot
    refine ⟨h', e1, repT_plug.2 ⟨trivial, ⟨e3, trivial, trivial⟩, ?_⟩⟩
    simpa [Tree.leaf, Tree.addrs] using e5
  · obtain ⟨h1, h2⟩ := insertValue_spec cmp x T Ctx.top (fuelOf st.heap) st
      (fun e => absurd e hn) hr hroot hr.height_lt_fuel
    refine ⟨h1, fun ctx' e => ?_⟩
    obtain ⟨h', e1, e2, e3, e4, e5, e6⟩ := h2 ctx' e
    simp only [hn, if_false] at e3
    refine ⟨h', ?_, repT_plug.2 ⟨e2, ⟨e3, trivial, trivial⟩, ?_⟩⟩
    · rw [Ctx.loc] at e1
      rw [e1, Ctx.plug_ptr_of_addr ctx' _ Tree.nil e6, Tree.insCtx_plug cmp x T _ _ e,
        Ctx.plug_top, ← hroot]
    · simpa [Tree.leaf, Tree.addrs] using e5

theorem sorted_insert {cmp : α → α → Int} {l1 l2 : List α} {x : α}
    (hs : (l1 ++ l2).Pairwise (fun a b => cmp a b < 0)) (h1 : ∀ y ∈ l1, cmp y x < 0)
    (h2 : ∀ y ∈ l2, cmp x y < 0) : (l1 ++ x :: l2).Pairwise (fun a b => cmp a b < 0) := by
  rw [List.pairwise_append] at hs ⊢
  refine ⟨hs.1, List.pairwise_cons.2 ⟨h2, hs.2.1⟩, ?_⟩
  intro a ha b hb
  rcases List.mem_cons.1 hb with rfl | hb
  · exact h1 a ha
  · exact hs.2.2 a ha b hb

/-- Insertion of a payload that compares equal to no stored payload, with the nodes of the
resulting tree: those of the tree before and the new cell. -/
theorem insertToRBTree_new_nodes {cmp : α → α → Int} (hc : TotalCmp cmp) (st : State α)
    (T : Tree α) (hrep : Represents st T) (hinv : RBInv cmp T) (hcmp : st.compFunc = some cmp)
    (x : α) (hx : ∀ d ∈ T.inorder, cmp x d ≠ 0) :
    ∃ (st' : State α) (T' : Tree α) (l1 l2 : List α),
      insertToRBTree st (some x) = some (SUCCESS, st') ∧ Represents st' T' ∧ RBInv cmp T' ∧
      T.inorder = l1 ++ l2 ∧ T'.inorder = l1 ++ x :: l2 ∧
      (∀ y ∈ l1, cmp y x < 0) ∧ (∀ y ∈ l2, cmp x y < 0) ∧
      T'.size = T.size + 1 ∧ st'.size = st.size + 1 ∧ st'.compFunc = st.compFunc ∧
      st'.freeFunc = st.freeFunc ∧ st'.freed = st.freed ∧
      T'.addrs.Perm (st.heap.length :: T.addrs) := by
  obtain ⟨hr, hroot⟩ := hrep
  obtain ⟨i1, i2, i3, i4⟩ := hinv
  have hfind : T.find cmp x = none := by
    by_contra hne
    obtain ⟨d, hd, e⟩ := (Tree.find_ne_none_iff hc i4 x).1 hne
    exact hx d hd e
  have hins : T.insCtx cmp x Ctx.top ≠ none := by
    rw [ne_eq, Tree.insCtx_none_iff]; simp [hfind]
  obtain ⟨ctx', hctx⟩ := Option.ne_none_iff_exists'.1 hins
  have hplug := Tree.insCtx_plug cmp x T _ _ hctx
  simp only [Ctx.plug_top] at hplug
  obtain ⟨h1, e1, r1⟩ := (insertValue_root cmp x st T hr hroot).2 ctx' hctx
  -- shape facts about the path
  have hbal : ctx'.Bal 0 := by
    have := (balanced_plug ctx' Tree.nil).1 (hplug ▸ i3)
    simpa [Tree.bh] using this.2
  have hnrr : ctx'.NRR := ((noRedRed_plug ctx' Tree.nil).1 (hplug ▸ i2)).2.1
  have hroot' : ctx'.rootColor Color.BLACK = Color.BLACK := by
    have := rootColor_plug ctx' Tree.nil
    rw [hplug, i1] at this
    simpa using this.symm
  have hsize := size_plug ctx' (Tree.nil : Tree α)
  rw [hplug] at hsize
  simp only [Tree.size, Nat.add_zero] at hsize
  have hlen := hr.size_le
  have hdepth := ctx'.depth_le_size
  obtain ⟨T', t1, t2, t3, t4, t5, t6⟩ := repairT_valid (fuelOf st.heap) ctx'
    (Tree.leaf st.heap.length x) (by unfold fuelOf; omega)
    ⟨rfl, ⟨by simp, trivial, trivial⟩, ⟨rfl, trivial, trivial⟩,
      by simpa [Tree.leaf, Tree.bh] using hbal, hnrr, hroot'⟩
  obtain ⟨h2, e2, r2⟩ := repairRBTree_refines (fuelOf st.heap) h1 ctx' _ T' r1 t1
  have e2' : repairRBTree (fuelOf st.heap) h1 (some st.heap.length) = some h2 := e2
  have hsz' : T'.size = T.size + 1 := by
    rw [← Tree.length_inorder, t5, Tree.length_inorder, size_plug, ← hsize]
    simp [Tree.leaf, Tree.size]
  have hur : updateRoot (fuelOf st.heap) h2
      (ctx'.plug (Tree.leaf st.heap.length x)).ptr = some T'.ptr := by
    refine updateRoot_ptr r2 (fun a ha => ?_) (fun hn => ?_) (by unfold fuelOf; omega)
    · have := mem_count (Tree.ptr_mem ha)
      rw [← t6] at this
      exact List.count_pos_iff.1 this
    · have := Tree.ptr_eq_none.1 hn
      have hs := size_plug ctx' (Tree.leaf st.heap.length x)
      rw [this] at hs
      simp [Tree.leaf, Tree.size] at hs
  have hbounds := Tree.insCtx_bounds hc x T Ctx.top ctx' i4 (by simp [Ctx.before])
    (by simp [Ctx.after]) hctx
  have hin : T.inorder = ctx'.before ++ ctx'.after := by
    rw [← hplug, inorder_plug]; simp [Tree.inorder]
  have hin' : T'.inorder = ctx'.before ++ x :: ctx'.after := by
    rw [t5, inorder_plug]; simp [Tree.leaf, Tree.inorder]
  refine ⟨{ st with heap := h2, root := T'.ptr, size := st.size + 1 }, T', ctx'.before,
    ctx'.after, ?_, ⟨r2, rfl⟩, ⟨t2, t3, t4, ?_⟩, hin, hin', hbounds.1, hbounds.2, hsz', rfl,
    rfl, rfl, rfl, ?_⟩
  · simp only [insertToRBTree, hcmp, e1, Option.bind_eq_bind, Option.some_bind,
      reduceCtorEq, if_false, e2', hur, Option.pure_def]
  · unfold Tree.Sorted
    rw [hin']
    exact sorted_insert (hin ▸ i4) hbounds.1 hbounds.2
  · refine List.perm_iff_count.2 fun y => ?_
    have hT := count_addrs_plug ctx' (Tree.nil : Tree α) y
    rw [hplug] at hT
    rw [t6 y, count_addrs_plug, List.count_cons, hT]
    simp only [Tree.leaf, Tree.addrs, List.nil_append, List.count_cons, List.count_nil,
      Nat.zero_add, Nat.add_zero]

/-- Insertion of a payload that compares equal to no stored payload. -/
theorem insertToRBTree_new {cmp : α → α → Int} (hc : TotalCmp cmp) (st : State α)
    (T : Tree α) (hrep : Represents st T) (hinv : RBInv cmp T) (hcmp : st.compFunc = some cmp)
    (x : α) (hx : ∀ d ∈ T.inorder, cmp x d ≠ 0) :
    ∃ (st' : State α) (T' : Tree α) (l1 l2 : List α),
      insertToRBTree st (some x) = some (SUCCESS, st') ∧ Represents st' T' ∧ RBInv cmp T' ∧
      T.inorder = l1 ++ l2 ∧ T'.inorder = l1 ++ x :: l2 ∧
      (∀ y ∈ l1, cmp y x < 0) ∧ (∀ y ∈ l2, cmp x y < 0) ∧
      T'.size = T.size + 1 ∧ st'.size = st.size + 1 ∧ st'.compFunc = st.compFunc ∧
      st'.freeFunc = st.freeFunc ∧ st'.freed = st.freed := by
  obtain ⟨st', T', l1, l2, h1, h2, h3, h4, h5, h6, h7, h8, h9, h10, h11, h12, -⟩ :=
    insertToRBTree_new_nodes hc st T hrep hinv hcmp x hx
  exact ⟨st', T', l1, l2, h1, h2, h3, h4, h5, h6, h7, h8, h9, h10, h11, h12⟩

/-- Insertion of a payload that compares equal to a stored payload. -/
theorem insertToRBTree_dup {cmp : α → α → Int} (hc : TotalCmp cmp) (st : State α)
    (T : Tree α) (hrep : Represents st T) (hs : T.Sorted cmp) (hcmp : st.compFunc = some cmp)
    (x : α) (hx : ∃ d ∈ T.inorder, cmp x d = 0) :
    insertToRBTree st (some x) = some (FAILURE, st) := by
  obtain ⟨hr, hroot⟩ := hrep
  have hins : T.insCtx cmp x Ctx.top = none := by
    rw [Tree.insCtx_none_iff]; exact (Tree.find_ne_none_iff hc hs x).2 hx
  have e1 := (insertValue_root cmp x st T hr hroot).1 hins
  simp only [insertToRBTree, hcmp, e1, Option.bind_eq_bind, Option.some_bind, if_true,
    Option.pure_def]

@[simp] theorem Ctx.sibPtr_top : (Ctx.top : Ctx α).sibPtr = none := rfl

@[simp] theorem Ctx.sibPtr_left (up : Ctx α) (a : Nat) (c : Color) (d : α) (s : Tree α) :
    (Ctx.left up a c d s).sibPtr = s.ptr := rfl

@[simp] theorem Ctx.sibPtr_right (up : Ctx α) (a : Nat) (c : Color) (d : α) (s : Tree α) :
    (Ctx.right s a c d up).sibPtr = s.ptr := rfl

@[simp] theorem Ctx.addr_top : (Ctx.top : Ctx α).addr = none := rfl

@[simp] theorem Ctx.addr_left (up : Ctx α) (a : Nat) (c : Color) (d : α) (s : Tree α) :
    (Ctx.left up a c d s).addr = some a := rfl

@[simp] theorem Ctx.addr_right (up : Ctx α) (a : Nat) (c : Color) (d : α) (s : Tree α) :
    (Ctx.right s a c d up).addr = some a := rfl

theorem RepT.findSibling_focus {h : Heap α} {K : Ctx α} {l r : Tree α} {a : Nat}
    {c : Color} {d : α} (hr : RepT h (K.plug (Tree.node l a c d r))) :
    findSibling h (some a) = some K.sibPtr := by
  have hn := hr.read_focus
  cases K with
  | top => simp [findSibling, hn]
  | left up p pc pd s =>
    have hp := RepT.read_focus (K := up) hr
    simp [findSibling, hn, hp]
  | right s p pc pd up =>
    have hp := RepT.read_focus (K := up) hr
    have cn := nd_count hr.nodup_focus a
    simp only [Tree.addrs, Ctx.addrs, List.count_append, List.count_cons, beq_iff_eq,
      if_true, List.count_nil] at cn
    have : s.addrs.count a = 0 := by omega
    simp [findSibling, hn, hp, Tree.ptr_ne_count this]

set_option maxHeartbeats 8000000 in
theorem fixTreeStructure_refines : ∀ (fuel : Nat) (h : Heap α) (ctx : Ctx α) (t T' : Tree α),
    RepT h (ctx.plug t) → fixT fuel ctx t = some T' →
      ∃ h', fixTreeStructure fuel h ctx.addr ctx.sibPtr = some h' ∧ RepT h' T'
  | 0, _, _, _, _, _, e => by simp [fixT] at e
  | fuel + 1, h, Ctx.top, t, T', hr, e => by
    simp only [fixT, Option.some.injEq] at e
    subst e
    exact ⟨h, by simp [fixTreeStructure], hr⟩
  | fuel + 1, h, Ctx.left up p pc pd Tree.nil, t, T', hr, e => by
    simp only [fixT, Option.some.injEq] at e
    subst e
    exact ⟨h, by simp [fixTreeStructure], hr⟩
  | fuel + 1, h, Ctx.right Tree.nil p pc pd up, t, T', hr, e => by
    simp only [fixT, Option.some.injEq] at e
    subst e
    exact ⟨h, by simp [fixTreeStructure], hr⟩
  | fuel + 1, h, Ctx.left up p pc pd (Tree.node sl s sc sd sr), t, T', hr, e => by
    have hp := RepT.read_focus (K := up) hr
    have hs := RepT.read_focus (K := (Ctx.right t p pc pd up)) hr
    have hbl := RepT.isNullOrBlack_focus (K := (Ctx.left (Ctx.right t p pc pd up) s sc sd sr)) (t := sl) hr
    have hbr := RepT.isNullOrBlack_focus (K := (Ctx.right sl s sc sd (Ctx.right t p pc pd up))) (t := sr) hr
    have hrl := RepT.isRed_focus (K := (Ctx.left (Ctx.right t p pc pd up) s sc sd sr)) (t := sl) hr
    have hrr := RepT.isRed_focus (K := (Ctx.right sl s sc sd (Ctx.right t p pc pd up))) (t := sr) hr
    have cs := nd_count hr.nodup_focus s
    simp only [Tree.addrs, Ctx.addrs, List.count_append, List.count_cons, beq_iff_eq,
      if_true, List.count_nil] at cs
    have hts : t.ptr ≠ some s := by
      have : t.addrs.count s = 0 := by omega
      simpa using Tree.ptr_ne_count this
    simp only [fixT] at e
    cases sc with
    | RED =>
      simp only [reduceCtorEq, false_and, if_false, if_true] at e
      obtain ⟨h1, e1, r1⟩ := RepT.setColor_focus (K := (Ctx.right t p pc pd up)) hr Color.BLACK
      obtain ⟨h2, e2, r2⟩ := RepT.setColor_focus (K := up) r1 Color.RED
      have hp2 := RepT.read_focus (K := up) r2
      obtain ⟨h3, e3, r3⟩ := RepT.leftRotation_focus (K := up) r2
      have hp3 := RepT.read_focus (K := (Ctx.left up s Color.BLACK sd sr)) r3
      obtain ⟨h', e4, r4⟩ := fixTreeStructure_refines fuel h3 (Ctx.left (Ctx.left up s Color.BLACK sd sr) p Color.RED pd sl) t T' r3 e
      refine ⟨h', ?_, r4⟩
      simp only [Ctx.addr_left, Ctx.addr_right, Ctx.sibPtr_left, Ctx.sibPtr_right] at e4
      simp only [fixTreeStructure, deref, hs, hp, e1, e2, hp2, hts, hts.symm, e3, hp3, e4, Option.bind_eq_bind, Option.some_bind, Option.pure_def, Tree.ptr_node, Tree.ptr_nil, if_false, if_true, reduceCtorEq, decide_False, decide_True, ne_eq, not_true_eq_false, not_false_eq_true, Bool.false_eq_true, Option.some.injEq, Ctx.addr_left, Ctx.addr_right, Ctx.addr_top, Ctx.sibPtr_left, Ctx.sibPtr_right, Ctx.sibPtr_top, or_self, or_false, false_or, and_self, and_true, true_and, and_false, false_and, Tree.rootColor_node, Tree.rootColor_nil]
    | BLACK =>
      by_cases hb : sl.rootColor = Color.BLACK ∧ sr.rootColor = Color.BLACK
      · simp only [hb, and_self, if_true] at e
        simp only [hb.1, hb.2] at hbl hbr
        obtain ⟨h1, e1, r1⟩ := RepT.setColor_focus (K := (Ctx.right t p pc pd up)) hr Color.RED
        have hp1 := RepT.read_focus (K := up) r1
        cases pc with
        | RED =>
          simp only [if_true, Option.some.injEq] at e
          subst e
          obtain ⟨h2, e2, r2⟩ := RepT.setColor_focus (K := up) r1 Color.BLACK
          refine ⟨h2, ?_, r2⟩
          simp only [fixTreeStructure, deref, hs, hp, hbl, hbr, e1, e2, Option.bind_eq_bind, Option.some_bind, Option.pure_def, Tree.ptr_node, Tree.ptr_nil, if_false, if_true, reduceCtorEq, decide_False, decide_True, ne_eq, not_true_eq_false, not_false_eq_true, Bool.false_eq_true, Option.some.injEq, Ctx.addr_left, Ctx.addr_right, Ctx.addr_top, Ctx.sibPtr_left, Ctx.sibPtr_right, Ctx.sibPtr_top, or_self, or_false, false_or, and_self, and_true, true_and, and_false, false_and, Tree.rootColor_node, Tree.rootColor_nil]
        | BLACK =>
          simp only [reduceCtorEq, if_false] at e
          have hsib := RepT.findSibling_focus (K := up) r1
          obtain ⟨h', e4, r4⟩ := fixTreeStructure_refines fuel h1 up _ T' r1 e
          refine ⟨h', ?_, r4⟩
          simp only [fixTreeStructure, deref, hs, hp, hbl, hbr, e1, hp1, hsib, e4, Option.bind_eq_bind, Option.some_bind, Option.pure_def, Tree.ptr_node, Tree.ptr_nil, if_false, if_true, reduceCtorEq, decide_False, decide_True, ne_eq, not_true_eq_false, not_false_eq_true, Bool.false_eq_true, Option.some.injEq, Ctx.addr_left, Ctx.addr_right, Ctx.addr_top, Ctx.sibPtr_left, Ctx.sibPtr_right, Ctx.sibPtr_top, or_self, or_false, false_or, and_self, and_true, true_and, and_false, false_and, Tree.rootColor_node, Tree.rootColor_nil]
      · simp only [hb, and_false, if_false, reduceCtorEq] at e
        by_cases hd : sl.rootColor = Color.RED ∧ sr.rootColor = Color.BLACK
        · simp only [hd, and_self, if_true] at e
          simp only [hd.1, hd.2] at hbl hbr hrl hrr
          cases sl with
          | nil => simp at e
          | node sll n nc nd slr =>
            simp only at e
            simp only [Tree.rootColor_node] at hd
            obtain ⟨hd1, hd2⟩ := hd
            subst hd1
            simp only [Tree.ptr_node, Tree.rootColor_node, reduceCtorEq, decide_True,
              decide_False] at hbl hbr hrl hrr hs hp
            obtain ⟨h1, e1, r1⟩ := RepT.setColor_focus (K := (Ctx.left (Ctx.right t p pc pd up) s Color.BLACK sd sr)) hr
              Color.BLACK
            obtain ⟨h2, e2, r2⟩ := RepT.setColor_focus (K := (Ctx.right t p pc pd up)) r1 Color.RED
            have hp2 := RepT.read_focus (K := up) r2
            obtain ⟨h3, e3, r3⟩ := RepT.rightRotation_focus (K := (Ctx.right t p pc pd up)) r2
            obtain ⟨h', e4, r4⟩ := fixTreeStructure_refines fuel h3
              (Ctx.left up p pc pd (Tree.node sll n Color.BLACK nd (Tree.node slr s Color.RED sd sr))) t T' r3 e
            refine ⟨h', ?_, r4⟩
            simp only [Ctx.addr_left, Ctx.addr_right, Ctx.sibPtr_left, Ctx.sibPtr_right,
              Tree.ptr_node] at e4
            simp only [fixTreeStructure, deref, hs, hp, hbl, hbr, hrl, hrr, e1, e2, hp2, hts,
              hts.symm, e3, e4, Option.bind_eq_bind, Option.some_bind, Option.pure_def, Tree.ptr_node, Tree.ptr_nil, if_false, if_true, reduceCtorEq, decide_False, decide_True, ne_eq, not_true_eq_false, not_false_eq_true, Bool.false_eq_true, Option.some.injEq, Ctx.addr_left, Ctx.addr_right, Ctx.addr_top, Ctx.sibPtr_left, Ctx.sibPtr_right, Ctx.sibPtr_top, or_self, or_false, false_or, and_self, and_true, true_and, and_false, false_and, Tree.rootColor_node, Tree.rootColor_nil]
        · simp only [hd, if_false] at e
          have hfar : sr.rootColor = Color.RED := by
            cases hx : sl.rootColor <;> cases hy : sr.rootColor <;> simp_all
          cases sr with
          | nil => simp at hfar
          | node srl f fc fd srr =>
            simp only [Tree.rootColor_node] at hfar
            subst hfar
            simp only [if_true, Option.some.injEq] at e
            subst e
            have hf := RepT.read_focus (K := (Ctx.right sl s Color.BLACK sd (Ctx.right t p pc pd up))) hr
            obtain ⟨h1, e1, r1⟩ := RepT.setColor_focus (K := (Ctx.right t p pc pd up)) hr pc
            obtain ⟨h2, e2, r2⟩ := RepT.setColor_focus (K := up) r1 Color.BLACK
            have hp2 := RepT.read_focus (K := up) r2
            obtain ⟨h3, e3, r3⟩ := RepT.leftRotation_focus (K := up) r2
            obtain ⟨h4, e4, r4⟩ := RepT.setColor_focus
              (K := (Ctx.right (Tree.node t p Color.BLACK pd sl) s pc sd up)) r3 Color.BLACK
            refine ⟨h4, ?_, r4⟩
            simp only [Tree.ptr_node, Tree.rootColor_node, reduceCtorEq, decide_True,
              decide_False] at hbl hbr hrl hrr hs hp
            cases hx : sl.rootColor <;>
            · simp only [hx, reduceCtorEq, decide_True, decide_False] at hbl hrl
              simp only [fixTreeStructure, deref, hs, hp, hbl, hbr, hrl, hrr, hf, e1, e2, hp2,
                hts, hts.symm, e3, e4, Option.bind_eq_bind, Option.some_bind, Option.pure_def, Tree.ptr_node, Tree.ptr_nil, if_false, if_true, reduceCtorEq, decide_False, decide_True, ne_eq, not_true_eq_false, not_false_eq_true, Bool.false_eq_true, Option.some.injEq, Ctx.addr_left, Ctx.addr_right, Ctx.addr_top, Ctx.sibPtr_left, Ctx.sibPtr_right, Ctx.sibPtr_top, or_self, or_false, false_or, and_self, and_true, true_and, and_false, false_and, Tree.rootColor_node, Tree.rootColor_nil]
  | fuel + 1, h, Ctx.right (Tree.node sl s sc sd sr) p pc pd up, t, T', hr, e => by
    have hp := RepT.read_focus (K := up) hr
    have hs := RepT.read_focus (K := (Ctx.left up p pc pd t)) hr
    have hbl := RepT.isNullOrBlack_focus (K := (Ctx.left (Ctx.left up p pc pd t) s sc sd sr)) (t := sl) hr
    have hbr := RepT.isNullOrBlack_focus (K := (Ctx.right sl s sc sd (Ctx.left up p pc pd t))) (t := sr) hr
    have hrl := RepT.isRed_focus (K := (Ctx.left (Ctx.left up p pc pd t) s sc sd sr)) (t := sl) hr
    have hrr := RepT.isRed_focus (K := (Ctx.right sl s sc sd (Ctx.left up p pc pd t))) (t := sr) hr
    have cs := nd_count hr.nodup_focus s
    simp only [Tree.addrs, Ctx.addrs, List.count_append, List.count_cons, beq_iff_eq,
      if_true, List.count_nil] at cs
    have hts : t.ptr ≠ some s := by
      have : t.addrs.count s = 0 := by omega
      simpa using Tree.ptr_ne_count this
    simp only [fixT] at e
    cases sc with
    | RED =>
      simp only [reduceCtorEq, false_and, if_false, if_true] at e
      obtain ⟨h1, e1, r1⟩ := RepT.setColor_focus (K := (Ctx.left up p pc pd t)) hr Color.BLACK
      obtain ⟨h2, e2, r2⟩ := RepT.setColor_focus (K := up) r1 Color.RED
      have hp2 := RepT.read_focus (K := up) r2
      obtain ⟨h3, e3, r3⟩ := RepT.rightRotation_focus (K := up) r2
      have hp3 := RepT.read_focus (K := (Ctx.right sl s Color.BLACK sd up)) r3
      obtain ⟨h', e4, r4⟩ := fixTreeStructure_refines fuel h3 (Ctx.right sr p Color.RED pd (Ctx.right sl s Color.BLACK sd up)) t T' r3 e
      refine ⟨h', ?_, r4⟩
      simp only [Ctx.addr_left, Ctx.addr_right, Ctx.sibPtr_left, Ctx.sibPtr_right] at e4
      simp only [fixTreeStructure, deref, hs, hp, e1, e2, hp2, hts, hts.symm, e3, hp3, e4, Option.bind_eq_bind, Option.some_bind, Option.pure_def, Tree.ptr_node, Tree.ptr_nil, if_false, if_true, reduceCtorEq, decide_False, decide_True, ne_eq, not_true_eq_false, not_false_eq_true, Bool.false_eq_true, Option.some.injEq, Ctx.addr_left, Ctx.addr_right, Ctx.addr_top, Ctx.sibPtr_left, Ctx.sibPtr_right, Ctx.sibPtr_top, or_self, or_false, false_or, and_self, and_true, true_and, and_false, false_and, Tree.rootColor_node, Tree.rootColor_nil]
    | BLACK =>
      by_cases hb : sl.rootColor = Color.BLACK ∧ sr.rootColor = Color.BLACK
      · simp only [hb, and_self, if_true] at e
        simp only [hb.1, hb.2] at hbl hbr
        obtain ⟨h1, e1, r1⟩ := RepT.setColor_focus (K := (Ctx.left up p pc pd t)) hr Color.RED
        have hp1 := RepT.read_focus (K := up) r1
        cases pc with
        | RED =>
          simp only [if_true, Option.some.injEq] at e
          subst e
          obtain ⟨h2, e2, r2⟩ := RepT.setColor_focus (K := up) r1 Color.BLACK
          refine ⟨h2, ?_, r2⟩
          simp only [fixTreeStructure, deref, hs, hp, hbl, hbr, e1, e2, Option.bind_eq_bind, Option.some_bind, Option.pure_def, Tree.ptr_node, Tree.ptr_nil, if_false, if_true, reduceCtorEq, decide_False, decide_True, ne_eq, not_true_eq_false, not_false_eq_true, Bool.false_eq_true, Option.some.injEq, Ctx.addr_left, Ctx.addr_right, Ctx.addr_top, Ctx.sibPtr_left, Ctx.sibPtr_right, Ctx.sibPtr_top, or_self, or_false, false_or, and_self, and_true, true_and, and_false, false_and, Tree.rootColor_node, Tree.rootColor_nil]
        | BLACK =>
          simp only [reduceCtorEq, if_false] at e
          have hsib := RepT.findSibling_focus (K := up) r1
          obtain ⟨h', e4, r4⟩ := fixTreeStructure_refines fuel h1 up _ T' r1 e
          refine ⟨h', ?_, r4⟩
          simp only [fixTreeStructure, deref, hs, hp, hbl, hbr, e1, hp1, hsib, e4, Option.bind_eq_bind, Option.some_bind, Option.pure_def, Tree.ptr_node, Tree.ptr_nil, if_false, if_true, reduceCtorEq, decide_False, decide_True, ne_eq, not_true_eq_false, not_false_eq_true, Bool.false_eq_true, Option.some.injEq, Ctx.addr_left, Ctx.addr_right, Ctx.addr_top, Ctx.sibPtr_left, Ctx.sibPtr_right, Ctx.sibPtr_top, or_self, or_false, false_or, and_self, and_true, true_and, and_false, false_and, Tree.rootColor_node, Tree.rootColor_nil]
      · simp only [hb, and_false, if_false, reduceCtorEq] at e
        by_cases hd : sr.rootColor = Color.RED ∧ sl.rootColor = Color.BLACK
        · simp only [hd, and_self, if_true] at e
          simp only [hd.1, hd.2] at hbl hbr hrl hrr
          cases sr with
          | nil => simp at e
          | node srl n nc nd srr =>
            simp only at e
            simp only [Tree.rootColor_node] at hd
            obtain ⟨hd1, hd2⟩ := hd
            subst hd1
            simp only [Tree.ptr_node, Tree.rootColor_node, reduceCtorEq, decide_True,
              decide_False] at hbl hbr hrl hrr hs hp
            obtain ⟨h1, e1, r1⟩ := RepT.setColor_focus (K := (Ctx.right sl s Color.BLACK sd (Ctx.left up p pc pd t))) hr
              Color.BLACK
            obtain ⟨h2, e2, r2⟩ := RepT.setColor_focus (K := (Ctx.left up p pc pd t)) r1 Color.RED
            have hp2 := RepT.read_focus (K := up) r2
            obtain ⟨h3, e3, r3⟩ := RepT.leftRotation_focus (K := (Ctx.left up p pc pd t)) r2
            obtain ⟨h', e4, r4⟩ := fixTreeStructure_refines fuel h3
              (Ctx.right (Tree.node (Tree.node sl s Color.RED sd srl) n Color.BLACK nd srr) p pc pd up) t T' r3 e
            refine ⟨h', ?_, r4⟩
            simp only [Ctx.addr_left, Ctx.addr_right, Ctx.sibPtr_left, Ctx.sibPtr_right,
              Tree.ptr_node] at e4
            simp only [fixTreeStructure, deref, hs, hp, hbl, hbr, hrl, hrr, e1, e2, hp2, hts,
              hts.symm, e3, e4, Option.bind_eq_bind, Option.some_bind, Option.pure_def, Tree.ptr_node, Tree.ptr_nil, if_false, if_true, reduceCtorEq, decide_False, decide_True, ne_eq, not_true_eq_false, not_false_eq_true, Bool.false_eq_true, Option.some.injEq, Ctx.addr_left, Ctx.addr_right, Ctx.addr_top, Ctx.sibPtr_left, Ctx.sibPtr_right, Ctx.sibPtr_top, or_self, or_false, false_or, and_self, and_true, true_and, and_false, false_and, Tree.rootColor_node, Tree.rootColor_nil]
        · simp only [hd, if_false] at e
          have hfar : sl.rootColor = Color.RED := by
            cases hx : sl.rootColor <;> cases hy : sr.rootColor <;> simp_all
          cases sl with
          | nil => simp at hfar
          | node sll f fc fd slr =>
            simp only [Tree.rootColor_node] at hfar
            subst hfar
            simp only [if_true, Option.some.injEq] at e
            subst e
            have hf := RepT.read_focus (K := (Ctx.left (Ctx.left up p pc pd t) s Color.BLACK sd sr)) hr
            obtain ⟨h1, e1, r1⟩ := RepT.setColor_focus (K := (Ctx.left up p pc pd t)) hr pc
            obtain ⟨h2, e2, r2⟩ := RepT.setColor_focus (K := up) r1 Color.BLACK
            have hp2 := RepT.read_focus (K := up) r2
            obtain ⟨h3, e3, r3⟩ := RepT.rightRotation_focus (K := up) r2
            obtain ⟨h4, e4, r4⟩ := RepT.setColor_focus
              (K := (Ctx.left up s pc sd (Tree.node sr p Color.BLACK pd t))) r3 Color.BLACK
            refine ⟨h4, ?_, r4⟩
            simp only [Tree.ptr_node, Tree.rootColor_node, reduceCtorEq, decide_True,
              decide_False] at hbl hbr hrl hrr hs hp
            cases hx : sr.rootColor <;>
            · simp only [hx, reduceCtorEq, decide_True, decide_False] at hbr hrr
              simp only [fixTreeStructure, deref, hs, hp, hbl, hbr, hrl, hrr, hf, e1, e2, hp2,
                hts, hts.symm, e3, e4, Option.bind_eq_bind, Option.some_bind, Option.pure_def, Tree.ptr_node, Tree.ptr_nil, if_false, if_true, reduceCtorEq, decide_False, decide_True, ne_eq, not_true_eq_false, not_false_eq_true, Bool.false_eq_true, Option.some.injEq, Ctx.addr_left, Ctx.addr_right, Ctx.addr_top, Ctx.sibPtr_left, Ctx.sibPtr_right, Ctx.sibPtr_top, or_self, or_false, false_or, and_self, and_true, true_and, and_false, false_and, Tree.rootColor_node, Tree.rootColor_nil]

theorem read_release_ne (h : Heap α) {a b : Nat} (hne : b ≠ a) :
    (h.release a).read b = h.read b := by
  unfold Heap.read Heap.release
  have : a ≠ b := fun e => hne e.symm
  simp [List.getElem?_set, this]

theorem Rep.release_frame {h : Heap α} {t : Tree α} {par : Ptr} {a : Nat}
    (ha : t.addrs.count a = 0) : Rep (h.release a) t par ↔ Rep h t par := by
  have hn : a ∉ t.addrs := List.count_eq_zero.1 ha
  constructor
  · exact Rep.frame (fun x hx => (read_release_ne h (fun e => hn (by rw [← e]; exact hx))).symm)
  · exact Rep.frame (fun x hx => read_release_ne h (fun e => hn (by rw [← e]; exact hx)))

theorem RepCtx.path_release_frame {h : Heap α} {ctx : Ctx α} {p : Ptr} {a : Nat}
    (ha : ctx.addrs.count a = 0) : RepCtx (h.release a) ctx p ↔ RepCtx h ctx p := by
  have hn : a ∉ ctx.addrs := List.count_eq_zero.1 ha
  constructor
  · exact RepCtx.path_frame
      (fun x hx => (read_release_ne h (fun e => hn (by rw [← e]; exact hx))).symm)
  · exact RepCtx.path_frame (fun x hx => read_release_ne h (fun e => hn (by rw [← e]; exact hx)))

theorem RepT.write_outside {h : Heap α} {t : Tree α} (hr : RepT h t) {a : Nat} (n : Node α)
    (ha : t.addrs.count a = 0) : RepT (h.write a n) t :=
  ⟨(Rep.write_frame n ha).2 hr.1, hr.2⟩

theorem RepT.release_outside {h : Heap α} {t : Tree α} (hr : RepT h t) {a : Nat}
    (ha : t.addrs.count a = 0) : RepT (h.release a) t :=
  ⟨(Rep.release_frame ha).2 hr.1, hr.2⟩

theorem RepT.findPtrToChild_focus {h : Heap α} {ctx : Ctx α} {l r : Tree α} {a : Nat}
    {c : Color} {d : α} (hr : RepT h (ctx.plug (Tree.node l a c d r))) :
    findPtrToChild h (some a) = some ctx.ptrTo := by
  have hn := hr.read_focus
  cases ctx with
  | top => simp [findPtrToChild, hn, Ctx.ptrTo]
  | left up p pc pd s =>
    have hp := RepT.read_focus (K := up) hr
    simp [findPtrToChild, hn, hp, Ctx.ptrTo]
  | right s p pc pd up =>
    have hp := RepT.read_focus (K := up) hr
    have cn := nd_count hr.nodup_focus a
    simp only [Tree.addrs, Ctx.addrs, List.count_append, List.count_cons, beq_iff_eq,
      if_true, List.count_nil] at cn
    have : s.addrs.count a = 0 := by omega
    simp [findPtrToChild, hn, hp, Ctx.ptrTo, Tree.ptr_ne_count this]

/-- Unlinking the node in focus from its parent and freeing it. -/
theorem RepT.detach_focus {st : State α} {ctx : Ctx α} {l r : Tree α} {m : Nat} {c : Color}
    {d : α} (hr : RepT st.heap (ctx.plug (Tree.node l m c d r))) (hne : ctx.addr ≠ none)
    (hfree : st.freeFunc = true) :
    ∃ st1 h', clearLoc st ctx.ptrTo = some st1 ∧ freeNode st1 (some m) =
        some { st with heap := h', freed := st.freed ++ [d] } ∧
      RepT h' (ctx.plug Tree.nil) := by
  obtain ⟨hc, ⟨hm, -, -⟩, hnd⟩ := repT_plug.1 hr
  have cm := nd_count hnd m
  have hmlt := read_lt hm
  cases ctx with
  | top => simp at hne
  | left up p pc pd s =>
    obtain ⟨hp, hs, hup⟩ := hc
    have cp := nd_count hnd p
    simp only [Tree.addrs, Ctx.addrs, List.count_append, List.count_cons, beq_iff_eq,
      if_true, List.count_nil] at cm cp
    have hpm : p ≠ m := by rintro rfl; simp at cm; omega
    have hplt := read_lt hp
    refine ⟨{ st with heap := st.heap.write p ⟨pd, pc, none, s.ptr, up.addr⟩ },
      (st.heap.write p ⟨pd, pc, none, s.ptr, up.addr⟩).release m, ?_, ?_, ?_⟩
    · simp only [clearLoc, Ctx.ptrTo, writeLoc, setLeft, hp, Option.map_some']
    · simp only [Option.bind_eq_bind, Option.some_bind, freeNode, read_write_ne _ _ hpm.symm, hm,
        hfree, if_true, Option.pure_def]
    · refine repT_plug.2 ⟨⟨?_, ?_, ?_⟩, trivial, ?_⟩
      · rw [read_release_ne _ hpm, read_write_self _ _ hplt]; rfl
      · exact (Rep.release_frame (by omega)).2 ((Rep.write_frame _ (by omega)).2 hs)
      · exact (RepCtx.path_release_frame (by omega)).2 ((RepCtx.path_write_frame _ (by omega)).2 hup)
      · have := (List.nodup_append.1 hnd).1
        simpa [Tree.addrs] using this
  | right s p pc pd up =>
    obtain ⟨hp, hs, hup⟩ := hc
    have cp := nd_count hnd p
    simp only [Tree.addrs, Ctx.addrs, List.count_append, List.count_cons, beq_iff_eq,
      if_true, List.count_nil] at cm cp
    have hpm : p ≠ m := by rintro rfl; simp at cm; omega
    have hplt := read_lt hp
    refine ⟨{ st with heap := st.heap.write p ⟨pd, pc, s.ptr, none, up.addr⟩ },
      (st.heap.write p ⟨pd, pc, s.ptr, none, up.addr⟩).release m, ?_, ?_, ?_⟩
    · simp only [clearLoc, Ctx.ptrTo, writeLoc, setRight, hp, Option.map_some']
    · simp only [Option.bind_eq_bind, Option.some_bind, freeNode, read_write_ne _ _ hpm.symm, hm,
        hfree, if_true, Option.pure_def]
    · refine repT_plug.2 ⟨⟨?_, ?_, ?_⟩, trivial, ?_⟩
      · rw [read_release_ne _ hpm, read_write_self _ _ hplt]; rfl
      · exact (Rep.release_frame (by omega)).2 ((Rep.write_frame _ (by omega)).2 hs)
      · exact (RepCtx.path_release_frame (by omega)).2 ((RepCtx.path_write_frame _ (by omega)).2 hup)
      · have := (List.nodup_append.1 hnd).1
        simpa [Tree.addrs] using this

theorem RepT.drop_left {h : Heap α} {ctx : Ctx α} {l r : Tree α} {a : Nat} {c : Color}
    {d : α} (hr : RepT h (ctx.plug (Tree.node l a c d r))) :
    RepT (h.write a ⟨d, c, none, r.ptr, ctx.addr⟩) (ctx.plug (Tree.node Tree.nil a c d r)) := by
  obtain ⟨h1, ⟨h2, h3, h4⟩, hnd⟩ := repT_plug.1 hr
  have hlt := read_lt h2
  have hc := nd_count hnd a
  simp only [Tree.addrs, List.count_append, List.count_cons, beq_self_eq_true, if_true] at hc
  refine repT_plug.2 ⟨?_, ⟨read_write_self _ _ hlt, trivial, ?_⟩, ?_⟩
  · exact (RepCtx.path_write_frame _ (by omega)).2 h1
  · exact (Rep.write_frame _ (by omega)).2 h4
  · simp only [Tree.addrs, List.nil_append]
    simp only [Tree.addrs] at hnd
    refine List.Nodup.sublist ?_ hnd
    exact List.Sublist.append_left (List.sublist_append_right _ _) _

theorem RepT.drop_right {h : Heap α} {ctx : Ctx α} {l r : Tree α} {a : Nat} {c : Color}
    {d : α} (hr : RepT h (ctx.plug (Tree.node l a c d r))) :
    RepT (h.write a ⟨d, c, l.ptr, none, ctx.addr⟩) (ctx.plug (Tree.node l a c d Tree.nil)) := by
  obtain ⟨h1, ⟨h2, h3, h4⟩, hnd⟩ := repT_plug.1 hr
  have hlt := read_lt h2
  have hc := nd_count hnd a
  simp only [Tree.addrs, List.count_append, List.count_cons, beq_self_eq_true, if_true] at hc
  refine repT_plug.2 ⟨?_, ⟨read_write_self _ _ hlt, ?_, trivial⟩, ?_⟩
  · exact (RepCtx.path_write_frame _ (by omega)).2 h1
  · exact (Rep.write_frame _ (by omega)).2 h3
  · simp only [Tree.addrs]
    simp only [Tree.addrs] at hnd
    refine List.Nodup.sublist ?_ hnd
    refine List.Sublist.append_left (List.Sublist.append_left ?_ _) _
    exact List.Sublist.cons₂ _ (List.nil_sublist _)

theorem Ctx.plug_ptr_count : ∀ (ctx : Ctx α) (t : Tree α), ctx.addr ≠ none →
    ∃ a, (ctx.plug t).ptr = some a ∧ 1 ≤ ctx.addrs.count a
  | Ctx.top, _, hne => by simp at hne
  | Ctx.left up p pc pd s, t, _ => by
    by_cases hu : up.addr = none
    · cases up with
      | top => exact ⟨p, rfl, by simp [Ctx.addrs]⟩
      | left _ _ _ _ _ => simp at hu
      | right _ _ _ _ _ => simp at hu
    · obtain ⟨a, e, hc⟩ := Ctx.plug_ptr_count up (Tree.node t p pc pd s) hu
      refine ⟨a, e, ?_⟩
      simp only [Ctx.addrs, List.count_cons, List.count_append]
      omega
  | Ctx.right s p pc pd up, t, _ => by
    by_cases hu : up.addr = none
    · cases up with
      | top => exact ⟨p, rfl, by simp [Ctx.addrs]⟩
      | left _ _ _ _ _ => simp at hu
      | right _ _ _ _ _ => simp at hu
    · obtain ⟨a, e, hc⟩ := Ctx.plug_ptr_count up (Tree.node s p pc pd t) hu
      refine ⟨a, e, ?_⟩
      simp only [Ctx.addrs, List.count_cons, List.count_append]
      omega

theorem RepT.root_ne_focus {h : Heap α} {ctx : Ctx α} {l r : Tree α} {m : Nat} {c : Color}
    {d : α} (hr : RepT h (ctx.plug (Tree.node l m c d r))) (hne : ctx.addr ≠ none) :
    (ctx.plug (Tree.node l m c d r)).ptr ≠ some m := by
  obtain ⟨a, e, hc⟩ := Ctx.plug_ptr_count ctx (Tree.node l m c d r) hne
  have cm := nd_count hr.nodup_focus m
  simp only [Tree.addrs, List.count_append, List.count_cons, beq_self_eq_true, if_true] at cm
  rw [e]
  rintro h1
  simp only [Option.some.injEq] at h1
  subst h1
  omega

/-- Case 3 of `deleteNode`: the removed node is BLACK and has no RED child. -/
theorem deleteNode_case3 {st : State α} {ctx : Ctx α} {l r : Tree α} {m : Nat} {d : α}
    (fuel : Nat) (hr : RepT st.heap (ctx.plug (Tree.node l m Color.BLACK d r)))
    (hroot : st.root = (ctx.plug (Tree.node l m Color.BLACK d r)).ptr)
    (hfree : st.freeFunc = true) (cp : Ptr) (hcr : isRed st.heap cp = some false)
    (x : Option Loc) (hx : findPtrToChild st.heap cp = some x) :
    (ctx.addr = none →
      ∃ h', deleteNode fuel st (some m) ctx.addr ctx.sibPtr cp =
          some { st with heap := h', root := none, freed := st.freed ++ [d] } ∧
        RepT h' Tree.nil) ∧
    (ctx.addr ≠ none → ∀ T', fixT fuel ctx Tree.nil = some T' →
      ∃ h', deleteNode fuel st (some m) ctx.addr ctx.sibPtr cp =
          some { st with heap := h', freed := st.freed ++ [d] } ∧
        RepT h' T') := by
  have hm := hr.read_focus
  have hpm := hr.findPtrToChild_focus
  constructor
  · intro htop
    cases ctx with
    | top =>
      simp only [Ctx.plug_top, Tree.ptr_node] at hroot
      refine ⟨st.heap.release m, ?_, trivial, List.nodup_nil⟩
      simp only [deleteNode, hpm, hx, deref, hm, hcr, hroot, freeNode, hfree, Option.bind_eq_bind, Option.some_bind, Option.pure_def, Tree.ptr_node, Tree.ptr_nil, if_false, if_true, reduceCtorEq, decide_False, decide_True, ne_eq, not_true_eq_false, not_false_eq_true, Bool.false_eq_true, Option.some.injEq]
    | left _ _ _ _ _ => simp at htop
    | right _ _ _ _ _ => simp at htop
  · intro hne T' e
    have hrm : st.root ≠ some m := hroot ▸ hr.root_ne_focus hne
    obtain ⟨st1, h1, e0, e1, r1⟩ := hr.detach_focus hne hfree
    obtain ⟨h2, e2, r2⟩ := fixTreeStructure_refines fuel h1 ctx Tree.nil T' r1 e
    refine ⟨h2, ?_, r2⟩
    simp only [deleteNode, hpm, hx, deref, hm, hcr, hrm, e0, e1, e2, Option.bind_eq_bind, Option.some_bind, Option.pure_def, Tree.ptr_node, Tree.ptr_nil, if_false, if_true, reduceCtorEq, decide_False, decide_True, ne_eq, not_true_eq_false, not_false_eq_true, Bool.false_eq_true, Option.some.injEq]

set_option maxHeartbeats 4000000 in
theorem deleteNode_refines {st : State α} {ctx : Ctx α} {l r : Tree α} {m : Nat} {c : Color}
    {d : α} (fuel : Nat) (T' : Tree α) (a : Nat)
    (hr : RepT st.heap (ctx.plug (Tree.node l m c d r)))
    (hroot : st.root = (ctx.plug (Tree.node l m c d r)).ptr)
    (hfree : st.freeFunc = true)
    (e : delNodeT fuel ctx (Tree.node l m c d r) = some (T', a)) :
    ∃ h', deleteNode fuel st (some m) ctx.addr ctx.sibPtr
        (if l.ptr ≠ none then l.ptr else r.ptr) =
        some { st with heap := h', root := if ctx.addr = none ∧ a = m then none else st.root,
                       freed := st.freed ++ [d] } ∧
      RepT h' T' := by
  have hm := hr.read_focus
  have hpm := hr.findPtrToChild_focus
  have hnd := hr.nodup_focus
  cases c with
  | RED =>
    simp only [delNodeT, if_true] at e
    by_cases hne : ctx.addr = none
    · simp [hne] at e
    · simp only [hne, if_false, Option.some.injEq, Prod.mk.injEq] at e
      obtain ⟨e1, e2⟩ := e
      subst e1 e2
      obtain ⟨st1, h1, e0, e1, r1⟩ := hr.detach_focus hne hfree
      refine ⟨h1, ?_, r1⟩
      have hx : ∃ x, findPtrToChild st.heap (if l.ptr ≠ none then l.ptr else r.ptr) = some x := by
        cases l with
        | nil =>
          cases r with
          | nil => exact ⟨none, by simp [findPtrToChild]⟩
          | node rl ra rc rd rr =>
            have h1 := RepT.read_focus (K := Ctx.right _ m Color.RED d ctx) hr
            exact ⟨_, by simp [findPtrToChild, h1, hm]; rfl⟩
        | node ll la lc ld lr =>
          have h1 := RepT.read_focus (K := Ctx.left ctx m Color.RED d _) hr
          exact ⟨_, by simp [findPtrToChild, h1, hm]; rfl⟩
      obtain ⟨x, hx⟩ := hx
      simp only [deleteNode, hpm, hx, deref, hm, e0, e1, hne, false_and, Option.bind_eq_bind, Option.some_bind, Option.pure_def, Tree.ptr_node, Tree.ptr_nil, if_false, if_true, reduceCtorEq, decide_False, decide_True, ne_eq, not_true_eq_false, not_false_eq_true, Bool.false_eq_true, Option.some.injEq]
  | BLACK =>
    simp only [delNodeT, reduceCtorEq, if_false] at e
    cases l with
    | node ll la lc ld lr =>
      have hl := RepT.read_focus (K := Ctx.left ctx m Color.BLACK d _) hr
      have hpc : findPtrToChild st.heap (some la) = some (some (Loc.left m)) := by
        simp [findPtrToChild, hl, hm]
      have cla := nd_count hnd la
      simp only [Tree.addrs, Ctx.addrs, List.count_append, List.count_cons, beq_iff_eq,
        if_true, List.count_nil] at cla
      have hlm : la ≠ m := by rintro rfl; simp at cla; omega
      cases lc with
      | RED =>
        simp only [if_true, Option.some.injEq, Prod.mk.injEq] at e
        obtain ⟨e1, e2⟩ := e
        subst e1 e2
        have hcr : isRed st.heap (some la) = some true := by simp [isRed, deref, hl]
        have r1 := hr.drop_left
        have r2 := r1.write_focus Color.BLACK ld
        have hout : (ctx.plug (Tree.node Tree.nil m Color.BLACK ld r)).addrs.count la = 0 := by
          rw [count_addrs_plug]
          simp only [Tree.addrs, List.count_append, List.count_cons, List.count_nil, beq_iff_eq]
          split_ifs at cla ⊢ <;> omega
        have r3 := r2.write_outside ⟨d, Color.RED, ll.ptr, lr.ptr, some m⟩ hout
        have r4 := r3.release_outside hout
        have hmlt := read_lt hm
        have hllt := read_lt hl
        refine ⟨_, ?_, r4⟩
        simp only [deleteNode, hpm, hpc, deref, hm, hcr, clearLoc, writeLoc, setLeft, switchValues,
          setData, freeNode, hfree, read_write, length_write, hmlt, hllt, hlm, hlm.symm, hl,
          Option.map_some', false_and, and_false, Option.bind_eq_bind, Option.some_bind, Option.pure_def, Tree.ptr_node, Tree.ptr_nil, if_false, if_true, reduceCtorEq, decide_False, decide_True, ne_eq, not_true_eq_false, not_false_eq_true, Bool.false_eq_true, Option.some.injEq, Ctx.addr]
      | BLACK =>
        have hcr : isRed st.heap (some la) = some false := by simp [isRed, deref, hl]
        obtain ⟨k1, k2⟩ := deleteNode_case3 fuel hr hroot hfree (some la) hcr _ hpc
        simp only [reduceCtorEq, if_false] at e
        by_cases hne : ctx.addr = none
        · simp only [hne, if_true, Option.some.injEq, Prod.mk.injEq] at e
          obtain ⟨e1, e2⟩ := e
          subst e1 e2
          obtain ⟨h1, e1, r1⟩ := k1 hne
          exact ⟨h1, by simpa [hne] using e1, r1⟩
        · simp only [hne, if_false, Option.map_eq_some', Prod.mk.injEq] at e
          obtain ⟨t, e1, e2, e3⟩ := e
          subst e2 e3
          obtain ⟨h1, e4, r1⟩ := k2 hne _ e1
          exact ⟨h1, by simpa [hne] using e4, r1⟩
    | nil =>
      cases r with
      | node rl ra rc rd rr =>
        have hrd := RepT.read_focus (K := Ctx.right _ m Color.BLACK d ctx) hr
        have hpc : findPtrToChild st.heap (some ra) = some (some (Loc.right m)) := by
          simp [findPtrToChild, hrd, hm]
        have cra := nd_count hnd ra
        simp only [Tree.addrs, Ctx.addrs, List.count_append, List.count_cons, beq_iff_eq,
          if_true, List.count_nil] at cra
        have hrm : ra ≠ m := by rintro rfl; simp at cra; omega
        cases rc with
        | RED =>
          simp only [if_true, Option.some.injEq, Prod.mk.injEq] at e
          obtain ⟨e1, e2⟩ := e
          subst e1 e2
          have hcr : isRed st.heap (some ra) = some true := by simp [isRed, deref, hrd]
          have r1 := hr.drop_right
          have r2 := r1.write_focus Color.BLACK rd
          have hout : (ctx.plug (Tree.node Tree.nil m Color.BLACK rd Tree.nil)).addrs.count ra
              = 0 := by
            rw [count_addrs_plug]
            simp only [Tree.addrs, List.count_append, List.count_cons, List.count_nil, beq_iff_eq]
            split_ifs at cra ⊢ <;> omega
          have r3 := r2.write_outside ⟨d, Color.RED, rl.ptr, rr.ptr, some m⟩ hout
          have r4 := r3.release_outside hout
          have hmlt := read_lt hm
          have hllt := read_lt hrd
          refine ⟨_, ?_, r4⟩
          simp only [deleteNode, hpm, hpc, deref, hm, hcr, clearLoc, writeLoc, setRight,
            switchValues, setData, freeNode, hfree, read_write, length_write, hmlt, hllt, hrm,
            hrm.symm, hrd, Option.map_some', false_and, and_false, Option.bind_eq_bind, Option.some_bind, Option.pure_def, Tree.ptr_node, Tree.ptr_nil, if_false, if_true, reduceCtorEq, decide_False, decide_True, ne_eq, not_true_eq_false, not_false_eq_true, Bool.false_eq_true, Option.some.injEq, Ctx.addr]
        | BLACK =>
          have hcr : isRed st.heap (some ra) = some false := by simp [isRed, deref, hrd]
          obtain ⟨k1, k2⟩ := deleteNode_case3 fuel hr hroot hfree (some ra) hcr _ hpc
          simp only [reduceCtorEq, if_false] at e
          by_cases hne : ctx.addr = none
          · simp only [hne, if_true, Option.some.injEq, Prod.mk.injEq] at e
            obtain ⟨e1, e2⟩ := e
            subst e1 e2
            obtain ⟨h1, e1, r1⟩ := k1 hne
            exact ⟨h1, by simpa [hne] using e1, r1⟩
          · simp only [hne, if_false, Option.map_eq_some', Prod.mk.injEq] at e
            obtain ⟨t, e1, e2, e3⟩ := e
            subst e2 e3
            obtain ⟨h1, e4, r1⟩ := k2 hne _ e1
            exact ⟨h1, by simpa [hne] using e4, r1⟩
      | nil =>
        have hcr : isRed st.heap none = some false := by simp [isRed]
        have hpc : findPtrToChild st.heap none = some none := by simp [findPtrToChild]
        obtain ⟨k1, k2⟩ := deleteNode_case3 fuel hr hroot hfree none hcr _ hpc
        by_cases hne : ctx.addr = none
        · simp only [hne, if_true, Option.some.injEq, Prod.mk.injEq] at e
          obtain ⟨e1, e2⟩ := e
          subst e1 e2
          obtain ⟨h1, e1, r1⟩ := k1 hne
          exact ⟨h1, by simpa [hne] using e1, r1⟩
        · simp only [hne, if_false, Option.map_eq_some', Prod.mk.injEq] at e
          obtain ⟨t, e1, e2, e3⟩ := e
          subst e2 e3
          obtain ⟨h1, e4, r1⟩ := k2 hne _ e1
          exact ⟨h1, by simpa [hne] using e4, r1⟩

theorem Ctx.rootColor_black {ctx : Ctx α} {k : Color} (h : ctx.rootColor k = Color.BLACK) :
    ctx.rootColor Color.BLACK = Color.BLACK := by
  cases ctx with
  | top => rfl
  | left _ _ _ _ _ => exact h
  | right _ _ _ _ _ => exact h

/-- Cases 3b-i, 3d and 3e: with a BLACK sibling and a RED parent or a RED nephew the
repair ends within two calls. -/
theorem fixT_terminal_left (fuel : Nat) (up : Ctx α) (p : Nat) (pc : Color) (pd : α)
    (sl : Tree α) (s : Nat) (sd : α) (sr t : Tree α)
    (hh : DelHole (Ctx.left up p pc pd (Tree.node sl s Color.BLACK sd sr)) t)
    (hcase : pc = Color.RED ∨ sl.rootColor = Color.RED ∨ sr.rootColor = Color.RED) :
    ∃ T', fixT (fuel + 2) (Ctx.left up p pc pd (Tree.node sl s Color.BLACK sd sr)) t = some T' ∧ Good T' ((Ctx.left up p pc pd (Tree.node sl s Color.BLACK sd sr)).plug t) := by
  obtain ⟨h1, h2, h3, h4, h5, h6⟩ := hh
  simp only [Ctx.Bal, Ctx.NRR, Ctx.rootColor, Ctx.color_left, Ctx.color_right,
    Tree.rootColor_node, Tree.Balanced, Tree.NoRedRed, Tree.bh, reduceCtorEq, false_implies,
    true_and, if_true] at h4 h5 h6
  obtain ⟨b1, ⟨b2, b3, b4⟩, b5⟩ := h4
  obtain ⟨⟨n1, n2⟩, n3, n4⟩ := h5
  simp only [fixT, true_and]
  by_cases hb : sl.rootColor = Color.BLACK ∧ sr.rootColor = Color.BLACK
  · have hpc : pc = Color.RED := by
      rcases hcase with h | h | h
      · exact h
      · rw [hb.1] at h; cases h
      · rw [hb.2] at h; cases h
    subst hpc
    simp only [hb, and_self, if_true]
    simp only [reduceCtorEq, if_false, Nat.add_zero, true_implies] at b5 n3
    refine ⟨_, rfl, ?_, ?_, ?_, ?_, ?_⟩
    · rw [rootColor_plug]; exact Ctx.rootColor_black h6
    · rw [noRedRed_plug]
      exact ⟨by simp [Tree.NoRedRed, *], n4, by simp⟩
    · rw [balanced_plug]
      exact ⟨by simp [Tree.Balanced, Tree.bh, *]; omega, by refine cast (congrArg up.Bal ?_) b5; simp only [Tree.bh, reduceCtorEq, if_true, if_false] <;> omega⟩
    · simp [inorder_plug, Tree.inorder, Ctx.before, Ctx.after]
    · intro x; simp [count_addrs_plug, Tree.addrs, Ctx.addrs]; try omega
  · simp only [hb, if_false, reduceCtorEq]
    by_cases hd : sl.rootColor = Color.RED ∧ sr.rootColor = Color.BLACK
    · simp only [hd, and_self, if_true]
      obtain ⟨hd1, hd2⟩ := hd
      cases sl with
      | nil => simp at hd1
      | node sll n nc nd slr =>
        simp only [Tree.rootColor_node] at hd1
        subst hd1
        simp only [Tree.rootColor_node, Tree.Balanced, Tree.NoRedRed, Tree.bh, reduceCtorEq,
          true_implies, if_false, Nat.add_zero] at b1 b2 b3 b4 n1 n2
        simp only [fixT, Tree.rootColor_node, reduceCtorEq, and_false, false_and, if_false,
          and_self, if_true, hd2]
        refine ⟨_, rfl, ?_, ?_, ?_, ?_, ?_⟩
        · rw [rootColor_plug]; exact h6
        · rw [noRedRed_plug]
          refine ⟨by simp [Tree.NoRedRed, *], n4, ?_⟩
          intro hu
          simp only [Tree.rootColor_node]
          cases pc with
          | RED => rw [n3 rfl] at hu; cases hu
          | BLACK => rfl
        · rw [balanced_plug]
          exact ⟨by simp [Tree.Balanced, Tree.bh, *]; omega,
            by refine cast (congrArg up.Bal ?_) b5; simp only [Tree.bh, reduceCtorEq, if_true, if_false] <;> omega⟩
        · simp [inorder_plug, Tree.inorder, Ctx.before, Ctx.after]
        · intro x; simp [count_addrs_plug, Tree.addrs, Ctx.addrs]; try omega
    · simp only [hd, if_false]
      have hfar : sr.rootColor = Color.RED := by
        cases hx : sl.rootColor <;> cases hy : sr.rootColor <;> simp_all
      cases sr with
      | nil => simp at hfar
      | node srl f fc fd srr =>
        simp only [Tree.rootColor_node] at hfar
        subst hfar
        simp only [Tree.rootColor_node, Tree.Balanced, Tree.NoRedRed, Tree.bh, reduceCtorEq,
          true_implies, if_false, Nat.add_zero] at b1 b2 b3 b4 n1 n2
        simp only [if_true]
        refine ⟨_, rfl, ?_, ?_, ?_, ?_, ?_⟩
        · rw [rootColor_plug]; exact h6
        · rw [noRedRed_plug]
          refine ⟨by cases pc <;> simp [Tree.NoRedRed, *], n4, ?_⟩
          intro hu
          simp only [Tree.rootColor_node]
          cases pc with
          | RED => rw [n3 rfl] at hu; cases hu
          | BLACK => rfl
        · rw [balanced_plug]
          exact ⟨by simp [Tree.Balanced, Tree.bh, *]; omega,
            by refine cast (congrArg up.Bal ?_) b5; simp only [Tree.bh, reduceCtorEq, if_true, if_false] <;> omega⟩
        · simp [inorder_plug, Tree.inorder, Ctx.before, Ctx.after]
        · intro x; simp [count_addrs_plug, Tree.addrs, Ctx.addrs]; try omega

/-- Cases 3b-i, 3d and 3e: with a BLACK sibling and a RED parent or a RED nephew the
repair ends within two calls. -/
theorem fixT_terminal_right (fuel : Nat) (up : Ctx α) (p : Nat) (pc : Color) (pd : α)
    (sl : Tree α) (s : Nat) (sd : α) (sr t : Tree α)
    (hh : DelHole (Ctx.right (Tree.node sl s Color.BLACK sd sr) p pc pd up) t)
    (hcase : pc = Color.RED ∨ sl.rootColor = Color.RED ∨ sr.rootColor = Color.RED) :
    ∃ T', fixT (fuel + 2) (Ctx.right (Tree.node sl s Color.BLACK sd sr) p pc pd up) t = some T' ∧ Good T' ((Ctx.right (Tree.node sl s Color.BLACK sd sr) p pc pd up).plug t) := by
  obtain ⟨h1, h2, h3, h4, h5, h6⟩ := hh
  simp only [Ctx.Bal, Ctx.NRR, Ctx.rootColor, Ctx.color_left, Ctx.color_right,
    Tree.rootColor_node, Tree.Balanced, Tree.NoRedRed, Tree.bh, reduceCtorEq, false_implies,
    true_and, if_true] at h4 h5 h6
  obtain ⟨b1, ⟨b2, b3, b4⟩, b5⟩ := h4
  obtain ⟨⟨n1, n2⟩, n3, n4⟩ := h5
  simp only [fixT, true_and]
  by_cases hb : sl.rootColor = Color.BLACK ∧ sr.rootColor = Color.BLACK
  · have hpc : pc = Color.RED := by
      rcases hcase with h | h | h
      · exact h
      · rw [hb.1] at h; cases h
      · rw [hb.2] at h; cases h
    subst hpc
    simp only [hb, and_self, if_true]
    simp only [reduceCtorEq, if_false, Nat.add_zero, true_implies] at b5 n3
    refine ⟨_, rfl, ?_, ?_, ?_, ?_, ?_⟩
    · rw [rootColor_plug]; exact Ctx.rootColor_black h6
    · rw [noRedRed_plug]
      exact ⟨by simp [Tree.NoRedRed, *], n4, by simp⟩
    · rw [balanced_plug]
      exact ⟨by simp [Tree.Balanced, Tree.bh, *]; omega, by refine cast (congrArg up.Bal ?_) b5; simp only [Tree.bh, reduceCtorEq, if_true, if_false] <;> omega⟩
    · simp [inorder_plug, Tree.inorder, Ctx.before, Ctx.after]
    · intro x; simp [count_addrs_plug, Tree.addrs, Ctx.addrs]; try omega
  · simp only [hb, if_false, reduceCtorEq]
    by_cases hd : sr.rootColor = Color.RED ∧ sl.rootColor = Color.BLACK
    · simp only [hd, and_self, if_true]
      obtain ⟨hd1, hd2⟩ := hd
      cases sr with
      | nil => simp at hd1
      | node srl n nc nd srr =>
        simp only [Tree.rootColor_node] at hd1
        subst hd1
        simp only [Tree.rootColor_node, Tree.Balanced, Tree.NoRedRed, Tree.bh, reduceCtorEq,
          true_implies, if_false, Nat.add_zero] at b1 b2 b3 b4 n1 n2
        simp only [fixT, Tree.rootColor_node, reduceCtorEq, and_false, false_and, if_false,
          and_self, if_true, hd2]
        refine ⟨_, rfl, ?_, ?_, ?_, ?_, ?_⟩
        · rw [rootColor_plug]; exact h6
        · rw [noRedRed_plug]
          refine ⟨by simp [Tree.NoRedRed, *], n4, ?_⟩
          intro hu
          simp only [Tree.rootColor_node]
          cases pc with
          | RED => rw [n3 rfl] at hu; cases hu
          | BLACK => rfl
        · rw [balanced_plug]
          exact ⟨by simp [Tree.Balanced, Tree.bh, *]; omega,
            by refine cast (congrArg up.Bal ?_) b5; simp only [Tree.bh, reduceCtorEq, if_true, if_false] <;> omega⟩
        · simp [inorder_plug, Tree.inorder, Ctx.before, Ctx.after]
        · intro x; simp [count_addrs_plug, Tree.addrs, Ctx.addrs]; try omega
    · simp only [hd, if_false]
      have hfar : sl.rootColor = Color.RED := by
        cases hx : sl.rootColor <;> cases hy : sr.rootColor <;> simp_all
      cases sl with
      | nil => simp at hfar
      | node sll f fc fd slr =>
        simp only [Tree.rootColor_node] at hfar
        subst hfar
        simp only [Tree.rootColor_node, Tree.Balanced, Tree.NoRedRed, Tree.bh, reduceCtorEq,
          true_implies, if_false, Nat.add_zero] at b1 b2 b3 b4 n1 n2
        simp only [if_true]
        refine ⟨_, rfl, ?_, ?_, ?_, ?_, ?_⟩
        · rw [rootColor_plug]; exact h6
        · rw [noRedRed_plug]
          refine ⟨by cases pc <;> simp [Tree.NoRedRed, *], n4, ?_⟩
          intro hu
          simp only [Tree.rootColor_node]
          cases pc with
          | RED => rw [n3 rfl] at hu; cases hu
          | BLACK => rfl
        · rw [balanced_plug]
          exact ⟨by simp [Tree.Balanced, Tree.bh, *]; omega,
            by refine cast (congrArg up.Bal ?_) b5; simp only [Tree.bh, reduceCtorEq, if_true, if_false] <;> omega⟩
        · simp [inorder_plug, Tree.inorder, Ctx.before, Ctx.after]
        · intro x; simp [count_addrs_plug, Tree.addrs, Ctx.addrs]; try omega

set_option maxHeartbeats 2000000 in
/-- `fixTreeStructure` restores the red-black invariants. -/
theorem fixT_valid : ∀ (fuel : Nat) (ctx : Ctx α) (t : Tree α), DelHole ctx t →
    ctx.depth + 3 ≤ fuel → ∃ T', fixT fuel ctx t = some T' ∧ Good T' (ctx.plug t)
  | 0, _, _, _, hf => by omega
  | fuel + 1, Ctx.top, t, hh, _ =>
    ⟨t, rfl, hh.tblack, hh.tnrr, hh.tbal, rfl, fun _ => rfl⟩
  | fuel + 1, Ctx.left up p pc pd Tree.nil, t, hh, _ => by
    have := hh.cbal
    simp [Ctx.Bal, Tree.bh] at this
  | fuel + 1, Ctx.left up p pc pd (Tree.node sl s sc sd sr), t, hh, hf => by
    simp only [Ctx.depth] at hf
    cases sc with
    | RED =>
      obtain ⟨h1, h2, h3, h4, h5, h6⟩ := hh
      simp only [Ctx.Bal, Ctx.NRR, Ctx.rootColor, Ctx.color_left, Ctx.color_right,
        Tree.rootColor_node, Tree.Balanced, Tree.NoRedRed, Tree.bh, reduceCtorEq, if_false,
        Nat.add_zero, true_implies, false_and, imp_false, Color.ne_red] at h4 h5 h6
      obtain ⟨b1, ⟨b2, b3, b4⟩, b5⟩ := h4
      obtain ⟨⟨⟨n0, n0'⟩, n1, n2⟩, n3, n4⟩ := h5
      subst n3
      simp only [if_true] at b5
      cases sl with
      | nil => simp [Tree.bh] at b1 b2 <;> omega
      | node sll n nc nd slr =>
        simp only [Tree.rootColor_node] at n0 n0'
        subst n0
        simp only [Tree.rootColor_node, Tree.Balanced, Tree.NoRedRed, Tree.bh, reduceCtorEq,
          false_implies, true_and, if_true] at b1 b2 b3 b4 n1 n2
        obtain ⟨f, rfl⟩ : ∃ f, fuel = f + 2 := ⟨fuel - 2, by omega⟩
        obtain ⟨T', e1, g1, g2, g3, g4, g5⟩ := fixT_terminal_left f (Ctx.left up s Color.BLACK sd sr) p Color.RED pd sll n nd slr t
          ⟨h1, h2, h3, by simp [Ctx.Bal, Tree.Balanced, Tree.bh, *] <;> omega,
            by simp [Ctx.NRR, Tree.NoRedRed, *] <;> simp_all,
            by simpa [Ctx.rootColor] using h6⟩ (Or.inl rfl)
        refine ⟨T', ?_, g1, g2, g3, ?_, ?_⟩
        · simpa [fixT] using e1
        · rw [g4]; simp [inorder_plug, Tree.inorder, Ctx.before, Ctx.after]
        · intro x; rw [g5]; simp [count_addrs_plug, Tree.addrs, Ctx.addrs]; try omega
    | BLACK =>
      by_cases hc : pc = Color.RED ∨ sl.rootColor = Color.RED ∨ sr.rootColor = Color.RED
      · obtain ⟨f, rfl⟩ : ∃ f, fuel = f + 1 := ⟨fuel - 1, by omega⟩
        exact fixT_terminal_left f up p pc pd sl s sd sr t hh hc
      · simp only [not_or, Color.ne_red] at hc
        obtain ⟨c1, c2, c3⟩ := hc
        subst c1
        obtain ⟨h1, h2, h3, h4, h5, h6⟩ := hh
        simp only [Ctx.Bal, Ctx.NRR, Ctx.rootColor, Ctx.color_left, Ctx.color_right,
          Tree.rootColor_node, Tree.Balanced, Tree.NoRedRed, Tree.bh, reduceCtorEq, if_true,
          false_implies, true_and] at h4 h5 h6
        obtain ⟨b1, ⟨b2, b3, b4⟩, b5⟩ := h4
        obtain ⟨⟨n1, n2⟩, n4⟩ := h5
        obtain ⟨T', e1, g1, g2, g3, g4, g5⟩ := fixT_valid fuel up
          (Tree.node t p Color.BLACK pd (Tree.node sl s Color.RED sd sr)) ⟨rfl, by simp [Tree.NoRedRed, *],
            by simp [Tree.Balanced, Tree.bh, *] <;> omega,
            by refine cast (congrArg up.Bal ?_) b5; simp only [Tree.bh, reduceCtorEq, if_true, if_false] <;> omega, n4, h6⟩ (by omega)
        refine ⟨T', ?_, g1, g2, g3, ?_, ?_⟩
        · simpa [fixT, c2, c3] using e1
        · rw [g4]; simp [inorder_plug, Tree.inorder, Ctx.before, Ctx.after]
        · intro x; rw [g5]; simp [count_addrs_plug, Tree.addrs, Ctx.addrs]; try omega
  | fuel + 1, Ctx.right Tree.nil p pc pd up, t, hh, _ => by
    have := hh.cbal
    simp [Ctx.Bal, Tree.bh] at this
  | fuel + 1, Ctx.right (Tree.node sl s sc sd sr) p pc pd up, t, hh, hf => by
    simp only [Ctx.depth] at hf
    cases sc with
    | RED =>
      obtain ⟨h1, h2, h3, h4, h5, h6⟩ := hh
      simp only [Ctx.Bal, Ctx.NRR, Ctx.rootColor, Ctx.color_left, Ctx.color_right,
        Tree.rootColor_node, Tree.Balanced, Tree.NoRedRed, Tree.bh, reduceCtorEq, if_false,
        Nat.add_zero, true_implies, false_and, imp_false, Color.ne_red] at h4 h5 h6
      obtain ⟨b1, ⟨b2, b3, b4⟩, b5⟩ := h4
      obtain ⟨⟨⟨n0, n0'⟩, n1, n2⟩, n3, n4⟩ := h5
      subst n3
      simp only [if_true] at b5
      cases sr with
      | nil => simp [Tree.bh] at b1 b2 <;> omega
      | node srl n nc nd srr =>
        simp only [Tree.rootColor_node] at n0 n0'
        subst n0'
        simp only [Tree.rootColor_node, Tree.Balanced, Tree.NoRedRed, Tree.bh, reduceCtorEq,
          false_implies, true_and, if_true] at b1 b2 b3 b4 n1 n2
        obtain ⟨f, rfl⟩ : ∃ f, fuel = f + 2 := ⟨fuel - 2, by omega⟩
        obtain ⟨T', e1, g1, g2, g3, g4, g5⟩ := fixT_terminal_right f (Ctx.right sl s Color.BLACK sd up) p Color.RED pd srl n nd srr t
          ⟨h1, h2, h3, by simp [Ctx.Bal, Tree.Balanced, Tree.bh, *] <;> omega,
            by simp [Ctx.NRR, Tree.NoRedRed, *] <;> simp_all,
            by simpa [Ctx.rootColor] using h6⟩ (Or.inl rfl)
        refine ⟨T', ?_, g1, g2, g3, ?_, ?_⟩
        · simpa [fixT] using e1
        · rw [g4]; simp [inorder_plug, Tree.inorder, Ctx.before, Ctx.after]
        · intro x; rw [g5]; simp [count_addrs_plug, Tree.addrs, Ctx.addrs]; try omega
    | BLACK =>
      by_cases hc : pc = Color.RED ∨ sl.rootColor = Color.RED ∨ sr.rootColor = Color.RED
      · obtain ⟨f, rfl⟩ : ∃ f, fuel = f + 1 := ⟨fuel - 1, by omega⟩
        exact fixT_terminal_right f up p pc pd sl s sd sr t hh hc
      · simp only [not_or, Color.ne_red] at hc
        obtain ⟨c1, c2, c3⟩ := hc
        subst c1
        obtain ⟨h1, h2, h3, h4, h5, h6⟩ := hh
        simp only [Ctx.Bal, Ctx.NRR, Ctx.rootColor, Ctx.color_left, Ctx.color_right,
          Tree.rootColor_node, Tree.Balanced, Tree.NoRedRed, Tree.bh, reduceCtorEq, if_true,
          false_implies, true_and] at h4 h5 h6
        obtain ⟨b1, ⟨b2, b3, b4⟩, b5⟩ := h4
        obtain ⟨⟨n1, n2⟩, n4⟩ := h5
        obtain ⟨T', e1, g1, g2, g3, g4, g5⟩ := fixT_valid fuel up
          (Tree.node (Tree.node sl s Color.RED sd sr) p Color.BLACK pd t) ⟨rfl, by simp [Tree.NoRedRed, *],
            by simp [Tree.Balanced, Tree.bh, *] <;> omega,
            by refine cast (congrArg up.Bal ?_) b5; simp only [Tree.bh, reduceCtorEq, if_true, if_false] <;> omega, n4, h6⟩ (by omega)
        refine ⟨T', ?_, g1, g2, g3, ?_, ?_⟩
        · simpa [fixT, c2, c3] using e1
        · rw [g4]; simp [inorder_plug, Tree.inorder, Ctx.before, Ctx.after]
        · intro x; rw [g5]; simp [count_addrs_plug, Tree.addrs, Ctx.addrs]; try omega

theorem Tree.eq_nil_of_black_bh {t : Tree α} (hc : t.rootColor = Color.BLACK) (hb : t.bh = 0) :
    t = Tree.nil := by
  cases t with
  | nil => rfl
  | node l a c d r =>
    simp only [Tree.rootColor_node] at hc
    subst hc
    simp [Tree.bh] at hb

theorem Tree.red_leaf_of_bh {t : Tree α} (hne : t.ptr ≠ none) (hb : t.bh = 0)
    (hn : t.NoRedRed) (hbal : t.Balanced) :
    ∃ a d, t = Tree.node Tree.nil a Color.RED d Tree.nil := by
  cases t with
  | nil => simp at hne
  | node l a c d r =>
    cases c with
    | BLACK => simp [Tree.bh] at hb
    | RED =>
      simp only [Tree.bh, reduceCtorEq, if_false, Nat.add_zero] at hb
      simp only [Tree.NoRedRed, true_implies] at hn
      simp only [Tree.Balanced] at hbal
      have hl := Tree.eq_nil_of_black_bh hn.1.1 hb
      have hr := Tree.eq_nil_of_black_bh hn.1.2 (by omega)
      subst hl hr
      exact ⟨a, d, rfl⟩

set_option maxHeartbeats 1000000 in
/-- `deleteNode` on a node with at most one child of a valid shape: the result is a valid
shape without the payload of that node. -/
theorem delNodeT_valid (fuel : Nat) (C : Ctx α) (zl : Tree α) (z : Nat) (zc : Color) (zd : α)
    (zr : Tree α) (hroot : (C.plug (Tree.node zl z zc zd zr)).rootColor = Color.BLACK)
    (hnrr : (C.plug (Tree.node zl z zc zd zr)).NoRedRed)
    (hbal : (C.plug (Tree.node zl z zc zd zr)).Balanced)
    (hone : zl.ptr = none ∨ zr.ptr = none) (hf : C.depth + 3 ≤ fuel)
    (hz : (Tree.node zl z zc zd zr).addrs.count z ≤ 1) :
    ∃ T' a, delNodeT fuel C (Tree.node zl z zc zd zr) = some (T', a) ∧
      T'.rootColor = Color.BLACK ∧ T'.NoRedRed ∧ T'.Balanced ∧
      T'.inorder = C.before ++ (zl.inorder ++ zr.inorder) ++ C.after ∧
      (∀ x, T'.addrs.count x + (if x = a then 1 else 0) =
        (C.plug (Tree.node zl z zc zd zr)).addrs.count x) ∧
      1 ≤ (Tree.node zl z zc zd zr).addrs.count a ∧
      (C.addr = none → a = z → T'.ptr = none) := by
  rw [rootColor_plug] at hroot
  obtain ⟨n1, n2, n3⟩ := (noRedRed_plug _ _).1 hnrr
  obtain ⟨b1, b2⟩ := (balanced_plug _ _).1 hbal
  simp only [Tree.rootColor_node] at hroot n3
  simp only [Tree.NoRedRed] at n1
  simp only [Tree.Balanced] at b1
  obtain ⟨m1, m2, m3⟩ := n1
  obtain ⟨a1, a2, a3⟩ := b1
  simp only [Tree.bh] at b2
  cases zc with
  | RED =>
    have hne : C.addr ≠ none := by
      intro e
      cases C with
      | top => simp [Ctx.rootColor] at hroot
      | left _ _ _ _ _ => simp at e
      | right _ _ _ _ _ => simp at e
    obtain ⟨c1, c2⟩ := m1 rfl
    have hzl : zl = Tree.nil := by
      rcases hone with h | h
      · exact Tree.ptr_eq_none.1 h
      · have := Tree.ptr_eq_none.1 h
        subst this
        exact Tree.eq_nil_of_black_bh c1 (by simpa [Tree.bh] using a1)
    subst hzl
    have hzr : zr = Tree.nil := Tree.eq_nil_of_black_bh c2 (by simpa [Tree.bh] using a1.symm)
    subst hzr
    simp only [Tree.bh, reduceCtorEq, if_false, Nat.add_zero] at b2
    refine ⟨C.plug Tree.nil, z, by simp [delNodeT, hne], ?_, ?_, ?_, ?_, ?_, ?_, ?_⟩
    · rw [rootColor_plug]; exact Ctx.rootColor_black hroot
    · rw [noRedRed_plug]; exact ⟨trivial, n2, fun _ => rfl⟩
    · rw [balanced_plug]; exact ⟨trivial, b2⟩
    · simp [inorder_plug, Tree.inorder]
    · intro x
      simp only [count_addrs_plug, Tree.addrs, List.count_nil, List.nil_append, List.count_cons,
        beq_iff_eq, Nat.add_zero, Nat.zero_add]
      by_cases hx : x = z
      · subst hx; simp
      · have : ¬ z = x := fun e => hx e.symm
        simp [hx, this]
    · simp [Tree.addrs]
    · intro e; exact absurd e hne
  | BLACK =>
    simp only [if_true] at b2
    by_cases hl : zl.ptr = none
    · have := Tree.ptr_eq_none.1 hl
      subst this
      simp only [Tree.bh] at a1
      by_cases hr : zr.ptr = none
      · have := Tree.ptr_eq_none.1 hr
        subst this
        by_cases hne : C.addr = none
        · refine ⟨Tree.nil, z, by simp [delNodeT, hne], rfl, trivial, trivial, ?_, ?_, ?_, ?_⟩
          · cases C with
            | top => simp [Tree.inorder, Ctx.before, Ctx.after]
            | left _ _ _ _ _ => simp at hne
            | right _ _ _ _ _ => simp at hne
          · intro x
            cases C with
            | top =>
              simp only [Ctx.plug_top, Tree.addrs, List.count_nil, List.nil_append,
                List.count_cons, beq_iff_eq, Nat.zero_add]
              by_cases hx : x = z
              · subst hx; simp
              · have : ¬ z = x := fun e => hx e.symm
                simp [hx, this]
            | left _ _ _ _ _ => simp at hne
            | right _ _ _ _ _ => simp at hne
          · simp [Tree.addrs]
          · intro _ _; rfl
        · obtain ⟨T', e1, g1, g2, g3, g4, g5⟩ := fixT_valid fuel C Tree.nil
            ⟨rfl, trivial, trivial, by simpa [Tree.bh] using b2, n2, hroot⟩ hf
          refine ⟨T', z, by simp [delNodeT, hne, e1], g1, g2, g3, ?_, ?_, ?_, ?_⟩
          · rw [g4]; simp [inorder_plug, Tree.inorder]
          · intro x
            rw [g5]
            simp only [count_addrs_plug, Tree.addrs, List.count_nil, List.nil_append,
              List.count_cons, beq_iff_eq, Nat.add_zero, Nat.zero_add]
            by_cases hx : x = z
            · subst hx; simp
            · have : ¬ z = x := fun e => hx e.symm
              simp [hx, this]
          · simp [Tree.addrs]
          · intro e; exact absurd e hne
      · obtain ⟨ra, rd, hleaf⟩ := Tree.red_leaf_of_bh hr a1.symm m3 a3
        subst hleaf
        refine ⟨C.plug (Tree.node Tree.nil z Color.BLACK rd Tree.nil), ra,
          by simp [delNodeT], ?_, ?_, ?_, ?_, ?_, ?_, ?_⟩
        · rw [rootColor_plug]; exact hroot
        · rw [noRedRed_plug]; exact ⟨by simp [Tree.NoRedRed], n2, fun _ => rfl⟩
        · rw [balanced_plug]; exact ⟨by simp [Tree.Balanced], by simpa [Tree.bh] using b2⟩
        · simp [inorder_plug, Tree.inorder]
        · intro x
          simp only [count_addrs_plug, Tree.addrs, List.count_nil, List.nil_append,
            List.count_cons, beq_iff_eq, Nat.add_zero, Nat.zero_add, List.count_append]
          by_cases hx : x = ra
          · subst hx; simp; omega
          · have : ¬ ra = x := fun e => hx e.symm
            simp [hx, this]
        · simp [Tree.addrs]
        · intro _ e
          subst e
          simp [Tree.addrs] at hz
    · have hr : zr.ptr = none := by
        rcases hone with h | h
        · exact absurd h hl
        · exact h
      have := Tree.ptr_eq_none.1 hr
      subst this
      simp only [Tree.bh] at a1
      obtain ⟨la, ld, hleaf⟩ := Tree.red_leaf_of_bh hl a1 m2 a2
      subst hleaf
      refine ⟨C.plug (Tree.node Tree.nil z Color.BLACK ld Tree.nil), la,
        by simp [delNodeT], ?_, ?_, ?_, ?_, ?_, ?_, ?_⟩
      · rw [rootColor_plug]; exact hroot
      · rw [noRedRed_plug]; exact ⟨by simp [Tree.NoRedRed], n2, fun _ => rfl⟩
      · rw [balanced_plug]; exact ⟨by simp [Tree.Balanced], by simpa [Tree.bh] using b2⟩
      · simp [inorder_plug, Tree.inorder]
      · intro x
        simp only [count_addrs_plug, Tree.addrs, List.count_nil, List.nil_append,
          List.count_cons, beq_iff_eq, Nat.add_zero, Nat.zero_add, List.count_append]
        by_cases hx : x = la
        · subst hx; simp; omega
        · have : ¬ la = x := fun e => hx e.symm
          simp [hx, this]
      · simp [Tree.addrs]
      · intro _ e
        subst e
        simp [Tree.addrs] at hz

theorem minCtx_plug (X : Tree α) : ∀ (l : Tree α) (a : Nat) (c : Color) (d : α) (r : Tree α)
    (ctx : Ctx α), (minCtx l a c d r ctx).1.plug X = ctx.plug (replaceMin X l a c d r)
  | Tree.nil, _, _, _, _, _ => rfl
  | Tree.node ll la lc ld lr, a, c, d, r, ctx => by
    rw [minCtx, minCtx_plug X ll la lc ld lr, replaceMin]
    rfl

theorem minCtx_snd : ∀ (l : Tree α) (a : Nat) (c : Color) (d : α) (r : Tree α),
    ∃ s sc sd sr, (∀ ctx, (minCtx l a c d r ctx).2 = Tree.node Tree.nil s sc sd sr) ∧
      replaceMin (Tree.node Tree.nil s sc sd sr) l a c d r = Tree.node l a c d r ∧
      (Tree.node l a c d r).inorder = sd :: sr.inorder ++ minTail l d r
  | Tree.nil, a, c, d, r =>
    ⟨a, c, d, r, fun _ => rfl, rfl, by simp [Tree.inorder, minTail]⟩
  | Tree.node ll la lc ld lr, a, c, d, r => by
    obtain ⟨s, sc, sd, sr, e1, e2, e3⟩ := minCtx_snd ll la lc ld lr
    refine ⟨s, sc, sd, sr, fun ctx => ?_, ?_, ?_⟩
    · rw [minCtx]; exact e1 _
    · rw [replaceMin, e2]
    · rw [Tree.inorder, e3, minTail]; simp

theorem minCtx_lists : ∀ (l : Tree α) (a : Nat) (c : Color) (d : α) (r : Tree α)
    (ctx : Ctx α), (minCtx l a c d r ctx).1.before = ctx.before ∧
      (minCtx l a c d r ctx).1.after = minTail l d r ++ ctx.after
  | Tree.nil, _, _, _, _, _ => by simp [minCtx, minTail]
  | Tree.node ll la lc ld lr, a, c, d, r, ctx => by
    obtain ⟨h1, h2⟩ := minCtx_lists ll la lc ld lr (Ctx.left ctx a c d r)
    rw [minCtx, h1, h2, minTail]
    simp [Ctx.before, Ctx.after]

theorem replaceMin_shape (s : Nat) (sc : Color) (sd x : α) (sr : Tree α) :
    ∀ (l : Tree α) (a : Nat) (c : Color) (d : α) (r : Tree α),
      replaceMin (Tree.node Tree.nil s sc sd sr) l a c d r = Tree.node l a c d r →
      (replaceMin (Tree.node Tree.nil s sc x sr) l a c d r).bh = (Tree.node l a c d r).bh ∧
      ((replaceMin (Tree.node Tree.nil s sc x sr) l a c d r).Balanced ↔
        (Tree.node l a c d r).Balanced) ∧
      ((replaceMin (Tree.node Tree.nil s sc x sr) l a c d r).NoRedRed ↔
        (Tree.node l a c d r).NoRedRed) ∧
      (replaceMin (Tree.node Tree.nil s sc x sr) l a c d r).rootColor = c ∧
      (replaceMin (Tree.node Tree.nil s sc x sr) l a c d r).addrs =
        (Tree.node l a c d r).addrs ∧
      (replaceMin (Tree.node Tree.nil s sc x sr) l a c d r).inorder =
        x :: sr.inorder ++ minTail l d r
  | Tree.nil, a, c, d, r, e => by
    simp only [replaceMin, Tree.node.injEq, true_and] at e
    obtain ⟨rfl, rfl, rfl, rfl⟩ := e
    simp [replaceMin, Tree.bh, Tree.Balanced, Tree.NoRedRed, Tree.addrs, Tree.inorder, minTail]
  | Tree.node ll la lc ld lr, a, c, d, r, e => by
    simp only [replaceMin, Tree.node.injEq, and_true] at e
    obtain ⟨h1, h2, h3, h4, h5, h6⟩ := replaceMin_shape s sc sd x sr ll la lc ld lr e
    simp only [replaceMin, Tree.bh, Tree.Balanced, Tree.NoRedRed, Tree.rootColor_node,
      Tree.addrs, Tree.inorder, minTail, h4, h5, h6] at h1 h2 h3 ⊢
    refine ⟨by omega, ?_, ?_, trivial, trivial, by simp⟩
    · rw [h2, h1]
    · rw [h3]

theorem successorLoop_min {h : Heap α} : ∀ (l : Tree α) (a : Nat) (c : Color) (d : α)
    (r : Tree α) (par : Ptr) (fuel : Nat) (ctx : Ctx α),
    Rep h (Tree.node l a c d r) par → (Tree.node l a c d r).height < fuel →
      successorLoop fuel h (some a) = some (minCtx l a c d r ctx).2.ptr
  | _, _, _, _, _, _, 0, _, _, hf => by omega
  | Tree.nil, a, c, d, r, par, f + 1, ctx, hr, _ => by
    simp [successorLoop, deref, hr.1, minCtx]
  | Tree.node ll la lc ld lr, a, c, d, r, par, f + 1, ctx, hr, hf => by
    have hh : (Tree.node ll la lc ld lr).height < f := by
      simp only [Tree.height] at hf ⊢; omega
    have := successorLoop_min ll la lc ld lr (some a) f (Ctx.left ctx a c d r) hr.2.1 hh
    simp [successorLoop, deref, hr.1, minCtx, this]

theorem Ctx.plug_ptr_congr (ctx : Ctx α) {t t' : Tree α} (e : t.ptr = t'.ptr) :
    (ctx.plug t).ptr = (ctx.plug t').ptr := by
  cases ctx with
  | top => exact e
  | left up a c d r => exact Ctx.plug_ptr_of_addr _ _ _ (by simp)
  | right l a c d up => exact Ctx.plug_ptr_of_addr _ _ _ (by simp)

theorem Tree.find_focus {h : Heap α} (cmp : α → α → Int) (k : α) (t : Tree α) (m : Nat)
    (hr : RepT h t) (e : t.find cmp k = some m) :
    ∃ (ctx : Ctx α) (l : Tree α) (c : Color) (d : α) (r : Tree α),
      t = ctx.plug (Tree.node l m c d r) ∧ cmp k d = 0 := by
  obtain ⟨hm, n, hn, -, hk⟩ := Tree.find_mem cmp k t none m hr.1 e
  obtain ⟨ctx, l, c, d, r, e'⟩ := Tree.exists_focus t Ctx.top hm
  simp only [Ctx.plug_top] at e'
  refine ⟨ctx, l, c, d, r, e', ?_⟩
  rw [e'] at hr
  have := hr.read_focus
  rw [hn] at this
  cases this
  exact hk

/-- The statements of `deleteFromRBTree` that follow the choice of the node `z` to unlink,
when `z` has at most one child, with the nodes of the resulting tree: those of the tree before
except the freed one. -/
theorem deleteFrom_focus_nodes (st : State α) (F : Nat) (C : Ctx α) (zl : Tree α) (z : Nat)
    (zc : Color) (zd : α) (zr : Tree α)
    (hr : RepT st.heap (C.plug (Tree.node zl z zc zd zr)))
    (hroot : st.root = (C.plug (Tree.node zl z zc zd zr)).ptr)
    (hfree : st.freeFunc = true)
    (hrc : (C.plug (Tree.node zl z zc zd zr)).rootColor = Color.BLACK)
    (hnrr : (C.plug (Tree.node zl z zc zd zr)).NoRedRed)
    (hbal : (C.plug (Tree.node zl z zc zd zr)).Balanced)
    (hone : zl.ptr = none ∨ zr.ptr = none)
    (hF : (C.plug (Tree.node zl z zc zd zr)).size + 3 ≤ F) :
    ∃ h' T',
      (do
        let mn ← deref st.heap (some z)
        let s ← findSibling st.heap (some z)
        let c ← findChild st.heap (some z)
        let st' ← deleteNode F st (some z) mn.parent s c
        let st' := { st' with size := st'.size - 1 }
        let root ← updateRoot F st'.heap st'.root
        pure (SUCCESS, { st' with root := root })) =
        some (SUCCESS, { st with heap := h', root := T'.ptr, size := st.size - 1,
                                 freed := st.freed ++ [zd] }) ∧
      RepT h' T' ∧ T'.rootColor = Color.BLACK ∧ T'.NoRedRed ∧ T'.Balanced ∧
      T'.inorder = C.before ++ (zl.inorder ++ zr.inorder) ++ C.after ∧
      ∃ a, (C.plug (Tree.node zl z zc zd zr)).addrs.Perm (a :: T'.addrs) := by
  have hsz := size_plug C (Tree.node zl z zc zd zr)
  have hdep := C.depth_le_size
  have hnd := hr.nodup_focus
  have cz := nd_count hnd z
  simp only [List.count_append] at cz
  obtain ⟨T', a, e, v1, v2, v3, v4, v5, v6, v7⟩ :=
    delNodeT_valid F C zl z zc zd zr hrc hnrr hbal hone (by omega) (by omega)
  obtain ⟨h', e', r'⟩ := deleteNode_refines F T' a hr hroot hfree e
  have hread := hr.read_focus
  have hsib := hr.findSibling_focus
  have hch : findChild st.heap (some z) = some (if zl.ptr ≠ none then zl.ptr else zr.ptr) := by
    simp only [findChild, hread, Option.bind_eq_bind, Option.some_bind, Option.pure_def]
    split_ifs <;> rfl
  have hlen : T'.size + 1 = (C.plug (Tree.node zl z zc zd zr)).size := by
    rw [← Tree.length_inorder, v4, ← Tree.length_inorder, inorder_plug]
    simp only [Tree.inorder, List.length_append, List.length_cons]
    omega
  have hur : updateRoot F h' (if C.addr = none ∧ a = z then none else st.root) =
      some T'.ptr := by
    refine updateRoot_ptr r' (fun x hx => ?_) (fun hn => ?_) (by omega)
    · split_ifs at hx with hcase
      have h5 := v5 x
      rw [hroot] at hx
      have hxm := mem_count (Tree.ptr_mem hx)
      have hxa : x ≠ a := by
        rintro rfl
        by_cases hC : C.addr = none
        · cases C with
          | top =>
            simp only [Ctx.plug_top, Tree.ptr_node, Option.some.injEq] at hx
            exact hcase ⟨rfl, hx.symm⟩
          | left _ _ _ _ _ => simp at hC
          | right _ _ _ _ _ => simp at hC
        · obtain ⟨y, ey, cy⟩ := Ctx.plug_ptr_count C (Tree.node zl z zc zd zr) hC
          rw [ey] at hx
          have hxy : y = x := by simpa using hx
          rw [hxy] at cy
          have := nd_count hnd x
          simp only [List.count_append] at this
          omega
      rw [if_neg hxa] at h5
      exact List.count_pos_iff.1 (by omega)
    · split_ifs at hn with hcase
      · exact v7 hcase.1 hcase.2
      · rw [hroot] at hn
        have := Tree.ptr_eq_none.1 hn
        rw [this] at hsz
        simp only [Tree.size] at hsz
        omega
  refine ⟨h', T', ?_, r', v1, v2, v3, v4, a, ?_⟩
  · simp only [deref, hread, hsib, hch, e', hur, Option.bind_eq_bind, Option.some_bind,
      Option.pure_def]
  · refine List.perm_iff_count.2 fun x => ?_
    rw [← v5 x, List.count_cons]
    by_cases hxa : x = a
    · subst hxa; simp
    · have : ¬ a = x := fun e => hxa e.symm
      simp [hxa, this]

/-- The statements of `deleteFromRBTree` that follow the choice of the node `z` to unlink,
when `z` has at most one child. -/
theorem deleteFrom_focus (st : State α) (F : Nat) (C : Ctx α) (zl : Tree α) (z : Nat)
    (zc : Color) (zd : α) (zr : Tree α)
    (hr : RepT st.heap (C.plug (Tree.node zl z zc zd zr)))
    (hroot : st.root = (C.plug (Tree.node zl z zc zd zr)).ptr)
    (hfree : st.freeFunc = true)
    (hrc : (C.plug (Tree.node zl z zc zd zr)).rootColor = Color.BLACK)
    (hnrr : (C.plug (Tree.node zl z zc zd zr)).NoRedRed)
    (hbal : (C.plug (Tree.node zl z zc zd zr)).Balanced)
    (hone : zl.ptr = none ∨ zr.ptr = none)
    (hF : (C.plug (Tree.node zl z zc zd zr)).size + 3 ≤ F) :
    ∃ h' T',
      (do
        let mn ← deref st.heap (some z)
        let s ← findSibling st.heap (some z)
        let c ← findChild st.heap (some z)
        let st' ← deleteNode F st (some z) mn.parent s c
        let st' := { st' with size := st'.size - 1 }
        let root ← updateRoot F st'.heap st'.root
        pure (SUCCESS, { st' with root := root })) =
        some (SUCCESS, { st with heap := h', root := T'.ptr, size := st.size - 1,
                                 freed := st.freed ++ [zd] }) ∧
      RepT h' T' ∧ T'.rootColor = Color.BLACK ∧ T'.NoRedRed ∧ T'.Balanced ∧
      T'.inorder = C.before ++ (zl.inorder ++ zr.inorder) ++ C.after := by
  obtain ⟨h', T', c1, c2, c3, c4, c5, c6, -⟩ :=
    deleteFrom_focus_nodes st F C zl z zc zd zr hr hroot hfree hrc hnrr hbal hone hF
  exact ⟨h', T', c1, c2, c3, c4, c5, c6⟩

theorem sorted_erase {cmp : α → α → Int} {l1 l2 : List α} {e : α}
    (h : (l1 ++ e :: l2).Pairwise (fun x y => cmp x y < 0)) :
    (l1 ++ l2).Pairwise (fun x y => cmp x y < 0) :=
  h.sublist (List.Sublist.append (List.Sublist.refl _) (List.sublist_cons_self _ _))

/-- Deletion of a payload that compares equal to a stored payload, when the handle has a
disposer, with the nodes of the resulting tree: those of the tree before except one. -/
theorem deleteFromRBTree_found_nodes {cmp : α → α → Int} (hc : TotalCmp cmp) (st : State α)
    (T : Tree α) (hrep : Represents st T) (hinv : RBInv cmp T)
    (hcmp : st.compFunc = some cmp) (hfree : st.freeFunc = true) (k : α)
    (hk : ∃ d ∈ T.inorder, cmp k d = 0) :
    ∃ (st' : State α) (T' : Tree α) (l1 l2 : List α) (e : α),
      deleteFromRBTree st k = some (SUCCESS, st') ∧ Represents st' T' ∧ RBInv cmp T' ∧
      T.inorder = l1 ++ e :: l2 ∧ T'.inorder = l1 ++ l2 ∧ cmp k e = 0 ∧
      T'.size + 1 = T.size ∧ st'.size = st.size - 1 ∧ st'.compFunc = st.compFunc ∧
      st'.freeFunc = st.freeFunc ∧ st'.freed = st.freed ++ [e] ∧
      ∃ a, T.addrs.Perm (a :: T'.addrs) := by
  obtain ⟨hr, hroot⟩ := hrep
  obtain ⟨i1, i2, i3, i4⟩ := hinv
  have hfind : T.find cmp k ≠ none := (Tree.find_ne_none_iff hc i4 k).2 hk
  obtain ⟨m, hm⟩ := Option.ne_none_iff_exists'.1 hfind
  have hsearch : search (fuelOf st.heap) st.heap st.root k st.compFunc = some (some m) := by
    rw [hroot, hcmp, search_eq_find st.heap cmp k T none _ hr.1 hr.height_lt_fuel, hm]
  obtain ⟨ctx, l, c, d, r, eT, hkd⟩ := Tree.find_focus cmp k T m hr hm
  subst eT
  have hread := hr.read_focus
  have hsize := hr.size_le
  have hF : (ctx.plug (Tree.node l m c d r)).size + 3 ≤ fuelOf st.heap := by
    unfold fuelOf; omega
  -- the conclusion from the result of the final segment
  have finish : ∀ (h2 : Heap α) (C : Ctx α) (zl zr : Tree α) (l1 l2 : List α),
      (ctx.plug (Tree.node l m c d r)).inorder = l1 ++ d :: l2 →
      C.before ++ (zl.inorder ++ zr.inorder) ++ C.after = l1 ++ l2 →
      (∃ h' T', deleteFromRBTree st k =
          some (SUCCESS, { st with heap := h', root := T'.ptr, size := st.size - 1,
                                   freed := st.freed ++ [d] }) ∧
        RepT h' T' ∧ T'.rootColor = Color.BLACK ∧ T'.NoRedRed ∧ T'.Balanced ∧
        T'.inorder = C.before ++ (zl.inorder ++ zr.inorder) ++ C.after ∧
        ∃ a, (ctx.plug (Tree.node l m c d r)).addrs.Perm (a :: T'.addrs)) →
      ∃ (st' : State α) (T' : Tree α) (l1 l2 : List α) (e : α),
        deleteFromRBTree st k = some (SUCCESS, st') ∧ Represents st' T' ∧ RBInv cmp T' ∧
        (ctx.plug (Tree.node l m c d r)).inorder = l1 ++ e :: l2 ∧ T'.inorder = l1 ++ l2 ∧
        cmp k e = 0 ∧ T'.size + 1 = (ctx.plug (Tree.node l m c d r)).size ∧
        st'.size = st.size - 1 ∧ st'.compFunc = st.compFunc ∧
        st'.freeFunc = st.freeFunc ∧ st'.freed = st.freed ++ [e] ∧
        ∃ a, (ctx.plug (Tree.node l m c d r)).addrs.Perm (a :: T'.addrs) := by
    rintro h2 C zl zr l1 l2 e1 e2 ⟨h', T', c1, c2, c3, c4, c5, c6, c7⟩
    rw [e2] at c6
    refine ⟨_, T', l1, l2, d, c1, ⟨c2, rfl⟩, ⟨c3, c4, c5, ?_⟩, e1, c6, hkd, ?_, rfl, rfl, rfl,
      rfl, c7⟩
    · unfold Tree.Sorted
      rw [c6]
      unfold Tree.Sorted at i4
      rw [e1] at i4
      exact sorted_erase i4
    · rw [← Tree.length_inorder, c6, ← Tree.length_inorder, e1]
      simp only [List.length_append, List.length_cons]
      omega
  by_cases hboth : l.ptr ≠ none ∧ r.ptr ≠ none
  · -- two children: the successor's payload moves up and the successor is unlinked
    obtain ⟨hl, hrr⟩ := hboth
    cases r with
    | nil => simp at hrr
    | node rl ra rc rd rr =>
      obtain ⟨s, sc, sd, sr, q1, q2, q3⟩ := minCtx_snd rl ra rc rd rr
      have hz := repT_plug.1 hr
      have hRr : Rep st.heap (Tree.node rl ra rc rd rr) (some m) := hz.2.1.2.2
      have hpl := size_plug ctx (Tree.node l m c d (Tree.node rl ra rc rd rr))
      have hht := (Tree.node rl ra rc rd rr).height_le_size
      have hsucc : successor (fuelOf st.heap) st.heap (some m) = some (some s) := by
        have := successorLoop_min rl ra rc rd rr (some m) (fuelOf st.heap) Ctx.top hRr
          (by simp only [Tree.size] at hpl hht ⊢; unfold fuelOf; omega)
        rw [q1] at this
        simp only [successor, hread, Option.bind_eq_bind, Option.some_bind, Tree.ptr_node]
        exact this
      -- the successor seen as a focus of the whole tree
      have hr2 : RepT st.heap ((minCtx rl ra rc rd rr (Ctx.right l m c d ctx)).1.plug
          (Tree.node Tree.nil s sc sd sr)) := by
        rw [minCtx_plug, q2]; exact hr
      have hreads := hr2.read_focus
      obtain ⟨h1, s1, r1⟩ := hr.setData_focus sd
      have r1' : RepT h1 ((minCtx rl ra rc rd rr (Ctx.right l m c sd ctx)).1.plug
          (Tree.node Tree.nil s sc sd sr)) := by
        rw [minCtx_plug, q2]; exact r1
      obtain ⟨h2, s2, r2⟩ := r1'.setData_focus d
      have hsw : switchValues st.heap (some m) (some s) = some h2 := by
        simp only [switchValues, deref, hread, hreads, s1, s2, Option.bind_eq_bind,
          Option.some_bind]
      obtain ⟨p1, p2, p3, p4, p5, p6⟩ :=
        replaceMin_shape s sc sd d sr rl ra rc rd rr q2
      have hplugeq := minCtx_plug (Tree.node Tree.nil s sc d sr) rl ra rc rd rr
        (Ctx.right l m c sd ctx)
      simp only [Ctx.plug_right] at hplugeq
      have hlists := minCtx_lists rl ra rc rd rr (Ctx.right l m c sd ctx)
      have tail := deleteFrom_focus_nodes { st with heap := h2 } (fuelOf st.heap)
        (minCtx rl ra rc rd rr (Ctx.right l m c sd ctx)).1 Tree.nil s sc d sr r2
        (by rw [hplugeq]; exact hroot.trans (Ctx.plug_ptr_congr ctx rfl)) hfree
        (by rw [hplugeq, rootColor_plug]; rw [rootColor_plug] at i1; exact i1)
        (by
          rw [hplugeq, noRedRed_plug]
          obtain ⟨n1, n2, n3⟩ := (noRedRed_plug _ _).1 i2
          refine ⟨?_, n2, n3⟩
          simp only [Tree.NoRedRed, p3, p4, Tree.rootColor_node] at n1 ⊢
          exact n1)
        (by
          rw [hplugeq, balanced_plug]
          obtain ⟨b1, b2⟩ := (balanced_plug _ _).1 i3
          simp only [Tree.Balanced, Tree.bh, p1, p2] at b1 b2 ⊢
          exact ⟨b1, b2⟩)
        (Or.inl rfl)
        (by
          rw [hplugeq, size_plug]
          have := congrArg List.length p5
          simp only [Tree.length_addrs] at this
          simp only [Tree.size, this]
          simp only [Tree.size] at hpl
          omega)
      refine finish h2 (minCtx rl ra rc rd rr (Ctx.right l m c sd ctx)).1 Tree.nil sr
        (ctx.before ++ l.inorder)
        (sd :: sr.inorder ++ minTail rl rd rr ++ ctx.after) ?_ ?_ ?_
      · rw [inorder_plug, Tree.inorder, q3]; simp
      · rw [hlists.1, hlists.2]; simp [Ctx.before, Ctx.after, Tree.inorder]
      · obtain ⟨h', T', t1, t2, t3, t4, t5, t6, a, t7⟩ := tail
        refine ⟨h', T', ?_, t2, t3, t4, t5, t6, a, ?_⟩
        · simp only [deleteFromRBTree, hsearch, deref, hread, hl, hsucc, hsw,
            Option.bind_eq_bind, Option.some_bind, Option.pure_def, reduceCtorEq, if_false,
            if_true, ne_eq, not_false_eq_true, and_self, Tree.ptr_node] at t1 ⊢
          exact t1
        · rw [hplugeq] at t7
          refine List.Perm.trans ?_ t7
          refine (addrs_plug _ _).trans ((addrs_plug _ _).trans ?_).symm
          simp only [Tree.addrs, p5, List.Perm.refl]
  · -- at most one child: the node found is unlinked
    have hone : l.ptr = none ∨ r.ptr = none := by
      by_contra hcon
      exact hboth ⟨fun e => hcon (Or.inl e), fun e => hcon (Or.inr e)⟩
    have tail := deleteFrom_focus_nodes st (fuelOf st.heap) ctx l m c d r hr hroot hfree
      i1 i2 i3 hone hF
    refine finish st.heap ctx l r (ctx.before ++ l.inorder) (r.inorder ++ ctx.after) ?_ ?_ ?_
    · rw [inorder_plug, Tree.inorder]; simp
    · simp
    · obtain ⟨h', T', t1, t2⟩ := tail
      refine ⟨h', T', ?_, t2⟩
      simp only [deleteFromRBTree, hsearch, deref, hread, hboth,
        Option.bind_eq_bind, Option.some_bind, Option.pure_def, reduceCtorEq, if_false,
        ne_eq] at t1 ⊢
      exact t1

/-- Deletion of a payload that compares equal to a stored payload, when the handle has a
disposer. -/
theorem deleteFromRBTree_found {cmp : α → α → Int} (hc : TotalCmp cmp) (st : State α)
    (T : Tree α) (hrep : Represents st T) (hinv : RBInv cmp T)
    (hcmp : st.compFunc = some cmp) (hfree : st.freeFunc = true) (k : α)
    (hk : ∃ d ∈ T.inorder, cmp k d = 0) :
    ∃ (st' : State α) (T' : Tree α) (l1 l2 : List α) (e : α),
      deleteFromRBTree st k = some (SUCCESS, st') ∧ Represents st' T' ∧ RBInv cmp T' ∧
      T.inorder = l1 ++ e :: l2 ∧ T'.inorder = l1 ++ l2 ∧ cmp k e = 0 ∧
      T'.size + 1 = T.size ∧ st'.size = st.size - 1 ∧ st'.compFunc = st.compFunc ∧
      st'.freeFunc = st.freeFunc ∧ st'.freed = st.freed ++ [e] := by
  obtain ⟨st', T', l1, l2, e, h1, h2, h3, h4, h5, h6, h7, h8, h9, h10, h11, -⟩ :=
    deleteFromRBTree_found_nodes hc st T hrep hinv hcmp hfree k hk
  exact ⟨st', T', l1, l2, e, h1, h2, h3, h4, h5, h6, h7, h8, h9, h10, h11⟩

/-- Deletion of a payload that compares equal to no stored payload. -/
theorem deleteFromRBTree_absent {cmp : α → α → Int} (hc : TotalCmp cmp) (st : State α)
    (T : Tree α) (hrep : Represents st T) (hs : T.Sorted cmp)
    (hcmp : st.compFunc = some cmp) (k : α) (hk : ∀ d ∈ T.inorder, cmp k d ≠ 0) :
    deleteFromRBTree st k = some (FAILURE, st) := by
  obtain ⟨hr, hroot⟩ := hrep
  have hfind : T.find cmp k = none := by
    by_contra hne
    obtain ⟨d, hd, e⟩ := (Tree.find_ne_none_iff hc hs k).1 hne
    exact hk d hd e
  have hsearch : search (fuelOf st.heap) st.heap st.root k st.compFunc = some none := by
    rw [hroot, hcmp, search_eq_find st.heap cmp k T none _ hr.1 hr.height_lt_fuel, hfind]
  simp only [deleteFromRBTree, hsearch, Option.bind_eq_bind, Option.some_bind, if_true,
    Option.pure_def]

theorem getPathBlacksNum_eq {h : Heap α} : ∀ (t : Tree α) (par : Ptr) (fuel : Nat) (b : Int),
    Rep h t par → t.height < fuel → getPathBlacksNum fuel h t.ptr b = some (b + t.bh + 1)
  | Tree.nil, _, fuel, b, _, hf => by
    cases fuel with
    | zero => simp [Tree.height] at hf
    | succ f => simp [getPathBlacksNum, Tree.bh]
  | Tree.node l a c d r, par, fuel, b, hr, hf => by
    cases fuel with
    | zero => simp at hf
    | succ f =>
      obtain ⟨h1, h2, -⟩ := hr
      simp only [Tree.height] at hf
      have ih := fun b => getPathBlacksNum_eq l (some a) f b h2 (by omega)
      cases c with
      | RED =>
        simp only [getPathBlacksNum, Tree.ptr_node, h1, Option.bind_eq_bind, Option.some_bind,
          reduceCtorEq, if_false, ih, Tree.bh]
        simp
      | BLACK =>
        simp only [getPathBlacksNum, Tree.ptr_node, h1, Option.bind_eq_bind, Option.some_bind,
          if_true, ih, Tree.bh]
        simp only [Nat.cast_add, Nat.cast_one, Option.some.injEq]
        omega

theorem validatePaths_ok {h : Heap α} : ∀ (t : Tree α) (par : Ptr) (fuel : Nat) (b sb : Int),
    Rep h t par → t.Balanced → b + t.bh + 1 = sb → t.height < fuel →
      validatePaths fuel h t.ptr b sb = some 1
  | Tree.nil, _, fuel, b, sb, _, _, he, hf => by
    cases fuel with
    | zero => simp [Tree.height] at hf
    | succ f =>
      simp only [Tree.bh, Nat.cast_zero, add_zero] at he
      simp [validatePaths, he]
  | Tree.node l a c d r, par, fuel, b, sb, hr, hb, he, hf => by
    cases fuel with
    | zero => simp at hf
    | succ f =>
      obtain ⟨h1, h2, h3⟩ := hr
      obtain ⟨b1, b2, b3⟩ := hb
      simp only [Tree.height] at hf
      simp only [Tree.bh, Nat.cast_add] at he
      have hcast : (((if c = Color.BLACK then 1 else 0 : Nat) : Int)) =
          (if c = Color.BLACK then 1 else 0) := by split_ifs <;> rfl
      have il := validatePaths_ok l (some a) f (b + (if c = Color.BLACK then 1 else 0)) sb h2
        b2 (by rw [← he, hcast]; omega) (by omega)
      have ir := validatePaths_ok r (some a) f (b + (if c = Color.BLACK then 1 else 0)) sb h3
        b3 (by rw [← he, hcast, ← b1]; omega) (by omega)
      simp only [validatePaths, Tree.ptr_node, h1, Option.bind_eq_bind, Option.some_bind, il, ir,
        one_ne_zero, if_false, ne_eq, not_false_eq_true, if_true, Option.pure_def]

theorem validateColors_ok {h : Heap α} : ∀ (t : Tree α) (par : Ptr) (fuel : Nat),
    Rep h t par → t.NoRedRed →
      (t.rootColor = Color.RED → ∀ p, par = some p →
        ∃ pn, h.read p = some pn ∧ pn.color = Color.BLACK) →
      t.height < fuel → validateColors fuel h t.ptr = some 1
  | Tree.nil, _, fuel, _, _, _, hf => by
    cases fuel with
    | zero => simp [Tree.height] at hf
    | succ f => simp [validateColors]
  | Tree.node l a c d r, par, fuel, hr, hn, hp, hf => by
    cases fuel with
    | zero => simp at hf
    | succ f =>
      obtain ⟨h1, h2, h3⟩ := hr
      obtain ⟨n1, n2, n3⟩ := hn
      simp only [Tree.height] at hf
      have il := validateColors_ok l (some a) f h2 n2 (fun hl p hp' => by
        cases hp'
        refine ⟨_, h1, ?_⟩
        cases c with
        | RED => rw [(n1 rfl).1] at hl; cases hl
        | BLACK => rfl) (by omega)
      have ir := validateColors_ok r (some a) f h3 n3 (fun hl p hp' => by
        cases hp'
        refine ⟨_, h1, ?_⟩
        cases c with
        | RED => rw [(n1 rfl).2] at hl; cases hl
        | BLACK => rfl) (by omega)
      have hbad : (if c = Color.RED ∧ par ≠ none then (do
            let p ← deref h par
            pure (decide (p.color = Color.RED)))
          else pure false) = some false := by
        by_cases hc : c = Color.RED ∧ par ≠ none
        · obtain ⟨hc1, hc2⟩ := hc
          obtain ⟨p, rfl⟩ := Option.ne_none_iff_exists'.1 hc2
          obtain ⟨pn, e1, e2⟩ := hp hc1 p rfl
          simp [hc1, deref, e1, e2]
        · rw [if_neg hc]; rfl
      simp only [Option.bind_eq_bind, Option.pure_def, Option.some_bind, ne_eq] at hbad
      simp only [validateColors, Tree.ptr_node, h1, Option.bind_eq_bind, Option.some_bind, il,
        ir, hbad, one_ne_zero, if_false, ne_eq, not_false_eq_true, if_true, Option.pure_def,
        Bool.false_eq_true]

theorem validateBST_ok {h : Heap α} {cmp : α → α → Int} : ∀ (t : Tree α) (par : Ptr)
    (fuel : Nat), Rep h t par → t.Sorted cmp → t.height < fuel →
      validateBST fuel h (some cmp) t.ptr = some 1
  | Tree.nil, _, fuel, _, _, hf => by
    cases fuel with
    | zero => simp [Tree.height] at hf
    | succ f => simp [validateBST]
  | Tree.node l a c d r, par, fuel, hr, hs, hf => by
    cases fuel with
    | zero => simp at hf
    | succ f =>
      obtain ⟨h1, h2, h3⟩ := hr
      obtain ⟨s1, s2, s3, s4, -⟩ := Tree.sorted_node.1 hs
      simp only [Tree.height] at hf
      have il := validateBST_ok l (some a) f h2 s1 (by omega)
      have ir := validateBST_ok r (some a) f h3 s2 (by omega)
      have hbl : (match l.ptr with
          | none => pure false
          | some x => do
            let ln ← h.read x
            let g ← some cmp
            pure (decide (0 < g ln.data d))) = some false := by
        cases l with
        | nil => rfl
        | node ll la lc ld lr =>
          have := s3 ld (by simp [Tree.inorder])
          simp only [Tree.ptr_node, h2.1, Option.bind_eq_bind, Option.some_bind,
            Option.pure_def, Option.some.injEq, decide_eq_false_iff_not, not_lt]
          omega
      have hbr : (match r.ptr with
          | none => pure false
          | some x => do
            let rn ← h.read x
            let g ← some cmp
            pure (decide (0 < g d rn.data))) = some false := by
        cases r with
        | nil => rfl
        | node rl ra rc rd rr =>
          have := s4 rd (by simp [Tree.inorder])
          simp only [Tree.ptr_node, h3.1, Option.bind_eq_bind, Option.some_bind,
            Option.pure_def, Option.some.injEq, decide_eq_false_iff_not, not_lt]
          omega
      simp only [Option.bind_eq_bind, Option.pure_def, Option.some_bind, ne_eq] at hbl hbr
      simp only [validateBST, Tree.ptr_node, h1, Option.bind_eq_bind, Option.some_bind, il,
        ir, hbl, hbr, one_ne_zero, if_false, ne_eq, not_false_eq_true, if_true,
        Option.pure_def, Bool.false_eq_true]

theorem validatePointers_ok {h : Heap α} : ∀ (t : Tree α) (par : Ptr) (fuel : Nat),
    Rep h t par → t.height < fuel → validatePointers fuel h t.ptr = some 1
  | Tree.nil, _, fuel, _, hf => by
    cases fuel with
    | zero => simp [Tree.height] at hf
    | succ f => simp [validatePointers]
  | Tree.node l a c d r, par, fuel, hr, hf => by
    cases fuel with
    | zero => simp at hf
    | succ f =>
      obtain ⟨h1, h2, h3⟩ := hr
      simp only [Tree.height] at hf
      have il := validatePointers_ok l (some a) f h2 (by omega)
      have ir := validatePointers_ok r (some a) f h3 (by omega)
      have hbl : (match l.ptr with
          | none => pure false
          | some x => do
            let ln ← h.read x
            pure (decide (ln.parent ≠ some a))) = some false := by
        cases l with
        | nil => rfl
        | node ll la lc ld lr => simp [h2.1]
      have hbr : (match r.ptr with
          | none => pure false
          | some x => do
            let rn ← h.read x
            pure (decide (rn.parent ≠ some a))) = some false := by
        cases r with
        | nil => rfl
        | node rl ra rc rd rr => simp [h3.1]
      simp only [Option.bind_eq_bind, Option.pure_def, Option.some_bind, ne_eq] at hbl hbr
      simp only [validatePointers, Tree.ptr_node, h1, Option.bind_eq_bind, Option.some_bind,
        il, ir, hbl, hbr, one_ne_zero, if_false, ne_eq, not_false_eq_true, if_true,
        Option.pure_def, Bool.false_eq_true]

theorem treeSize_eq {h : Heap α} : ∀ (t : Tree α) (par : Ptr) (fuel : Nat),
    Rep h t par → t.height < fuel → treeSize fuel h t.ptr 0 = some (t.size : Int)
  | Tree.nil, _, fuel, _, hf => by
    cases fuel with
    | zero => simp [Tree.height] at hf
    | succ f => simp [treeSize, Tree.size]
  | Tree.node l a c d r, par, fuel, hr, hf => by
    cases fuel with
    | zero => simp at hf
    | succ f =>
      obtain ⟨h1, h2, h3⟩ := hr
      simp only [Tree.height] at hf
      have il := treeSize_eq l (some a) f h2 (by omega)
      have ir := treeSize_eq r (some a) f h3 (by omega)
      simp only [treeSize, Tree.ptr_node, h1, Option.bind_eq_bind, Option.some_bind, il, ir,
        Option.pure_def, Tree.size]
      simp

/-- The validator accepts every handle that satisfies the invariants. -/
theorem isValidRBTree_of_valid {cmp : α → α → Int} (st : State α) (T : Tree α)
    (hrep : Represents st T) (hinv : RBInv cmp T) (hsize : st.size = T.size)
    (hcmp : st.compFunc = some cmp) : isValidRBTree st = some 1 := by
  obtain ⟨hr, hroot⟩ := hrep
  obtain ⟨i1, i2, i3, i4⟩ := hinv
  have hf := hr.height_lt_fuel
  cases T with
  | nil =>
    simp only [Tree.ptr_nil] at hroot
    simp only [isValidRBTree, hroot]
  | node l a c d r =>
    simp only [Tree.rootColor_node] at i1
    subst i1
    have e1 := getPathBlacksNum_eq _ none _ 0 hr.1 hf
    have e2 := validatePaths_ok _ none _ 0 _ hr.1 i3 rfl hf
    have e3 := validateColors_ok _ none _ hr.1 i2 (fun _ p hp => by cases hp) hf
    have e4 := validateBST_ok _ none _ hr.1 i4 hf
    have e5 := validatePointers_ok _ none _ hr.1 hf
    have e6 := treeSize_eq _ none _ hr.1 hf
    have hread := hr.1.1
    simp only [Tree.ptr_node] at hroot e1 e2 e3 e4 e5 e6
    simp only [isValidRBTree, hroot, hread, hcmp, e1, e2, e3, e4, e5, e6, hsize,
      Option.bind_eq_bind, Option.some_bind, ne_eq, not_true_eq_false, if_false, one_ne_zero,
      Option.pure_def]

theorem compInt_total : TotalCmp compInt where
  swap := fun a b => by unfold compInt; split_ifs <;> omega
  trans := fun a b c h1 h2 => by
    unfold compInt at h1 h2 ⊢
    split_ifs at h1 h2 ⊢ <;> omega
  congr := fun a b c h1 h2 => by
    unfold compInt at h1 h2 ⊢
    split_ifs at h1 h2 ⊢ <;> omega

theorem sampleState_represents : Represents sampleState sampleTree :=
  ⟨⟨⟨rfl, trivial, trivial⟩, by simp [sampleTree, Tree.addrs]⟩, rfl⟩

theorem sampleNoDisposer_represents : Represents sampleNoDisposer sampleTree :=
  ⟨⟨⟨rfl, trivial, trivial⟩, by simp [sampleTree, Tree.addrs]⟩, rfl⟩

theorem sampleTree_inv : RBInv compInt sampleTree where
  rootBlack := rfl
  noRedRed := by simp [sampleTree, Tree.NoRedRed]
  balanced := by simp [sampleTree, Tree.Balanced]
  sorted := by simp [sampleTree, Tree.Sorted, Tree.inorder]

theorem sampleNoDisposer2_represents : Represents sampleNoDisposer2 sampleTree2 :=
  ⟨⟨⟨rfl, ⟨rfl, trivial, trivial⟩, trivial⟩, by simp [sampleTree2, Tree.addrs]⟩, rfl⟩

theorem sampleTree2_inv : RBInv compInt sampleTree2 where
  rootBlack := rfl
  noRedRed := by simp [sampleTree2, Tree.NoRedRed, Tree.rootColor]
  balanced := by simp [sampleTree2, Tree.Balanced, Tree.bh]
  sorted := by simp [sampleTree2, Tree.Sorted, Tree.inorder, compInt]

theorem not_eq_of_lt_left {cmp : α → α → Int} (hc : TotalCmp cmp) {k e d : α}
    (hke : cmp k e = 0) (hde : cmp d e < 0) : cmp k d ≠ 0 := by
  intro hkd
  have h1 := hc.congr d k e (hc.eq_symm hkd) hde
  omega

theorem not_eq_of_lt_right {cmp : α → α → Int} (hc : TotalCmp cmp) {k e d : α}
    (hke : cmp k e = 0) (hed : cmp e d < 0) : cmp k d ≠ 0 := by
  have h1 := hc.congr e k d (hc.eq_symm hke) hed
  omega

/-- C1: for every handle that satisfies invariants 1 to 7 under a total-order comparator and
every non-absent payload, `insertToRBTree` returns and the handle afterwards satisfies
invariants 1 to 7 again (node allocation is taken to succeed). -/
theorem insertToRBTree_preserves_invariants {cmp : α → α → Int} (hc : TotalCmp cmp)
    (st : State α) (hv : Valid cmp st) (hcmp : st.compFunc = some cmp) (x : α) :
    ∃ (r : Int) (st' : State α), insertToRBTree st (some x) = some (r, st') ∧
      Valid cmp st' ∧ st'.compFunc = some cmp := by
  obtain ⟨T, hrep, hinv, hsize⟩ := hv
  by_cases hx : ∃ d ∈ T.inorder, cmp x d = 0
  · exact ⟨FAILURE, st, insertToRBTree_dup hc st T hrep hinv.sorted hcmp x hx,
      ⟨T, hrep, hinv, hsize⟩, hcmp⟩
  · obtain ⟨st', T', l1, l2, e, r', i', -, -, -, -, s1, s2, s3, -, -⟩ :=
      insertToRBTree_new hc st T hrep hinv hcmp x (fun d hd e => hx ⟨d, hd, e⟩)
    exact ⟨SUCCESS, st', e, ⟨T', r', i', by omega⟩, by rw [s3, hcmp]⟩

theorem insertToRBTree_preserves_invariants_witness :
    Valid compInt sampleState ∧
      ∃ (r : Int) (st' : State Int), insertToRBTree sampleState (some 7) = some (r, st') ∧
        Valid compInt st' ∧ st'.compFunc = some compInt :=
  ⟨⟨sampleTree, sampleState_represents, sampleTree_inv, rfl⟩,
    insertToRBTree_preserves_invariants compInt_total sampleState
      ⟨sampleTree, sampleState_represents, sampleTree_inv, rfl⟩ rfl 7⟩

/-- C2, as amended: for every handle that satisfies invariants 1 to 7 under a total-order
comparator and every key, provided the handle has a disposer whenever the key compares equal
to a stored payload, `deleteFromRBTree` returns and the handle afterwards satisfies
invariants 1 to 7 again (in every deletion path). -/
theorem deleteFromRBTree_preserves_invariants {cmp : α → α → Int} (hc : TotalCmp cmp)
    (st : State α) (T : Tree α) (hrep : Represents st T) (hinv : RBInv cmp T)
    (hsize : st.size = T.size) (hcmp : st.compFunc = some cmp) (k : α)
    (hfree : (∃ d ∈ T.inorder, cmp k d = 0) → st.freeFunc = true) :
    ∃ (r : Int) (st' : State α), deleteFromRBTree st k = some (r, st') ∧
      Valid cmp st' ∧ st'.compFunc = some cmp := by
  by_cases hk : ∃ d ∈ T.inorder, cmp k d = 0
  · obtain ⟨st', T', l1, l2, e, e1, r', i', -, -, -, s1, s2, s3, -, -⟩ :=
      deleteFromRBTree_found hc st T hrep hinv hcmp (hfree hk) k hk
    exact ⟨SUCCESS, st', e1, ⟨T', r', i', by omega⟩, by rw [s3, hcmp]⟩
  · exact ⟨FAILURE, st,
      deleteFromRBTree_absent hc st T hrep hinv.sorted hcmp k (fun d hd e => hk ⟨d, hd, e⟩),
      ⟨T, hrep, hinv, hsize⟩, hcmp⟩

theorem deleteFromRBTree_preserves_invariants_witness :
    Valid compInt sampleState ∧
      ∃ (r : Int) (st' : State Int), deleteFromRBTree sampleState 5 = some (r, st') ∧
        Valid compInt st' ∧ st'.compFunc = some compInt :=
  ⟨⟨sampleTree, sampleState_represents, sampleTree_inv, rfl⟩,
    deleteFromRBTree_preserves_invariants compInt_total sampleState sampleTree
      sampleState_represents sampleTree_inv rfl rfl 5 (fun _ => rfl)⟩

/-- C2 as stated fails: the one-node handle created with a `NULL` disposer satisfies
invariants 1 to 7, and deleting its key calls the `NULL` disposer, so that no handle
results. -/
theorem deleteFromRBTree_null_disposer :
    Valid compInt sampleNoDisposer ∧ sampleNoDisposer.compFunc = some compInt ∧
      deleteFromRBTree sampleNoDisposer 5 = none ∧
      ¬ ∃ (r : Int) (st' : State Int),
        deleteFromRBTree sampleNoDisposer 5 = some (r, st') ∧ Valid compInt st' := by
  have e : deleteFromRBTree sampleNoDisposer 5 = none := rfl
  refine ⟨⟨sampleTree, sampleNoDisposer_represents, sampleTree_inv, rfl⟩, rfl, e, ?_⟩
  rintro ⟨r, st', h, -⟩
  rw [e] at h
  cases h

/-- C3: for every valid tree (invariants 1 to 7, total-order comparator) and every payload
`x` that compares equal to no stored payload, `insertToRBTree` returns `SUCCESS`, the size
grows by exactly 1, the in-order sequence afterwards is the previous one with `x` inserted
between the payloads below it and those above it, `RBTreeContains` is then non-zero on `x`,
and the membership of every key that does not compare equal to `x` is unchanged. -/
theorem insertToRBTree_new_key {cmp : α → α → Int} (hc : TotalCmp cmp) (st : State α)
    (T : Tree α) (hrep : Represents st T) (hinv : RBInv cmp T) (hsize : st.size = T.size)
    (hcmp : st.compFunc = some cmp) (x : α) (hx : ∀ d ∈ T.inorder, cmp x d ≠ 0) :
    ∃ (st' : State α) (T' : Tree α) (l1 l2 : List α),
      insertToRBTree st (some x) = some (SUCCESS, st') ∧ SUCCESS ≠ 0 ∧
      Represents st' T' ∧ st'.size = st.size + 1 ∧ st'.size = T'.size ∧
      T.inorder = l1 ++ l2 ∧ T'.inorder = l1 ++ x :: l2 ∧
      (∀ y ∈ l1, cmp y x < 0) ∧ (∀ y ∈ l2, cmp x y < 0) ∧
      T'.inorder.Pairwise (fun a b => cmp a b < 0) ∧
      (∃ v, RBTreeContains st' x = some v ∧ v ≠ 0) ∧
      ∀ k, cmp k x ≠ 0 → ∃ v v', RBTreeContains st k = some v ∧
        RBTreeContains st' k = some v' ∧ (v' ≠ 0 ↔ v ≠ 0) := by
  obtain ⟨st', T', l1, l2, e, r', i', a1, a2, a3, a4, s1, s2, s3, -, -⟩ :=
    insertToRBTree_new hc st T hrep hinv hcmp x hx
  have hcmp' : st'.compFunc = some cmp := by rw [s3, hcmp]
  refine ⟨st', T', l1, l2, e, by decide, r', s2, by omega, a1, a2, a3, a4, i'.sorted, ?_, ?_⟩
  · obtain ⟨-, -, -, -, v, hv, hiff⟩ := search_spec cmp hc st' T' r' i'.sorted hcmp' x
    exact ⟨v, hv, hiff.2 ⟨x, by simp [a2], hc.lt_irrefl x⟩⟩
  · intro k hk
    obtain ⟨-, -, -, -, v, hv, hiff⟩ := search_spec cmp hc st T hrep hinv.sorted hcmp k
    obtain ⟨-, -, -, -, v', hv', hiff'⟩ := search_spec cmp hc st' T' r' i'.sorted hcmp' k
    refine ⟨v, v', hv, hv', ?_⟩
    rw [hiff, hiff', a1, a2]
    simp only [List.mem_append, List.mem_cons]
    constructor
    · rintro ⟨d, hd | rfl | hd, hkd⟩
      · exact ⟨d, Or.inl hd, hkd⟩
      · exact absurd hkd hk
      · exact ⟨d, Or.inr hd, hkd⟩
    · rintro ⟨d, hd | hd, hkd⟩
      · exact ⟨d, Or.inl hd, hkd⟩
      · exact ⟨d, Or.inr (Or.inr hd), hkd⟩

theorem insertToRBTree_new_key_witness :
    (∀ d ∈ sampleTree.inorder, compInt 7 d ≠ 0) ∧
    ∃ (st' : State Int) (T' : Tree Int) (l1 l2 : List Int),
      insertToRBTree sampleState (some 7) = some (SUCCESS, st') ∧ SUCCESS ≠ 0 ∧
      Represents st' T' ∧ st'.size = sampleState.size + 1 ∧ st'.size = T'.size ∧
      sampleTree.inorder = l1 ++ l2 ∧ T'.inorder = l1 ++ 7 :: l2 ∧
      (∀ y ∈ l1, compInt y 7 < 0) ∧ (∀ y ∈ l2, compInt 7 y < 0) ∧
      T'.inorder.Pairwise (fun a b => compInt a b < 0) ∧
      (∃ v, RBTreeContains st' 7 = some v ∧ v ≠ 0) ∧
      ∀ k, compInt k 7 ≠ 0 → ∃ v v', RBTreeContains sampleState k = some v ∧
        RBTreeContains st' k = some v' ∧ (v' ≠ 0 ↔ v ≠ 0) :=
  ⟨by simp [sampleTree, Tree.inorder, compInt],
    insertToRBTree_new_key compInt_total sampleState sampleTree sampleState_represents
      sampleTree_inv rfl rfl 7 (by simp [sampleTree, Tree.inorder, compInt])⟩

/-- C4, as amended: for every valid tree (invariants 1 to 7, total-order comparator) whose
handle has a disposer and every key `k` that compares equal to a stored payload,
`deleteFromRBTree` returns `SUCCESS`, the size decreases by exactly 1, the in-order sequence
afterwards is the previous one with exactly the payload equal to `k` removed (also when its
node has two children), the disposer is invoked once, on that payload, `RBTreeContains` is
then zero on `k`, and every other stored payload is still contained. -/
theorem deleteFromRBTree_stored_key {cmp : α → α → Int} (hc : TotalCmp cmp) (st : State α)
    (T : Tree α) (hrep : Represents st T) (hinv : RBInv cmp T) (hsize : st.size = T.size)
    (hcmp : st.compFunc = some cmp) (hfree : st.freeFunc = true) (k : α)
    (hk : ∃ d ∈ T.inorder, cmp k d = 0) :
    ∃ (st' : State α) (T' : Tree α) (l1 l2 : List α) (e : α),
      deleteFromRBTree st k = some (SUCCESS, st') ∧ SUCCESS ≠ 0 ∧
      Represents st' T' ∧ st'.size + 1 = st.size ∧ st'.size = T'.size ∧
      T.inorder = l1 ++ e :: l2 ∧ T'.inorder = l1 ++ l2 ∧ cmp k e = 0 ∧
      st'.freed = st.freed ++ [e] ∧
      (∃ v, RBTreeContains st' k = some v ∧ v = 0) ∧
      ∀ d ∈ T.inorder, cmp k d ≠ 0 → ∃ v, RBTreeContains st' d = some v ∧ v ≠ 0 := by
  obtain ⟨st', T', l1, l2, e, e1, r', i', a1, a2, a3, s1, s2, s3, -, s5⟩ :=
    deleteFromRBTree_found hc st T hrep hinv hcmp hfree k hk
  have hcmp' : st'.compFunc = some cmp := by rw [s3, hcmp]
  have hsort := hinv.sorted
  unfold Tree.Sorted at hsort
  rw [a1, List.pairwise_append] at hsort
  obtain ⟨-, p2, p3⟩ := hsort
  rw [List.pairwise_cons] at p2
  refine ⟨st', T', l1, l2, e, e1, by decide, r', by omega, by omega, a1, a2, a3, s5, ?_, ?_⟩
  · obtain ⟨-, -, -, -, v, hv, hiff⟩ := search_spec cmp hc st' T' r' i'.sorted hcmp' k
    refine ⟨v, hv, ?_⟩
    by_contra hne
    obtain ⟨d, hd, hkd⟩ := hiff.1 hne
    rw [a2, List.mem_append] at hd
    rcases hd with hd | hd
    · exact not_eq_of_lt_left hc a3 (p3 d hd e (List.mem_cons_self _ _)) hkd
    · exact not_eq_of_lt_right hc a3 (p2.1 d hd) hkd
  · intro d hd hkd
    obtain ⟨-, -, -, -, v, hv, hiff⟩ := search_spec cmp hc st' T' r' i'.sorted hcmp' d
    refine ⟨v, hv, hiff.2 ⟨d, ?_, hc.lt_irrefl d⟩⟩
    rw [a1] at hd
    rw [a2]
    simp only [List.mem_append, List.mem_cons] at hd ⊢
    rcases hd with hd | rfl | hd
    · exact Or.inl hd
    · exact absurd a3 hkd
    · exact Or.inr hd

theorem deleteFromRBTree_stored_key_witness :
    (∃ d ∈ sampleTree.inorder, compInt 5 d = 0) ∧
    ∃ (st' : State Int) (T' : Tree Int) (l1 l2 : List Int) (e : Int),
      deleteFromRBTree sampleState 5 = some (SUCCESS, st') ∧ SUCCESS ≠ 0 ∧
      Represents st' T' ∧ st'.size + 1 = sampleState.size ∧ st'.size = T'.size ∧
      sampleTree.inorder = l1 ++ e :: l2 ∧ T'.inorder = l1 ++ l2 ∧ compInt 5 e = 0 ∧
      st'.freed = sampleState.freed ++ [e] ∧
      (∃ v, RBTreeContains st' 5 = some v ∧ v = 0) ∧
      ∀ d ∈ sampleTree.inorder, compInt 5 d ≠ 0 →
        ∃ v, RBTreeContains st' d = some v ∧ v ≠ 0 :=
  ⟨⟨5, by simp [sampleTree, Tree.inorder], rfl⟩,
    deleteFromRBTree_stored_key compInt_total sampleState sampleTree sampleState_represents
      sampleTree_inv rfl rfl rfl 5 ⟨5, by simp [sampleTree, Tree.inorder], rfl⟩⟩

/-- C4 as stated fails: the two-node handle created with a `NULL` disposer is valid and
stores 3, and deleting 3 calls the `NULL` disposer instead of returning success. -/
theorem deleteFromRBTree_stored_key_null_disposer :
    Valid compInt sampleNoDisposer2 ∧ sampleNoDisposer2.compFunc = some compInt ∧
      (∃ d ∈ sampleTree2.inorder, compInt 3 d = 0) ∧
      deleteFromRBTree sampleNoDisposer2 3 = none ∧
      ¬ ∃ st' : State Int, deleteFromRBTree sampleNoDisposer2 3 = some (SUCCESS, st') := by
  have e : deleteFromRBTree sampleNoDisposer2 3 = none := rfl
  refine ⟨⟨sampleTree2, sampleNoDisposer2_represents, sampleTree2_inv, rfl⟩, rfl,
    ⟨3, by simp [sampleTree2, Tree.inorder], rfl⟩, e, ?_⟩
  rintro ⟨st', h⟩
  rw [e] at h
  cases h

/-- C5: for every tree with a strictly increasing in-order sequence and every payload that
compares equal to a stored payload, `insertToRBTree` returns `FAILURE` (0) and the handle
and the heap are unchanged: same root, same size, and every node keeps its payload, colour
and links. -/
theorem insertToRBTree_duplicate {cmp : α → α → Int} (hc : TotalCmp cmp) (st : State α)
    (T : Tree α) (hrep : Represents st T) (hs : T.Sorted cmp)
    (hcmp : st.compFunc = some cmp) (x : α) (hx : ∃ d ∈ T.inorder, cmp x d = 0) :
    insertToRBTree st (some x) = some (FAILURE, st) ∧ FAILURE = 0 :=
  ⟨insertToRBTree_dup hc st T hrep hs hcmp x hx, rfl⟩

theorem insertToRBTree_duplicate_witness :
    (∃ d ∈ sampleTree.inorder, compInt 5 d = 0) ∧
      insertToRBTree sampleState (some 5) = some (FAILURE, sampleState) ∧ FAILURE = 0 :=
  ⟨⟨5, by simp [sampleTree, Tree.inorder], rfl⟩,
    insertToRBTree_duplicate compInt_total sampleState sampleTree sampleState_represents
      sampleTree_inv.sorted rfl 5 ⟨5, by simp [sampleTree, Tree.inorder], rfl⟩⟩

/-- C6: for every tree with a strictly increasing in-order sequence and every key that
compares equal to no stored payload, `deleteFromRBTree` returns `FAILURE` (0) and the handle
and the heap are unchanged: same root, same size, every node keeps its payload, colour and
links, and the log of disposer calls is the same, so the disposer is not invoked. -/
theorem deleteFromRBTree_absent_key {cmp : α → α → Int} (hc : TotalCmp cmp) (st : State α)
    (T : Tree α) (hrep : Represents st T) (hs : T.Sorted cmp)
    (hcmp : st.compFunc = some cmp) (k : α) (hk : ∀ d ∈ T.inorder, cmp k d ≠ 0) :
    ∃ st', deleteFromRBTree st k = some (FAILURE, st') ∧ FAILURE = 0 ∧ st' = st ∧
      st'.freed = st.freed :=
  ⟨st, deleteFromRBTree_absent hc st T hrep hs hcmp k hk, rfl, rfl, rfl⟩

theorem deleteFromRBTree_absent_key_witness :
    (∀ d ∈ sampleTree.inorder, compInt 9 d ≠ 0) ∧
      ∃ st', deleteFromRBTree sampleNoDisposer 9 = some (FAILURE, st') ∧ FAILURE = 0 ∧
        st' = sampleNoDisposer ∧ st'.freed = sampleNoDisposer.freed :=
  ⟨by simp [sampleTree, Tree.inorder, compInt],
    deleteFromRBTree_absent_key compInt_total sampleNoDisposer sampleTree
      sampleNoDisposer_represents sampleTree_inv.sorted rfl 9
      (by simp [sampleTree, Tree.inorder, compInt])⟩

end RB
end

section
variable {α σ : Type}
namespace RB

/-- C7: on a tree whose in-order sequence is strictly increasing under a total-order
comparator, `search` returns a node exactly when some stored payload compares equal to the
key, the node returned is a node of the tree that holds such a payload, and `RBTreeContains`
is non-zero iff the key compares equal to a member of the in-order sequence. -/
theorem search_correct (cmp : α → α → Int) (hc : TotalCmp cmp) (st : State α) (t : Tree α)
    (hrep : Represents st t) (hs : t.Sorted cmp) (hcmp : st.compFunc = some cmp) (k : α) :
    ∃ r, search (fuelOf st.heap) st.heap st.root k st.compFunc = some r ∧
      (∀ a, r = some a →
        a ∈ t.addrs ∧ ∃ n, st.heap.read a = some n ∧ n.data ∈ t.inorder ∧ cmp k n.data = 0) ∧
      (r ≠ none ↔ ∃ d ∈ t.inorder, cmp k d = 0) ∧
      ∃ v, RBTreeContains st k = some v ∧ (v ≠ 0 ↔ ∃ d ∈ t.inorder, cmp k d = 0) :=
  search_spec cmp hc st t hrep hs hcmp k

theorem search_correct_witness :
    sampleTree.Sorted compInt ∧
    ∃ r, search (fuelOf sampleState.heap) sampleState.heap sampleState.root 5
        sampleState.compFunc = some r ∧
      (∀ a, r = some a → a ∈ sampleTree.addrs ∧
        ∃ n, sampleState.heap.read a = some n ∧ n.data ∈ sampleTree.inorder ∧
          compInt 5 n.data = 0) ∧
      (r ≠ none ↔ ∃ d ∈ sampleTree.inorder, compInt 5 d = 0) ∧
      ∃ v, RBTreeContains sampleState 5 = some v ∧
        (v ≠ 0 ↔ ∃ d ∈ sampleTree.inorder, compInt 5 d = 0) :=
  ⟨sampleTree_inv.sorted,
    search_correct compInt compInt_total sampleState sampleTree sampleState_represents
      sampleTree_inv.sorted rfl 5⟩

/-- C8: on a tree satisfying the BST-ordering invariant, with a visitor that always returns
continue, `forEachRBTree` invokes the visitor exactly `size` times (the number of nodes, which
is the stored count under invariant 7), once on each stored payload, in in-order, which is
strictly ascending, and returns a non-zero (success) result; on an empty tree it makes no
call and returns `SUCCESS`. -/
theorem forEach_visits_all (cmp : α → α → Int) (st : State α) (t : Tree α)
    (hrep : Represents st t) (hs : t.Sorted cmp)
    (f : Nat → α → σ → Int × σ) (hf : ∀ i x s, (f i x s).1 ≠ 0) (args : σ) :
    ∃ v s', forEachRBTree st (countingVisitor f) (args, 0, []) =
        some (v, (s', t.size, t.inorder)) ∧ v ≠ FAILURE ∧
      t.inorder.length = t.size ∧ (st.size = t.size → t.inorder.length = st.size) ∧
      t.inorder.Pairwise (fun x y => cmp x y < 0) ∧
      (st.root = none → v = SUCCESS ∧ s' = args ∧ t.size = 0 ∧ t.inorder = []) := by
  obtain ⟨v, s', h1, h2, h3, h4, h5⟩ := forEach_continue_spec cmp st t hrep hs f hf args
  exact ⟨v, s', h1, h2, h3, fun e => by rw [e, h3], h4, h5⟩

theorem forEach_visits_all_witness :
    sampleTree.Sorted compInt ∧
    ∃ v s', forEachRBTree sampleState (countingVisitor (fun _ _ (s : Unit) => ((1 : Int), s)))
        ((), 0, []) = some (v, (s', sampleTree.size, sampleTree.inorder)) ∧ v ≠ FAILURE ∧
      sampleTree.inorder.length = sampleTree.size ∧
      (sampleState.size = sampleTree.size → sampleTree.inorder.length = sampleState.size) ∧
      sampleTree.inorder.Pairwise (fun x y => compInt x y < 0) ∧
      (sampleState.root = none →
        v = SUCCESS ∧ s' = () ∧ sampleTree.size = 0 ∧ sampleTree.inorder = []) :=
  ⟨sampleTree_inv.sorted,
    forEach_visits_all compInt sampleState sampleTree sampleState_represents
      sampleTree_inv.sorted (fun _ _ (s : Unit) => ((1 : Int), s))
      (fun _ _ _ => by simp) ()⟩

/-- C9: on a tree satisfying the BST-ordering invariant, with `1 ≤ k ≤ size` (the number of
nodes, which is the stored count under invariant 7) and a visitor that returns continue on
its first `k - 1` calls and stop on its `k`-th call, `forEachRBTree` invokes the visitor
exactly `k` times, on the first `k` payloads of the in-order sequence (in ascending order,
each smaller than every payload not visited), and returns `FAILURE` (0). -/
theorem forEach_stops_at (cmp : α → α → Int) (st : State α) (t : Tree α)
    (hrep : Represents st t) (hs : t.Sorted cmp) (k : Nat)
    (hk1 : 1 ≤ k) (hk2 : k ≤ t.size) (f : Nat → α → σ → Int × σ)
    (hcont : ∀ i, i + 1 < k → ∀ x s, (f i x s).1 ≠ 0)
    (hstop : ∀ x s, (f (k - 1) x s).1 = 0) (args : σ) :
    ∃ s', forEachRBTree st (countingVisitor f) (args, 0, []) =
        some (FAILURE, (s', k, t.inorder.take k)) ∧ FAILURE = 0 ∧
      (t.inorder.take k).length = k ∧
      (t.inorder.take k).Pairwise (fun x y => cmp x y < 0) ∧
      ∀ x ∈ t.inorder.take k, ∀ y ∈ t.inorder.drop k, cmp x y < 0 := by
  obtain ⟨s', h1, h2, h3, h4⟩ :=
    forEach_stop_spec cmp st t hrep hs k hk1 hk2 f hcont hstop args
  exact ⟨s', h1, rfl, h2, h3, h4⟩

theorem forEach_stops_at_witness :
    (1 ≤ 1 ∧ 1 ≤ sampleTree.size) ∧
    ∃ s', forEachRBTree sampleState (countingVisitor (fun _ _ (s : Unit) => ((0 : Int), s)))
        ((), 0, []) = some (FAILURE, (s', 1, sampleTree.inorder.take 1)) ∧ FAILURE = 0 ∧
      (sampleTree.inorder.take 1).length = 1 ∧
      (sampleTree.inorder.take 1).Pairwise (fun x y => compInt x y < 0) ∧
      ∀ x ∈ sampleTree.inorder.take 1, ∀ y ∈ sampleTree.inorder.drop 1, compInt x y < 0 :=
  ⟨⟨by decide, by decide⟩,
    forEach_stops_at compInt sampleState sampleTree sampleState_represents
      sampleTree_inv.sorted 1 (by decide) (by decide)
      (fun _ _ (s : Unit) => ((0 : Int), s)) (fun i hi => absurd hi (by omega))
      (fun _ _ => rfl) ()⟩

/-- Insertion of a run of new keys, from any valid handle. -/
theorem insertRun_spec {cmp : α → α → Int} (hc : TotalCmp cmp) :
    ∀ (keys : List α) (st : State α) (T : Tree α), Represents st T → RBInv cmp T →
      st.size = T.size → st.compFunc = some cmp →
      keys.Pairwise (fun a b => cmp a b ≠ 0) →
      (∀ k ∈ keys, ∀ d ∈ T.inorder, cmp k d ≠ 0) →
      ∃ sts, insertRun st keys = some sts ∧ sts.length = keys.length ∧
        ∀ i s, sts[i]? = some s →
          ∃ Ti, Represents s Ti ∧ RBInv cmp Ti ∧ s.size = Ti.size ∧
            s.compFunc = some cmp ∧ s.size = st.size + (i + 1) ∧
            Ti.inorder.Perm (T.inorder ++ keys.take (i + 1))
  | [], st, T, _, _, _, _, _, _ => ⟨[], rfl, rfl, fun i s h => by simp at h⟩
  | x :: xs, st, T, hrep, hinv, hsize, hcmp, hd, hnew => by
    obtain ⟨hx, hxs⟩ := List.pairwise_cons.1 hd
    obtain ⟨st', T', l1, l2, e, r', i', a1, a2, -, -, s1, s2, s3, -, -⟩ :=
      insertToRBTree_new hc st T hrep hinv hcmp x
        (fun d hdm => hnew x (List.mem_cons_self _ _) d hdm)
    have hperm : T'.inorder.Perm (T.inorder ++ [x]) := by
      rw [a1, a2]
      have hm : (l1 ++ x :: l2).Perm (x :: (l1 ++ l2)) := List.perm_middle
      exact hm.trans (List.perm_append_singleton x (l1 ++ l2)).symm
    have hcmp' : st'.compFunc = some cmp := by rw [s3, hcmp]
    obtain ⟨sts, e2, hl, hall⟩ := insertRun_spec hc xs st' T' r' i' (by omega) hcmp' hxs
      (fun k hk d hdm => by
        have := hperm.mem_iff.1 hdm
        simp only [List.mem_append, List.mem_singleton] at this
        rcases this with h1 | rfl
        · exact hnew k (List.mem_cons_of_mem _ hk) d h1
        · exact fun h0 => hx k hk (hc.eq_symm h0))
    refine ⟨st' :: sts, ?_, by simp [hl], ?_⟩
    · simp only [insertRun, e, e2, Option.bind_eq_bind, Option.some_bind, Option.pure_def]
    · intro i s hi
      cases i with
      | zero =>
        simp only [List.getElem?_cons_zero, Option.some.injEq] at hi
        subst hi
        exact ⟨T', r', i', by omega, hcmp', by omega, by simpa using hperm⟩
      | succ j =>
        simp only [List.getElem?_cons_succ] at hi
        obtain ⟨Ti, b1, b2, b3, b4, b5, b6⟩ := hall j s hi
        refine ⟨Ti, b1, b2, b3, b4, by omega, ?_⟩
        refine b6.trans ?_
        simp only [List.take_succ_cons]
        refine (List.Perm.append_right _ hperm).trans ?_
        simp

/-- C10: starting from `newRBTree` and inserting a list of `N` keys, no two of which compare
equal, one at a time, every call returns, and the handle after the `i`-th insert (for every
`i` from 1 to `N`) has size `i`, is accepted by `isValidRBTree`, and `forEachRBTree` with an
always-continue visitor visits `i` payloads, in strictly ascending comparator order, which
are the first `i` keys of the list. -/
theorem insertRun_valid {cmp : α → α → Int} (hc : TotalCmp cmp) (freeFunc : Bool)
    (keys : List α) (hd : keys.Pairwise (fun a b => cmp a b ≠ 0)) :
    ∃ sts, insertRun (newRBTree (some cmp) freeFunc) keys = some sts ∧
      sts.length = keys.length ∧
      ∀ i s, sts[i]? = some s →
        s.size = i + 1 ∧ isValidRBTree s = some 1 ∧
        ∃ (out : List α) (v : Int),
          forEachRBTree s (countingVisitor (fun _ _ (u : Unit) => ((1 : Int), u)))
            ((), 0, []) = some (v, ((), i + 1, out)) ∧ v ≠ 0 ∧
          out.Pairwise (fun a b => cmp a b < 0) ∧ out.Perm (keys.take (i + 1)) := by
  obtain ⟨sts, e, hl, hall⟩ := insertRun_spec hc keys (newRBTree (some cmp) freeFunc)
    Tree.nil ⟨⟨trivial, List.nodup_nil⟩, rfl⟩ ⟨rfl, trivial, trivial, List.Pairwise.nil⟩ rfl
    rfl hd (fun _ _ d hdm => by simp [Tree.inorder] at hdm)
  refine ⟨sts, e, hl, fun i s hi => ?_⟩
  obtain ⟨Ti, b1, b2, b3, b4, b5, b6⟩ := hall i s hi
  have hsz : s.size = i + 1 := by simpa [newRBTree] using b5
  obtain ⟨v, s', f1, f2, -, f4, -⟩ := forEach_continue_spec cmp s Ti b1 b2.sorted
    (fun _ _ (u : Unit) => ((1 : Int), u)) (fun _ _ _ => by simp) ()
  refine ⟨hsz, isValidRBTree_of_valid s Ti b1 b2 b3 b4, Ti.inorder, v, ?_, f2, f4, ?_⟩
  · rw [f1, ← b3, hsz]
  · simpa [Tree.inorder] using b6

theorem insertRun_valid_witness :
    [2, 1, 3].Pairwise (fun a b => compInt a b ≠ 0) ∧
    ∃ sts, insertRun (newRBTree (some compInt) true) [2, 1, 3] = some sts ∧
      sts.length = [2, 1, 3].length ∧
      ∀ i s, sts[i]? = some s →
        s.size = i + 1 ∧ isValidRBTree s = some 1 ∧
        ∃ (out : List Int) (v : Int),
          forEachRBTree s (countingVisitor (fun _ _ (u : Unit) => ((1 : Int), u)))
            ((), 0, []) = some (v, ((), i + 1, out)) ∧ v ≠ 0 ∧
          out.Pairwise (fun a b => compInt a b < 0) ∧ out.Perm ([2, 1, 3].take (i + 1)) :=
  ⟨by simp [compInt],
    insertRun_valid compInt_total true [2, 1, 3] (by simp [compInt])⟩

end RB
end

section
variable {α : Type}
namespace RB

/-- A result of `treeSize` comes with a finite unfolding of the links, whose node count it
is. -/
theorem treeSize_unfolds {h : Heap α} : ∀ (fuel : Nat) (p : Ptr) (n : Int),
    treeSize fuel h p 0 = some n →
      ∃ t : Tree α, t.ptr = p ∧ Unfolds h t ∧ n = (t.size : Int)
  | 0, _, _, e => by simp [treeSize] at e
  | _ + 1, none, n, e => by
    simp only [treeSize, Option.some.injEq] at e
    exact ⟨Tree.nil, rfl, trivial, by simp [Tree.size, ← e]⟩
  | f + 1, some a, n, e => by
    simp only [treeSize, Option.bind_eq_bind, Option.bind_eq_some, Option.pure_def,
      Option.some.injEq] at e
    obtain ⟨nn, hn, x, hx, y, hy, e⟩ := e
    obtain ⟨tl, pl, ul, sl⟩ := treeSize_unfolds f nn.left x hx
    obtain ⟨tr, pr, ur, sr⟩ := treeSize_unfolds f nn.right y hy
    refine ⟨Tree.node tl a nn.color nn.data tr, rfl, ⟨⟨nn.parent, ?_⟩, ul, ur⟩, ?_⟩
    · rw [hn, pl, pr]
    · simp only [Tree.size, Nat.cast_add, Nat.cast_one, ← e, sl, sr]

theorem getPathBlacksNum_sound {h : Heap α} : ∀ (t : Tree α) (fuel : Nat) (b n : Int),
    getPathBlacksNum fuel h t.ptr b = some n → Unfolds h t → n = b + t.bh + 1
  | _, 0, _, _, e, _ => by simp [getPathBlacksNum] at e
  | Tree.nil, _ + 1, b, n, e, _ => by
    simp only [Tree.ptr_nil, getPathBlacksNum, Option.some.injEq] at e
    simp [Tree.bh, ← e]
  | Tree.node l a c d r, f + 1, b, n, e, hu => by
    obtain ⟨⟨par, h1⟩, h2, -⟩ := hu
    cases c with
    | RED =>
      simp only [getPathBlacksNum, Tree.ptr_node, h1, Option.bind_eq_bind, Option.some_bind,
        reduceCtorEq, if_false] at e
      have := getPathBlacksNum_sound l f b n e h2
      simp [Tree.bh, this]
    | BLACK =>
      simp only [getPathBlacksNum, Tree.ptr_node, h1, Option.bind_eq_bind, Option.some_bind,
        if_true] at e
      have := getPathBlacksNum_sound l f (b + 1) n e h2
      simp only [Tree.bh, if_true, Nat.cast_add, Nat.cast_one, this]
      omega

theorem validatePaths_sound {h : Heap α} : ∀ (t : Tree α) (fuel : Nat) (b sb v : Int),
    validatePaths fuel h t.ptr b sb = some v → v ≠ 0 → Unfolds h t →
      t.Balanced ∧ b + t.bh + 1 = sb
  | _, 0, _, _, _, e, _, _ => by simp [validatePaths] at e
  | Tree.nil, _ + 1, b, sb, v, e, hv, _ => by
    simp only [Tree.ptr_nil, validatePaths, Option.some.injEq] at e
    refine ⟨trivial, ?_⟩
    by_contra hne
    rw [if_neg (by simpa [Tree.bh] using hne)] at e
    exact hv e.symm
  | Tree.node l a c d r, f + 1, b, sb, v, e, hv, hu => by
    obtain ⟨⟨par, h1⟩, h2, h3⟩ := hu
    simp only [validatePaths, Tree.ptr_node, h1, Option.bind_eq_bind, Option.some_bind,
      Option.bind_eq_some, Option.pure_def] at e
    obtain ⟨x, hx, e⟩ := e
    by_cases hx0 : x = 0
    · rw [if_pos hx0, Option.some.injEq] at e
      exact absurd e.symm hv
    · rw [if_neg hx0] at e
      simp only [Option.bind_eq_some, Option.some.injEq] at e
      obtain ⟨y, hy, e⟩ := e
      have hy0 : y ≠ 0 := by
        intro h0
        rw [h0] at e
        simp at e
        exact hv e.symm
      obtain ⟨bl, el⟩ := validatePaths_sound l f _ sb x hx hx0 h2
      obtain ⟨br, er⟩ := validatePaths_sound r f _ sb y hy hy0 h3
      have hcast : (((if c = Color.BLACK then 1 else 0 : Nat) : Int)) =
          (if c = Color.BLACK then 1 else 0) := by split_ifs <;> rfl
      refine ⟨⟨?_, bl, br⟩, ?_⟩
      · omega
      · simp only [Tree.bh, Nat.cast_add, hcast]
        omega

theorem validatePointers_sound {h : Heap α} : ∀ (t : Tree α) (fuel : Nat) (v : Int),
    validatePointers fuel h t.ptr = some v → v ≠ 0 → Unfolds h t →
      ∀ par, (∀ a n, t.ptr = some a → h.read a = some n → n.parent = par) → Rep h t par
  | _, 0, _, e, _, _ => by simp [validatePointers] at e
  | Tree.nil, _ + 1, _, _, _, _ => fun _ _ => trivial
  | Tree.node l a c d r, f + 1, v, e, hv, hu => by
    obtain ⟨⟨par0, h1⟩, h2, h3⟩ := hu
    intro par hpar
    have hp := hpar a _ rfl h1
    simp only at hp
    subst hp
    simp only [validatePointers, Tree.ptr_node, h1, Option.bind_eq_bind, Option.some_bind,
      Option.bind_eq_some, Option.pure_def] at e
    obtain ⟨bl, hbl, e⟩ := e
    cases bl with
    | true => simp at e; exact absurd e.symm hv
    | false =>
      simp only [Bool.false_eq_true, if_false, Option.bind_eq_some] at e
      obtain ⟨br, hbr, e⟩ := e
      cases br with
      | true => simp at e; exact absurd e.symm hv
      | false =>
        simp only [Bool.false_eq_true, if_false, Option.bind_eq_some, Option.some.injEq] at e
        obtain ⟨x, hx, e⟩ := e
        by_cases hx0 : x = 0
        · rw [if_pos hx0, Option.some.injEq] at e
          exact absurd e.symm hv
        · rw [if_neg hx0] at e
          simp only [Option.bind_eq_some, Option.some.injEq] at e
          obtain ⟨y, hy, e⟩ := e
          have hy0 : y ≠ 0 := by
            intro h0
            rw [h0] at e
            simp at e
            exact hv e.symm
          refine ⟨h1, ?_, ?_⟩
          · refine validatePointers_sound l f x hx hx0 h2 (some a) (fun a' n ha hn => ?_)
            rw [ha] at hbl
            simp only [hn, Option.bind_eq_bind, Option.some_bind, Option.pure_def,
              Option.some.injEq, decide_eq_false_iff_not, ne_eq, not_not] at hbl
            exact hbl
          · refine validatePointers_sound r f y hy hy0 h3 (some a) (fun a' n ha hn => ?_)
            rw [ha] at hbr
            simp only [hn, Option.bind_eq_bind, Option.some_bind, Option.pure_def,
              Option.some.injEq, decide_eq_false_iff_not, ne_eq, not_not] at hbr
            exact hbr

theorem validateColors_sound {h : Heap α} : ∀ (t : Tree α) (fuel : Nat) (v : Int) (par : Ptr),
    validateColors fuel h t.ptr = some v → v ≠ 0 → Rep h t par →
      t.NoRedRed ∧ ∀ p pn, par = some p → h.read p = some pn → pn.color = Color.RED →
        t.rootColor = Color.BLACK
  | _, 0, _, _, e, _, _ => by simp [validateColors] at e
  | Tree.nil, _ + 1, _, _, _, _, _ => ⟨trivial, fun _ _ _ _ _ => rfl⟩
  | Tree.node l a c d r, f + 1, v, par, e, hv, hr => by
    obtain ⟨h1, h2, h3⟩ := hr
    simp only [validateColors, Tree.ptr_node, h1, Option.bind_eq_bind, Option.some_bind,
      Option.bind_eq_some, Option.pure_def] at e
    obtain ⟨bad, hbad, e⟩ := e
    cases bad with
    | true => simp at e; exact absurd e.symm hv
    | false =>
      simp only [Bool.false_eq_true, if_false, Option.bind_eq_some, Option.some.injEq] at e
      obtain ⟨x, hx, e⟩ := e
      by_cases hx0 : x = 0
      · rw [if_pos hx0, Option.some.injEq] at e
        exact absurd e.symm hv
      · rw [if_neg hx0] at e
        simp only [Option.bind_eq_some, Option.some.injEq] at e
        obtain ⟨y, hy, e⟩ := e
        have hy0 : y ≠ 0 := by
          intro h0
          rw [h0] at e
          simp at e
          exact hv e.symm
        obtain ⟨nl, cl⟩ := validateColors_sound l f x (some a) hx hx0 h2
        obtain ⟨nr, cr⟩ := validateColors_sound r f y (some a) hy hy0 h3
        refine ⟨⟨fun hc => ⟨cl a _ rfl h1 hc, cr a _ rfl h1 hc⟩, nl, nr⟩, ?_⟩
        intro p pn hp hpn hred
        subst hp
        cases c with
        | BLACK => rfl
        | RED =>
          simp [deref, hpn, hred] at hbad

/-- What a non-zero result of `isValidRBTree` on a handle with a present root tells: the links
unfold to a finite shape with consistent parent links below the root, which has a BLACK
root, no RED node with a RED child, equal black counts, and as many nodes as the stored
size. -/
theorem isValidRBTree_sound_spec (st : State α) (v : Int)
    (e : isValidRBTree st = some v) (hv : v ≠ 0) (hroot : st.root ≠ none) :
    ∃ (t : Tree α) (par : Ptr), t.ptr = st.root ∧ Rep st.heap t par ∧
      t.rootColor = Color.BLACK ∧ t.NoRedRed ∧ t.Balanced ∧ st.size = t.size := by
  obtain ⟨a, ha⟩ := Option.ne_none_iff_exists'.1 hroot
  simp only [isValidRBTree, ha, Option.bind_eq_bind, Option.bind_eq_some, Option.pure_def]
    at e
  obtain ⟨rn, hrn, e⟩ := e
  by_cases hc : rn.color ≠ Color.BLACK
  · rw [if_pos hc, Option.some.injEq] at e; exact absurd e.symm hv
  rw [if_neg hc] at e
  simp only [Option.bind_eq_some] at e
  obtain ⟨pb, hpb, vp, hvp, e⟩ := e
  by_cases h0 : vp = 0
  · rw [if_pos h0, Option.some.injEq] at e; exact absurd e.symm hv
  rw [if_neg h0] at e
  simp only [Option.bind_eq_some] at e
  obtain ⟨vc, hvc, e⟩ := e
  by_cases h1 : vc = 0
  · rw [if_pos h1, Option.some.injEq] at e; exact absurd e.symm hv
  rw [if_neg h1] at e
  simp only [Option.bind_eq_some] at e
  obtain ⟨vb, hvb, e⟩ := e
  by_cases h2 : vb = 0
  · rw [if_pos h2, Option.some.injEq] at e; exact absurd e.symm hv
  rw [if_neg h2] at e
  simp only [Option.bind_eq_some] at e
  obtain ⟨vq, hvq, e⟩ := e
  by_cases h3 : vq = 0
  · rw [if_pos h3, Option.some.injEq] at e; exact absurd e.symm hv
  rw [if_neg h3] at e
  simp only [Option.bind_eq_some] at e
  obtain ⟨ts, hts, e⟩ := e
  by_cases h4 : ts ≠ (st.size : Int)
  · rw [if_pos h4, Option.some.injEq] at e; exact absurd e.symm hv
  simp only [ne_eq, not_not] at h4 hc
  obtain ⟨t, pt, ut, st1⟩ := treeSize_unfolds _ _ _ hts
  rw [← pt] at hpb hvp hvc hvq
  have hrep := validatePointers_sound t _ vq hvq h3 ut rn.parent (fun a' n ha' hn => by
    rw [pt] at ha'
    cases ha'
    rw [hrn] at hn
    cases hn
    rfl)
  have hpbv := getPathBlacksNum_sound t _ 0 pb hpb ut
  obtain ⟨bal, -⟩ := validatePaths_sound t _ 0 pb vp hvp h0 ut
  obtain ⟨nrr, -⟩ := validateColors_sound t _ vc rn.parent hvc h1 hrep
  refine ⟨t, rn.parent, pt.trans ha.symm, hrep, ?_, nrr, bal, ?_⟩
  · cases t with
    | nil => rfl
    | node l x c d r =>
      simp only [Tree.ptr_node, Option.some.injEq] at pt
      subst pt
      have := hrep.1
      rw [hrn, Option.some.injEq] at this
      rw [this] at hc
      exact hc
  · rw [h4] at st1
    exact_mod_cast st1

theorem Tree.postorder_perm : ∀ t : Tree α, t.postorder.Perm t.inorder
  | Tree.nil => List.Perm.refl _
  | Tree.node l a c d r => by
    simp only [Tree.postorder, Tree.inorder, List.append_assoc]
    refine List.Perm.append (Tree.postorder_perm l) ?_
    refine (List.perm_append_singleton d _).trans ?_
    exact List.Perm.cons d (Tree.postorder_perm r)

/-- `freeAllNodes` on a well-formed subtree: the disposer is called on the payloads in
post-order, every cell of the subtree is released, and nothing else changes. -/
theorem freeAllNodes_spec : ∀ (t : Tree α) (par : Ptr) (fuel : Nat) (st : State α),
    Rep st.heap t par → t.addrs.Nodup → st.freeFunc = true → t.height < fuel →
      ∃ (h' : Heap α), freeAllNodes fuel st t.ptr =
          some { st with heap := h', freed := st.freed ++ t.postorder } ∧
        h'.length = st.heap.length ∧
        (∀ x ∈ t.addrs, h'.read x = none) ∧ ∀ x, x ∉ t.addrs → h'.read x = st.heap.read x
  | Tree.nil, _, fuel, st, _, _, _, hf => by
    cases fuel with
    | zero => simp [Tree.height] at hf
    | succ f =>
      exact ⟨st.heap, by simp [freeAllNodes, Tree.postorder], rfl,
        fun x hx => by simp [Tree.addrs] at hx, fun _ _ => rfl⟩
  | Tree.node l a c d r, par, fuel, st, hr, hnd, hfree, hf => by
    cases fuel with
    | zero => simp at hf
    | succ f =>
      obtain ⟨h1, h2, h3⟩ := hr
      simp only [Tree.height] at hf
      simp only [Tree.addrs, List.nodup_append, List.nodup_cons, List.mem_cons] at hnd
      obtain ⟨ndl, ⟨har, ndr⟩, hdis⟩ := hnd
      have hal : a ∉ l.addrs := fun hx => hdis hx (List.mem_cons_self _ _)
      have hlr : ∀ x ∈ r.addrs, x ∉ l.addrs := fun x hx hxl => hdis hxl (List.mem_cons_of_mem _ hx)
      obtain ⟨ha, e1, len1, rel1, fr1⟩ :=
        freeAllNodes_spec l (some a) f st h2 ndl hfree (by omega)
      have h3' : Rep ha r (some a) := Rep.frame (fun x hx => fr1 x (hlr x hx)) h3
      obtain ⟨hb, e2, len2, rel2, fr2⟩ :=
        freeAllNodes_spec r (some a) f
          { st with heap := ha, freed := st.freed ++ l.postorder } h3' ndr hfree (by omega)
      dsimp only at e2 len2 fr2
      have ra1 : ha.read a = some ⟨d, c, l.ptr, r.ptr, par⟩ := by rw [fr1 a hal]; exact h1
      have ra2 : hb.read a = some ⟨d, c, l.ptr, r.ptr, par⟩ := by rw [fr2 a har]; exact ra1
      have hlt : a < hb.length := read_lt ra2
      refine ⟨hb.release a, ?_, ?_, ?_, ?_⟩
      · simp only [freeAllNodes, Tree.ptr_node, h1, e1, ra1, e2, ra2,
          Option.bind_eq_bind, Option.some_bind, Option.pure_def, Tree.postorder]
        rw [if_pos hfree]
        simp only [List.append_assoc]
      · rw [length_release, len2, len1]
      · intro x hx
        simp only [Tree.addrs, List.mem_append, List.mem_cons] at hx
        rw [read_release _ _ _ hlt]
        by_cases hxa : x = a
        · rw [if_pos hxa]
        · rw [if_neg hxa]
          rcases hx with hx | hx | hx
          · rw [fr2 x (fun hxr => hlr x hxr hx)]; exact rel1 x hx
          · exact absurd hx hxa
          · exact rel2 x hx
      · intro x hx
        simp only [Tree.addrs, List.mem_append, List.mem_cons, not_or] at hx
        rw [read_release_ne _ hx.2.1, fr2 x hx.2.2, fr1 x hx.1]

/-- `freeRBTree` on a handle of a well-formed tree, which has a disposer unless it is empty. -/
theorem freeRBTree_spec (st : State α) (T : Tree α) (hrep : Represents st T)
    (hfree : T ≠ Tree.nil → st.freeFunc = true) :
    ∃ h', freeRBTree ⟨st, true⟩ =
        some ⟨{ st with heap := h', freed := st.freed ++ T.postorder }, false⟩ ∧
      (∀ x ∈ T.addrs, h'.read x = none) ∧ ∀ x, x ∉ T.addrs → h'.read x = st.heap.read x := by
  obtain ⟨hr, hroot⟩ := hrep
  by_cases hT : T = Tree.nil
  · subst hT
    simp only [Tree.ptr_nil] at hroot
    refine ⟨st.heap, ?_, fun x hx => by simp [Tree.addrs] at hx, fun _ _ => rfl⟩
    obtain ⟨h, root, cf, ff, sz, fr⟩ := st
    simp only at hroot
    subst hroot
    simp [freeRBTree, fuelOf, freeAllNodes, Tree.postorder]
  · obtain ⟨h', e, -, rel, fr⟩ :=
      freeAllNodes_spec T none (fuelOf st.heap) st hr.1 hr.2 (hfree hT) hr.height_lt_fuel
    rw [← hroot] at e
    refine ⟨h', ?_, rel, fr⟩
    simp [freeRBTree, e]

theorem freeNode_some_freeFunc {st st' : State α} {a : Nat}
    (e : freeNode st (some a) = some st') : st.freeFunc = true := by
  simp only [freeNode, Option.bind_eq_bind, Option.bind_eq_some] at e
  obtain ⟨n, -, e⟩ := e
  by_contra hf
  rw [if_neg hf] at e
  cases e

theorem writeLoc_freeFunc {st st' : State α} {loc : Loc} {q : Ptr}
    (e : writeLoc st loc q = some st') : st'.freeFunc = st.freeFunc := by
  cases loc with
  | root =>
    simp only [writeLoc, Option.some.injEq] at e
    rw [← e]
  | left a =>
    simp only [writeLoc, Option.map_eq_some'] at e
    obtain ⟨h, -, e⟩ := e
    rw [← e]
  | right a =>
    simp only [writeLoc, Option.map_eq_some'] at e
    obtain ⟨h, -, e⟩ := e
    rw [← e]

theorem clearLoc_freeFunc {st st' : State α} {p : Option Loc}
    (e : clearLoc st p = some st') : st'.freeFunc = st.freeFunc := by
  cases p with
  | none => simp [clearLoc] at e
  | some loc => exact writeLoc_freeFunc e

theorem isRed_true_ne_none {h : Heap α} {c : Ptr} (e : isRed h c = some true) :
    ∃ b, c = some b := by
  cases c with
  | none => simp [isRed] at e
  | some b => exact ⟨b, rfl⟩

/-- `deleteNode` returns only when the handle has a disposer: every path calls it. -/
theorem deleteNode_some_freeFunc {fuel : Nat} {st st' : State α} {m p s c : Ptr}
    (e : deleteNode fuel st m p s c = some st') : st.freeFunc = true := by
  simp only [deleteNode, Option.bind_eq_bind, Option.bind_eq_some] at e
  obtain ⟨ptrToM, -, ptrToC, -, mn, hmn, e⟩ := e
  obtain ⟨a, rfl⟩ : ∃ a, m = some a := by
    cases m with
    | none => simp [deref] at hmn
    | some a => exact ⟨a, rfl⟩
  by_cases hc : mn.color = Color.RED
  · rw [if_pos hc] at e
    simp only [Option.bind_eq_some] at e
    obtain ⟨st1, h1, e⟩ := e
    rw [← clearLoc_freeFunc h1]
    exact freeNode_some_freeFunc e
  · rw [if_neg hc] at e
    simp only [Option.bind_eq_some] at e
    obtain ⟨cRed, hcr, e⟩ := e
    cases cRed with
    | true =>
      simp only [if_true, Option.bind_eq_some] at e
      obtain ⟨st1, h1, h, -, e⟩ := e
      obtain ⟨b, rfl⟩ := isRed_true_ne_none hcr
      rw [← clearLoc_freeFunc h1]
      exact (freeNode_some_freeFunc e : _)
    | false =>
      simp only [Bool.false_eq_true, if_false] at e
      by_cases hroot : st.root = some a
      · rw [if_pos hroot] at e
        exact (freeNode_some_freeFunc e : _)
      · rw [if_neg hroot] at e
        simp only [Option.bind_eq_some] at e
        obtain ⟨st1, h1, st2, h2, -⟩ := e
        rw [← clearLoc_freeFunc h1]
        exact freeNode_some_freeFunc h2

/-- A call of `deleteFromRBTree` that returns success was made on a handle with a
disposer. -/
theorem deleteFromRBTree_success_freeFunc {st st' : State α} {k : α} {r : Int}
    (e : deleteFromRBTree st k = some (r, st')) (hr : r ≠ 0) : st.freeFunc = true := by
  simp only [deleteFromRBTree, Option.bind_eq_bind, Option.bind_eq_some] at e
  obtain ⟨m, -, e⟩ := e
  by_cases hm : m = none
  · rw [if_pos hm] at e
    simp only [Option.pure_def, Option.some.injEq, Prod.mk.injEq] at e
    exact absurd e.1.symm hr
  · rw [if_neg hm] at e
    simp only [Option.bind_eq_some] at e
    obtain ⟨mn, -, res, -, mn2, -, s, -, c, -, st2, hdel, -⟩ := e
    exact (deleteNode_some_freeFunc hdel : _)

theorem Rep.height_lt_fuelOf {h : Heap α} {t : Tree α} {par : Ptr} (hr : Rep h t par)
    (hnd : t.addrs.Nodup) : t.height < fuelOf h := by
  have hsub : t.addrs ⊆ List.range h.length := fun a ha =>
    List.mem_range.2 (Rep.addr_lt hr a ha)
  have h1 := (List.subperm_of_subset hnd hsub).length_le
  have h2 := t.height_le_size
  simp only [Tree.length_addrs, List.length_range] at h1
  unfold fuelOf; omega

/-- The validator accepts every handle whose links form a tree with invariants 2 to 7,
whatever the parent link of the root. -/
theorem isValidRBTree_of_rep {cmp : α → α → Int} (st : State α) (T : Tree α) (par : Ptr)
    (hr : Rep st.heap T par) (hnd : T.addrs.Nodup) (hroot : st.root = T.ptr)
    (hinv : RBInv cmp T) (hsize : st.size = T.size) (hcmp : st.compFunc = some cmp) :
    isValidRBTree st = some 1 := by
  obtain ⟨i1, i2, i3, i4⟩ := hinv
  have hf := hr.height_lt_fuelOf hnd
  cases T with
  | nil =>
    simp only [Tree.ptr_nil] at hroot
    simp only [isValidRBTree, hroot]
  | node l a c d r =>
    simp only [Tree.rootColor_node] at i1
    subst i1
    have e1 := getPathBlacksNum_eq _ par _ 0 hr hf
    have e2 := validatePaths_ok _ par _ 0 _ hr i3 rfl hf
    have e3 := validateColors_ok _ par _ hr i2 (fun hc => by cases hc) hf
    have e4 := validateBST_ok _ par _ hr i4 hf
    have e5 := validatePointers_ok _ par _ hr hf
    have e6 := treeSize_eq _ par _ hr hf
    have hread := hr.1
    simp only [Tree.ptr_node] at hroot e1 e2 e3 e4 e5 e6
    simp only [isValidRBTree, hroot, hread, hcmp, e1, e2, e3, e4, e5, e6, hsize,
      Option.bind_eq_bind, Option.some_bind, ne_eq, not_true_eq_false, if_false, one_ne_zero,
      Option.pure_def]

/-- Insertion of a run of keys, duplicates included, from any valid handle. -/
theorem insertRun_any {cmp : α → α → Int} (hc : TotalCmp cmp) :
    ∀ (keys : List α) (st : State α) (T : Tree α), Represents st T → RBInv cmp T →
      st.size = T.size → st.compFunc = some cmp →
      ∃ (sts : List (State α)) (Tf : Tree α), insertRun st keys = some sts ∧
        sts.length = keys.length ∧ (∀ s ∈ sts, isValidRBTree s = some 1) ∧
        Represents (sts.getLastD st) Tf ∧ RBInv cmp Tf ∧ (sts.getLastD st).size = Tf.size ∧
        (sts.getLastD st).compFunc = some cmp ∧ (sts.getLastD st).freeFunc = st.freeFunc ∧
        ∀ e ∈ Tf.inorder, e ∈ T.inorder ∨ e ∈ keys
  | [], st, T, hrep, hinv, hsize, hcmp =>
    ⟨[], T, rfl, rfl, fun s hs => by simp at hs, hrep, hinv, hsize, hcmp, rfl,
      fun e he => Or.inl he⟩
  | x :: xs, st, T, hrep, hinv, hsize, hcmp => by
    by_cases hx : ∃ d ∈ T.inorder, cmp x d = 0
    · have e := insertToRBTree_dup hc st T hrep hinv.sorted hcmp x hx
      obtain ⟨sts, Tf, e2, hl, hv, f1, f2, f3, f4, f5, f6⟩ :=
        insertRun_any hc xs st T hrep hinv hsize hcmp
      refine ⟨st :: sts, Tf, ?_, by simp [hl], ?_, ?_, f2, ?_, ?_, ?_, ?_⟩
      · simp only [insertRun, e, e2, Option.bind_eq_bind, Option.some_bind, Option.pure_def]
      · intro s hs
        rcases List.mem_cons.1 hs with rfl | hs
        · exact isValidRBTree_of_valid s T hrep hinv hsize hcmp
        · exact hv s hs
      · rw [List.getLastD_cons]; exact f1
      · rw [List.getLastD_cons]; exact f3
      · rw [List.getLastD_cons]; exact f4
      · rw [List.getLastD_cons]; exact f5
      · intro e he
        rcases f6 e he with h1 | h1
        · exact Or.inl h1
        · exact Or.inr (List.mem_cons_of_mem _ h1)
    · obtain ⟨st', T', l1, l2, e, r', i', a1, a2, -, -, s1, s2, s3, s4, -⟩ :=
        insertToRBTree_new hc st T hrep hinv hcmp x (fun d hd h0 => hx ⟨d, hd, h0⟩)
      have hcmp' : st'.compFunc = some cmp := by rw [s3, hcmp]
      obtain ⟨sts, Tf, e2, hl, hv, f1, f2, f3, f4, f5, f6⟩ :=
        insertRun_any hc xs st' T' r' i' (by omega) hcmp'
      refine ⟨st' :: sts, Tf, ?_, by simp [hl], ?_, ?_, f2, ?_, ?_, ?_, ?_⟩
      · simp only [insertRun, e, e2, Option.bind_eq_bind, Option.some_bind, Option.pure_def]
      · intro s hs
        rcases List.mem_cons.1 hs with rfl | hs
        · exact isValidRBTree_of_valid s T' r' i' (by omega) hcmp'
        · exact hv s hs
      · rw [List.getLastD_cons]; exact f1
      · rw [List.getLastD_cons]; exact f3
      · rw [List.getLastD_cons]; exact f4
      · rw [List.getLastD_cons, f5, s4]
      · intro y hy
        rcases f6 y hy with h1 | h1
        · rw [a2] at h1
          rw [a1]
          simp only [List.mem_append, List.mem_cons] at h1 ⊢
          rcases h1 with h1 | rfl | h1
          · exact Or.inl (Or.inl h1)
          · exact Or.inr (Or.inl rfl)
          · exact Or.inl (Or.inr h1)
        · exact Or.inr (List.mem_cons_of_mem _ h1)

/-- Deletion of a run of keys that covers every stored payload, from a valid handle with a
disposer: every call returns a valid handle and the last one is empty. -/
theorem deleteRun_all {cmp : α → α → Int} (hc : TotalCmp cmp) :
    ∀ (dels : List α) (st : State α) (T : Tree α), Represents st T → RBInv cmp T →
      st.size = T.size → st.compFunc = some cmp → st.freeFunc = true →
      (∀ e ∈ T.inorder, ∃ k ∈ dels, cmp k e = 0) →
      ∃ sts : List (State α), deleteRun st dels = some sts ∧ sts.length = dels.length ∧
        (∀ s ∈ sts, isValidRBTree s = some 1) ∧
        (sts.getLastD st).size = 0 ∧ (sts.getLastD st).root = none
  | [], st, T, hrep, _, hsize, _, _, hall => by
    have hT : T = Tree.nil := by
      cases T with
      | nil => rfl
      | node l a c d r =>
        obtain ⟨k, hk, -⟩ := hall d (by simp [Tree.inorder])
        simp at hk
    subst hT
    exact ⟨[], rfl, rfl, fun s hs => by simp at hs, by simpa [Tree.size] using hsize,
      by simpa using hrep.2⟩
  | k :: ks, st, T, hrep, hinv, hsize, hcmp, hfree, hall => by
    by_cases hk : ∃ d ∈ T.inorder, cmp k d = 0
    · obtain ⟨st', T', l1, l2, e0, e, r', i', a1, a2, a3, s1, s2, s3, s4, -⟩ :=
        deleteFromRBTree_found hc st T hrep hinv hcmp hfree k hk
      have hcmp' : st'.compFunc = some cmp := by rw [s3, hcmp]
      have hsort := hinv.sorted
      unfold Tree.Sorted at hsort
      rw [a1, List.pairwise_append] at hsort
      obtain ⟨-, p2, p3⟩ := hsort
      rw [List.pairwise_cons] at p2
      have hall' : ∀ y ∈ T'.inorder, ∃ k' ∈ ks, cmp k' y = 0 := by
        intro y hy
        have hyT : y ∈ T.inorder := by
          rw [a1]; rw [a2] at hy
          simp only [List.mem_append, List.mem_cons] at hy ⊢
          rcases hy with h | h
          · exact Or.inl h
          · exact Or.inr (Or.inr h)
        obtain ⟨k', hk', hky⟩ := hall y hyT
        rcases List.mem_cons.1 hk' with rfl | hk'
        · rw [a2, List.mem_append] at hy
          rcases hy with hy | hy
          · exact absurd hky (not_eq_of_lt_left hc a3 (p3 y hy e0 (List.mem_cons_self _ _)))
          · exact absurd hky (not_eq_of_lt_right hc a3 (p2.1 y hy))
        · exact ⟨k', hk', hky⟩
      obtain ⟨sts, e2, hl, hv, f1, f2⟩ :=
        deleteRun_all hc ks st' T' r' i' (by omega) hcmp' (by rw [s4, hfree]) hall'
      refine ⟨st' :: sts, ?_, by simp [hl], ?_, ?_, ?_⟩
      · simp only [deleteRun, e, e2, Option.bind_eq_bind, Option.some_bind, Option.pure_def]
      · intro s hs
        rcases List.mem_cons.1 hs with rfl | hs
        · exact isValidRBTree_of_valid s T' r' i' (by omega) hcmp'
        · exact hv s hs
      · rw [List.getLastD_cons]; exact f1
      · rw [List.getLastD_cons]; exact f2
    · have e := deleteFromRBTree_absent hc st T hrep hinv.sorted hcmp k
        (fun d hd h0 => hk ⟨d, hd, h0⟩)
      have hall' : ∀ y ∈ T.inorder, ∃ k' ∈ ks, cmp k' y = 0 := by
        intro y hy
        obtain ⟨k', hk', hky⟩ := hall y hy
        rcases List.mem_cons.1 hk' with rfl | hk'
        · exact absurd ⟨y, hy, hky⟩ hk
        · exact ⟨k', hk', hky⟩
      obtain ⟨sts, e2, hl, hv, f1, f2⟩ :=
        deleteRun_all hc ks st T hrep hinv hsize hcmp hfree hall'
      refine ⟨st :: sts, ?_, by simp [hl], ?_, ?_, ?_⟩
      · simp only [deleteRun, e, e2, Option.bind_eq_bind, Option.some_bind, Option.pure_def]
      · intro s hs
        rcases List.mem_cons.1 hs with rfl | hs
        · exact isValidRBTree_of_valid s T hrep hinv hsize hcmp
        · exact hv s hs
      · rw [List.getLastD_cons]; exact f1
      · rw [List.getLastD_cons]; exact f2

theorem tree102030_represents : Represents tree102030 shape102030 :=
  ⟨⟨⟨rfl, ⟨rfl, trivial, trivial⟩, ⟨rfl, trivial, trivial⟩⟩,
    by simp [shape102030, Tree.addrs]⟩, rfl⟩

theorem shape102030_inv : RBInv compInt shape102030 where
  rootBlack := rfl
  noRedRed := by simp [shape102030, Tree.NoRedRed, Tree.rootColor]
  balanced := by simp [shape102030, Tree.Balanced, Tree.bh]
  sorted := by simp [shape102030, Tree.Sorted, Tree.inorder, compInt]

/-- C11: for any list of keys (duplicates included) inserted into a new tree, created with a
comparator and a disposer as the test driver does, followed by deleting every inserted key
in any order (the list of deletions is any permutation of the list of insertions), every
call returns, `isValidRBTree` returns 1 after every intermediate insert and delete, and the
tree ends with size 0 and an absent root. -/
theorem insert_then_delete_all {cmp : α → α → Int} (hc : TotalCmp cmp) (keys dels : List α)
    (hperm : dels.Perm keys) :
    ∃ (sts sts' : List (State α)),
      insertRun (newRBTree (some cmp) true) keys = some sts ∧ sts.length = keys.length ∧
      deleteRun (sts.getLastD (newRBTree (some cmp) true)) dels = some sts' ∧
      sts'.length = dels.length ∧
      (∀ s ∈ sts, isValidRBTree s = some 1) ∧ (∀ s ∈ sts', isValidRBTree s = some 1) ∧
      (sts'.getLastD (sts.getLastD (newRBTree (some cmp) true))).size = 0 ∧
      (sts'.getLastD (sts.getLastD (newRBTree (some cmp) true))).root = none := by
  obtain ⟨sts, Tf, e1, l1, v1, f1, f2, f3, f4, f5, f6⟩ :=
    insertRun_any hc keys (newRBTree (some cmp) true) Tree.nil
      ⟨⟨trivial, List.nodup_nil⟩, rfl⟩ ⟨rfl, trivial, trivial, List.Pairwise.nil⟩ rfl rfl
  obtain ⟨sts', e2, l2, v2, g1, g2⟩ :=
    deleteRun_all hc dels _ Tf f1 f2 f3 f4 (by rw [f5]; rfl) (fun e he => by
      rcases f6 e he with h | h
      · simp [Tree.inorder] at h
      · exact ⟨e, hperm.mem_iff.2 h, hc.lt_irrefl e⟩)
  exact ⟨sts, sts', e1, l1, e2, l2, v1, v2, g1, g2⟩

theorem insert_then_delete_all_witness :
    [1, 2, 2].Perm [2, 1, 2] ∧
    ∃ (sts sts' : List (State Int)),
      insertRun (newRBTree (some compInt) true) [2, 1, 2] = some sts ∧
      sts.length = [2, 1, 2].length ∧
      deleteRun (sts.getLastD (newRBTree (some compInt) true)) [1, 2, 2] = some sts' ∧
      sts'.length = [1, 2, 2].length ∧
      (∀ s ∈ sts, isValidRBTree s = some 1) ∧ (∀ s ∈ sts', isValidRBTree s = some 1) ∧
      (sts'.getLastD (sts.getLastD (newRBTree (some compInt) true))).size = 0 ∧
      (sts'.getLastD (sts.getLastD (newRBTree (some compInt) true))).root = none :=
  ⟨by decide, insert_then_delete_all compInt_total [2, 1, 2] [1, 2, 2] (by decide)⟩

/-- C12: inserting 10, 20, 30 in that order into a new tree (with or without a disposer)
yields a tree of three nodes whose root holds 20 and is BLACK, whose left child holds 10 and
is RED, whose right child holds 30 and is RED, both children being leaves;
`RBTreeContains` is 1 on 20 and 0 on 15, and `forEachRBTree` visits 10, 20, 30. -/
theorem insert_10_20_30 (freeFunc : Bool) :
    ∃ s1 s2 s3 : State Int,
      insertRun (newRBTree (some compInt) freeFunc) [10, 20, 30] = some [s1, s2, s3] ∧
      s3.root = some 1 ∧
      s3.heap = [some ⟨10, Color.RED, none, none, some 1⟩,
                 some ⟨20, Color.BLACK, some 0, some 2, none⟩,
                 some ⟨30, Color.RED, none, none, some 1⟩] ∧
      s3.size = 3 ∧ Represents s3 shape102030 ∧
      RBTreeContains s3 20 = some 1 ∧ RBTreeContains s3 15 = some 0 ∧
      forEachRBTree s3 (countingVisitor (fun _ _ (u : Unit) => ((1 : Int), u)))
        ((), 0, []) = some (1, ((), 3, [10, 20, 30])) := by
  cases freeFunc
  · exact ⟨_, _, _, rfl, rfl, rfl, rfl,
      ⟨⟨⟨rfl, ⟨rfl, trivial, trivial⟩, ⟨rfl, trivial, trivial⟩⟩,
        by simp [shape102030, Tree.addrs]⟩, rfl⟩, rfl, rfl, rfl⟩
  · exact ⟨_, _, _, rfl, rfl, rfl, rfl,
      ⟨⟨⟨rfl, ⟨rfl, trivial, trivial⟩, ⟨rfl, trivial, trivial⟩⟩,
        by simp [shape102030, Tree.addrs]⟩, rfl⟩, rfl, rfl, rfl⟩

/-- C13: on a new tree with the comparator `compInt` and a disposer, after the insertion of
5, 3, 8, 1, 4, 7, 9 in that order the node of 3 has two children; the deletion of 3 succeeds
and leaves the payload 4 of its successor in that node; the deletion of 1 (then a leaf)
succeeds; `isValidRBTree` returns 1 after each of the two deletions, and `forEachRBTree`
finally visits 4, 5, 7, 8, 9. -/
theorem delete_3_then_1 :
    ∃ (sts : List (State Int)) (st s1 s2 : State Int),
      insertRun (newRBTree (some compInt) true) [5, 3, 8, 1, 4, 7, 9] = some sts ∧
      sts.getLast? = some st ∧
      st.heap.read 1 = some ⟨3, Color.BLACK, some 3, some 4, some 0⟩ ∧
      deleteFromRBTree st 3 = some (SUCCESS, s1) ∧ isValidRBTree s1 = some 1 ∧
      s1.heap.read 1 = some ⟨4, Color.BLACK, some 3, none, some 0⟩ ∧
      s1.heap.read 3 = some ⟨1, Color.RED, none, none, some 1⟩ ∧
      deleteFromRBTree s1 1 = some (SUCCESS, s2) ∧ isValidRBTree s2 = some 1 ∧
      s2.size = 5 ∧
      forEachRBTree s2 (countingVisitor (fun _ _ (u : Unit) => ((1 : Int), u)))
        ((), 0, []) = some (1, ((), 5, [4, 5, 7, 8, 9])) :=
  ⟨_, _, _, _, rfl, rfl, rfl, rfl, rfl, rfl, rfl, rfl, rfl, rfl, rfl⟩

/-- C14 fails on the code: `isValidRBTree` returns 1 on a handle whose in-order sequence
3, 7, 5, 8 is not increasing (`validateBST` compares a node with its two children only), and
on a handle that holds the key 5 twice (the comparison with a child accepts equality). -/
theorem isValidRBTree_accepts_unsorted :
    Represents unsortedTree unsortedShape ∧ isValidRBTree unsortedTree = some 1 ∧
      unsortedShape.inorder = [3, 7, 5, 8] ∧ ¬ unsortedShape.Sorted compInt ∧
    Represents equalKeysTree equalKeysShape ∧ isValidRBTree equalKeysTree = some 1 ∧
      equalKeysShape.inorder = [5, 5] ∧ ¬ equalKeysShape.Sorted compInt :=
  ⟨⟨⟨⟨rfl, ⟨rfl, trivial, ⟨rfl, trivial, trivial⟩⟩, ⟨rfl, trivial, trivial⟩⟩,
      by simp [unsortedShape, Tree.addrs]⟩, rfl⟩, rfl, rfl,
    by simp [unsortedShape, Tree.Sorted, Tree.inorder, compInt],
    ⟨⟨⟨rfl, ⟨rfl, trivial, trivial⟩, trivial⟩, by simp [equalKeysShape, Tree.addrs]⟩, rfl⟩,
    rfl, rfl, by simp [equalKeysShape, Tree.Sorted, Tree.inorder, compInt]⟩

/-- C16: for every handle with a present root, if `isValidRBTree` returns a non-zero result
then the child links below the root unfold to a finite shape in which every present child's
parent link points to the node it hangs from, the root is BLACK, no RED node has a RED child,
and every path from a node down to an absent child passes through the same number of BLACK
nodes (invariants 2, 3, 4 and 6). -/
theorem isValidRBTree_sound (st : State α) (v : Int)
    (e : isValidRBTree st = some v) (hv : v ≠ 0) (hroot : st.root ≠ none) :
    ∃ (t : Tree α) (par : Ptr), t.ptr = st.root ∧ Rep st.heap t par ∧
      t.rootColor = Color.BLACK ∧ t.NoRedRed ∧ t.Balanced := by
  obtain ⟨t, par, h1, h2, h3, h4, h5, -⟩ := isValidRBTree_sound_spec st v e hv hroot
  exact ⟨t, par, h1, h2, h3, h4, h5⟩

theorem isValidRBTree_sound_witness :
    (isValidRBTree sampleState = some 1 ∧ sampleState.root ≠ none) ∧
    ∃ (t : Tree Int) (par : Ptr), t.ptr = sampleState.root ∧ Rep sampleState.heap t par ∧
      t.rootColor = Color.BLACK ∧ t.NoRedRed ∧ t.Balanced :=
  ⟨⟨rfl, by simp [sampleState]⟩,
    isValidRBTree_sound sampleState 1 rfl (by decide) (by simp [sampleState])⟩

/-- C17: every handle whose links form a tree (no node twice; the parent link of the root
may hold anything) that satisfies invariants 2 to 7 (root BLACK, no consecutive REDs, equal
black count on all paths, strictly increasing in-order sequence, consistent parent links,
size equal to node count) is accepted by the validator: `isValidRBTree` returns 1. -/
theorem isValidRBTree_complete {cmp : α → α → Int} (st : State α) (T : Tree α) (par : Ptr)
    (hr : Rep st.heap T par) (hnd : T.addrs.Nodup) (hroot : st.root = T.ptr)
    (hinv : RBInv cmp T) (hsize : st.size = T.size) (hcmp : st.compFunc = some cmp) :
    isValidRBTree st = some 1 :=
  isValidRBTree_of_rep st T par hr hnd hroot hinv hsize hcmp

theorem isValidRBTree_complete_witness :
    RBInv compInt shape102030 ∧ isValidRBTree tree102030 = some 1 :=
  ⟨shape102030_inv,
    isValidRBTree_complete tree102030 shape102030 none tree102030_represents.1.1
      tree102030_represents.1.2 rfl shape102030_inv rfl rfl⟩

/-- C18: for every valid tree and every key `k` stored in it, a call of `deleteFromRBTree`
on `k` that returns a non-zero result has invoked the disposer exactly once, on the stored
payload that compares equal to `k` (there is exactly one), and on no other payload: the log
of disposer calls has grown by that payload only, whichever payloads were swapped before a
node was freed. -/
theorem deleteFromRBTree_disposer_once {cmp : α → α → Int} (hc : TotalCmp cmp)
    (st : State α) (T : Tree α) (hrep : Represents st T) (hinv : RBInv cmp T)
    (hcmp : st.compFunc = some cmp) (k : α) (hk : ∃ d ∈ T.inorder, cmp k d = 0)
    (r : Int) (st' : State α) (hdel : deleteFromRBTree st k = some (r, st')) (hr : r ≠ 0) :
    ∃ e ∈ T.inorder, cmp k e = 0 ∧ (∀ d ∈ T.inorder, cmp k d = 0 → d = e) ∧
      st'.freed = st.freed ++ [e] := by
  have hfree := deleteFromRBTree_success_freeFunc hdel hr
  obtain ⟨st2, T', l1, l2, e, e1, -, -, a1, -, a3, -, -, -, -, s5⟩ :=
    deleteFromRBTree_found hc st T hrep hinv hcmp hfree k hk
  rw [e1, Option.some.injEq, Prod.mk.injEq] at hdel
  have hsort := hinv.sorted
  unfold Tree.Sorted at hsort
  rw [a1, List.pairwise_append] at hsort
  obtain ⟨-, p2, p3⟩ := hsort
  rw [List.pairwise_cons] at p2
  refine ⟨e, by simp [a1], a3, fun d hd hkd => ?_, by rw [← hdel.2]; exact s5⟩
  rw [a1] at hd
  simp only [List.mem_append, List.mem_cons] at hd
  rcases hd with hd | hd | hd
  · exact absurd hkd (not_eq_of_lt_left hc a3 (p3 d hd e (List.mem_cons_self _ _)))
  · exact hd
  · exact absurd hkd (not_eq_of_lt_right hc a3 (p2.1 d hd))

theorem deleteFromRBTree_disposer_once_witness :
    (deleteFromRBTree tree102030 20 = some (1, tree1030)) ∧
    ∃ e ∈ shape102030.inorder, compInt 20 e = 0 ∧
      (∀ d ∈ shape102030.inorder, compInt 20 d = 0 → d = e) ∧
      tree1030.freed = tree102030.freed ++ [e] :=
  ⟨rfl,
    deleteFromRBTree_disposer_once compInt_total tree102030 shape102030
      tree102030_represents shape102030_inv rfl 20
      ⟨20, by simp [shape102030, Tree.inorder], rfl⟩ 1 tree1030 rfl (by decide)⟩

/-- C19, as amended: for every handle of a well-formed tree that has a disposer unless the
tree is empty, `freeRBTree` invokes the disposer exactly once on each payload stored in the
tree and on nothing else, in post-order (both subtrees of a node before the node itself),
releases every node, and leaves the caller's variable `NULL`; a second call of `freeRBTree`
on that variable invokes the disposer zero times and changes nothing. -/
theorem freeRBTree_postorder (st : State α) (T : Tree α) (hrep : Represents st T)
    (hfree : T ≠ Tree.nil → st.freeFunc = true) :
    ∃ st' : State α, freeRBTree ⟨st, true⟩ = some ⟨st', false⟩ ∧
      st'.freed = st.freed ++ T.postorder ∧ T.postorder.Perm T.inorder ∧
      (∀ x ∈ T.addrs, st'.heap.read x = none) ∧
      (∀ x, x ∉ T.addrs → st'.heap.read x = st.heap.read x) ∧
      freeRBTree ⟨st', false⟩ = some ⟨st', false⟩ := by
  obtain ⟨h', e, rel, fr⟩ := freeRBTree_spec st T hrep hfree
  exact ⟨_, e, rfl, T.postorder_perm, rel, fr, rfl⟩

theorem freeRBTree_postorder_witness :
    Represents tree102030 shape102030 ∧
    ∃ st' : State Int, freeRBTree ⟨tree102030, true⟩ = some ⟨st', false⟩ ∧
      st'.freed = tree102030.freed ++ shape102030.postorder ∧
      shape102030.postorder.Perm shape102030.inorder ∧
      (∀ x ∈ shape102030.addrs, st'.heap.read x = none) ∧
      (∀ x, x ∉ shape102030.addrs → st'.heap.read x = tree102030.heap.read x) ∧
      freeRBTree ⟨st', false⟩ = some ⟨st', false⟩ :=
  ⟨tree102030_represents,
    freeRBTree_postorder tree102030 shape102030 tree102030_represents (fun _ => rfl)⟩

/-- C19 as stated fails: on the one-node handle created with a `NULL` disposer,
`freeRBTree` calls the `NULL` disposer on the stored payload, so that the call does not
return and the caller's variable is not set to `NULL`. -/
theorem freeRBTree_null_disposer :
    Represents sampleNoDisposer sampleTree ∧ sampleTree.inorder = [5] ∧
      freeRBTree ⟨sampleNoDisposer, true⟩ = none :=
  ⟨sampleNoDisposer_represents, rfl, rfl⟩

/-- C20: for every handle, `insertToRBTree` called with an absent (`NULL`) payload returns
`FAILURE` (0) and the handle and the heap are unchanged: same root, same size, every node as
before.  The comparator is not invoked: the result is the same on a handle whose comparator
is `NULL`, on which an invocation would not return. -/
theorem insertToRBTree_null_payload (st : State α) :
    insertToRBTree st none = some (FAILURE, st) ∧ FAILURE = 0 ∧
      insertToRBTree { st with compFunc := none } none =
        some (FAILURE, { st with compFunc := none }) :=
  ⟨rfl, rfl, rfl⟩

theorem write_alloc_last (h : Heap α) (n m : Node α) :
    (h ++ [some n]).write h.length m = h ++ [some m] := by
  simp [Heap.write]

theorem read_append_last (h : Heap α) (n : Node α) :
    (h ++ [some n]).read h.length = some n := by
  have := read_alloc h n h.length
  simpa [Heap.alloc] using this

/-- On a handle with a `NULL` comparator and an absent root, `insertToRBTree` of a payload
allocates the root without calling the comparator. -/
theorem insertToRBTree_null_cmp_empty (st : State α) (hroot : st.root = none) (x : α) :
    insertToRBTree st (some x) =
      some (SUCCESS, { st with heap := st.heap ++ [some ⟨x, Color.BLACK, none, none, none⟩],
                               root := some st.heap.length, size := st.size + 1 }) := by
  have hf : fuelOf st.heap = (st.heap.length + 3) + 1 := rfl
  have e1 : insertValue (fuelOf st.heap) st Loc.root x st.compFunc =
      some ({ st with heap := st.heap ++ [some ⟨x, Color.RED, none, none, none⟩],
                      root := some st.heap.length }, some st.heap.length) := by
    rw [hf, insertValue]
    simp only [readLoc, hroot, writeLoc, Heap.alloc, Option.bind_eq_bind, Option.some_bind,
      Option.pure_def]
  have e2 : repairRBTree (fuelOf st.heap)
      (st.heap ++ [some ⟨x, Color.RED, none, none, none⟩]) (some st.heap.length) =
      some (st.heap ++ [some ⟨x, Color.BLACK, none, none, none⟩]) := by
    rw [hf, repairRBTree]
    simp only [deref, read_append_last, Option.bind_eq_bind, Option.some_bind, if_true,
      setColor, write_alloc_last]
  have e3 : updateRoot (fuelOf st.heap)
      (st.heap ++ [some ⟨x, Color.BLACK, none, none, none⟩]) (some st.heap.length) =
      some (some st.heap.length) := by
    rw [hf, updateRoot]
    simp only [read_append_last, Option.bind_eq_bind, Option.some_bind, ne_eq,
      not_true_eq_false, if_false, Option.pure_def]
  simp only [insertToRBTree, e1, e2, e3, Option.bind_eq_bind, Option.some_bind,
    Option.pure_def, reduceCtorEq, if_false]

/-- On a handle with a `NULL` comparator and a present root, `insertToRBTree` of a payload
calls the comparator and does not return. -/
theorem insertToRBTree_null_cmp_nonempty (st : State α) (hcmp : st.compFunc = none)
    (hroot : st.root ≠ none) (x : α) : insertToRBTree st (some x) = none := by
  obtain ⟨a, ha⟩ := Option.ne_none_iff_exists'.1 hroot
  have hf : fuelOf st.heap = (st.heap.length + 3) + 1 := rfl
  have e1 : insertValue (fuelOf st.heap) st Loc.root x st.compFunc = none := by
    rw [hf, insertValue]
    simp only [readLoc, ha, hcmp, Option.bind_eq_bind, Option.some_bind]
    cases st.heap.read a <;> rfl
  simp only [insertToRBTree, e1, Option.bind_eq_bind, Option.none_bind]

theorem Tree.leftmost_node_ne (l : Tree α) (a : Nat) (c : Color) (d : α) (r : Tree α) :
    (Tree.node l a c d r).leftmost ≠ none := by
  unfold Tree.leftmost
  cases Tree.leftmost l <;> simp

theorem minCtx_leftmost : ∀ (l : Tree α) (a : Nat) (c : Color) (d : α) (r : Tree α)
    (ctx : Ctx α) (s : Nat) (sc : Color) (sd : α) (sr : Tree α),
    (minCtx l a c d r ctx).2 = Tree.node Tree.nil s sc sd sr →
      (Tree.node l a c d r).leftmost = some (s, sd)
  | Tree.nil, a, c, d, r, ctx, s, sc, sd, sr, e => by
    simp only [minCtx, Tree.node.injEq, true_and] at e
    obtain ⟨rfl, -, rfl, -⟩ := e
    rfl
  | Tree.node ll la lc ld lr, a, c, d, r, ctx, s, sc, sd, sr, e => by
    rw [minCtx] at e
    have ih := minCtx_leftmost ll la lc ld lr _ s sc sd sr e
    rw [Tree.leftmost, ih]

theorem Tree.nodes_addrs (t : Tree α) : t.nodes.map (fun x => x.1) = t.addrs := by
  induction t with
  | nil => rfl
  | node l a c d r ihl ihr => simp [Tree.nodes, Tree.addrs, ihl, ihr]

theorem Tree.nodes_inorder (t : Tree α) : t.nodes.map (fun x => x.2.2) = t.inorder := by
  induction t with
  | nil => rfl
  | node l a c d r ihl ihr => simp [Tree.nodes, Tree.inorder, ihl, ihr]

theorem Ctx.plug_nodes_congr : ∀ (ctx : Ctx α) {t t' : Tree α}, t.nodes = t'.nodes →
    (ctx.plug t).nodes = (ctx.plug t').nodes
  | Ctx.top, _, _, e => e
  | Ctx.left up a c d r, t, t', e => by
    rw [Ctx.plug_left, Ctx.plug_left]
    exact Ctx.plug_nodes_congr up (by simp [Tree.nodes, e])
  | Ctx.right l a c d up, t, t', e => by
    rw [Ctx.plug_right, Ctx.plug_right]
    exact Ctx.plug_nodes_congr up (by simp [Tree.nodes, e])

/-- C21 (as the code behaves): on a handle whose comparator is `NULL`, `insertToRBTree`
rejects only an absent payload.  With an absent root the payload is inserted without any
call of the comparator: the call returns success, the new node is the BLACK root and the
size grows by 1.  With a root present the `NULL` comparator is called and the call does
not return. -/
theorem insertToRBTree_null_comparator (st : State α) (hcmp : st.compFunc = none) :
    insertToRBTree st none = some (FAILURE, st) ∧
    (st.root = none → ∀ x : α, insertToRBTree st (some x) =
      some (SUCCESS, { st with heap := st.heap ++ [some ⟨x, Color.BLACK, none, none, none⟩],
                               root := some st.heap.length, size := st.size + 1 })) ∧
    (st.root ≠ none → ∀ x : α, insertToRBTree st (some x) = none) :=
  ⟨rfl, fun hroot x => insertToRBTree_null_cmp_empty st hroot x,
    fun hroot x => insertToRBTree_null_cmp_nonempty st hcmp hroot x⟩

theorem insertToRBTree_null_comparator_witness :
    (newRBTree (none : Option (Int → Int → Int)) true).compFunc = none ∧
    insertToRBTree (newRBTree (none : Option (Int → Int → Int)) true) (some 5) =
      some (SUCCESS, nullCmpOne) ∧
    insertToRBTree nullCmpOne (some 7) = none :=
  ⟨rfl,
    ((insertToRBTree_null_comparator (newRBTree (none : Option (Int → Int → Int)) true)
      rfl).2.1 rfl 5).trans rfl,
    (insertToRBTree_null_comparator nullCmpOne rfl).2.2 (by simp [nullCmpOne]) 7⟩

/-- C21 fails on the code: a new tree created with a `NULL` comparator accepts the payload 5:
`insertToRBTree` returns success, the root becomes present and the size becomes 1. -/
theorem insertToRBTree_null_comparator_accepts :
    ∃ st', insertToRBTree (newRBTree (none : Option (Int → Int → Int)) true) (some 5) =
        some (SUCCESS, st') ∧
      (newRBTree (none : Option (Int → Int → Int)) true).root = none ∧
      (newRBTree (none : Option (Int → Int → Int)) true).size = 0 ∧
      st'.root = some 0 ∧ st'.size = 1 ∧ SUCCESS ≠ FAILURE :=
  ⟨_, rfl, rfl, rfl, rfl, rfl, by decide⟩

/-- C30: for every node `m` that has a right child (in particular every node with two
children), `successor(m)` returns the leftmost node of the right subtree of `m`; that node
has no left child, and its payload follows the payload of `m` immediately in the in-order
sequence of the whole tree, so under the ordering invariant it is the next larger
element. -/
theorem successor_leftmost {h : Heap α} {ctx : Ctx α} {l rl rr : Tree α} {m ra : Nat}
    {c rc : Color} {d rd : α}
    (hr : RepT h (ctx.plug (Tree.node l m c d (Tree.node rl ra rc rd rr)))) :
    ∃ (s : Nat) (sn : Node α),
      successor (fuelOf h) h (some m) = some (some s) ∧
      (Tree.node rl ra rc rd rr).leftmost = some (s, sn.data) ∧
      h.read s = some sn ∧ sn.left = none ∧
      (∃ L1 L2, (ctx.plug (Tree.node l m c d (Tree.node rl ra rc rd rr))).inorder =
        L1 ++ d :: sn.data :: L2) ∧
      ∀ cmp : α → α → Int,
        (ctx.plug (Tree.node l m c d (Tree.node rl ra rc rd rr))).Sorted cmp →
          cmp d sn.data < 0 := by
  obtain ⟨s, sc, sd, sr, q1, q2, q3⟩ := minCtx_snd rl ra rc rd rr
  have hread := hr.read_focus
  have hz := repT_plug.1 hr
  have hRr : Rep h (Tree.node rl ra rc rd rr) (some m) := hz.2.1.2.2
  have hpl := size_plug ctx (Tree.node l m c d (Tree.node rl ra rc rd rr))
  have hht := (Tree.node rl ra rc rd rr).height_le_size
  have hsz := hr.size_le
  have hsucc : successor (fuelOf h) h (some m) = some (some s) := by
    have := successorLoop_min rl ra rc rd rr (some m) (fuelOf h) Ctx.top hRr
      (by simp only [Tree.size] at hpl hht ⊢; unfold fuelOf; omega)
    rw [q1] at this
    simp only [successor, hread, Option.bind_eq_bind, Option.some_bind, Tree.ptr_node]
    exact this
  have hr2 : RepT h ((minCtx rl ra rc rd rr (Ctx.right l m c d ctx)).1.plug
      (Tree.node Tree.nil s sc sd sr)) := by
    rw [minCtx_plug, q2]; exact hr
  have hreads := hr2.read_focus
  have hin : (ctx.plug (Tree.node l m c d (Tree.node rl ra rc rd rr))).inorder =
      (ctx.before ++ l.inorder) ++ d :: sd :: (sr.inorder ++ minTail rl rd rr ++ ctx.after) := by
    rw [inorder_plug, Tree.inorder, q3]
    simp
  refine ⟨s, _, hsucc, minCtx_leftmost rl ra rc rd rr Ctx.top s sc sd sr (q1 _), hreads, rfl,
    ⟨_, _, hin⟩, fun cmp hs => ?_⟩
  unfold Tree.Sorted at hs
  rw [hin, List.pairwise_append] at hs
  exact (List.pairwise_cons.1 hs.2.1).1 sd (List.mem_cons_self _ _)

theorem successor_leftmost_witness :
    RepT tree102030.heap (Ctx.top.plug (Tree.node (Tree.node Tree.nil 0 Color.RED 10 Tree.nil)
      1 Color.BLACK 20 (Tree.node Tree.nil 2 Color.RED 30 Tree.nil))) ∧
    ∃ (s : Nat) (sn : Node Int),
      successor (fuelOf tree102030.heap) tree102030.heap (some 1) = some (some s) ∧
      (Tree.node Tree.nil 2 Color.RED (30 : Int) Tree.nil).leftmost = some (s, sn.data) ∧
      tree102030.heap.read s = some sn ∧ sn.left = none ∧
      (∃ L1 L2, (Ctx.top.plug (Tree.node (Tree.node Tree.nil 0 Color.RED 10 Tree.nil)
        1 Color.BLACK 20 (Tree.node Tree.nil 2 Color.RED 30 Tree.nil))).inorder =
        L1 ++ 20 :: sn.data :: L2) ∧
      ∀ cmp : Int → Int → Int,
        (Ctx.top.plug (Tree.node (Tree.node Tree.nil 0 Color.RED 10 Tree.nil)
          1 Color.BLACK 20 (Tree.node Tree.nil 2 Color.RED 30 Tree.nil))).Sorted cmp →
          cmp 20 sn.data < 0 :=
  ⟨tree102030_represents.1, successor_leftmost tree102030_represents.1⟩

/-- C25: in a tree with consistent parent links, `leftRotation(n)` on a node `n` with a right
child `r` returns and leaves a tree with consistent parent links in which `r` stands in the
slot of `n` below the former parent of `n` (it has no parent when `n` had none), `n` is the
left child of `r`, and the former left subtree of `r` hangs as the right subtree of `n` with
its root re-parented to `n`; the in-order sequence of nodes (address, colour, payload), and
so the in-order payload sequence, is unchanged.  The mirror statement holds for
`rightRotation(n)` on a node with a left child `r`. -/
theorem rotation_spec (h : Heap α) (ctx : Ctx α) (A B C : Tree α) (n r : Nat) (c rc : Color)
    (d rd : α) :
    (RepT h (ctx.plug (Tree.node A n c d (Tree.node B r rc rd C))) →
      ∃ h', leftRotation h (some n) = some h' ∧
        RepT h' (ctx.plug (Tree.node (Tree.node A n c d B) r rc rd C)) ∧
        (ctx.plug (Tree.node (Tree.node A n c d B) r rc rd C)).nodes =
          (ctx.plug (Tree.node A n c d (Tree.node B r rc rd C))).nodes ∧
        (ctx.plug (Tree.node (Tree.node A n c d B) r rc rd C)).inorder =
          (ctx.plug (Tree.node A n c d (Tree.node B r rc rd C))).inorder ∧
        h'.read r = some ⟨rd, rc, some n, C.ptr, ctx.addr⟩ ∧
        h'.read n = some ⟨d, c, A.ptr, B.ptr, some r⟩ ∧
        Rep h' B (some n)) ∧
    (RepT h (ctx.plug (Tree.node (Tree.node A r rc rd B) n c d C)) →
      ∃ h', rightRotation h (some n) = some h' ∧
        RepT h' (ctx.plug (Tree.node A r rc rd (Tree.node B n c d C))) ∧
        (ctx.plug (Tree.node A r rc rd (Tree.node B n c d C))).nodes =
          (ctx.plug (Tree.node (Tree.node A r rc rd B) n c d C)).nodes ∧
        (ctx.plug (Tree.node A r rc rd (Tree.node B n c d C))).inorder =
          (ctx.plug (Tree.node (Tree.node A r rc rd B) n c d C)).inorder ∧
        h'.read r = some ⟨rd, rc, A.ptr, some n, ctx.addr⟩ ∧
        h'.read n = some ⟨d, c, B.ptr, C.ptr, some r⟩ ∧
        Rep h' B (some n)) := by
  constructor
  · intro hr
    obtain ⟨h', e, r1⟩ := hr.leftRotation_focus
    have hn : (ctx.plug (Tree.node (Tree.node A n c d B) r rc rd C)).nodes =
        (ctx.plug (Tree.node A n c d (Tree.node B r rc rd C))).nodes :=
      Ctx.plug_nodes_congr ctx (by simp [Tree.nodes])
    refine ⟨h', e, r1, hn, ?_, r1.read_focus,
      RepT.read_focus (K := Ctx.left ctx r rc rd C) r1,
      RepT.rep_focus (K := Ctx.right A n c d (Ctx.left ctx r rc rd C)) (t := B) r1⟩
    rw [← Tree.nodes_inorder, hn, Tree.nodes_inorder]
  · intro hr
    obtain ⟨h', e, r1⟩ := hr.rightRotation_focus
    have hn : (ctx.plug (Tree.node A r rc rd (Tree.node B n c d C))).nodes =
        (ctx.plug (Tree.node (Tree.node A r rc rd B) n c d C)).nodes :=
      Ctx.plug_nodes_congr ctx (by simp [Tree.nodes])
    refine ⟨h', e, r1, hn, ?_, r1.read_focus,
      RepT.read_focus (K := Ctx.right A r rc rd ctx) r1,
      RepT.rep_focus (K := Ctx.left (Ctx.right A r rc rd ctx) n c d C) (t := B) r1⟩
    rw [← Tree.nodes_inorder, hn, Tree.nodes_inorder]

theorem rotation_spec_witness :
    (∃ h', leftRotation tree102030.heap (some 1) = some h' ∧
      h'.read 2 = some ⟨30, Color.RED, some 1, none, none⟩ ∧
      h'.read 1 = some ⟨20, Color.BLACK, some 0, none, some 2⟩) ∧
    (∃ h', rightRotation tree102030.heap (some 1) = some h' ∧
      h'.read 0 = some ⟨10, Color.RED, none, some 1, none⟩ ∧
      h'.read 1 = some ⟨20, Color.BLACK, none, some 2, some 0⟩) := by
  obtain ⟨h1, e1, -, -, -, a1, a2, -⟩ :=
    (rotation_spec tree102030.heap Ctx.top (Tree.node Tree.nil 0 Color.RED 10 Tree.nil)
      Tree.nil Tree.nil 1 2 Color.BLACK Color.RED 20 30).1 tree102030_represents.1
  obtain ⟨h2, e2, -, -, -, b1, b2, -⟩ :=
    (rotation_spec tree102030.heap Ctx.top Tree.nil Tree.nil
      (Tree.node Tree.nil 2 Color.RED 30 Tree.nil) 1 0 Color.BLACK Color.RED 20 10).2
      tree102030_represents.1
  exact ⟨⟨h1, e1, a1, a2⟩, ⟨h2, e2, b1, b2⟩⟩

theorem Rep.reach {h : Heap α} : ∀ {t : Tree α} {par : Ptr}, Rep h t par →
    ∀ a ∈ t.addrs, Reach h t.ptr a
  | Tree.nil, _, _, a, ha => by simp [Tree.addrs] at ha
  | Tree.node l b c d r, par, hr, a, ha => by
    simp only [Tree.addrs, List.mem_append, List.mem_cons] at ha
    rcases ha with ha | rfl | ha
    · exact Reach.left hr.1 (Rep.reach hr.2.1 a ha)
    · exact Reach.here hr.1
    · exact Reach.right hr.1 (Rep.reach hr.2.2 a ha)

theorem Represents.root_facts {st : State α} {T : Tree α} (hrep : Represents st T) :
    (∀ a, st.root = some a → ∃ n, st.heap.read a = some n ∧ n.parent = none) ∧
    (st.root = none ↔ T.size = 0) ∧
    ∀ a ∈ T.addrs, Reach st.heap st.root a := by
  obtain ⟨hr, hroot⟩ := hrep
  refine ⟨?_, ?_, ?_⟩
  · intro a ha
    cases T with
    | nil => rw [hroot] at ha; cases ha
    | node l b c d r =>
      rw [hroot] at ha
      simp only [Tree.ptr_node, Option.some.injEq] at ha
      subst ha
      exact ⟨_, hr.1.1, rfl⟩
  · rw [hroot]
    cases T with
    | nil => simp [Tree.size]
    | node l b c d r => simp [Tree.size]
  · rw [hroot]
    exact Rep.reach hr.1

theorem Ctx.plug_bh_congr : ∀ (ctx : Ctx α) {t t' : Tree α}, t.bh = t'.bh →
    (ctx.plug t).bh = (ctx.plug t').bh
  | Ctx.top, _, _, e => e
  | Ctx.left up a c d r, t, t', e => by
    rw [Ctx.plug_left, Ctx.plug_left]
    exact Ctx.plug_bh_congr up (by simp [Tree.bh, e])
  | Ctx.right l a c d up, t, t', e => by
    rw [Ctx.plug_right, Ctx.plug_right]
    exact Ctx.plug_bh_congr up (by simp [Tree.bh])

theorem Ctx.plug_skeleton_congr : ∀ (ctx : Ctx α) {t t' : Tree α}, t.skeleton = t'.skeleton →
    (ctx.plug t).skeleton = (ctx.plug t').skeleton
  | Ctx.top, _, _, e => e
  | Ctx.left up a c d r, t, t', e => by
    rw [Ctx.plug_left, Ctx.plug_left]
    exact Ctx.plug_skeleton_congr up (by simp [Tree.skeleton, e])
  | Ctx.right l a c d up, t, t', e => by
    rw [Ctx.plug_right, Ctx.plug_right]
    exact Ctx.plug_skeleton_congr up (by simp [Tree.skeleton, e])

theorem Ctx.addr_ne_none_of_root {ctx : Ctx α} {t : Tree α}
    (hroot : (ctx.plug t).rootColor = Color.BLACK) (ht : t.rootColor = Color.RED) :
    ctx.addr ≠ none := by
  intro h
  cases ctx with
  | top => simp only [Ctx.plug_top] at hroot; rw [ht] at hroot; cases hroot
  | left _ _ _ _ _ => simp at h
  | right _ _ _ _ _ => simp at h

/-- C24: after a call of `insertToRBTree` or of `deleteFromRBTree` that returns success on a
valid tree, the handle points to a well-formed tree whose nodes are those of the tree before
together with the new cell (insertion) or without the freed cell (deletion); the root stored
in the handle is a node without parent, it is absent exactly when the size is 0, and every
node of the tree is reachable from it through child links. -/
theorem root_reaches_every_node {cmp : α → α → Int} (hc : TotalCmp cmp) (st st' : State α)
    (hv : Valid cmp st) (hcmp : st.compFunc = some cmp) (x : α) :
    (insertToRBTree st (some x) = some (SUCCESS, st') →
      ∃ T T' : Tree α, Represents st T ∧ Represents st' T' ∧ st'.size = T'.size ∧
        T'.addrs.Perm (st.heap.length :: T.addrs) ∧ st'.root ≠ none ∧
        (∀ a, st'.root = some a → ∃ n, st'.heap.read a = some n ∧ n.parent = none) ∧
        ∀ a ∈ T'.addrs, Reach st'.heap st'.root a) ∧
    (deleteFromRBTree st x = some (SUCCESS, st') →
      ∃ T T' : Tree α, Represents st T ∧ Represents st' T' ∧ st'.size = T'.size ∧
        (∃ a, T.addrs.Perm (a :: T'.addrs)) ∧ (st'.root = none ↔ st'.size = 0) ∧
        (∀ a, st'.root = some a → ∃ n, st'.heap.read a = some n ∧ n.parent = none) ∧
        ∀ a ∈ T'.addrs, Reach st'.heap st'.root a) := by
  obtain ⟨T, hrep, hinv, hsize⟩ := hv
  have hne : SUCCESS ≠ FAILURE := by decide
  constructor
  · intro hcall
    by_cases hx : ∃ d ∈ T.inorder, cmp x d = 0
    · rw [insertToRBTree_dup hc st T hrep hinv.sorted hcmp x hx] at hcall
      simp only [Option.some.injEq, Prod.mk.injEq] at hcall
      exact absurd hcall.1.symm hne
    · obtain ⟨st2, T', l1, l2, e, r', i', -, -, -, -, s1, s2, -, -, -, hp⟩ :=
        insertToRBTree_new_nodes hc st T hrep hinv hcmp x (fun d hd e => hx ⟨d, hd, e⟩)
      rw [e] at hcall
      simp only [Option.some.injEq, Prod.mk.injEq, true_and] at hcall
      subst hcall
      obtain ⟨f1, f2, f3⟩ := r'.root_facts
      refine ⟨T, T', hrep, r', by omega, hp, ?_, f1, f3⟩
      intro h0
      have := f2.1 h0
      omega
  · intro hcall
    have hfree := deleteFromRBTree_success_freeFunc hcall (by decide)
    by_cases hk : ∃ d ∈ T.inorder, cmp x d = 0
    · obtain ⟨st2, T', l1, l2, e, e1, r', i', -, -, -, s1, s2, -, -, -, hp⟩ :=
        deleteFromRBTree_found_nodes hc st T hrep hinv hcmp hfree x hk
      rw [e1] at hcall
      simp only [Option.some.injEq, Prod.mk.injEq, true_and] at hcall
      subst hcall
      obtain ⟨f1, f2, f3⟩ := r'.root_facts
      have hs : st2.size = T'.size := by omega
      exact ⟨T, T', hrep, r', hs, hp, by rw [hs]; exact f2, f1, f3⟩
    · rw [deleteFromRBTree_absent hc st T hrep hinv.sorted hcmp x
        (fun d hd e => hk ⟨d, hd, e⟩)] at hcall
      simp only [Option.some.injEq, Prod.mk.injEq] at hcall
      exact absurd hcall.1.symm hne

theorem root_reaches_every_node_witness :
    Valid compInt sampleState ∧
    insertToRBTree sampleState (some 7) = some (SUCCESS, sampleState57) ∧
    deleteFromRBTree sampleState 5 = some (SUCCESS, sampleStateEmptied) ∧
    (∃ T T' : Tree Int, Represents sampleState T ∧ Represents sampleState57 T' ∧
        sampleState57.size = T'.size ∧
        T'.addrs.Perm (sampleState.heap.length :: T.addrs) ∧ sampleState57.root ≠ none ∧
        (∀ a, sampleState57.root = some a →
          ∃ n, sampleState57.heap.read a = some n ∧ n.parent = none) ∧
        ∀ a ∈ T'.addrs, Reach sampleState57.heap sampleState57.root a) ∧
    (∃ T T' : Tree Int, Represents sampleState T ∧ Represents sampleStateEmptied T' ∧
        sampleStateEmptied.size = T'.size ∧
        (∃ a, T.addrs.Perm (a :: T'.addrs)) ∧
        (sampleStateEmptied.root = none ↔ sampleStateEmptied.size = 0) ∧
        (∀ a, sampleStateEmptied.root = some a →
          ∃ n, sampleStateEmptied.heap.read a = some n ∧ n.parent = none) ∧
        ∀ a ∈ T'.addrs, Reach sampleStateEmptied.heap sampleStateEmptied.root a) :=
  ⟨⟨sampleTree, sampleState_represents, sampleTree_inv, rfl⟩, rfl, rfl,
    (root_reaches_every_node compInt_total sampleState sampleState57
      ⟨sampleTree, sampleState_represents, sampleTree_inv, rfl⟩ rfl 7).1 rfl,
    (root_reaches_every_node compInt_total sampleState sampleStateEmptied
      ⟨sampleTree, sampleState_represents, sampleTree_inv, rfl⟩ rfl 5).2 rfl⟩

/-- C28: in a tree without RED-RED pair and with equal black counts, a RED node with at most
one child has no child at all.  When moreover the root is BLACK and the tree is laid out in
the heap of a handle with a disposer, `deleteNode` on such a node (Case 1) returns: the node
is unlinked from its parent and freed, its payload is the one disposed, every other node
stays in the tree, and the remaining tree has a BLACK root, no RED-RED pair, equal black
counts on all paths and the black count of the tree before. -/
theorem red_node_delete_leaf (st : State α) (fuel : Nat) (ctx : Ctx α) (l r : Tree α)
    (m : Nat) (d : α)
    (hnrr : (ctx.plug (Tree.node l m Color.RED d r)).NoRedRed)
    (hbal : (ctx.plug (Tree.node l m Color.RED d r)).Balanced)
    (hone : l.ptr = none ∨ r.ptr = none) :
    l = Tree.nil ∧ r = Tree.nil ∧
    ((ctx.plug (Tree.node l m Color.RED d r)).rootColor = Color.BLACK →
      RepT st.heap (ctx.plug (Tree.node l m Color.RED d r)) →
      st.root = (ctx.plug (Tree.node l m Color.RED d r)).ptr → st.freeFunc = true →
      ∃ h', deleteNode fuel st (some m) ctx.addr ctx.sibPtr
            (if l.ptr ≠ none then l.ptr else r.ptr) =
          some { st with heap := h', freed := st.freed ++ [d] } ∧
        RepT h' (ctx.plug Tree.nil) ∧
        (ctx.plug (Tree.node l m Color.RED d r)).addrs.Perm (m :: (ctx.plug Tree.nil).addrs) ∧
        (ctx.plug (Tree.node l m Color.RED d r)).inorder = ctx.before ++ d :: ctx.after ∧
        (ctx.plug Tree.nil).inorder = ctx.before ++ ctx.after ∧
        (ctx.plug Tree.nil).rootColor = Color.BLACK ∧ (ctx.plug Tree.nil).NoRedRed ∧
        (ctx.plug Tree.nil).Balanced ∧
        (ctx.plug Tree.nil).bh = (ctx.plug (Tree.node l m Color.RED d r)).bh) := by
  obtain ⟨n1, n2, n3⟩ := (noRedRed_plug _ _).1 hnrr
  obtain ⟨b1, b2⟩ := (balanced_plug _ _).1 hbal
  simp only [Tree.NoRedRed, true_implies] at n1
  simp only [Tree.Balanced] at b1
  have hl : l = Tree.nil := by
    rcases hone with h | h
    · exact Tree.ptr_eq_none.1 h
    · have hr0 := Tree.ptr_eq_none.1 h
      subst hr0
      exact Tree.eq_nil_of_black_bh n1.1.1 (by rw [b1.1]; rfl)
  subst hl
  have hr0 : r = Tree.nil := Tree.eq_nil_of_black_bh n1.1.2 (by rw [← b1.1]; rfl)
  subst hr0
  refine ⟨rfl, rfl, fun hroot hr hrt hfree => ?_⟩
  have hne := Ctx.addr_ne_none_of_root hroot rfl
  have e : delNodeT fuel ctx (Tree.node Tree.nil m Color.RED d Tree.nil) =
      some (ctx.plug Tree.nil, m) := by
    simp only [delNodeT, if_true, hne, if_false]
  obtain ⟨h', e1, r1⟩ := deleteNode_refines fuel _ _ hr hrt hfree e
  simp only [hne, false_and, if_false] at e1
  refine ⟨h', e1, r1, ?_, ?_, ?_, ?_, ?_, ?_, ?_⟩
  · rw [List.perm_iff_count]
    intro x
    simp only [count_addrs_plug, List.count_cons, Tree.addrs, List.count_append,
      List.count_nil, List.nil_append]
    omega
  · simp [inorder_plug, Tree.inorder]
  · simp [inorder_plug, Tree.inorder]
  · rw [rootColor_plug] at hroot ⊢
    rw [Ctx.rootColor_of_addr ctx _ Color.RED hne]
    exact hroot
  · rw [noRedRed_plug]
    exact ⟨trivial, n2, fun _ => rfl⟩
  · rw [balanced_plug]
    exact ⟨trivial, b2⟩
  · exact Ctx.plug_bh_congr ctx rfl

theorem red_node_delete_leaf_witness :
    (Tree.node Tree.nil 1 Color.RED (7 : Int) Tree.nil) = Tree.node Tree.nil 1 Color.RED 7 Tree.nil ∧
    ∃ h', deleteNode 0 sampleState57 (some 1) (some 0) none none =
        some { sampleState57 with heap := h', freed := [7] } ∧
      RepT h' sampleTree := by
  obtain ⟨-, -, hh⟩ := red_node_delete_leaf sampleState57 0
    (Ctx.right Tree.nil 0 Color.BLACK 5 Ctx.top) Tree.nil Tree.nil 1 7
    (by simp [Tree.NoRedRed]) (by simp [Tree.Balanced, Tree.bh]) (Or.inl rfl)
  obtain ⟨h', e, r1, -⟩ := hh rfl
    ⟨⟨rfl, trivial, ⟨rfl, trivial, trivial⟩⟩, by simp [Tree.addrs]⟩ rfl rfl
  exact ⟨rfl, h', e, r1⟩

/-- C29: in a tree without RED-RED pair and with equal black counts, laid out in the heap of a
handle with a disposer, let `m` be a BLACK node whose single child `C` is RED.  Then `C` is a
leaf, and `deleteNode` (Case 2: swap the payloads of `m` and `C`, unlink and free `C`)
returns with a tree that has, position by position, the colours and payloads of the
specified tree `spliceChild` (the child in the slot of `m`, recoloured BLACK); it has the
black count of the tree before, equal black counts on all paths and no RED-RED pair, the only
node that leaves the tree is the cell of `C`, and the payload disposed is the original
payload of `m`. -/
theorem delete_black_with_red_child (st : State α) (fuel : Nat) (ctx : Ctx α) (l r C : Tree α)
    (m : Nat) (d : α)
    (hside : (l = C ∧ r = Tree.nil) ∨ (l = Tree.nil ∧ r = C))
    (hred : C.rootColor = Color.RED)
    (hnrr : (ctx.plug (Tree.node l m Color.BLACK d r)).NoRedRed)
    (hbal : (ctx.plug (Tree.node l m Color.BLACK d r)).Balanced)
    (hr : RepT st.heap (ctx.plug (Tree.node l m Color.BLACK d r)))
    (hroot : st.root = (ctx.plug (Tree.node l m Color.BLACK d r)).ptr)
    (hfree : st.freeFunc = true) :
    ∃ (ca : Nat) (cd : α) (h' : Heap α),
      C = Tree.node Tree.nil ca Color.RED cd Tree.nil ∧
      findChild st.heap (some m) = some (some ca) ∧
      deleteNode fuel st (some m) ctx.addr ctx.sibPtr (some ca) =
        some { st with heap := h', freed := st.freed ++ [d] } ∧
      RepT h' (ctx.plug (Tree.node Tree.nil m Color.BLACK cd Tree.nil)) ∧
      (ctx.plug (Tree.node Tree.nil m Color.BLACK cd Tree.nil)).skeleton =
        (spliceChild ctx C).skeleton ∧
      (ctx.plug (Tree.node Tree.nil m Color.BLACK cd Tree.nil)).bh =
        (ctx.plug (Tree.node l m Color.BLACK d r)).bh ∧
      (ctx.plug (Tree.node Tree.nil m Color.BLACK cd Tree.nil)).Balanced ∧
      (ctx.plug (Tree.node Tree.nil m Color.BLACK cd Tree.nil)).NoRedRed ∧
      (ctx.plug (Tree.node Tree.nil m Color.BLACK cd Tree.nil)).rootColor =
        (ctx.plug (Tree.node l m Color.BLACK d r)).rootColor ∧
      (ctx.plug (Tree.node l m Color.BLACK d r)).addrs.Perm
        (ca :: (ctx.plug (Tree.node Tree.nil m Color.BLACK cd Tree.nil)).addrs) := by
  obtain ⟨n1, n2, n3⟩ := (noRedRed_plug _ _).1 hnrr
  obtain ⟨b1, b2⟩ := (balanced_plug _ _).1 hbal
  simp only [Tree.NoRedRed, reduceCtorEq, false_implies, true_and] at n1
  simp only [Tree.Balanced] at b1
  have hCne : C.ptr ≠ none := by
    cases C with
    | nil => simp at hred
    | node _ _ _ _ _ => simp
  have hm := hr.read_focus
  have hnd := hr.nodup_focus
  rcases hside with ⟨rfl, rfl⟩ | ⟨rfl, rfl⟩
  · obtain ⟨ca, cd, rfl⟩ := Tree.red_leaf_of_bh hCne (by rw [b1.1]; rfl) n1.1 b1.2.1
    have cm := nd_count hnd m
    simp only [Tree.addrs, List.count_append, List.count_cons, beq_iff_eq, if_true,
      List.count_nil, List.nil_append] at cm
    have hcam : ca ≠ m := by
      rintro rfl
      simp at cm
    have e : delNodeT fuel ctx (Tree.node (Tree.node Tree.nil ca Color.RED cd Tree.nil) m
        Color.BLACK d Tree.nil) =
        some (ctx.plug (Tree.node Tree.nil m Color.BLACK cd Tree.nil), ca) := by
      simp only [delNodeT, reduceCtorEq, if_false, if_true]
    obtain ⟨h', e1, r1⟩ := deleteNode_refines fuel _ _ hr hroot hfree e
    simp only [hcam, and_false, if_false, Tree.ptr_node, ne_eq, reduceCtorEq,
      not_false_eq_true, if_true] at e1
    refine ⟨ca, cd, h', rfl, ?_, e1, r1, ?_, ?_, ?_, ?_, ?_, ?_⟩
    · simp [findChild, hm]
    · exact Ctx.plug_skeleton_congr ctx (by simp [Tree.skeleton, Tree.setColor])
    · exact Ctx.plug_bh_congr ctx (by simp [Tree.bh])
    · rw [balanced_plug]
      exact ⟨by simp [Tree.Balanced, Tree.bh], by simpa [Tree.bh] using b2⟩
    · rw [noRedRed_plug]
      exact ⟨by simp [Tree.NoRedRed], n2, by simp⟩
    · rw [rootColor_plug, rootColor_plug]; rfl
    · refine (addrs_plug ctx _).trans ?_
      refine (List.Perm.trans ?_ (List.Perm.cons ca (addrs_plug ctx _).symm))
      simp only [Tree.addrs, List.nil_append, List.singleton_append]
      exact List.perm_middle
  · obtain ⟨ca, cd, rfl⟩ := Tree.red_leaf_of_bh hCne (by rw [← b1.1]; rfl) n1.2 b1.2.2
    have cm := nd_count hnd m
    simp only [Tree.addrs, List.count_append, List.count_cons, beq_iff_eq, if_true,
      List.count_nil, List.nil_append] at cm
    have hcam : ca ≠ m := by
      rintro rfl
      simp at cm
    have e : delNodeT fuel ctx (Tree.node Tree.nil m Color.BLACK d
        (Tree.node Tree.nil ca Color.RED cd Tree.nil)) =
        some (ctx.plug (Tree.node Tree.nil m Color.BLACK cd Tree.nil), ca) := by
      simp only [delNodeT, reduceCtorEq, if_false, if_true]
    obtain ⟨h', e1, r1⟩ := deleteNode_refines fuel _ _ hr hroot hfree e
    simp only [hcam, and_false, if_false, Tree.ptr_node, Tree.ptr_nil, ne_eq,
      not_true_eq_false] at e1
    refine ⟨ca, cd, h', rfl, ?_, e1, r1, ?_, ?_, ?_, ?_, ?_, ?_⟩
    · simp [findChild, hm]
    · exact Ctx.plug_skeleton_congr ctx (by simp [Tree.skeleton, Tree.setColor])
    · exact Ctx.plug_bh_congr ctx (by simp [Tree.bh])
    · rw [balanced_plug]
      exact ⟨by simp [Tree.Balanced, Tree.bh], by simpa [Tree.bh] using b2⟩
    · rw [noRedRed_plug]
      exact ⟨by simp [Tree.NoRedRed], n2, by simp⟩
    · rw [rootColor_plug, rootColor_plug]; rfl
    · rw [List.perm_iff_count]
      intro x
      simp only [count_addrs_plug, List.count_cons, Tree.addrs, List.count_append,
        List.count_nil, List.nil_append]
      omega

theorem delete_black_with_red_child_witness :
    ∃ (ca : Nat) (cd : Int) (h' : Heap Int),
      Tree.node Tree.nil 1 Color.RED (3 : Int) Tree.nil =
        Tree.node Tree.nil ca Color.RED cd Tree.nil ∧
      deleteNode 0 sampleState53 (some 0) none none (some ca) =
        some { sampleState53 with heap := h', freed := [5] } ∧
      RepT h' (Tree.node Tree.nil 0 Color.BLACK cd Tree.nil) := by
  obtain ⟨ca, cd, h', e0, -, e1, r1, -⟩ := delete_black_with_red_child sampleState53 0 Ctx.top
    (Tree.node Tree.nil 1 Color.RED 3 Tree.nil) Tree.nil
    (Tree.node Tree.nil 1 Color.RED 3 Tree.nil) 0 5 (Or.inl ⟨rfl, rfl⟩) rfl
    (by simp [Tree.NoRedRed]) (by simp [Tree.Balanced, Tree.bh])
    ⟨⟨rfl, ⟨rfl, trivial, trivial⟩, trivial⟩, by simp [Tree.addrs]⟩ rfl rfl
  exact ⟨ca, cd, h', e0, e1, r1⟩

/-- A terminal step of the repair: when the shape function ends at once with the subtree
`G'` in the place of the grandparent, so does the code, and the tree is valid. -/
theorem repairRBTree_terminal (fuel : Nat) (h : Heap α) (ctx up : Ctx α) (t G' : Tree α)
    (hh : InsHole ctx t) (hr : RepT h (ctx.plug t))
    (e : ∀ F, repairT (F + 1) ctx t = some (up.plug G')) :
    ∃ h', repairRBTree (fuel + 1) h t.ptr = some h' ∧ RepT h' (up.plug G') ∧
      (up.plug G').rootColor = Color.BLACK ∧ (up.plug G').NoRedRed ∧ (up.plug G').Balanced ∧
      G'.NoRedRed ∧ G'.Balanced ∧ (up.plug G').inorder = (ctx.plug t).inorder := by
  obtain ⟨h', e1, r1⟩ := repairRBTree_refines (fuel + 1) h ctx t _ hr (e fuel)
  obtain ⟨T', e2, v1, v2, v3, v4, -⟩ := repairT_valid (ctx.depth + 1) ctx t (by omega) hh
  rw [e ctx.depth] at e2
  simp only [Option.some.injEq] at e2
  subst e2
  exact ⟨h', e1, r1, v1, v2, v3, ((noRedRed_plug _ _).1 v2).1, ((balanced_plug _ _).1 v3).1, v4⟩

theorem InsHole.grand_black_left {up : Ctx α} {g p : Nat} {gc : Color} {gd pd : α}
    {u ps t : Tree α} (hh : InsHole (Ctx.left (Ctx.left up g gc gd u) p Color.RED pd ps) t) :
    gc = Color.BLACK := by
  have := hh.cnrr
  simp only [Ctx.NRR, Ctx.color_left, true_implies] at this
  exact this.2.1.2

theorem InsHole.grand_black_left_right {up : Ctx α} {g p : Nat} {gc : Color} {gd pd : α}
    {u ps t : Tree α} (hh : InsHole (Ctx.right ps p Color.RED pd (Ctx.left up g gc gd u)) t) :
    gc = Color.BLACK := by
  have := hh.cnrr
  simp only [Ctx.NRR, Ctx.color_left, true_implies] at this
  exact this.2.1.2

theorem InsHole.grand_black_right_left {up : Ctx α} {g p : Nat} {gc : Color} {gd pd : α}
    {u ps t : Tree α} (hh : InsHole (Ctx.left (Ctx.right u g gc gd up) p Color.RED pd ps) t) :
    gc = Color.BLACK := by
  have := hh.cnrr
  simp only [Ctx.NRR, Ctx.color_right, true_implies] at this
  exact this.2.1.2

theorem InsHole.grand_black_right {up : Ctx α} {g p : Nat} {gc : Color} {gd pd : α}
    {u ps t : Tree α} (hh : InsHole (Ctx.right ps p Color.RED pd (Ctx.right u g gc gd up)) t) :
    gc = Color.BLACK := by
  have := hh.cnrr
  simp only [Ctx.NRR, Ctx.color_right, true_implies] at this
  exact this.2.1.2

/-- C26: insertion repair, Case D.  The node `n` is RED, its parent `p` is RED, the uncle `u`
is BLACK or absent, and the tree is valid except for the pair `n`/`p`.  For each of the four
shapes (left-left, left-right, right-left, right-right) `repairRBTree` returns already with
fuel 1, that is without a recursive call.  The subtree that was rooted at the grandparent
`g` is then rooted at a BLACK node (`p` in the outer shapes, `n` in the inner ones) whose two
children are RED, one of them `g`; it contains no RED-RED pair, has equal black counts on
all paths and the black count it had before; the whole tree has a BLACK root, no RED-RED
pair, equal black counts and the same in-order payloads. -/
theorem repair_case_D (fuel : Nat) (h : Heap α) (up : Ctx α) (l r ps u : Tree α)
    (n p g : Nat) (gc : Color) (d pd gd : α) (hu : u.rootColor = Color.BLACK) :
    (InsHole (Ctx.left (Ctx.left up g gc gd u) p Color.RED pd ps) (Tree.node l n Color.RED d r) →
      RepT h ((Ctx.left (Ctx.left up g gc gd u) p Color.RED pd ps).plug
        (Tree.node l n Color.RED d r)) →
      ∃ h', repairRBTree (fuel + 1) h (some n) = some h' ∧
        RepT h' (up.plug (Tree.node (Tree.node l n Color.RED d r) p Color.BLACK pd
          (Tree.node ps g Color.RED gd u))) ∧
        (up.plug (Tree.node (Tree.node l n Color.RED d r) p Color.BLACK pd
          (Tree.node ps g Color.RED gd u))).rootColor = Color.BLACK ∧
        (up.plug (Tree.node (Tree.node l n Color.RED d r) p Color.BLACK pd
          (Tree.node ps g Color.RED gd u))).NoRedRed ∧
        (up.plug (Tree.node (Tree.node l n Color.RED d r) p Color.BLACK pd
          (Tree.node ps g Color.RED gd u))).Balanced ∧
        (Tree.node (Tree.node l n Color.RED d r) p Color.BLACK pd
          (Tree.node ps g Color.RED gd u)).NoRedRed ∧
        (Tree.node (Tree.node l n Color.RED d r) p Color.BLACK pd
          (Tree.node ps g Color.RED gd u)).Balanced ∧
        (Tree.node (Tree.node l n Color.RED d r) p Color.BLACK pd
          (Tree.node ps g Color.RED gd u)).bh =
          (Tree.node (Tree.node (Tree.node l n Color.RED d r) p Color.RED pd ps) g gc gd u).bh) ∧
    (InsHole (Ctx.right ps p Color.RED pd (Ctx.left up g gc gd u)) (Tree.node l n Color.RED d r) →
      RepT h ((Ctx.right ps p Color.RED pd (Ctx.left up g gc gd u)).plug
        (Tree.node l n Color.RED d r)) →
      ∃ h', repairRBTree (fuel + 1) h (some n) = some h' ∧
        RepT h' (up.plug (Tree.node (Tree.node ps p Color.RED pd l) n Color.BLACK d
          (Tree.node r g Color.RED gd u))) ∧
        (up.plug (Tree.node (Tree.node ps p Color.RED pd l) n Color.BLACK d
          (Tree.node r g Color.RED gd u))).rootColor = Color.BLACK ∧
        (up.plug (Tree.node (Tree.node ps p Color.RED pd l) n Color.BLACK d
          (Tree.node r g Color.RED gd u))).NoRedRed ∧
        (up.plug (Tree.node (Tree.node ps p Color.RED pd l) n Color.BLACK d
          (Tree.node r g Color.RED gd u))).Balanced ∧
        (Tree.node (Tree.node ps p Color.RED pd l) n Color.BLACK d
          (Tree.node r g Color.RED gd u)).NoRedRed ∧
        (Tree.node (Tree.node ps p Color.RED pd l) n Color.BLACK d
          (Tree.node r g Color.RED gd u)).Balanced ∧
        (Tree.node (Tree.node ps p Color.RED pd l) n Color.BLACK d
          (Tree.node r g Color.RED gd u)).bh =
          (Tree.node (Tree.node ps p Color.RED pd (Tree.node l n Color.RED d r)) g gc gd u).bh) ∧
    (InsHole (Ctx.left (Ctx.right u g gc gd up) p Color.RED pd ps) (Tree.node l n Color.RED d r) →
      RepT h ((Ctx.left (Ctx.right u g gc gd up) p Color.RED pd ps).plug
        (Tree.node l n Color.RED d r)) →
      ∃ h', repairRBTree (fuel + 1) h (some n) = some h' ∧
        RepT h' (up.plug (Tree.node (Tree.node u g Color.RED gd l) n Color.BLACK d
          (Tree.node r p Color.RED pd ps))) ∧
        (up.plug (Tree.node (Tree.node u g Color.RED gd l) n Color.BLACK d
          (Tree.node r p Color.RED pd ps))).rootColor = Color.BLACK ∧
        (up.plug (Tree.node (Tree.node u g Color.RED gd l) n Color.BLACK d
          (Tree.node r p Color.RED pd ps))).NoRedRed ∧
        (up.plug (Tree.node (Tree.node u g Color.RED gd l) n Color.BLACK d
          (Tree.node r p Color.RED pd ps))).Balanced ∧
        (Tree.node (Tree.node u g Color.RED gd l) n Color.BLACK d
          (Tree.node r p Color.RED pd ps)).NoRedRed ∧
        (Tree.node (Tree.node u g Color.RED gd l) n Color.BLACK d
          (Tree.node r p Color.RED pd ps)).Balanced ∧
        (Tree.node (Tree.node u g Color.RED gd l) n Color.BLACK d
          (Tree.node r p Color.RED pd ps)).bh =
          (Tree.node u g gc gd (Tree.node (Tree.node l n Color.RED d r) p Color.RED pd ps)).bh) ∧
    (InsHole (Ctx.right ps p Color.RED pd (Ctx.right u g gc gd up)) (Tree.node l n Color.RED d r) →
      RepT h ((Ctx.right ps p Color.RED pd (Ctx.right u g gc gd up)).plug
        (Tree.node l n Color.RED d r)) →
      ∃ h', repairRBTree (fuel + 1) h (some n) = some h' ∧
        RepT h' (up.plug (Tree.node (Tree.node u g Color.RED gd ps) p Color.BLACK pd
          (Tree.node l n Color.RED d r))) ∧
        (up.plug (Tree.node (Tree.node u g Color.RED gd ps) p Color.BLACK pd
          (Tree.node l n Color.RED d r))).rootColor = Color.BLACK ∧
        (up.plug (Tree.node (Tree.node u g Color.RED gd ps) p Color.BLACK pd
          (Tree.node l n Color.RED d r))).NoRedRed ∧
        (up.plug (Tree.node (Tree.node u g Color.RED gd ps) p Color.BLACK pd
          (Tree.node l n Color.RED d r))).Balanced ∧
        (Tree.node (Tree.node u g Color.RED gd ps) p Color.BLACK pd
          (Tree.node l n Color.RED d r)).NoRedRed ∧
        (Tree.node (Tree.node u g Color.RED gd ps) p Color.BLACK pd
          (Tree.node l n Color.RED d r)).Balanced ∧
        (Tree.node (Tree.node u g Color.RED gd ps) p Color.BLACK pd
          (Tree.node l n Color.RED d r)).bh =
          (Tree.node u g gc gd (Tree.node ps p Color.RED pd (Tree.node l n Color.RED d r))).bh) := by
  have hur : ¬ u.rootColor = Color.RED := by rw [hu]; decide
  refine ⟨fun hh hr => ?_, fun hh hr => ?_, fun hh hr => ?_, fun hh hr => ?_⟩
  · obtain ⟨h', e1, r1, v1, v2, v3, v4, v5, -⟩ := repairRBTree_terminal fuel h _ up _ _ hh hr
      (fun F => by simp only [repairT, hur, if_false]; rfl)
    have hg := hh.grand_black_left
    subst hg
    exact ⟨h', e1, r1, v1, v2, v3, v4, v5, by simp [Tree.bh]⟩
  · obtain ⟨h', e1, r1, v1, v2, v3, v4, v5, -⟩ := repairRBTree_terminal fuel h _ up _ _ hh hr
      (fun F => by simp only [repairT, hur, if_false]; rfl)
    have hg := hh.grand_black_left_right
    subst hg
    exact ⟨h', e1, r1, v1, v2, v3, v4, v5, by simp [Tree.bh]⟩
  · obtain ⟨h', e1, r1, v1, v2, v3, v4, v5, -⟩ := repairRBTree_terminal fuel h _ up _ _ hh hr
      (fun F => by simp only [repairT, hur, if_false]; rfl)
    have hg := hh.grand_black_right_left
    subst hg
    exact ⟨h', e1, r1, v1, v2, v3, v4, v5, by simp [Tree.bh]⟩
  · obtain ⟨h', e1, r1, v1, v2, v3, v4, v5, -⟩ := repairRBTree_terminal fuel h _ up _ _ hh hr
      (fun F => by simp only [repairT, hur, if_false]; rfl)
    have hg := hh.grand_black_right
    subst hg
    exact ⟨h', e1, r1, v1, v2, v3, v4, v5, by simp [Tree.bh]⟩

theorem repair_case_D_witness :
    ∃ h', repairRBTree 1 chainHeap (some 2) = some h' ∧
      RepT h' (Tree.node (Tree.node Tree.nil 0 Color.RED 10 Tree.nil) 1 Color.BLACK 20
        (Tree.node Tree.nil 2 Color.RED 30 Tree.nil)) := by
  obtain ⟨h', e, r1, -⟩ := (repair_case_D 0 chainHeap Ctx.top Tree.nil Tree.nil Tree.nil
    Tree.nil 2 1 0 Color.BLACK 30 20 10 rfl).2.2.2
    ⟨rfl, by simp [Tree.NoRedRed], by simp [Tree.Balanced],
      by simp [Ctx.Bal, Tree.bh, Tree.Balanced], by simp [Ctx.NRR, Tree.NoRedRed], rfl⟩
    ⟨⟨rfl, trivial, ⟨rfl, trivial, ⟨rfl, trivial, trivial⟩⟩⟩, by simp [Tree.addrs]⟩
  exact ⟨h', e, r1⟩

/-- The shape function follows `fixNext`. -/
theorem fixT_next : ∀ (ctx : Ctx α) (t : Tree α) (ctx' : Ctx α) (t' : Tree α) (fuel : Nat),
    fixNext ctx t = some (ctx', t') → fixT (fuel + 1) ctx t = fixT fuel ctx' t'
  | Ctx.top, _, _, _, _, e => by simp [fixNext] at e
  | Ctx.left _ _ _ _ Tree.nil, _, _, _, _, e => by simp [fixNext] at e
  | Ctx.right Tree.nil _ _ _ _, _, _, _, _, e => by simp [fixNext] at e
  | Ctx.left up p pc pd (Tree.node sl s sc sd sr), t, ctx', t', fuel, e => by
    simp only [fixNext] at e
    simp only [fixT]
    split_ifs at e ⊢ with c1 c2 c3 c4
    · simp only [Option.some.injEq, Prod.mk.injEq] at e
      obtain ⟨rfl, rfl⟩ := e; rfl
    · simp only [Option.some.injEq, Prod.mk.injEq] at e
      obtain ⟨rfl, rfl⟩ := e; rfl
    · cases sl with
      | nil => simp at e
      | node sll n nc nd slr =>
        simp only [Option.some.injEq, Prod.mk.injEq] at e
        obtain ⟨rfl, rfl⟩ := e; rfl
  | Ctx.right (Tree.node sl s sc sd sr) p pc pd up, t, ctx', t', fuel, e => by
    simp only [fixNext] at e
    simp only [fixT]
    split_ifs at e ⊢ with c1 c2 c3 c4
    · simp only [Option.some.injEq, Prod.mk.injEq] at e
      obtain ⟨rfl, rfl⟩ := e; rfl
    · simp only [Option.some.injEq, Prod.mk.injEq] at e
      obtain ⟨rfl, rfl⟩ := e; rfl
    · cases sr with
      | nil => simp at e
      | node srl n nc nd srr =>
        simp only [Option.some.injEq, Prod.mk.injEq] at e
        obtain ⟨rfl, rfl⟩ := e; rfl

/-- Where `fixNext` gives no further call, the shape function does not depend on the fuel
left. -/
theorem fixT_last : ∀ (ctx : Ctx α) (t : Tree α) (fuel : Nat),
    fixNext ctx t = none → fixT (fuel + 1) ctx t = fixT 1 ctx t
  | Ctx.top, _, _, _ => rfl
  | Ctx.left _ _ _ _ Tree.nil, _, _, _ => rfl
  | Ctx.right Tree.nil _ _ _ _, _, _, _ => rfl
  | Ctx.left up p pc pd (Tree.node sl s sc sd sr), t, fuel, e => by
    simp only [fixNext] at e
    simp only [fixT]
    split_ifs at e ⊢ with c1 c2 c3 c4
    · rfl
    · cases sl with
      | nil => rfl
      | node sll n nc nd slr => simp at e
    · rfl
  | Ctx.right (Tree.node sl s sc sd sr) p pc pd up, t, fuel, e => by
    simp only [fixNext] at e
    simp only [fixT]
    split_ifs at e ⊢ with c1 c2 c3 c4
    · rfl
    · cases sr with
      | nil => rfl
      | node srl n nc nd srr => simp at e
    · rfl

set_option maxHeartbeats 8000000 in
/-- The code follows `fixNext`: where it gives a next state, `fixTreeStructure` recolours
and rotates and then makes its recursive call with the parent and the sibling of that
state. -/
theorem fixTreeStructure_next {h : Heap α} : ∀ (ctx : Ctx α) (t : Tree α) (ctx' : Ctx α)
    (t' : Tree α), RepT h (ctx.plug t) → fixNext ctx t = some (ctx', t') →
    ∃ h', RepT h' (ctx'.plug t') ∧
      ∀ fuel, fixTreeStructure (fuel + 1) h ctx.addr ctx.sibPtr =
        fixTreeStructure fuel h' ctx'.addr ctx'.sibPtr
  | Ctx.top, _, _, _, _, e => by simp [fixNext] at e
  | Ctx.left _ _ _ _ Tree.nil, _, _, _, _, e => by simp [fixNext] at e
  | Ctx.right Tree.nil _ _ _ _, _, _, _, _, e => by simp [fixNext] at e
  | Ctx.left up p pc pd (Tree.node sl s sc sd sr), t, ctx', t', hr, e => by
    have hp := RepT.read_focus (K := up) hr
    have hs := RepT.read_focus (K := (Ctx.right t p pc pd up)) hr
    have hbl := RepT.isNullOrBlack_focus (K := (Ctx.left (Ctx.right t p pc pd up) s sc sd sr)) (t := sl) hr
    have hbr := RepT.isNullOrBlack_focus (K := (Ctx.right sl s sc sd (Ctx.right t p pc pd up))) (t := sr) hr
    have hrl := RepT.isRed_focus (K := (Ctx.left (Ctx.right t p pc pd up) s sc sd sr)) (t := sl) hr
    have hrr := RepT.isRed_focus (K := (Ctx.right sl s sc sd (Ctx.right t p pc pd up))) (t := sr) hr
    have cs := nd_count hr.nodup_focus s
    simp only [Tree.addrs, Ctx.addrs, List.count_append, List.count_cons, beq_iff_eq,
      if_true, List.count_nil] at cs
    have hts : t.ptr ≠ some s := by
      have : t.addrs.count s = 0 := by omega
      simpa using Tree.ptr_ne_count this
    simp only [fixNext] at e
    cases sc with
    | RED =>
      simp only [reduceCtorEq, false_and, if_false, if_true, Option.some.injEq,
        Prod.mk.injEq] at e
      obtain ⟨rfl, rfl⟩ := e
      obtain ⟨h1, e1, r1⟩ := RepT.setColor_focus (K := (Ctx.right t p pc pd up)) hr Color.BLACK
      obtain ⟨h2, e2, r2⟩ := RepT.setColor_focus (K := up) r1 Color.RED
      have hp2 := RepT.read_focus (K := up) r2
      obtain ⟨h3, e3, r3⟩ := RepT.leftRotation_focus (K := up) r2
      have hp3 := RepT.read_focus (K := (Ctx.left up s Color.BLACK sd sr)) r3
      refine ⟨h3, r3, fun fuel => ?_⟩
      simp only [fixTreeStructure, deref, hs, hp, e1, e2, hp2, hts, hts.symm, e3, hp3, Option.bind_eq_bind, Option.some_bind, Option.pure_def, Tree.ptr_node, Tree.ptr_nil, if_false, if_true, reduceCtorEq, decide_False, decide_True, ne_eq, not_true_eq_false, not_false_eq_true, Bool.false_eq_true, Option.some.injEq, Ctx.addr_left, Ctx.addr_right, Ctx.addr_top, Ctx.sibPtr_left, Ctx.sibPtr_right, Ctx.sibPtr_top, or_self, or_false, false_or, and_self, and_true, true_and, and_false, false_and, Tree.rootColor_node, Tree.rootColor_nil]
    | BLACK =>
      by_cases hb : sl.rootColor = Color.BLACK ∧ sr.rootColor = Color.BLACK
      · simp only [hb, and_self, if_true] at e
        simp only [hb.1, hb.2] at hbl hbr
        obtain ⟨h1, e1, r1⟩ := RepT.setColor_focus (K := (Ctx.right t p pc pd up)) hr Color.RED
        have hp1 := RepT.read_focus (K := up) r1
        cases pc with
        | RED => simp at e
        | BLACK =>
          simp only [reduceCtorEq, if_false, Option.some.injEq, Prod.mk.injEq] at e
          obtain ⟨rfl, rfl⟩ := e
          have hsib := RepT.findSibling_focus (K := up) r1
          refine ⟨h1, r1, fun fuel => ?_⟩
          simp only [fixTreeStructure, deref, hs, hp, hbl, hbr, e1, hp1, hsib, Option.bind_eq_bind, Option.some_bind, Option.pure_def, Tree.ptr_node, Tree.ptr_nil, if_false, if_true, reduceCtorEq, decide_False, decide_True, ne_eq, not_true_eq_false, not_false_eq_true, Bool.false_eq_true, Option.some.injEq, Ctx.addr_left, Ctx.addr_right, Ctx.addr_top, Ctx.sibPtr_left, Ctx.sibPtr_right, Ctx.sibPtr_top, or_self, or_false, false_or, and_self, and_true, true_and, and_false, false_and, Tree.rootColor_node, Tree.rootColor_nil]
      · simp only [hb, and_false, if_false, reduceCtorEq] at e
        by_cases hd : sl.rootColor = Color.RED ∧ sr.rootColor = Color.BLACK
        · simp only [hd, and_self, if_true] at e
          simp only [hd.1, hd.2] at hbl hbr hrl hrr
          cases sl with
          | nil => simp at e
          | node sll n nc nd slr =>
            simp only [Option.some.injEq, Prod.mk.injEq] at e
            obtain ⟨rfl, rfl⟩ := e
            simp only [Tree.rootColor_node] at hd
            obtain ⟨hd1, hd2⟩ := hd
            subst hd1
            simp only [Tree.ptr_node, Tree.rootColor_node, reduceCtorEq, decide_True,
              decide_False] at hbl hbr hrl hrr hs hp
            obtain ⟨h1, e1, r1⟩ := RepT.setColor_focus (K := (Ctx.left (Ctx.right t p pc pd up) s Color.BLACK sd sr)) hr
              Color.BLACK
            obtain ⟨h2, e2, r2⟩ := RepT.setColor_focus (K := (Ctx.right t p pc pd up)) r1 Color.RED
            have hp2 := RepT.read_focus (K := up) r2
            obtain ⟨h3, e3, r3⟩ := RepT.rightRotation_focus (K := (Ctx.right t p pc pd up)) r2
            refine ⟨h3, r3, fun fuel => ?_⟩
            simp only [fixTreeStructure, deref, hs, hp, hbl, hbr, hrl, hrr, e1, e2, hp2, hts,
              hts.symm, e3, Option.bind_eq_bind, Option.some_bind, Option.pure_def, Tree.ptr_node, Tree.ptr_nil, if_false, if_true, reduceCtorEq, decide_False, decide_True, ne_eq, not_true_eq_false, not_false_eq_true, Bool.false_eq_true, Option.some.injEq, Ctx.addr_left, Ctx.addr_right, Ctx.addr_top, Ctx.sibPtr_left, Ctx.sibPtr_right, Ctx.sibPtr_top, or_self, or_false, false_or, and_self, and_true, true_and, and_false, false_and, Tree.rootColor_node, Tree.rootColor_nil]
        · simp only [hd, if_false, reduceCtorEq] at e
  | Ctx.right (Tree.node sl s sc sd sr) p pc pd up, t, ctx', t', hr, e => by
    have hp := RepT.read_focus (K := up) hr
    have hs := RepT.read_focus (K := (Ctx.left up p pc pd t)) hr
    have hbl := RepT.isNullOrBlack_focus (K := (Ctx.left (Ctx.left up p pc pd t) s sc sd sr)) (t := sl) hr
    have hbr := RepT.isNullOrBlack_focus (K := (Ctx.right sl s sc sd (Ctx.left up p pc pd t))) (t := sr) hr
    have hrl := RepT.isRed_focus (K := (Ctx.left (Ctx.left up p pc pd t) s sc sd sr)) (t := sl) hr
    have hrr := RepT.isRed_focus (K := (Ctx.right sl s sc sd (Ctx.left up p pc pd t))) (t := sr) hr
    have cs := nd_count hr.nodup_focus s
    simp only [Tree.addrs, Ctx.addrs, List.count_append, List.count_cons, beq_iff_eq,
      if_true, List.count_nil] at cs
    have hts : t.ptr ≠ some s := by
      have : t.addrs.count s = 0 := by omega
      simpa using Tree.ptr_ne_count this
    simp only [fixNext] at e
    cases sc with
    | RED =>
      simp only [reduceCtorEq, false_and, if_false, if_true, Option.some.injEq,
        Prod.mk.injEq] at e
      obtain ⟨rfl, rfl⟩ := e
      obtain ⟨h1, e1, r1⟩ := RepT.setColor_focus (K := (Ctx.left up p pc pd t)) hr Color.BLACK
      obtain ⟨h2, e2, r2⟩ := RepT.setColor_focus (K := up) r1 Color.RED
      have hp2 := RepT.read_focus (K := up) r2
      obtain ⟨h3, e3, r3⟩ := RepT.rightRotation_focus (K := up) r2
      have hp3 := RepT.read_focus (K := (Ctx.right sl s Color.BLACK sd up)) r3
      refine ⟨h3, r3, fun fuel => ?_⟩
      simp only [fixTreeStructure, deref, hs, hp, e1, e2, hp2, hts, hts.symm, e3, hp3, Option.bind_eq_bind, Option.some_bind, Option.pure_def, Tree.ptr_node, Tree.ptr_nil, if_false, if_true, reduceCtorEq, decide_False, decide_True, ne_eq, not_true_eq_false, not_false_eq_true, Bool.false_eq_true, Option.some.injEq, Ctx.addr_left, Ctx.addr_right, Ctx.addr_top, Ctx.sibPtr_left, Ctx.sibPtr_right, Ctx.sibPtr_top, or_self, or_false, false_or, and_self, and_true, true_and, and_false, false_and, Tree.rootColor_node, Tree.rootColor_nil]
    | BLACK =>
      by_cases hb : sl.rootColor = Color.BLACK ∧ sr.rootColor = Color.BLACK
      · simp only [hb, and_self, if_true] at e
        simp only [hb.1, hb.2] at hbl hbr
        obtain ⟨h1, e1, r1⟩ := RepT.setColor_focus (K := (Ctx.left up p pc pd t)) hr Color.RED
        have hp1 := RepT.read_focus (K := up) r1
        cases pc with
        | RED => simp at e
        | BLACK =>
          simp only [reduceCtorEq, if_false, Option.some.injEq, Prod.mk.injEq] at e
          obtain ⟨rfl, rfl⟩ := e
          have hsib := RepT.findSibling_focus (K := up) r1
          refine ⟨h1, r1, fun fuel => ?_⟩
          simp only [fixTreeStructure, deref, hs, hp, hbl, hbr, e1, hp1, hsib, Option.bind_eq_bind, Option.some_bind, Option.pure_def, Tree.ptr_node, Tree.ptr_nil, if_false, if_true, reduceCtorEq, decide_False, decide_True, ne_eq, not_true_eq_false, not_false_eq_true, Bool.false_eq_true, Option.some.injEq, Ctx.addr_left, Ctx.addr_right, Ctx.addr_top, Ctx.sibPtr_left, Ctx.sibPtr_right, Ctx.sibPtr_top, or_self, or_false, false_or, and_self, and_true, true_and, and_false, false_and, Tree.rootColor_node, Tree.rootColor_nil]
      · simp only [hb, and_false, if_false, reduceCtorEq] at e
        by_cases hd : sr.rootColor = Color.RED ∧ sl.rootColor = Color.BLACK
        · simp only [hd, and_self, if_true] at e
          simp only [hd.1, hd.2] at hbl hbr hrl hrr
          cases sr with
          | nil => simp at e
          | node srl n nc nd srr =>
            simp only [Option.some.injEq, Prod.mk.injEq] at e
            obtain ⟨rfl, rfl⟩ := e
            simp only [Tree.rootColor_node] at hd
            obtain ⟨hd1, hd2⟩ := hd
            subst hd1
            simp only [Tree.ptr_node, Tree.rootColor_node, reduceCtorEq, decide_True,
              decide_False] at hbl hbr hrl hrr hs hp
            obtain ⟨h1, e1, r1⟩ := RepT.setColor_focus (K := (Ctx.right sl s Color.BLACK sd (Ctx.left up p pc pd t))) hr
              Color.BLACK
            obtain ⟨h2, e2, r2⟩ := RepT.setColor_focus (K := (Ctx.left up p pc pd t)) r1 Color.RED
            have hp2 := RepT.read_focus (K := up) r2
            obtain ⟨h3, e3, r3⟩ := RepT.leftRotation_focus (K := (Ctx.left up p pc pd t)) r2
            refine ⟨h3, r3, fun fuel => ?_⟩
            simp only [fixTreeStructure, deref, hs, hp, hbl, hbr, hrl, hrr, e1, e2, hp2, hts,
              hts.symm, e3, Option.bind_eq_bind, Option.some_bind, Option.pure_def, Tree.ptr_node, Tree.ptr_nil, if_false, if_true, reduceCtorEq, decide_False, decide_True, ne_eq, not_true_eq_false, not_false_eq_true, Bool.false_eq_true, Option.some.injEq, Ctx.addr_left, Ctx.addr_right, Ctx.addr_top, Ctx.sibPtr_left, Ctx.sibPtr_right, Ctx.sibPtr_top, or_self, or_false, false_or, and_self, and_true, true_and, and_false, false_and, Tree.rootColor_node, Tree.rootColor_nil]
        · simp only [hd, if_false, reduceCtorEq] at e

/-- In a state that satisfies the deletion invariant the sibling is absent only when the
parent is. -/
theorem DelHole.sibling_present {ctx : Ctx α} {t : Tree α} (hh : DelHole ctx t)
    (hs : ctx.sibPtr = none) : ctx.addr = none := by
  cases ctx with
  | top => rfl
  | left up p pc pd s =>
    have := hh.cbal
    simp only [Ctx.sibPtr_left] at hs
    rw [Tree.ptr_eq_none.1 hs] at this
    simp [Ctx.Bal, Tree.bh] at this
  | right s p pc pd up =>
    have := hh.cbal
    simp only [Ctx.sibPtr_right] at hs
    rw [Tree.ptr_eq_none.1 hs] at this
    simp [Ctx.Bal, Tree.bh] at this

set_option maxHeartbeats 2000000 in
/-- The deletion invariant holds again in the state of the recursive call. -/
theorem DelHole.next : ∀ (ctx : Ctx α) (t : Tree α) (ctx' : Ctx α) (t' : Tree α),
    DelHole ctx t → fixNext ctx t = some (ctx', t') → DelHole ctx' t'
  | Ctx.top, _, _, _, _, e => by simp [fixNext] at e
  | Ctx.left _ _ _ _ Tree.nil, _, _, _, _, e => by simp [fixNext] at e
  | Ctx.right Tree.nil _ _ _ _, _, _, _, _, e => by simp [fixNext] at e
  | Ctx.left up p pc pd (Tree.node sl s sc sd sr), t, ctx', t', hh, e => by
    simp only [fixNext] at e
    cases sc with
    | RED =>
      simp only [reduceCtorEq, false_and, if_false, if_true, Option.some.injEq,
        Prod.mk.injEq] at e
      obtain ⟨rfl, rfl⟩ := e
      obtain ⟨h1, h2, h3, h4, h5, h6⟩ := hh
      simp only [Ctx.Bal, Ctx.NRR, Ctx.rootColor, Ctx.color_left, Ctx.color_right,
        Tree.rootColor_node, Tree.Balanced, Tree.NoRedRed, Tree.bh, reduceCtorEq, if_false,
        Nat.add_zero, true_implies, false_and, imp_false, Color.ne_red] at h4 h5 h6
      obtain ⟨b1, ⟨b2, b3, b4⟩, b5⟩ := h4
      obtain ⟨⟨⟨n0, n0'⟩, n1, n2⟩, n3, n4⟩ := h5
      subst n3
      simp only [if_true] at b5
      exact ⟨h1, h2, h3, by simp [Ctx.Bal, Tree.Balanced, Tree.bh, *] <;> omega,
        by simp [Ctx.NRR, Tree.NoRedRed, *], by simpa [Ctx.rootColor] using h6⟩
    | BLACK =>
      by_cases hb : sl.rootColor = Color.BLACK ∧ sr.rootColor = Color.BLACK
      · simp only [hb, and_self, if_true] at e
        cases pc with
        | RED => simp at e
        | BLACK =>
          simp only [reduceCtorEq, if_false, Option.some.injEq, Prod.mk.injEq] at e
          obtain ⟨rfl, rfl⟩ := e
          obtain ⟨c2, c3⟩ := hb
          obtain ⟨h1, h2, h3, h4, h5, h6⟩ := hh
          simp only [Ctx.Bal, Ctx.NRR, Ctx.rootColor, Ctx.color_left, Ctx.color_right,
            Tree.rootColor_node, Tree.Balanced, Tree.NoRedRed, Tree.bh, reduceCtorEq, if_true,
            false_implies, true_and] at h4 h5 h6
          obtain ⟨b1, ⟨b2, b3, b4⟩, b5⟩ := h4
          obtain ⟨⟨n1, n2⟩, n4⟩ := h5
          exact ⟨rfl, by simp [Tree.NoRedRed, *],
            by simp [Tree.Balanced, Tree.bh, *] <;> omega,
            by refine cast (congrArg up.Bal ?_) b5; simp only [Tree.bh, reduceCtorEq, if_true, if_false] <;> omega, n4, h6⟩
      · simp only [hb, and_false, if_false, reduceCtorEq] at e
        by_cases hd : sl.rootColor = Color.RED ∧ sr.rootColor = Color.BLACK
        · simp only [hd, and_self, if_true] at e
          cases sl with
          | nil => simp at e
          | node sll n nc nd slr =>
            simp only [Option.some.injEq, Prod.mk.injEq] at e
            obtain ⟨rfl, rfl⟩ := e
            simp only [Tree.rootColor_node] at hd
            obtain ⟨hd1, hd2⟩ := hd
            subst hd1
            obtain ⟨h1, h2, h3, h4, h5, h6⟩ := hh
            simp only [Ctx.Bal, Ctx.NRR, Ctx.rootColor, Ctx.color_left, Ctx.color_right,
              Tree.rootColor_node, Tree.Balanced, Tree.NoRedRed, Tree.bh, reduceCtorEq,
              if_true, if_false, Nat.add_zero, true_implies, false_implies, true_and] at h4 h5 h6
            obtain ⟨b1, ⟨b2, ⟨b3, b3', b3''⟩, b4⟩, b5⟩ := h4
            obtain ⟨⟨⟨⟨n0, n0'⟩, n1, n1'⟩, n2⟩, n3, n4⟩ := h5
            refine ⟨h1, h2, h3, ?_, ?_, h6⟩
            · simp only [Ctx.Bal, Tree.Balanced, Tree.bh, reduceCtorEq, if_true, if_false,
                Nat.add_zero]
              exact ⟨by omega, ⟨by omega, b3', by omega, b3'', b4⟩, b5⟩
            · simp only [Ctx.NRR, Tree.NoRedRed, Tree.rootColor_node, reduceCtorEq,
                false_implies, true_implies, true_and]
              exact ⟨⟨n1, ⟨n0', hd2⟩, n1', n2⟩, n3, n4⟩
        · simp only [hd, if_false, reduceCtorEq] at e
  | Ctx.right (Tree.node sl s sc sd sr) p pc pd up, t, ctx', t', hh, e => by
    simp only [fixNext] at e
    cases sc with
    | RED =>
      simp only [reduceCtorEq, false_and, if_false, if_true, Option.some.injEq,
        Prod.mk.injEq] at e
      obtain ⟨rfl, rfl⟩ := e
      obtain ⟨h1, h2, h3, h4, h5, h6⟩ := hh
      simp only [Ctx.Bal, Ctx.NRR, Ctx.rootColor, Ctx.color_left, Ctx.color_right,
        Tree.rootColor_node, Tree.Balanced, Tree.NoRedRed, Tree.bh, reduceCtorEq, if_false,
        Nat.add_zero, true_implies, false_and, imp_false, Color.ne_red] at h4 h5 h6
      obtain ⟨b1, ⟨b2, b3, b4⟩, b5⟩ := h4
      obtain ⟨⟨⟨n0, n0'⟩, n1, n2⟩, n3, n4⟩ := h5
      subst n3
      simp only [if_true] at b5
      exact ⟨h1, h2, h3, by simp [Ctx.Bal, Tree.Balanced, Tree.bh, *] <;> omega,
        by simp [Ctx.NRR, Tree.NoRedRed, *], by simpa [Ctx.rootColor] using h6⟩
    | BLACK =>
      by_cases hb : sl.rootColor = Color.BLACK ∧ sr.rootColor = Color.BLACK
      · simp only [hb, and_self, if_true] at e
        cases pc with
        | RED => simp at e
        | BLACK =>
          simp only [reduceCtorEq, if_false, Option.some.injEq, Prod.mk.injEq] at e
          obtain ⟨rfl, rfl⟩ := e
          obtain ⟨c2, c3⟩ := hb
          obtain ⟨h1, h2, h3, h4, h5, h6⟩ := hh
          simp only [Ctx.Bal, Ctx.NRR, Ctx.rootColor, Ctx.color_left, Ctx.color_right,
            Tree.rootColor_node, Tree.Balanced, Tree.NoRedRed, Tree.bh, reduceCtorEq, if_true,
            false_implies, true_and] at h4 h5 h6
          obtain ⟨b1, ⟨b2, b3, b4⟩, b5⟩ := h4
          obtain ⟨⟨n1, n2⟩, n4⟩ := h5
          exact ⟨rfl, by simp [Tree.NoRedRed, *],
            by simp [Tree.Balanced, Tree.bh, *] <;> omega,
            by refine cast (congrArg up.Bal ?_) b5; simp only [Tree.bh, reduceCtorEq, if_true, if_false] <;> omega, n4, h6⟩
      · simp only [hb, and_false, if_false, reduceCtorEq] at e
        by_cases hd : sr.rootColor = Color.RED ∧ sl.rootColor = Color.BLACK
        · simp only [hd, and_self, if_true] at e
          cases sr with
          | nil => simp at e
          | node srl n nc nd srr =>
            simp only [Option.some.injEq, Prod.mk.injEq] at e
            obtain ⟨rfl, rfl⟩ := e
            simp only [Tree.rootColor_node] at hd
            obtain ⟨hd1, hd2⟩ := hd
            subst hd1
            obtain ⟨h1, h2, h3, h4, h5, h6⟩ := hh
            simp only [Ctx.Bal, Ctx.NRR, Ctx.rootColor, Ctx.color_left, Ctx.color_right,
              Tree.rootColor_node, Tree.Balanced, Tree.NoRedRed, Tree.bh, reduceCtorEq,
              if_true, if_false, Nat.add_zero, true_implies, false_implies, true_and] at h4 h5 h6
            obtain ⟨b1, ⟨b2, b3, ⟨b4, b4', b4''⟩⟩, b5⟩ := h4
            obtain ⟨⟨n1, ⟨⟨n0, n0'⟩, n2, n2'⟩⟩, n3, n4⟩ := h5
            refine ⟨h1, h2, h3, ?_, ?_, h6⟩
            · simp only [Ctx.Bal, Tree.Balanced, Tree.bh, reduceCtorEq, if_true, if_false,
                Nat.add_zero]
              exact ⟨by omega, ⟨by omega, ⟨by omega, b3, b4'⟩, b4''⟩, b5⟩
            · simp only [Ctx.NRR, Tree.NoRedRed, Tree.rootColor_node, reduceCtorEq,
                false_implies, true_implies, true_and]
              exact ⟨⟨⟨⟨hd2, n0⟩, n1, n2⟩, n2'⟩, n3, n4⟩
        · simp only [hd, if_false, reduceCtorEq] at e

/-- Cases 3b-i, 3d and 3e on the left: the repair ends within two calls and changes nothing
above the parent. -/
theorem fixT_local_left (fuel : Nat) (up : Ctx α) (p : Nat) (pc : Color) (pd : α)
    (sl : Tree α) (s : Nat) (sd : α) (sr t : Tree α)
    (hcase : pc = Color.RED ∨ sl.rootColor = Color.RED ∨ sr.rootColor = Color.RED) :
    ∃ X, fixT (fuel + 2) (Ctx.left up p pc pd (Tree.node sl s Color.BLACK sd sr)) t =
      some (up.plug X) := by
  simp only [fixT, true_and]
  by_cases hb : sl.rootColor = Color.BLACK ∧ sr.rootColor = Color.BLACK
  · have hpc : pc = Color.RED := by
      rcases hcase with h | h | h
      · exact h
      · rw [hb.1] at h; cases h
      · rw [hb.2] at h; cases h
    subst hpc
    simp only [hb, and_self, if_true]
    exact ⟨_, rfl⟩
  · simp only [hb, if_false, reduceCtorEq]
    by_cases hd : sl.rootColor = Color.RED ∧ sr.rootColor = Color.BLACK
    · simp only [hd, and_self, if_true]
      obtain ⟨hd1, hd2⟩ := hd
      cases sl with
      | nil => simp at hd1
      | node sll n nc nd slr =>
        simp only [fixT, Tree.rootColor_node, reduceCtorEq, and_false, false_and, if_false,
          and_self, if_true, hd2]
        exact ⟨_, rfl⟩
    · simp only [hd, if_false]
      have hfar : sr.rootColor = Color.RED := by
        cases hx : sl.rootColor <;> cases hy : sr.rootColor <;> simp_all
      cases sr with
      | nil => simp at hfar
      | node srl f fc fd srr =>
        simp only [Tree.rootColor_node] at hfar
        subst hfar
        simp only [if_true]
        exact ⟨_, rfl⟩

/-- Cases 3b-i, 3d and 3e on the right. -/
theorem fixT_local_right (fuel : Nat) (up : Ctx α) (p : Nat) (pc : Color) (pd : α)
    (sl : Tree α) (s : Nat) (sd : α) (sr t : Tree α)
    (hcase : pc = Color.RED ∨ sl.rootColor = Color.RED ∨ sr.rootColor = Color.RED) :
    ∃ X, fixT (fuel + 2) (Ctx.right (Tree.node sl s Color.BLACK sd sr) p pc pd up) t =
      some (up.plug X) := by
  simp only [fixT, true_and]
  by_cases hb : sl.rootColor = Color.BLACK ∧ sr.rootColor = Color.BLACK
  · have hpc : pc = Color.RED := by
      rcases hcase with h | h | h
      · exact h
      · rw [hb.1] at h; cases h
      · rw [hb.2] at h; cases h
    subst hpc
    simp only [hb, and_self, if_true]
    exact ⟨_, rfl⟩
  · simp only [hb, if_false, reduceCtorEq]
    by_cases hd : sr.rootColor = Color.RED ∧ sl.rootColor = Color.BLACK
    · simp only [hd, and_self, if_true]
      obtain ⟨hd1, hd2⟩ := hd
      cases sr with
      | nil => simp at hd1
      | node srl n nc nd srr =>
        simp only [fixT, Tree.rootColor_node, reduceCtorEq, and_false, false_and, if_false,
          and_self, if_true, hd2]
        exact ⟨_, rfl⟩
    · simp only [hd, if_false]
      have hfar : sl.rootColor = Color.RED := by
        cases hx : sl.rootColor <;> cases hy : sr.rootColor <;> simp_all
      cases sl with
      | nil => simp at hfar
      | node sll f fc fd slr =>
        simp only [Tree.rootColor_node] at hfar
        subst hfar
        simp only [if_true]
        exact ⟨_, rfl⟩

/-- The state in which `deleteNode` calls `fixTreeStructure`: after a BLACK leaf that is not
the root has been unlinked and freed, the deletion invariant holds with an empty subtree in
the place of the leaf, and the rest of `deleteNode` is that call. -/
theorem deleteNode_calls_fix {st : State α} {ctx : Ctx α} {m : Nat} {d : α}
    (hr : RepT st.heap (ctx.plug (Tree.node Tree.nil m Color.BLACK d Tree.nil)))
    (hroot : st.root = (ctx.plug (Tree.node Tree.nil m Color.BLACK d Tree.nil)).ptr)
    (hfree : st.freeFunc = true)
    (hrc : (ctx.plug (Tree.node Tree.nil m Color.BLACK d Tree.nil)).rootColor = Color.BLACK)
    (hnrr : (ctx.plug (Tree.node Tree.nil m Color.BLACK d Tree.nil)).NoRedRed)
    (hbal : (ctx.plug (Tree.node Tree.nil m Color.BLACK d Tree.nil)).Balanced)
    (hne : ctx.addr ≠ none) :
    ∃ h1, RepT h1 (ctx.plug Tree.nil) ∧ DelHole ctx Tree.nil ∧
      ∀ fuel, deleteNode fuel st (some m) ctx.addr ctx.sibPtr none =
        (fixTreeStructure fuel h1 ctx.addr ctx.sibPtr).bind
          (fun h2 => some { st with heap := h2, freed := st.freed ++ [d] }) := by
  have hm := hr.read_focus
  have hpm := hr.findPtrToChild_focus
  have hrm : st.root ≠ some m := hroot ▸ hr.root_ne_focus hne
  obtain ⟨st1, h1, e0, e1, r1⟩ := hr.detach_focus hne hfree
  obtain ⟨n1, n2, n3⟩ := (noRedRed_plug _ _).1 hnrr
  obtain ⟨b1, b2⟩ := (balanced_plug _ _).1 hbal
  rw [rootColor_plug] at hrc
  refine ⟨h1, r1, ⟨rfl, trivial, trivial, by simpa [Tree.bh] using b2, n2, hrc⟩, fun fuel => ?_⟩
  have hx : findPtrToChild st.heap none = some none := rfl
  have hcr : isRed st.heap none = some false := rfl
  simp only [deleteNode, hpm, hx, deref, hm, hcr, hrm, e0, e1, Option.bind_eq_bind,
    Option.some_bind, Option.pure_def, Tree.ptr_node, Tree.ptr_nil, if_false, if_true,
    reduceCtorEq, decide_False, decide_True, ne_eq, not_true_eq_false, not_false_eq_true,
    Bool.false_eq_true, Option.some.injEq]

/-- C31: every call of `fixTreeStructure(p, s)` that arises from a deletion on a valid tree
is made in a state that satisfies the deletion invariant `DelHole`, and in such a state the
sibling `s` is absent only when the parent `p` is absent.  First part: the call made by
`deleteNode` (removed node a BLACK leaf that is not the root) is made in such a state.
Second part: in such a state either no recursive call is made (the call returns with fuel 1)
or the recursive call is again made in such a state. -/
theorem fix_sibling_absent_only_at_root (st : State α) (h : Heap α) (ctx : Ctx α)
    (t : Tree α) (m : Nat) (d : α) :
    (RepT st.heap (ctx.plug (Tree.node Tree.nil m Color.BLACK d Tree.nil)) →
      st.root = (ctx.plug (Tree.node Tree.nil m Color.BLACK d Tree.nil)).ptr →
      st.freeFunc = true →
      (ctx.plug (Tree.node Tree.nil m Color.BLACK d Tree.nil)).rootColor = Color.BLACK →
      (ctx.plug (Tree.node Tree.nil m Color.BLACK d Tree.nil)).NoRedRed →
      (ctx.plug (Tree.node Tree.nil m Color.BLACK d Tree.nil)).Balanced →
      ctx.addr ≠ none →
      ∃ h1, RepT h1 (ctx.plug Tree.nil) ∧ DelHole ctx Tree.nil ∧ ctx.sibPtr ≠ none ∧
        ∀ fuel, deleteNode fuel st (some m) ctx.addr ctx.sibPtr none =
          (fixTreeStructure fuel h1 ctx.addr ctx.sibPtr).bind
            (fun h2 => some { st with heap := h2, freed := st.freed ++ [d] })) ∧
    (RepT h (ctx.plug t) → DelHole ctx t →
      (ctx.sibPtr = none → ctx.addr = none) ∧
      ((fixNext ctx t = none ∧ ∃ h', fixTreeStructure 1 h ctx.addr ctx.sibPtr = some h') ∨
        ∃ h' ctx' t', fixNext ctx t = some (ctx', t') ∧ RepT h' (ctx'.plug t') ∧
          DelHole ctx' t' ∧ (ctx'.sibPtr = none → ctx'.addr = none) ∧
          ∀ fuel, fixTreeStructure (fuel + 1) h ctx.addr ctx.sibPtr =
            fixTreeStructure fuel h' ctx'.addr ctx'.sibPtr)) := by
  constructor
  · intro hr hroot hfree hrc hnrr hbal hne
    obtain ⟨h1, r1, hh, e⟩ := deleteNode_calls_fix hr hroot hfree hrc hnrr hbal hne
    exact ⟨h1, r1, hh, fun hs => hne (hh.sibling_present hs), e⟩
  · intro hr hh
    refine ⟨hh.sibling_present, ?_⟩
    cases hn : fixNext ctx t with
    | none =>
      left
      refine ⟨rfl, ?_⟩
      obtain ⟨T', e, -⟩ := fixT_valid (ctx.depth + 3) ctx t hh (le_refl _)
      rw [fixT_last ctx t _ hn] at e
      obtain ⟨h', e', -⟩ := fixTreeStructure_refines 1 h ctx t T' hr e
      exact ⟨h', e'⟩
    | some x =>
      right
      obtain ⟨ctx', t'⟩ := x
      obtain ⟨h', r', e'⟩ := fixTreeStructure_next ctx t ctx' t' hr hn
      have hh' := DelHole.next ctx t ctx' t' hh hn
      exact ⟨h', ctx', t', rfl, r', hh', hh'.sibling_present, e'⟩

theorem fix_sibling_absent_only_at_root_witness :
    ((Ctx.left Ctx.top 1 Color.BLACK (20 : Int)
        (Tree.node Tree.nil 2 Color.BLACK 30 Tree.nil)).sibPtr = none →
      (Ctx.left Ctx.top 1 Color.BLACK (20 : Int)
        (Tree.node Tree.nil 2 Color.BLACK 30 Tree.nil)).addr = none) ∧
    ((fixNext (Ctx.left Ctx.top 1 Color.BLACK (20 : Int)
        (Tree.node Tree.nil 2 Color.BLACK 30 Tree.nil)) Tree.nil = none ∧
      ∃ h', fixTreeStructure 1 blackSiblingHeap (some 1) (some 2) = some h') ∨
      ∃ h' ctx' t', fixNext (Ctx.left Ctx.top 1 Color.BLACK (20 : Int)
          (Tree.node Tree.nil 2 Color.BLACK 30 Tree.nil)) Tree.nil = some (ctx', t') ∧
        RepT h' (ctx'.plug t') ∧ DelHole ctx' t' ∧ (ctx'.sibPtr = none → ctx'.addr = none) ∧
        ∀ fuel, fixTreeStructure (fuel + 1) blackSiblingHeap (some 1) (some 2) =
          fixTreeStructure fuel h' ctx'.addr ctx'.sibPtr) :=
  (fix_sibling_absent_only_at_root sampleState blackSiblingHeap
    (Ctx.left Ctx.top 1 Color.BLACK 20 (Tree.node Tree.nil 2 Color.BLACK 30 Tree.nil))
    Tree.nil 0 0).2
    ⟨⟨rfl, trivial, ⟨rfl, trivial, trivial⟩⟩, by simp [Tree.addrs]⟩
    ⟨rfl, trivial, trivial, by simp [Ctx.Bal, Tree.bh, Tree.Balanced],
      by simp [Ctx.NRR, Tree.NoRedRed], rfl⟩

theorem Tree.ptr_ne_none_of_bh {t : Tree α} (hb : 0 < t.bh) : t.ptr ≠ none := by
  cases t with
  | nil => simp [Tree.bh] at hb
  | node _ _ _ _ _ => simp

/-- C32: deletion fixup, case 3c.  The sibling `s` is RED in a state that satisfies the
deletion invariant.  Then `p` was BLACK, `fixTreeStructure` recolours `s` BLACK and `p` RED,
rotates `p`, and makes its recursive call with `p` and the former near child of `s`; that
node is present and BLACK, `p` is RED in the new tree, and the invariant holds again.  The
recursive call returns with fuel 2 (case 3b-i or 3e at once, or case 3d followed by 3e); the
tree it leaves differs from the tree before only below the new parent `s` of `p` and is a
valid red-black shape with the same payloads and nodes.  The statement has one conjunct for
each side of the deficient subtree. -/
theorem fix_case_3c (h : Heap α) (up : Ctx α) (p s : Nat) (pc : Color) (pd sd : α)
    (sl sr t : Tree α) :
    (RepT h ((Ctx.left up p pc pd (Tree.node sl s Color.RED sd sr)).plug t) →
      DelHole (Ctx.left up p pc pd (Tree.node sl s Color.RED sd sr)) t →
      pc = Color.BLACK ∧ sl.ptr ≠ none ∧ sl.rootColor = Color.BLACK ∧
      ∃ h3, RepT h3 ((Ctx.left (Ctx.left up s Color.BLACK sd sr) p Color.RED pd sl).plug t) ∧
        DelHole (Ctx.left (Ctx.left up s Color.BLACK sd sr) p Color.RED pd sl) t ∧
        (∀ fuel, fixTreeStructure (fuel + 1) h (some p) (some s) =
          fixTreeStructure fuel h3 (some p) sl.ptr) ∧
        ∃ h' X, fixTreeStructure 2 h3 (some p) sl.ptr = some h' ∧
          RepT h' ((Ctx.left up s Color.BLACK sd sr).plug X) ∧
          Good ((Ctx.left up s Color.BLACK sd sr).plug X)
            ((Ctx.left up p pc pd (Tree.node sl s Color.RED sd sr)).plug t)) ∧
    (RepT h ((Ctx.right (Tree.node sl s Color.RED sd sr) p pc pd up).plug t) →
      DelHole (Ctx.right (Tree.node sl s Color.RED sd sr) p pc pd up) t →
      pc = Color.BLACK ∧ sr.ptr ≠ none ∧ sr.rootColor = Color.BLACK ∧
      ∃ h3, RepT h3 ((Ctx.right sr p Color.RED pd (Ctx.right sl s Color.BLACK sd up)).plug t) ∧
        DelHole (Ctx.right sr p Color.RED pd (Ctx.right sl s Color.BLACK sd up)) t ∧
        (∀ fuel, fixTreeStructure (fuel + 1) h (some p) (some s) =
          fixTreeStructure fuel h3 (some p) sr.ptr) ∧
        ∃ h' X, fixTreeStructure 2 h3 (some p) sr.ptr = some h' ∧
          RepT h' ((Ctx.right sl s Color.BLACK sd up).plug X) ∧
          Good ((Ctx.right sl s Color.BLACK sd up).plug X)
            ((Ctx.right (Tree.node sl s Color.RED sd sr) p pc pd up).plug t)) := by
  constructor
  · intro hr hh
    have hn : fixNext (Ctx.left up p pc pd (Tree.node sl s Color.RED sd sr)) t =
        some (Ctx.left (Ctx.left up s Color.BLACK sd sr) p Color.RED pd sl, t) := by
      simp [fixNext]
    have hh' := DelHole.next _ _ _ _ hh hn
    obtain ⟨h3, r3, e3⟩ := fixTreeStructure_next _ _ _ _ hr hn
    have hpc : pc = Color.BLACK := by
      have := hh.cnrr
      simp only [Ctx.NRR, Tree.rootColor_node, reduceCtorEq, false_and, imp_false,
        Color.ne_red] at this
      exact this.2.1
    have hslc : sl.rootColor = Color.BLACK := by
      have := hh.cnrr
      simp only [Ctx.NRR, Tree.NoRedRed, true_implies] at this
      exact this.1.1.1
    have hslb : 0 < sl.bh := by
      have := hh.cbal
      simp only [Ctx.Bal, Tree.bh, reduceCtorEq, if_false, Nat.add_zero] at this
      omega
    have hslp := Tree.ptr_ne_none_of_bh hslb
    refine ⟨hpc, hslp, hslc, h3, r3, hh', e3, ?_⟩
    cases sl with
    | nil => simp at hslp
    | node sll n nc nd slr =>
      simp only [Tree.rootColor_node] at hslc
      subst hslc
      obtain ⟨X, eX⟩ := fixT_local_left 0 (Ctx.left up s Color.BLACK sd sr) p Color.RED pd
        sll n nd slr t (Or.inl rfl)
      obtain ⟨T', e1, g⟩ := fixT_terminal_left 0 (Ctx.left up s Color.BLACK sd sr) p Color.RED
        pd sll n nd slr t hh' (Or.inl rfl)
      rw [eX] at e1
      simp only [Option.some.injEq] at e1
      subst e1
      obtain ⟨h', e', r'⟩ := fixTreeStructure_refines 2 h3 _ t _ r3 eX
      refine ⟨h', X, e', r', ?_⟩
      obtain ⟨g1, g2, g3, g4, g5⟩ := g
      refine ⟨g1, g2, g3, ?_, ?_⟩
      · rw [g4]; simp [inorder_plug, Tree.inorder, Ctx.before, Ctx.after]
      · intro x; rw [g5]; simp [count_addrs_plug, Tree.addrs, Ctx.addrs]; try omega
  · intro hr hh
    have hn : fixNext (Ctx.right (Tree.node sl s Color.RED sd sr) p pc pd up) t =
        some (Ctx.right sr p Color.RED pd (Ctx.right sl s Color.BLACK sd up), t) := by
      simp [fixNext]
    have hh' := DelHole.next _ _ _ _ hh hn
    obtain ⟨h3, r3, e3⟩ := fixTreeStructure_next _ _ _ _ hr hn
    have hpc : pc = Color.BLACK := by
      have := hh.cnrr
      simp only [Ctx.NRR, Tree.rootColor_node, reduceCtorEq, false_and, imp_false,
        Color.ne_red] at this
      exact this.2.1
    have hsrc : sr.rootColor = Color.BLACK := by
      have := hh.cnrr
      simp only [Ctx.NRR, Tree.NoRedRed, true_implies] at this
      exact this.1.1.2
    have hsrb : 0 < sr.bh := by
      have := hh.cbal
      simp only [Ctx.Bal, Tree.bh, Tree.Balanced, reduceCtorEq, if_false, Nat.add_zero] at this
      omega
    have hsrp := Tree.ptr_ne_none_of_bh hsrb
    refine ⟨hpc, hsrp, hsrc, h3, r3, hh', e3, ?_⟩
    cases sr with
    | nil => simp at hsrp
    | node srl n nc nd srr =>
      simp only [Tree.rootColor_node] at hsrc
      subst hsrc
      obtain ⟨X, eX⟩ := fixT_local_right 0 (Ctx.right sl s Color.BLACK sd up) p Color.RED pd
        srl n nd srr t (Or.inl rfl)
      obtain ⟨T', e1, g⟩ := fixT_terminal_right 0 (Ctx.right sl s Color.BLACK sd up) p
        Color.RED pd srl n nd srr t hh' (Or.inl rfl)
      rw [eX] at e1
      simp only [Option.some.injEq] at e1
      subst e1
      obtain ⟨h', e', r'⟩ := fixTreeStructure_refines 2 h3 _ t _ r3 eX
      refine ⟨h', X, e', r', ?_⟩
      obtain ⟨g1, g2, g3, g4, g5⟩ := g
      refine ⟨g1, g2, g3, ?_, ?_⟩
      · rw [g4]; simp [inorder_plug, Tree.inorder, Ctx.before, Ctx.after]
      · intro x; rw [g5]; simp [count_addrs_plug, Tree.addrs, Ctx.addrs]; try omega

theorem fix_case_3c_witness :
    ∃ h3, (∀ fuel, fixTreeStructure (fuel + 1) redSiblingHeap (some 1) (some 2) =
        fixTreeStructure fuel h3 (some 1) (some 3)) ∧
      ∃ h' X, fixTreeStructure 2 h3 (some 1) (some 3) = some h' ∧
        RepT h' (Tree.node X 2 Color.BLACK 40 (Tree.node Tree.nil 4 Color.BLACK 50 Tree.nil)) := by
  obtain ⟨-, -, -, h3, -, -, e3, h', X, e', r', -⟩ :=
    (fix_case_3c redSiblingHeap Ctx.top 1 2 Color.BLACK 20 40
      (Tree.node Tree.nil 3 Color.BLACK 30 Tree.nil)
      (Tree.node Tree.nil 4 Color.BLACK 50 Tree.nil) Tree.nil).1
      ⟨⟨rfl, trivial, ⟨rfl, ⟨rfl, trivial, trivial⟩, ⟨rfl, trivial, trivial⟩⟩⟩,
        by simp [Tree.addrs]⟩
      ⟨rfl, trivial, trivial, by simp [Ctx.Bal, Tree.bh, Tree.Balanced],
        by simp [Ctx.NRR, Tree.NoRedRed], rfl⟩
  exact ⟨h3, e3, h', X, e', r'⟩

/-- C33: deletion fixup, case 3d.  The sibling `s` is BLACK, its near child `n` is RED and
its far child is BLACK or absent.  Then `fixTreeStructure` recolours `n` BLACK and `s` RED,
rotates `s`, and makes its recursive call with `p` and `n`: in the tree of that call the
sibling `n` is BLACK and its far child is `s`, which is RED.  The recursive call makes no
further call (`fixNext` gives none, and it returns with fuel 1), and what it does is case
3e: `n` takes the colour of `p`, `p` and `s` become BLACK and `p` is rotated below `n`.  The
statement has one conjunct for each side of the deficient subtree. -/
theorem fix_case_3d (h : Heap α) (up : Ctx α) (p s n : Nat) (pc : Color) (pd sd nd : α)
    (a b c t : Tree α) (hfar : c.rootColor = Color.BLACK) :
    (RepT h ((Ctx.left up p pc pd
        (Tree.node (Tree.node a n Color.RED nd b) s Color.BLACK sd c)).plug t) →
      ∃ h3 h4,
        RepT h3 ((Ctx.left up p pc pd
          (Tree.node a n Color.BLACK nd (Tree.node b s Color.RED sd c))).plug t) ∧
        (∀ fuel, fixTreeStructure (fuel + 1) h (some p) (some s) =
          fixTreeStructure fuel h3 (some p) (some n)) ∧
        fixNext (Ctx.left up p pc pd
          (Tree.node a n Color.BLACK nd (Tree.node b s Color.RED sd c))) t = none ∧
        fixTreeStructure 1 h3 (some p) (some n) = some h4 ∧
        RepT h4 (up.plug (Tree.node (Tree.node t p Color.BLACK pd a) n pc nd
          (Tree.node b s Color.BLACK sd c)))) ∧
    (RepT h ((Ctx.right
        (Tree.node c s Color.BLACK sd (Tree.node b n Color.RED nd a)) p pc pd up).plug t) →
      ∃ h3 h4,
        RepT h3 ((Ctx.right
          (Tree.node (Tree.node c s Color.RED sd b) n Color.BLACK nd a) p pc pd up).plug t) ∧
        (∀ fuel, fixTreeStructure (fuel + 1) h (some p) (some s) =
          fixTreeStructure fuel h3 (some p) (some n)) ∧
        fixNext (Ctx.right
          (Tree.node (Tree.node c s Color.RED sd b) n Color.BLACK nd a) p pc pd up) t = none ∧
        fixTreeStructure 1 h3 (some p) (some n) = some h4 ∧
        RepT h4 (up.plug (Tree.node (Tree.node c s Color.BLACK sd b) n pc nd
          (Tree.node a p Color.BLACK pd t)))) := by
  constructor
  · intro hr
    have hn : fixNext (Ctx.left up p pc pd
        (Tree.node (Tree.node a n Color.RED nd b) s Color.BLACK sd c)) t =
        some (Ctx.left up p pc pd
          (Tree.node a n Color.BLACK nd (Tree.node b s Color.RED sd c)), t) := by
      simp [fixNext, hfar]
    obtain ⟨h3, r3, e3⟩ := fixTreeStructure_next _ _ _ _ hr hn
    have e4 : fixT 1 (Ctx.left up p pc pd
        (Tree.node a n Color.BLACK nd (Tree.node b s Color.RED sd c))) t =
        some (up.plug (Tree.node (Tree.node t p Color.BLACK pd a) n pc nd
          (Tree.node b s Color.BLACK sd c))) := by
      simp [fixT]
    obtain ⟨h4, e5, r5⟩ := fixTreeStructure_refines 1 h3 _ t _ r3 e4
    exact ⟨h3, h4, r3, e3, by simp [fixNext], e5, r5⟩
  · intro hr
    have hn : fixNext (Ctx.right
        (Tree.node c s Color.BLACK sd (Tree.node b n Color.RED nd a)) p pc pd up) t =
        some (Ctx.right
          (Tree.node (Tree.node c s Color.RED sd b) n Color.BLACK nd a) p pc pd up, t) := by
      simp [fixNext, hfar]
    obtain ⟨h3, r3, e3⟩ := fixTreeStructure_next _ _ _ _ hr hn
    have e4 : fixT 1 (Ctx.right
        (Tree.node (Tree.node c s Color.RED sd b) n Color.BLACK nd a) p pc pd up) t =
        some (up.plug (Tree.node (Tree.node c s Color.BLACK sd b) n pc nd
          (Tree.node a p Color.BLACK pd t))) := by
      simp [fixT]
    obtain ⟨h4, e5, r5⟩ := fixTreeStructure_refines 1 h3 _ t _ r3 e4
    exact ⟨h3, h4, r3, e3, by simp [fixNext], e5, r5⟩

theorem fix_case_3d_witness :
    ∃ h3 h4, (∀ fuel, fixTreeStructure (fuel + 1) nearRedHeap (some 1) (some 2) =
        fixTreeStructure fuel h3 (some 1) (some 3)) ∧
      fixTreeStructure 1 h3 (some 1) (some 3) = some h4 ∧
      RepT h4 (Tree.node (Tree.node Tree.nil 1 Color.BLACK 20 Tree.nil) 3 Color.BLACK 30
        (Tree.node Tree.nil 2 Color.BLACK 40 Tree.nil)) := by
  obtain ⟨h3, h4, -, e3, -, e4, r4⟩ :=
    (fix_case_3d nearRedHeap Ctx.top 1 2 3 Color.BLACK 20 40 30 Tree.nil Tree.nil Tree.nil
      Tree.nil rfl).1
      ⟨⟨rfl, trivial, ⟨rfl, ⟨rfl, trivial, trivial⟩, trivial⟩⟩, by simp [Tree.addrs]⟩
  exact ⟨h3, h4, e3, e4, r4⟩

/-- C34: deletion fixup, case 3e.  The sibling `s` is BLACK and its far child `f` is RED, in
a state that satisfies the deletion invariant (the tree is valid except that the subtree `t`
on the removed side of `p` has a black count one too small).  Then `fixTreeStructure`
returns with fuel 1: `s` takes the colour of `p`, `p` and `f` become BLACK and `p` is
rotated below `s`.  The subtree that was rooted at `p` is then rooted at `s` with the former
colour of `p`, has no RED-RED pair inside and equal black counts on all paths, and its black
count is what it was before the deletion (that of the sibling side, plus one when `p` was
BLACK); the whole tree is a valid red-black shape with the same payloads and nodes.  The
statement has one conjunct for each side of the deficient subtree. -/
theorem fix_case_3e (h : Heap α) (up : Ctx α) (p s f : Nat) (pc : Color) (pd sd fd : α)
    (a b c t : Tree α) :
    (RepT h ((Ctx.left up p pc pd
        (Tree.node a s Color.BLACK sd (Tree.node b f Color.RED fd c))).plug t) →
      DelHole (Ctx.left up p pc pd
        (Tree.node a s Color.BLACK sd (Tree.node b f Color.RED fd c))) t →
      ∃ h', fixTreeStructure 1 h (some p) (some s) = some h' ∧
        RepT h' (up.plug (Tree.node (Tree.node t p Color.BLACK pd a) s pc sd
          (Tree.node b f Color.BLACK fd c))) ∧
        (Tree.node (Tree.node t p Color.BLACK pd a) s pc sd
          (Tree.node b f Color.BLACK fd c)).NoRedRed ∧
        (Tree.node (Tree.node t p Color.BLACK pd a) s pc sd
          (Tree.node b f Color.BLACK fd c)).Balanced ∧
        (Tree.node (Tree.node t p Color.BLACK pd a) s pc sd
          (Tree.node b f Color.BLACK fd c)).bh =
          (Tree.node a s Color.BLACK sd (Tree.node b f Color.RED fd c)).bh +
            (if pc = Color.BLACK then 1 else 0) ∧
        (Tree.node a s Color.BLACK sd (Tree.node b f Color.RED fd c)).bh = t.bh + 1 ∧
        Good (up.plug (Tree.node (Tree.node t p Color.BLACK pd a) s pc sd
            (Tree.node b f Color.BLACK fd c)))
          ((Ctx.left up p pc pd
            (Tree.node a s Color.BLACK sd (Tree.node b f Color.RED fd c))).plug t)) ∧
    (RepT h ((Ctx.right
        (Tree.node (Tree.node c f Color.RED fd b) s Color.BLACK sd a) p pc pd up).plug t) →
      DelHole (Ctx.right
        (Tree.node (Tree.node c f Color.RED fd b) s Color.BLACK sd a) p pc pd up) t →
      ∃ h', fixTreeStructure 1 h (some p) (some s) = some h' ∧
        RepT h' (up.plug (Tree.node (Tree.node c f Color.BLACK fd b) s pc sd
          (Tree.node a p Color.BLACK pd t))) ∧
        (Tree.node (Tree.node c f Color.BLACK fd b) s pc sd
          (Tree.node a p Color.BLACK pd t)).NoRedRed ∧
        (Tree.node (Tree.node c f Color.BLACK fd b) s pc sd
          (Tree.node a p Color.BLACK pd t)).Balanced ∧
        (Tree.node (Tree.node c f Color.BLACK fd b) s pc sd
          (Tree.node a p Color.BLACK pd t)).bh =
          (Tree.node (Tree.node c f Color.RED fd b) s Color.BLACK sd a).bh +
            (if pc = Color.BLACK then 1 else 0) ∧
        (Tree.node (Tree.node c f Color.RED fd b) s Color.BLACK sd a).bh = t.bh + 1 ∧
        Good (up.plug (Tree.node (Tree.node c f Color.BLACK fd b) s pc sd
            (Tree.node a p Color.BLACK pd t)))
          ((Ctx.right
            (Tree.node (Tree.node c f Color.RED fd b) s Color.BLACK sd a) p pc pd up).plug t)) := by
  constructor
  · intro hr hh
    have e1 : ∀ F, fixT (F + 1) (Ctx.left up p pc pd
        (Tree.node a s Color.BLACK sd (Tree.node b f Color.RED fd c))) t =
        some (up.plug (Tree.node (Tree.node t p Color.BLACK pd a) s pc sd
          (Tree.node b f Color.BLACK fd c))) := fun F => by simp [fixT]
    obtain ⟨h', e2, r2⟩ := fixTreeStructure_refines 1 h _ t _ hr (e1 0)
    obtain ⟨T', e3, g⟩ := fixT_valid (up.depth + 1 + 3) _ t hh (by simp [Ctx.depth])
    rw [e1] at e3
    simp only [Option.some.injEq] at e3
    subst e3
    have hb := hh.cbal
    simp only [Ctx.Bal] at hb
    have hbal := ((balanced_plug _ _).1 g.2.2.1).1
    refine ⟨h', e2, r2, ((noRedRed_plug _ _).1 g.2.1).1, hbal, ?_, hb.1, g⟩
    simp only [Tree.Balanced, Tree.bh, reduceCtorEq, if_true, if_false, Nat.add_zero] at hbal hb ⊢ <;>
      omega
  · intro hr hh
    have e1 : ∀ F, fixT (F + 1) (Ctx.right
        (Tree.node (Tree.node c f Color.RED fd b) s Color.BLACK sd a) p pc pd up) t =
        some (up.plug (Tree.node (Tree.node c f Color.BLACK fd b) s pc sd
          (Tree.node a p Color.BLACK pd t))) := fun F => by simp [fixT]
    obtain ⟨h', e2, r2⟩ := fixTreeStructure_refines 1 h _ t _ hr (e1 0)
    obtain ⟨T', e3, g⟩ := fixT_valid (up.depth + 1 + 3) _ t hh (by simp [Ctx.depth])
    rw [e1] at e3
    simp only [Option.some.injEq] at e3
    subst e3
    have hb := hh.cbal
    simp only [Ctx.Bal] at hb
    have hbal := ((balanced_plug _ _).1 g.2.2.1).1
    refine ⟨h', e2, r2, ((noRedRed_plug _ _).1 g.2.1).1, hbal, ?_, hb.1, g⟩
    simp only [Tree.Balanced, Tree.bh, reduceCtorEq, if_true, if_false, Nat.add_zero] at hbal hb ⊢ <;>
      omega

theorem fix_case_3e_witness :
    ∃ h', fixTreeStructure 1 farRedHeap (some 1) (some 2) = some h' ∧
      RepT h' (Tree.node (Tree.node Tree.nil 1 Color.BLACK 20 Tree.nil) 2 Color.BLACK 40
        (Tree.node Tree.nil 3 Color.BLACK 50 Tree.nil)) := by
  obtain ⟨h', e, r1, -⟩ :=
    (fix_case_3e farRedHeap Ctx.top 1 2 3 Color.BLACK 20 40 50 Tree.nil Tree.nil Tree.nil
      Tree.nil).1
      ⟨⟨rfl, trivial, ⟨rfl, trivial, ⟨rfl, trivial, trivial⟩⟩⟩, by simp [Tree.addrs]⟩
      ⟨rfl, trivial, trivial, by simp [Ctx.Bal, Tree.bh, Tree.Balanced],
        by simp [Ctx.NRR, Tree.NoRedRed], rfl⟩
  exact ⟨h', e, r1⟩

/-- A tree whose paths all have the black count `bh` has at least `2 ^ bh - 1` nodes. -/
theorem Tree.two_pow_bh_le : ∀ (t : Tree α), t.Balanced → 2 ^ t.bh ≤ t.size + 1
  | Tree.nil, _ => by simp [Tree.bh, Tree.size]
  | Tree.node l a c d r, hb => by
    obtain ⟨h1, h2, h3⟩ := hb
    have i1 := Tree.two_pow_bh_le l h2
    have i2 := Tree.two_pow_bh_le r h3
    rw [← h1] at i2
    simp only [Tree.bh, Tree.size]
    cases c with
    | RED => simp only [reduceCtorEq, if_false, Nat.add_zero]; omega
    | BLACK => simp only [if_true, pow_succ]; omega

/-- Without RED-RED pair, the height is at most twice the black count, plus one under a RED
root. -/
theorem Tree.height_le_bh : ∀ (t : Tree α), t.NoRedRed → t.Balanced →
    t.height ≤ 2 * t.bh + (if t.rootColor = Color.RED then 1 else 0)
  | Tree.nil, _, _ => by simp [Tree.height]
  | Tree.node l a c d r, hn, hb => by
    obtain ⟨n1, n2, n3⟩ := hn
    obtain ⟨b1, b2, b3⟩ := hb
    have i1 := Tree.height_le_bh l n2 b2
    have i2 := Tree.height_le_bh r n3 b3
    rw [← b1] at i2
    simp only [Tree.height, Tree.bh, Tree.rootColor_node]
    cases c with
    | RED =>
      obtain ⟨c1, c2⟩ := n1 rfl
      simp only [c1, c2, reduceCtorEq, if_false, if_true, Nat.add_zero] at i1 i2 ⊢
      omega
    | BLACK =>
      simp only [reduceCtorEq, if_false, if_true, Nat.add_zero]
      split_ifs at i1 i2 <;> omega

/-- The height bound of a red-black shape. -/
theorem Tree.height_bound (t : Tree α) (hc : t.rootColor = Color.BLACK) (hn : t.NoRedRed)
    (hb : t.Balanced) :
    2 ^ ((t.height + 1) / 2) ≤ t.size + 1 ∧ t.height ≤ 2 * Nat.log 2 (t.size + 1) := by
  have h1 := t.height_le_bh hn hb
  rw [hc] at h1
  simp only [reduceCtorEq, if_false, Nat.add_zero] at h1
  have h2 := t.two_pow_bh_le hb
  have h3 : (t.height + 1) / 2 ≤ t.bh := by omega
  have h4 : 2 ^ ((t.height + 1) / 2) ≤ t.size + 1 :=
    le_trans (Nat.pow_le_pow_right (by decide) h3) h2
  refine ⟨h4, ?_⟩
  have h5 : (t.height + 1) / 2 ≤ Nat.log 2 (t.size + 1) :=
    Nat.le_log_of_pow_le (by decide) h4
  omega

/-- Every sequence of insertions and deletions on a valid handle with a disposer returns and
leaves a valid handle. -/
theorem opRun_valid {cmp : α → α → Int} (hc : TotalCmp cmp) :
    ∀ (ops : List (Bool × α)) (st : State α), Valid cmp st → st.compFunc = some cmp →
      st.freeFunc = true →
      ∃ st', opRun st ops = some st' ∧ Valid cmp st' ∧ st'.compFunc = some cmp ∧
        st'.freeFunc = true
  | [], st, hv, hcmp, hfree => ⟨st, rfl, hv, hcmp, hfree⟩
  | (true, x) :: ops, st, hv, hcmp, hfree => by
    obtain ⟨T, hrep, hinv, hsize⟩ := hv
    by_cases hx : ∃ d ∈ T.inorder, cmp x d = 0
    · have e := insertToRBTree_dup hc st T hrep hinv.sorted hcmp x hx
      obtain ⟨st', e', v⟩ := opRun_valid hc ops st ⟨T, hrep, hinv, hsize⟩ hcmp hfree
      exact ⟨st', by simp only [opRun, e, Option.bind_eq_bind, Option.some_bind, e'], v⟩
    · obtain ⟨st1, T', l1, l2, e, r', i', -, -, -, -, s1, s2, s3, s4, -⟩ :=
        insertToRBTree_new hc st T hrep hinv hcmp x (fun d hd e => hx ⟨d, hd, e⟩)
      obtain ⟨st', e', v⟩ := opRun_valid hc ops st1 ⟨T', r', i', by omega⟩
        (by rw [s3, hcmp]) (by rw [s4, hfree])
      exact ⟨st', by simp only [opRun, e, Option.bind_eq_bind, Option.some_bind, e'], v⟩
  | (false, x) :: ops, st, hv, hcmp, hfree => by
    obtain ⟨T, hrep, hinv, hsize⟩ := hv
    by_cases hk : ∃ d ∈ T.inorder, cmp x d = 0
    · obtain ⟨st1, T', l1, l2, e0, e, r', i', -, -, -, s1, s2, s3, s4, -⟩ :=
        deleteFromRBTree_found hc st T hrep hinv hcmp hfree x hk
      obtain ⟨st', e', v⟩ := opRun_valid hc ops st1 ⟨T', r', i', by omega⟩
        (by rw [s3, hcmp]) (by rw [s4, hfree])
      exact ⟨st', by simp only [opRun, e, Option.bind_eq_bind, Option.some_bind, e'], v⟩
    · have e := deleteFromRBTree_absent hc st T hrep hinv.sorted hcmp x
        (fun d hd e => hk ⟨d, hd, e⟩)
      obtain ⟨st', e', v⟩ := opRun_valid hc ops st ⟨T, hrep, hinv, hsize⟩ hcmp hfree
      exact ⟨st', by simp only [opRun, e, Option.bind_eq_bind, Option.some_bind, e'], v⟩

theorem newRBTree_valid (cmp : α → α → Int) (freeFunc : Bool) :
    Valid cmp (newRBTree (some cmp) freeFunc) :=
  ⟨Tree.nil, ⟨⟨trivial, List.nodup_nil⟩, rfl⟩,
    ⟨rfl, trivial, trivial, List.Pairwise.nil⟩, rfl⟩

/-- C35: a shape with a BLACK root, without RED-RED pair and with equal black counts on all
paths (invariants 2 to 4) that has `n` nodes and height `h` (the largest number of nodes on
a path from the root to an absent child) satisfies `2 ^ ceil(h / 2) ≤ n + 1` and
`h ≤ 2 * log2 (n + 1)`.  In particular, every sequence of calls of `insertToRBTree` and
`deleteFromRBTree` on a new tree (total-order comparator, disposer present) returns and
leaves a handle whose tree has `size` nodes and satisfies these bounds. -/
theorem height_logarithmic {cmp : α → α → Int} (hc : TotalCmp cmp) :
    (∀ t : Tree α, t.rootColor = Color.BLACK → t.NoRedRed → t.Balanced →
      2 ^ ((t.height + 1) / 2) ≤ t.size + 1 ∧ t.height ≤ 2 * Nat.log 2 (t.size + 1)) ∧
    (∀ ops : List (Bool × α), ∃ (st : State α) (T : Tree α),
      opRun (newRBTree (some cmp) true) ops = some st ∧ Represents st T ∧
      st.size = T.size ∧ 2 ^ ((T.height + 1) / 2) ≤ st.size + 1 ∧
      T.height ≤ 2 * Nat.log 2 (st.size + 1)) := by
  refine ⟨fun t h1 h2 h3 => t.height_bound h1 h2 h3, fun ops => ?_⟩
  obtain ⟨st, e, ⟨T, hrep, hinv, hsize⟩, -, -⟩ :=
    opRun_valid hc ops (newRBTree (some cmp) true) (newRBTree_valid cmp true) rfl rfl
  have := T.height_bound hinv.rootBlack hinv.noRedRed hinv.balanced
  rw [← hsize] at this
  exact ⟨st, T, e, hrep, hsize, this⟩

theorem height_logarithmic_witness :
    (2 ^ ((shape102030.height + 1) / 2) ≤ shape102030.size + 1 ∧
      shape102030.height ≤ 2 * Nat.log 2 (shape102030.size + 1)) ∧
    ∃ (st : State Int) (T : Tree Int),
      opRun (newRBTree (some compInt) true) [(true, 10), (true, 20), (false, 10)] = some st ∧
      Represents st T ∧ st.size = T.size ∧ 2 ^ ((T.height + 1) / 2) ≤ st.size + 1 ∧
      T.height ≤ 2 * Nat.log 2 (st.size + 1) :=
  ⟨(height_logarithmic compInt_total).1 shape102030 shape102030_inv.rootBlack
      shape102030_inv.noRedRed shape102030_inv.balanced,
    (height_logarithmic compInt_total).2 [(true, 10), (true, 20), (false, 10)]⟩

theorem Ctx.depth_add_height_le : ∀ (ctx : Ctx α) (t : Tree α),
    ctx.depth + t.height ≤ (ctx.plug t).height
  | Ctx.top, t => by simp [Ctx.depth]
  | Ctx.left up a c d r, t => by
    have := Ctx.depth_add_height_le up (Tree.node t a c d r)
    simp only [Ctx.depth, Ctx.plug_left, Tree.height] at this ⊢
    omega
  | Ctx.right l a c d up, t => by
    have := Ctx.depth_add_height_le up (Tree.node l a c d t)
    simp only [Ctx.depth, Ctx.plug_right, Tree.height] at this ⊢
    omega

/-- C36: the recursive repairs end within a number of calls bounded by the height of the
tree.  Every call of `repairRBTree` and of `fixTreeStructure` uses up one unit of fuel and no
result is produced without fuel, so a result with fuel `k` is reached within `k` nested
calls.  With `ctx` the path from the root to the node the repair starts at (its length is
the number of levels above that node, and at most the height of the tree): in a tree valid
except at the inserted RED node, `repairRBTree` returns with fuel `depth / 2 + 1`; in a tree
valid except for a deficient subtree, `fixTreeStructure` returns with fuel `depth + 3`; both
leave a valid red-black shape with the same payloads and nodes. -/
theorem repair_calls_bounded (h : Heap α) (ctx : Ctx α) (t : Tree α)
    (hr : RepT h (ctx.plug t)) :
    ctx.depth + t.height ≤ (ctx.plug t).height ∧
    (InsHole ctx t →
      ∃ h' T', repairRBTree (ctx.depth / 2 + 1) h t.ptr = some h' ∧ RepT h' T' ∧
        Good T' (ctx.plug t)) ∧
    (DelHole ctx t →
      ∃ h' T', fixTreeStructure (ctx.depth + 3) h ctx.addr ctx.sibPtr = some h' ∧
        RepT h' T' ∧ Good T' (ctx.plug t)) := by
  refine ⟨Ctx.depth_add_height_le ctx t, fun hh => ?_, fun hh => ?_⟩
  · obtain ⟨T', e, g⟩ := repairT_valid (ctx.depth / 2 + 1) ctx t (by omega) hh
    obtain ⟨h', e', r'⟩ := repairRBTree_refines _ h ctx t T' hr e
    exact ⟨h', T', e', r', g⟩
  · obtain ⟨T', e, g⟩ := fixT_valid (ctx.depth + 3) ctx t hh (le_refl _)
    obtain ⟨h', e', r'⟩ := fixTreeStructure_refines _ h ctx t T' hr e
    exact ⟨h', T', e', r', g⟩

theorem repair_calls_bounded_witness :
    (∃ h' T', repairRBTree 2 chainHeap (some 2) = some h' ∧ RepT h' T' ∧
      Good T' (Tree.node Tree.nil 0 Color.BLACK 10
        (Tree.node Tree.nil 1 Color.RED 20 (Tree.node Tree.nil 2 Color.RED 30 Tree.nil)))) ∧
    (∃ h' T', fixTreeStructure 4 blackSiblingHeap (some 1) (some 2) = some h' ∧ RepT h' T' ∧
      Good T' (Tree.node Tree.nil 1 Color.BLACK 20
        (Tree.node Tree.nil 2 Color.BLACK 30 Tree.nil))) :=
  ⟨(repair_calls_bounded chainHeap
      (Ctx.right Tree.nil 1 Color.RED 20 (Ctx.right Tree.nil 0 Color.BLACK 10 Ctx.top))
      (Tree.node Tree.nil 2 Color.RED 30 Tree.nil)
      ⟨⟨rfl, trivial, ⟨rfl, trivial, ⟨rfl, trivial, trivial⟩⟩⟩, by simp [Tree.addrs]⟩).2.1
      ⟨rfl, by simp [Tree.NoRedRed], by simp [Tree.Balanced],
        by simp [Ctx.Bal, Tree.bh, Tree.Balanced], by simp [Ctx.NRR, Tree.NoRedRed], rfl⟩,
    (repair_calls_bounded blackSiblingHeap
      (Ctx.left Ctx.top 1 Color.BLACK 20 (Tree.node Tree.nil 2 Color.BLACK 30 Tree.nil))
      Tree.nil
      ⟨⟨rfl, trivial, ⟨rfl, trivial, trivial⟩⟩, by simp [Tree.addrs]⟩).2.2
      ⟨rfl, trivial, trivial, by simp [Ctx.Bal, Tree.bh, Tree.Balanced],
        by simp [Ctx.NRR, Tree.NoRedRed], rfl⟩⟩

theorem InsHole.grandparent {ctx : Ctx α} {t : Tree α} (hh : InsHole ctx t)
    (hc : ctx.color = Color.RED) : ∃ p g : Nat, ctx.addr = some p ∧
      ((∃ up gc gd u pd ps, ctx = Ctx.left (Ctx.left up g gc gd u) p Color.RED pd ps) ∨
       (∃ up gc gd u pd ps, ctx = Ctx.right ps p Color.RED pd (Ctx.left up g gc gd u)) ∨
       (∃ up gc gd u pd ps, ctx = Ctx.left (Ctx.right u g gc gd up) p Color.RED pd ps) ∨
       (∃ up gc gd u pd ps, ctx = Ctx.right ps p Color.RED pd (Ctx.right u g gc gd up))) := by
  have hroot := hh.croot
  cases ctx with
  | top => simp at hc
  | left up p pc pd ps =>
    simp only [Ctx.color_left] at hc
    subst hc
    cases up with
    | top => simp [Ctx.rootColor] at hroot
    | left up2 g gc gd u => exact ⟨p, g, rfl, Or.inl ⟨up2, gc, gd, u, pd, ps, rfl⟩⟩
    | right u g gc gd up2 =>
      exact ⟨p, g, rfl, Or.inr (Or.inr (Or.inl ⟨up2, gc, gd, u, pd, ps, rfl⟩))⟩
  | right ps p pc pd up =>
    simp only [Ctx.color_right] at hc
    subst hc
    cases up with
    | top => simp [Ctx.rootColor] at hroot
    | left up2 g gc gd u => exact ⟨p, g, rfl, Or.inr (Or.inl ⟨up2, gc, gd, u, pd, ps, rfl⟩)⟩
    | right u g gc gd up2 =>
      exact ⟨p, g, rfl, Or.inr (Or.inr (Or.inr ⟨up2, gc, gd, u, pd, ps, rfl⟩))⟩

theorem Ctx.ptrTo_ne_none {ctx : Ctx α} (hne : ctx.addr ≠ none) : ctx.ptrTo ≠ none := by
  cases ctx with
  | top => simp at hne
  | left _ _ _ _ _ => simp [Ctx.ptrTo]
  | right _ _ _ _ _ => simp [Ctx.ptrTo]

theorem successor_present {h : Heap α} {ctx : Ctx α} {l rl rr : Tree α} {m ra : Nat}
    {c rc : Color} {d rd : α}
    (hr : RepT h (ctx.plug (Tree.node l m c d (Tree.node rl ra rc rd rr)))) :
    ∃ s, successor (fuelOf h) h (some m) = some (some s) := by
  obtain ⟨s, sc, sd, sr, q1, q2, q3⟩ := minCtx_snd rl ra rc rd rr
  have hread := hr.read_focus
  have hz := repT_plug.1 hr
  have hRr : Rep h (Tree.node rl ra rc rd rr) (some m) := hz.2.1.2.2
  have hpl := size_plug ctx (Tree.node l m c d (Tree.node rl ra rc rd rr))
  have hht := (Tree.node rl ra rc rd rr).height_le_size
  have hsz := hr.size_le
  have := successorLoop_min rl ra rc rd rr (some m) (fuelOf h) Ctx.top hRr
    (by simp only [Tree.size] at hpl hht ⊢; unfold fuelOf; omega)
  rw [q1] at this
  refine ⟨s, ?_⟩
  simp only [successor, hread, Option.bind_eq_bind, Option.some_bind, Tree.ptr_node]
  exact this

/-- C37: on a valid tree with a comparator, `insertToRBTree` returns a result for every
payload, and `deleteFromRBTree` returns a result for every key when the handle has a
disposer; in the embedding every read of a field of an absent or freed node makes the call
return no result.  In particular: (1) where `repairRBTree` finds a RED parent `p` of the
inserted node, `p` has a parent `g` and both cells are allocated; (2) in a tree with a BLACK
root, the slot through which the parent points to a RED node exists; (3) `successor` on a
node with a right child returns a node; (4) when the sibling's children are neither both
BLACK or absent (case 3b) nor near child RED with far child BLACK or absent (case 3d), the
far child is present, so that case 3e reads the colour of an allocated node. -/
theorem no_absent_node_read {cmp : α → α → Int} (hc : TotalCmp cmp) (st : State α)
    (hv : Valid cmp st) (hcmp : st.compFunc = some cmp) :
    (∀ x : α, ∃ r st', insertToRBTree st (some x) = some (r, st')) ∧
    (st.freeFunc = true → ∀ k : α, ∃ r st', deleteFromRBTree st k = some (r, st')) ∧
    (∀ (h : Heap α) (ctx : Ctx α) (t : Tree α), RepT h (ctx.plug t) → InsHole ctx t →
      ctx.color = Color.RED →
      ∃ (p g : Nat) (pn gn : Node α), ctx.addr = some p ∧ h.read p = some pn ∧
        pn.parent = some g ∧ h.read g = some gn) ∧
    (∀ (h : Heap α) (ctx : Ctx α) (l r : Tree α) (m : Nat) (d : α),
      RepT h (ctx.plug (Tree.node l m Color.RED d r)) →
      (ctx.plug (Tree.node l m Color.RED d r)).rootColor = Color.BLACK →
      ∃ loc, findPtrToChild h (some m) = some (some loc)) ∧
    (∀ (h : Heap α) (ctx : Ctx α) (l r : Tree α) (m : Nat) (c : Color) (d : α),
      RepT h (ctx.plug (Tree.node l m c d r)) → r.ptr ≠ none →
      ∃ s, successor (fuelOf h) h (some m) = some (some s)) ∧
    (∀ near far : Tree α,
      ¬ (near.rootColor = Color.BLACK ∧ far.rootColor = Color.BLACK) →
      ¬ (near.rootColor = Color.RED ∧ far.rootColor = Color.BLACK) → far.ptr ≠ none) := by
  obtain ⟨T, hrep, hinv, hsize⟩ := hv
  refine ⟨fun x => ?_, fun hfree k => ?_, ?_, ?_, ?_, ?_⟩
  · by_cases hx : ∃ d ∈ T.inorder, cmp x d = 0
    · exact ⟨FAILURE, st, insertToRBTree_dup hc st T hrep hinv.sorted hcmp x hx⟩
    · obtain ⟨st', T', l1, l2, e, -⟩ :=
        insertToRBTree_new hc st T hrep hinv hcmp x (fun d hd e => hx ⟨d, hd, e⟩)
      exact ⟨SUCCESS, st', e⟩
  · by_cases hk : ∃ d ∈ T.inorder, cmp k d = 0
    · obtain ⟨st', T', l1, l2, e, e1, -⟩ :=
        deleteFromRBTree_found hc st T hrep hinv hcmp hfree k hk
      exact ⟨SUCCESS, st', e1⟩
    · exact ⟨FAILURE, st,
        deleteFromRBTree_absent hc st T hrep hinv.sorted hcmp k (fun d hd e => hk ⟨d, hd, e⟩)⟩
  · intro h ctx t hr hh hcol
    obtain ⟨p, g, -, hs⟩ := hh.grandparent hcol
    rcases hs with ⟨up, gc, gd, u, pd, ps, rfl⟩ | ⟨up, gc, gd, u, pd, ps, rfl⟩ |
      ⟨up, gc, gd, u, pd, ps, rfl⟩ | ⟨up, gc, gd, u, pd, ps, rfl⟩
    · exact ⟨p, g, _, _, rfl, RepT.read_focus (K := Ctx.left up g gc gd u) hr, rfl,
        RepT.read_focus (K := up) hr⟩
    · exact ⟨p, g, _, _, rfl, RepT.read_focus (K := Ctx.left up g gc gd u) hr, rfl,
        RepT.read_focus (K := up) hr⟩
    · exact ⟨p, g, _, _, rfl, RepT.read_focus (K := Ctx.right u g gc gd up) hr, rfl,
        RepT.read_focus (K := up) hr⟩
    · exact ⟨p, g, _, _, rfl, RepT.read_focus (K := Ctx.right u g gc gd up) hr, rfl,
        RepT.read_focus (K := up) hr⟩
  · intro h ctx l r m d hr hroot
    have hne := Ctx.addr_ne_none_of_root hroot rfl
    obtain ⟨loc, hl⟩ := Option.ne_none_iff_exists'.1 (Ctx.ptrTo_ne_none hne)
    exact ⟨loc, by rw [hr.findPtrToChild_focus, hl]⟩
  · intro h ctx l r m c d hr hne
    cases r with
    | nil => simp at hne
    | node rl ra rc rd rr => exact successor_present hr
  · intro near far h1 h2 hf
    rw [Tree.ptr_eq_none.1 hf] at h1 h2
    simp only [Tree.rootColor_nil, and_true] at h1 h2
    cases hx : near.rootColor with
    | RED => exact h2 hx
    | BLACK => exact h1 hx

theorem no_absent_node_read_witness :
    (∀ x : Int, ∃ r st', insertToRBTree sampleState (some x) = some (r, st')) ∧
    (∀ k : Int, ∃ r st', deleteFromRBTree sampleState k = some (r, st')) :=
  ⟨(no_absent_node_read compInt_total sampleState
      ⟨sampleTree, sampleState_represents, sampleTree_inv, rfl⟩ rfl).1,
    (no_absent_node_read compInt_total sampleState
      ⟨sampleTree, sampleState_represents, sampleTree_inv, rfl⟩ rfl).2.1 rfl⟩

end RB
end

section
variable {α : Type} {StaticCapacity : Nat}
namespace VLV

/-- C22 fails on the code: with static capacity 2, after `push_back` of 1, 2, 3 and the
write `v[0] = 9`, the vector reads 9, 2, 3.  `pop_back` returns with size 2, but the element
read at index 0 is then 1, not 9: the move back to static storage copies from the static
array into the dynamic one and not the other way round. -/
theorem pop_back_loses_write :
    runOps (VLVector.default : VLVector Int 2)
      [Op.push_back 1, Op.push_back 2, Op.push_back 3, Op.write 0 9] = some written923 ∧
    written923.get 0 = some 9 ∧ written923.get 1 = some 2 ∧ written923._size = 3 ∧
    ∃ v', written923.pop_back = some v' ∧ v'._size = 2 ∧ v'.elemsOnHeap = false ∧
      v'.get 0 = some 1 ∧ v'.get 0 ≠ written923.get 0 :=
  ⟨rfl, rfl, rfl, rfl, _, rfl, rfl, rfl, rfl, by decide⟩

/-- C39 fails on the code: with static capacity 2, the copy of the vector 1, 2, 3 (capacity
4) has capacity 4 but its elements live in an array of 3 cells, and the following
`push_back`, made with size 3 below capacity 4, writes outside that array; the same holds
after `insert` of three values into an empty vector. -/
theorem copy_capacity_exceeds_storage :
    (VLVector.default : VLVector Int 2).pushAll [1, 2, 3] = some pushed123 ∧
    pushed123.copy = some copied123 ∧
    copied123._size = 3 ∧ copied123._capacity = 4 ∧
    copied123.elems = some [some 1, some 2, some 3] ∧
    copied123.push_back 4 = none ∧
    (VLVector.default : VLVector Int 2).insert 0 [1, 2, 3] = some copied123 ∧
    (VLVector.default : VLVector Int 2).assign pushed123 = some copied123 :=
  ⟨rfl, rfl, rfl, rfl, rfl, rfl, rfl, rfl⟩

theorem newCapacity_eq {n : Nat} (h : n + 1 < 2 ^ 52) : _newCapacity n = 3 * (n + 1) / 2 := by
  have e52 : (2 : Nat) ^ 52 = 4503599627370496 := by norm_num
  have e53 : (2 : Nat) ^ 53 = 9007199254740992 := by norm_num
  have e64 : (2 : Nat) ^ 64 = 18446744073709551616 := by norm_num
  rw [e52] at h
  unfold _newCapacity toDouble
  rw [e64, e53]
  have h1 : (n + 1) % 18446744073709551616 = n + 1 := Nat.mod_eq_of_lt (by omega)
  have h2 : 3 * (n + 1) % 18446744073709551616 = 3 * (n + 1) := Nat.mod_eq_of_lt (by omega)
  rw [h1, h2]
  have h3 : 3 * (n + 1) / 2 < 9007199254740992 := by omega
  rw [if_pos h3]
  exact Nat.mod_eq_of_lt (by omega)

theorem VLVector.elems_setElems (v : VLVector α StaticCapacity) (a : List (Option α)) :
    (v.setElems a).elems = some a := by
  unfold VLVector.setElems VLVector.elems
  cases h : v.elemsOnHeap <;> simp [h]

theorem VLVector.capacity_setElems (v : VLVector α StaticCapacity) (a : List (Option α)) :
    (v.setElems a)._capacity = v._capacity := by
  unfold VLVector.setElems
  cases h : v.elemsOnHeap <;> simp

theorem VLVector.get_of_elems {v : VLVector α StaticCapacity} {a : List (Option α)}
    (h : v.elems = some a) (i : Nat) : v.get i = (a.get? i).join := by
  unfold VLVector.get
  rw [h]

theorem VLVector.push_back_of_room {v : VLVector α StaticCapacity} {a : List (Option α)}
    (ha : v.elems = some a) (hne : v._size ≠ v._capacity) (hlt : v._size < a.length)
    (x : α) :
    v.push_back x = some { v.setElems (a.set v._size (some x)) with
      _size := (v._size + 1) % 2 ^ 64 } := by
  simp only [VLVector.push_back, hne, if_false, Option.pure_def, Option.bind_eq_bind,
    Option.some_bind, ha, hlt, if_true]

theorem VLVector.push_back_of_full {v : VLVector α StaticCapacity} {a : List (Option α)}
    (ha : v.elems = some a) (hfull : v._size = v._capacity) (hlen : a.length = v._capacity)
    (hcap : v._size < _newCapacity v._size) (x : α) :
    ∃ v', v.push_back x = some v' ∧
      v'.elems = some ((a.take v._size ++
        (List.replicate (_newCapacity v._size) none).drop v._size).set v._size (some x)) ∧
      v'._capacity = _newCapacity v._size ∧ v'._size = (v._size + 1) % 2 ^ 64 := by
  have hm : VLVector.memcpy (List.replicate (_newCapacity v._size) none) a v._size =
      some (a.take v._size ++ (List.replicate (_newCapacity v._size) none).drop v._size) := by
    unfold VLVector.memcpy
    rw [if_pos]
    simp only [List.length_replicate]
    omega
  have hl : v._size < (a.take v._size ++
      (List.replicate (_newCapacity v._size) none).drop v._size).length := by
    simp only [List.length_append, List.length_take, List.length_drop, List.length_replicate]
    omega
  refine ⟨VLVector.mk v._stackArr
    (some ((a.take v._size ++
      (List.replicate (_newCapacity v._size) none).drop v._size).set v._size (some x)))
    true (_newCapacity v._size) ((v._size + 1) % 2 ^ 64), ?_, ?_, ?_, ?_⟩
  · unfold VLVector.push_back
    rw [if_pos hfull]
    simp only [Option.pure_def, Option.bind_eq_bind, Option.some_bind, ha, hm]
    simp only [VLVector.elems, VLVector.setElems, if_true, Option.some_bind, hl]
  · rfl
  · rfl
  · rfl

/-- One call of `push_back` on a vector that satisfies the storage invariant. -/
theorem VLVector.push_back_spec (v : VLVector α StaticCapacity) (x : α) (hw : Wf v)
    (hs : v._size + 1 < 2 ^ 52) :
    ∃ v', v.push_back x = some v' ∧ Wf v' ∧ v'._size = v._size + 1 ∧
      v'.get v._size = some x ∧ (∀ i, i < v._size → v'.get i = v.get i) ∧
      v'._capacity = (if v._size = v._capacity then 3 * (v._size + 1) / 2 else v._capacity) := by
  obtain ⟨hle, a, ha, hlen⟩ := hw
  have hmod : (v._size + 1) % 2 ^ 64 = v._size + 1 :=
    Nat.mod_eq_of_lt (lt_trans hs (by norm_num))
  by_cases hfull : v._size = v._capacity
  · have hc := newCapacity_eq hs
    have hcap : v._size < _newCapacity v._size := by rw [hc]; omega
    obtain ⟨v', e, he, hc', hs'⟩ := VLVector.push_back_of_full ha hfull hlen hcap x
    rw [hmod] at hs'
    have hl : (a.take v._size ++
        (List.replicate (_newCapacity v._size) none).drop v._size).length =
        _newCapacity v._size := by
      simp only [List.length_append, List.length_take, List.length_drop,
        List.length_replicate]
      omega
    refine ⟨v', e, ⟨?_, _, he, ?_⟩, hs', ?_, ?_, ?_⟩
    · rw [hs', hc']
      omega
    · rw [hc', List.length_set, hl]
    · rw [VLVector.get_of_elems he]
      rw [List.get?_eq_getElem?, List.getElem?_set_self (by rw [hl]; exact hcap)]
      rfl
    · intro i hi
      rw [VLVector.get_of_elems he, VLVector.get_of_elems ha]
      rw [List.get?_eq_getElem?, List.get?_eq_getElem?,
        List.getElem?_set_ne (by omega),
        List.getElem?_append_left (by simp only [List.length_take]; omega),
        List.getElem?_take_of_lt hi]
    · rw [hc', if_pos hfull, hc]
  · have hlt : v._size < a.length := by omega
    have e := VLVector.push_back_of_room ha hfull hlt x
    rw [hmod] at e
    have he := VLVector.elems_setElems v (a.set v._size (some x))
    have he2 : ({ v.setElems (a.set v._size (some x)) with _size := v._size + 1 } :
        VLVector α StaticCapacity).elems = some (a.set v._size (some x)) := he
    have hc2 : ({ v.setElems (a.set v._size (some x)) with _size := v._size + 1 } :
        VLVector α StaticCapacity)._capacity = v._capacity :=
      VLVector.capacity_setElems v _
    refine ⟨_, e, ⟨?_, _, he2, ?_⟩, rfl, ?_, ?_, ?_⟩
    · rw [hc2]; show v._size + 1 ≤ v._capacity; omega
    · rw [hc2, List.length_set, hlen]
    · rw [VLVector.get_of_elems he2, List.get?_eq_getElem?, List.getElem?_set_self hlt]
      rfl
    · intro i hi
      rw [VLVector.get_of_elems he2, VLVector.get_of_elems ha, List.get?_eq_getElem?,
        List.get?_eq_getElem?, List.getElem?_set_ne (by omega)]
    · rw [hc2, if_neg hfull]

theorem VLVector.default_wf : Wf (VLVector.default : VLVector α StaticCapacity) :=
  ⟨Nat.zero_le _, _, rfl, List.length_replicate _ _⟩

theorem VLVector.pushAll_spec : ∀ (xs ys : List α) (v : VLVector α StaticCapacity),
    Wf v → Holds v ys → (ys ++ xs).length + 1 < 2 ^ 52 →
    ∃ v', v.pushAll xs = some v' ∧ Wf v' ∧ Holds v' (ys ++ xs)
  | [], ys, v, hw, hh, _ => ⟨v, rfl, hw, by simpa using hh⟩
  | x :: xs, ys, v, hw, hh, hl => by
    have hl1 : v._size + 1 < 2 ^ 52 := by
      rw [hh.1]
      simp only [List.length_append, List.length_cons] at hl
      omega
    obtain ⟨v1, e1, w1, s1, g1, g2, -⟩ := VLVector.push_back_spec v x hw hl1
    have hh1 : Holds v1 (ys ++ [x]) := by
      refine ⟨by rw [s1, hh.1]; simp, fun i hi => ?_⟩
      simp only [List.length_append, List.length_singleton] at hi
      by_cases hi2 : i < ys.length
      · rw [g2 i (by rw [hh.1]; exact hi2), hh.2 i hi2, List.get?_eq_getElem?,
          List.get?_eq_getElem?, List.getElem?_append_left hi2]
      · have : i = ys.length := by omega
        subst this
        rw [← hh.1, g1, hh.1, List.get?_eq_getElem?]
        simp
    obtain ⟨v', e', w', h'⟩ := VLVector.pushAll_spec xs (ys ++ [x]) v1 w1 hh1
      (by simpa using hl)
    refine ⟨v', ?_, w', by simpa using h'⟩
    simp only [VLVector.pushAll, e1, Option.bind_eq_bind, Option.some_bind, e']

/-- C23: for every vector built by `push_back` calls from an empty vector (fewer than `2 ^ 52`
elements, allocation taken to succeed) and every value `x`, `push_back(x)` returns; the size
grows by 1, the element at the last index is `x`, every earlier element reads as before, and
the capacity becomes `floor(3 * (size + 1) / 2)`, computed from the size before the call,
when the vector was full (size equal to capacity), and is unchanged otherwise. -/
theorem push_back_appends (StaticCapacity : Nat) (xs : List α) (x : α)
    (hlen : xs.length + 1 < 2 ^ 52) :
    ∃ v v' : VLVector α StaticCapacity,
      VLVector.default.pushAll xs = some v ∧ v.push_back x = some v' ∧
      v._size = xs.length ∧ (∀ i, i < xs.length → v.get i = xs.get? i) ∧
      v._size ≤ v._capacity ∧
      v'._size = v._size + 1 ∧ v'.get v._size = some x ∧
      (∀ i, i < v._size → v'.get i = v.get i) ∧
      v'._capacity = (if v._size = v._capacity then 3 * (v._size + 1) / 2 else v._capacity) := by
  obtain ⟨v, e, hw, hh⟩ := VLVector.pushAll_spec xs [] (VLVector.default : VLVector α StaticCapacity)
    VLVector.default_wf ⟨rfl, fun i hi => by simp at hi⟩ (by simpa using hlen)
  simp only [List.nil_append] at hh
  obtain ⟨v', e', -, s', g1, g2, c'⟩ := VLVector.push_back_spec v x hw (by rw [hh.1]; exact hlen)
  exact ⟨v, v', e, e', hh.1, hh.2, hw.1, s', g1, g2, c'⟩

theorem push_back_appends_witness :
    ∃ v v' : VLVector Int 2,
      VLVector.default.pushAll [1, 2] = some v ∧ v.push_back 3 = some v' ∧
      v._size = [(1 : Int), 2].length ∧ (∀ i, i < [(1 : Int), 2].length → v.get i = [1, 2].get? i) ∧
      v._size ≤ v._capacity ∧
      v'._size = v._size + 1 ∧ v'.get v._size = some 3 ∧
      (∀ i, i < v._size → v'.get i = v.get i) ∧
      v'._capacity = (if v._size = v._capacity then 3 * (v._size + 1) / 2 else v._capacity) :=
  push_back_appends 2 [1, 2] 3 (by decide)

end VLV
end

section
variable {α : Type}
namespace RB

end RB
end

